import Mathlib

/-!
# Additive multigrid cycle (`src/ksp/pc/impls/mg/smg.c`)

A shallow embedding of `PCMGACycle_Private`.  The routine is three loops over
the array of levels; every statement of it is a call of a collaborator
(`MatRestrict`, `VecSet`, `KSPSolve`, `KSPSolveTranspose`, `KSPCheckSolve`,
`MatInterpolateAdd`, `PetscLogEventBegin`, `PetscLogEventEnd`) followed by
`CHKERRQ`, which returns a nonzero error code to the caller at once.

None of the collaborators is defined in `src/`, so they are parameters of the
embedding: each is a function of the handles and of the contents of the vectors
it is passed, and returns the new content of the vector it writes together with
its error code.  The objects behind the handles (`Mat`, `KSP`, `PC`) are not
modelled.  The vectors `b`, `r`, `x` of the levels are distinct vectors, so the
content of each is a field of its own.

The memory carries a log of the collaborator calls made, so that statements
about the calls of the routine can be made about its result.
-/

namespace PCMG

/-- Error code of a PETSc routine: `0` is success, anything else a failure. -/
abbrev PetscErrorCode := Int

/-- Signed index type of PETSc. -/
abbrev PetscInt := Int

/-- Handle of a logging event; `0` means that no event is registered. -/
abbrev PetscLogEvent := Int

/-- One level of the hierarchy.  The declaration (`petsc/private/pcmgimpl.h`)
is not under `src/`; these are the fields `PCMGACycle_Private` reads,
together with the level operator `A` and the residual vector `r` of the data
model.  `Mat` and `KSP` are handles, `b`, `r`, `x` the contents of the
vectors the level owns. -/
structure PC_MG_Levels (Mat KSP Vec : Type) where
  levels : PetscInt
  eventsmoothsolve : PetscLogEvent
  eventinterprestrict : PetscLogEvent
  A : Mat
  smoothd : KSP
  smoothu : KSP
  b : Vec
  r : Vec
  x : Vec
  restrct : Mat
  interpolate : Mat

/-- The collaborators of the cycle, with the arguments of their call sites.
A vector argument that the callee writes is returned as its new content,
paired with the error code of the call. -/
structure Collaborators (Mat KSP Vec PC Scalar : Type) where
  PetscLogEventBegin : PetscLogEvent → PetscErrorCode
  PetscLogEventEnd : PetscLogEvent → PetscErrorCode
  MatRestrict : Mat → Vec → Vec → Vec × PetscErrorCode
  VecSet : Vec → Scalar → Vec × PetscErrorCode
  KSPSolve : KSP → Vec → Vec → Vec × PetscErrorCode
  KSPSolveTranspose : KSP → Vec → Vec → Vec × PetscErrorCode
  KSPCheckSolve : KSP → PC → Vec → Vec × PetscErrorCode
  MatInterpolateAdd : Mat → Vec → Vec → Vec → Vec × PetscErrorCode

/-- A collaborator call with the arguments it was given. -/
inductive Call (Mat KSP Vec PC Scalar : Type) where
  | PetscLogEventBegin (e : PetscLogEvent)
  | PetscLogEventEnd (e : PetscLogEvent)
  | MatRestrict (A : Mat) (x y : Vec)
  | VecSet (x : Vec) (a : Scalar)
  | KSPSolve (ksp : KSP) (b x : Vec)
  | KSPSolveTranspose (ksp : KSP) (b x : Vec)
  | KSPCheckSolve (ksp : KSP) (pc : PC) (x : Vec)
  | MatInterpolateAdd (A : Mat) (x y w : Vec)
  deriving DecidableEq

/-- An entry of the call log: the value of the loop variable `i` at the call,
the call, and the error code it returned. -/
structure Event (Mat KSP Vec PC Scalar : Type) where
  level : Nat
  call : Call Mat KSP Vec PC Scalar
  ierr : PetscErrorCode
  deriving DecidableEq

/-- The memory the cycle works on: the array `mglevels` (indexed from `0`,
the coarsest level) and the log of the collaborator calls made so far. -/
structure MGState (Mat KSP Vec PC Scalar : Type) where
  mglevels : Nat → PC_MG_Levels Mat KSP Vec
  trace : List (Event Mat KSP Vec PC Scalar)

section Model

variable {Mat KSP Vec PC Scalar : Type}

/-- A statement `ierr = f(...)`: the memory after it and the value of `ierr`. -/
abbrev Stmt (Mat KSP Vec PC Scalar : Type) :=
  MGState Mat KSP Vec PC Scalar → MGState Mat KSP Vec PC Scalar × PetscErrorCode

/-- Append a call to the log. -/
def MGState.log (s : MGState Mat KSP Vec PC Scalar) (i : Nat)
    (c : Call Mat KSP Vec PC Scalar) (ierr : PetscErrorCode) : MGState Mat KSP Vec PC Scalar :=
  { s with trace := s.trace ++ [⟨i, c, ierr⟩] }

/-- Store `v` into `mglevels[i]->b`. -/
def MGState.setb (s : MGState Mat KSP Vec PC Scalar) (i : Nat) (v : Vec) :
    MGState Mat KSP Vec PC Scalar :=
  { s with mglevels := Function.update s.mglevels i { s.mglevels i with b := v } }

/-- Store `v` into `mglevels[i]->x`. -/
def MGState.setx (s : MGState Mat KSP Vec PC Scalar) (i : Nat) (v : Vec) :
    MGState Mat KSP Vec PC Scalar :=
  { s with mglevels := Function.update s.mglevels i { s.mglevels i with x := v } }

/-- Statements in sequence, each followed by `CHKERRQ(ierr)`: the first nonzero
error code is returned at once, with the memory as it is then. -/
def runAll : List (Stmt Mat KSP Vec PC Scalar) → Stmt Mat KSP Vec PC Scalar
  | [], s => (s, 0)
  | m :: ms, s => if (m s).2 = 0 then runAll ms (m s).1 else m s

/-- A `for` loop whose variable takes the values of `is` in turn. -/
def forLoop (is : List Nat) (body : Nat → Stmt Mat KSP Vec PC Scalar) :
    Stmt Mat KSP Vec PC Scalar :=
  runAll (is.map body)

/-- The values of `i` in `for (i=n; i>0; i--)`. -/
def downFrom : Nat → List Nat
  | 0 => []
  | n + 1 => (n + 1) :: downFrom n

/-- The statement `if (event) {ierr = PetscLogEventBegin(event,0,0,0,0);CHKERRQ(ierr);}` -/
def doLogEventBegin (C : Collaborators Mat KSP Vec PC Scalar) (i : Nat)
    (event : PC_MG_Levels Mat KSP Vec → PetscLogEvent) : Stmt Mat KSP Vec PC Scalar :=
  fun s =>
    let e := event (s.mglevels i)
    if e = 0 then (s, 0)
    else (s.log i (.PetscLogEventBegin e) (C.PetscLogEventBegin e), C.PetscLogEventBegin e)

/-- The statement `if (event) {ierr = PetscLogEventEnd(event,0,0,0,0);CHKERRQ(ierr);}` -/
def doLogEventEnd (C : Collaborators Mat KSP Vec PC Scalar) (i : Nat)
    (event : PC_MG_Levels Mat KSP Vec → PetscLogEvent) : Stmt Mat KSP Vec PC Scalar :=
  fun s =>
    let e := event (s.mglevels i)
    if e = 0 then (s, 0)
    else (s.log i (.PetscLogEventEnd e) (C.PetscLogEventEnd e), C.PetscLogEventEnd e)

/-- The statement `ierr = MatRestrict(mglevels[i]->T,mglevels[i]->b,mglevels[i-1]->b)`, where
`T` is the field `restrct` or `interpolate`. -/
def doMatRestrict (C : Collaborators Mat KSP Vec PC Scalar) (i : Nat)
    (T : PC_MG_Levels Mat KSP Vec → Mat) : Stmt Mat KSP Vec PC Scalar :=
  fun s =>
    let A := T (s.mglevels i)
    let x := (s.mglevels i).b
    let y := (s.mglevels (i - 1)).b
    let r := C.MatRestrict A x y
    ((s.setb (i - 1) r.1).log i (.MatRestrict A x y) r.2, r.2)

/-- The statement `ierr = VecSet(mglevels[i]->x,0.0)` -/
def doVecSet [Zero Scalar] (C : Collaborators Mat KSP Vec PC Scalar) (i : Nat) :
    Stmt Mat KSP Vec PC Scalar :=
  fun s =>
    let x := (s.mglevels i).x
    let r := C.VecSet x 0
    ((s.setx i r.1).log i (.VecSet x 0) r.2, r.2)

/-- The statement `ierr = KSPSolve(mglevels[i]->smoothd,mglevels[i]->b,mglevels[i]->x)` -/
def doKSPSolve (C : Collaborators Mat KSP Vec PC Scalar) (i : Nat) :
    Stmt Mat KSP Vec PC Scalar :=
  fun s =>
    let ksp := (s.mglevels i).smoothd
    let b := (s.mglevels i).b
    let x := (s.mglevels i).x
    let r := C.KSPSolve ksp b x
    ((s.setx i r.1).log i (.KSPSolve ksp b x) r.2, r.2)

/-- The statement `ierr = KSPSolveTranspose(mglevels[i]->smoothu,mglevels[i]->b,mglevels[i]->x)` -/
def doKSPSolveTranspose (C : Collaborators Mat KSP Vec PC Scalar) (i : Nat) :
    Stmt Mat KSP Vec PC Scalar :=
  fun s =>
    let ksp := (s.mglevels i).smoothu
    let b := (s.mglevels i).b
    let x := (s.mglevels i).x
    let r := C.KSPSolveTranspose ksp b x
    ((s.setx i r.1).log i (.KSPSolveTranspose ksp b x) r.2, r.2)

/-- The statement `ierr = KSPCheckSolve(mglevels[i]->S,pc,mglevels[i]->x)`, where `S` is the
field `smoothd` or `smoothu`. -/
def doKSPCheckSolve (C : Collaborators Mat KSP Vec PC Scalar) (pc : PC) (i : Nat)
    (S : PC_MG_Levels Mat KSP Vec → KSP) : Stmt Mat KSP Vec PC Scalar :=
  fun s =>
    let ksp := S (s.mglevels i)
    let x := (s.mglevels i).x
    let r := C.KSPCheckSolve ksp pc x
    ((s.setx i r.1).log i (.KSPCheckSolve ksp pc x) r.2, r.2)

/-- The statement `ierr = MatInterpolateAdd(mglevels[i]->T,mglevels[i-1]->x,mglevels[i]->x,mglevels[i]->x)`,
where `T` is the field `interpolate` or `restrct`. -/
def doMatInterpolateAdd (C : Collaborators Mat KSP Vec PC Scalar) (i : Nat)
    (T : PC_MG_Levels Mat KSP Vec → Mat) : Stmt Mat KSP Vec PC Scalar :=
  fun s =>
    let A := T (s.mglevels i)
    let x := (s.mglevels (i - 1)).x
    let y := (s.mglevels i).x
    let r := C.MatInterpolateAdd A x y y
    ((s.setx i r.1).log i (.MatInterpolateAdd A x y y) r.2, r.2)

/-- Body of the first loop (lines 15-21): restrict `b` of level `i` to level `i-1`. -/
def restrictBody (C : Collaborators Mat KSP Vec PC Scalar) (transpose : Bool) (i : Nat) :
    Stmt Mat KSP Vec PC Scalar :=
  runAll
    [ doLogEventBegin C i (fun L => L.eventinterprestrict),
      if !transpose then doMatRestrict C i (fun L => L.restrct)
      else doMatRestrict C i (fun L => L.interpolate),
      doLogEventEnd C i (fun L => L.eventinterprestrict) ]

/-- Body of the second loop (lines 25-34): zero `x` of level `i` and solve. -/
def solveBody [Zero Scalar] (C : Collaborators Mat KSP Vec PC Scalar) (pc : PC)
    (transpose : Bool) (i : Nat) : Stmt Mat KSP Vec PC Scalar :=
  runAll
    [ doVecSet C i,
      doLogEventBegin C i (fun L => L.eventsmoothsolve),
      if !transpose then runAll [doKSPSolve C i, doKSPCheckSolve C pc i (fun L => L.smoothd)]
      else runAll [doKSPSolveTranspose C i, doKSPCheckSolve C pc i (fun L => L.smoothu)],
      doLogEventEnd C i (fun L => L.eventsmoothsolve) ]

/-- Body of the third loop (lines 37-43): add the interpolated `x` of level
`i-1` to `x` of level `i`. -/
def interpBody (C : Collaborators Mat KSP Vec PC Scalar) (transpose : Bool) (i : Nat) :
    Stmt Mat KSP Vec PC Scalar :=
  runAll
    [ doLogEventBegin C i (fun L => L.eventinterprestrict),
      if !transpose then doMatInterpolateAdd C i (fun L => L.interpolate)
      else doMatInterpolateAdd C i (fun L => L.restrct),
      doLogEventEnd C i (fun L => L.eventinterprestrict) ]

/-- The cycle with the second loop run over the levels in the order `order`;
the first and third loops are those of `PCMGACycle_Private`, for `l` levels. -/
def cycleWithOrder [Zero Scalar] (C : Collaborators Mat KSP Vec PC Scalar) (pc : PC)
    (transpose : Bool) (l : Nat) (order : List Nat) : Stmt Mat KSP Vec PC Scalar :=
  runAll
    [ forLoop (downFrom (l - 1)) (restrictBody C transpose),
      forLoop order (solveBody C pc transpose),
      forLoop (List.range' 1 (l - 1)) (interpBody C transpose) ]

/-- The routine `PCMGACycle_Private(pc,mglevels,transpose)`: the memory when it returns
(with the log of the calls it made) and the error code it returns.
`l = mglevels[0]->levels`; a count `l <= 0` runs no loop body, as `l = 0`. -/
def PCMGACycle_Private [Zero Scalar] (C : Collaborators Mat KSP Vec PC Scalar) (pc : PC)
    (mglevels : Nat → PC_MG_Levels Mat KSP Vec) (transpose : Bool) :
    MGState Mat KSP Vec PC Scalar × PetscErrorCode :=
  let l := (mglevels 0).levels.toNat
  cycleWithOrder C pc transpose l (List.range l) ⟨mglevels, []⟩


/-! ## The run without failures

The log of a run is the log of the run in which no call fails, cut after the
first call that does fail.  The definitions below describe that run. -/

/-- The calls of `evs` up to and including the first one that failed. -/
def upToFailure : List (Event Mat KSP Vec PC Scalar) → List (Event Mat KSP Vec PC Scalar)
  | [] => []
  | ev :: evs => if ev.ierr = 0 then ev :: upToFailure evs else [ev]

/-- The error code of the first failed call of `evs`, `0` when there is none. -/
def firstError : List (Event Mat KSP Vec PC Scalar) → PetscErrorCode
  | [] => 0
  | ev :: evs => if ev.ierr = 0 then firstError evs else ev.ierr

/-- The statement `m` makes the calls `ev mem` (as far as they succeed) and,
when all of them succeed, turns the levels `mem` into `nx mem`. -/
def Runs (m : Stmt Mat KSP Vec PC Scalar)
    (ev : (Nat → PC_MG_Levels Mat KSP Vec) → List (Event Mat KSP Vec PC Scalar))
    (nx : (Nat → PC_MG_Levels Mat KSP Vec) → (Nat → PC_MG_Levels Mat KSP Vec)) : Prop :=
  ∀ s, (m s).1.trace = s.trace ++ upToFailure (ev s.mglevels) ∧
    (m s).2 = firstError (ev s.mglevels) ∧
    (firstError (ev s.mglevels) = 0 → (m s).1.mglevels = nx s.mglevels)

/-- The calls of a loop over `is` whose body at `i` makes the calls `ev i` and
has the effect `nx i`. -/
def loopEvents (ev : Nat → (Nat → PC_MG_Levels Mat KSP Vec) → List (Event Mat KSP Vec PC Scalar))
    (nx : Nat → (Nat → PC_MG_Levels Mat KSP Vec) → (Nat → PC_MG_Levels Mat KSP Vec)) :
    List Nat → (Nat → PC_MG_Levels Mat KSP Vec) → List (Event Mat KSP Vec PC Scalar)
  | [], _ => []
  | i :: is, mem => ev i mem ++ loopEvents ev nx is (nx i mem)

/-- The effect of a loop over `is` whose body at `i` has the effect `nx i`. -/
def loopNext (nx : Nat → (Nat → PC_MG_Levels Mat KSP Vec) → (Nat → PC_MG_Levels Mat KSP Vec)) :
    List Nat → (Nat → PC_MG_Levels Mat KSP Vec) → (Nat → PC_MG_Levels Mat KSP Vec)
  | [], mem => mem
  | i :: is, mem => loopNext nx is (nx i mem)

/-- The matrix the first loop restricts with at a level. -/
def restrictMat (transpose : Bool) (L : PC_MG_Levels Mat KSP Vec) : Mat :=
  if !transpose then L.restrct else L.interpolate

/-- The matrix the third loop interpolates with at a level. -/
def interpMat (transpose : Bool) (L : PC_MG_Levels Mat KSP Vec) : Mat :=
  if !transpose then L.interpolate else L.restrct

/-- The solver the second loop uses at a level. -/
def smoother (transpose : Bool) (L : PC_MG_Levels Mat KSP Vec) : KSP :=
  if !transpose then L.smoothd else L.smoothu

/-- The solve routine the second loop calls. -/
def solveWith (C : Collaborators Mat KSP Vec PC Scalar) (transpose : Bool) :
    KSP → Vec → Vec → Vec × PetscErrorCode :=
  if !transpose then C.KSPSolve else C.KSPSolveTranspose

/-- The log entry of the solve call of the second loop. -/
def solveCall (transpose : Bool) (ksp : KSP) (b x : Vec) : Call Mat KSP Vec PC Scalar :=
  if !transpose then .KSPSolve ksp b x else .KSPSolveTranspose ksp b x

/-- The content of `x` of a level after `VecSet(x,0.0)`. -/
def zeroed [Zero Scalar] (C : Collaborators Mat KSP Vec PC Scalar)
    (L : PC_MG_Levels Mat KSP Vec) : Vec :=
  (C.VecSet L.x 0).1

/-- The content of `x` of a level after `VecSet` and the solve call. -/
def solved [Zero Scalar] (C : Collaborators Mat KSP Vec PC Scalar) (transpose : Bool)
    (L : PC_MG_Levels Mat KSP Vec) : Vec :=
  (solveWith C transpose (smoother transpose L) L.b (zeroed C L)).1

/-- The level solve: the content of `x` of a level after `VecSet`, the solve
call and `KSPCheckSolve`, that is, after one pass of the body of the second
loop in which no call fails. -/
def levelSolve [Zero Scalar] (C : Collaborators Mat KSP Vec PC Scalar) (pc : PC)
    (transpose : Bool) (L : PC_MG_Levels Mat KSP Vec) : Vec :=
  (C.KSPCheckSolve (smoother transpose L) pc (solved C transpose L)).1

/-- The log entry of `PetscLogEventBegin`, if the event is registered. -/
def logBeginEvents (C : Collaborators Mat KSP Vec PC Scalar) (i : Nat) (e : PetscLogEvent) :
    List (Event Mat KSP Vec PC Scalar) :=
  if e = 0 then [] else [⟨i, .PetscLogEventBegin e, C.PetscLogEventBegin e⟩]

/-- The log entry of `PetscLogEventEnd`, if the event is registered. -/
def logEndEvents (C : Collaborators Mat KSP Vec PC Scalar) (i : Nat) (e : PetscLogEvent) :
    List (Event Mat KSP Vec PC Scalar) :=
  if e = 0 then [] else [⟨i, .PetscLogEventEnd e, C.PetscLogEventEnd e⟩]

/-- The calls of the body of the first loop at `i`, when none fails. -/
def restrictEvents (C : Collaborators Mat KSP Vec PC Scalar) (transpose : Bool) (i : Nat)
    (mem : Nat → PC_MG_Levels Mat KSP Vec) : List (Event Mat KSP Vec PC Scalar) :=
  logBeginEvents C i (mem i).eventinterprestrict ++
    ⟨i, .MatRestrict (restrictMat transpose (mem i)) (mem i).b (mem (i - 1)).b,
      (C.MatRestrict (restrictMat transpose (mem i)) (mem i).b (mem (i - 1)).b).2⟩ ::
    logEndEvents C i (mem i).eventinterprestrict

/-- The effect of the body of the first loop at `i`, when no call fails. -/
def restrictNext (C : Collaborators Mat KSP Vec PC Scalar) (transpose : Bool) (i : Nat)
    (mem : Nat → PC_MG_Levels Mat KSP Vec) : Nat → PC_MG_Levels Mat KSP Vec :=
  Function.update mem (i - 1) { mem (i - 1) with
    b := (C.MatRestrict (restrictMat transpose (mem i)) (mem i).b (mem (i - 1)).b).1 }

/-- The calls of the body of the second loop at `i` on the level `L`, when
none fails. -/
def solveEvents [Zero Scalar] (C : Collaborators Mat KSP Vec PC Scalar) (pc : PC)
    (transpose : Bool) (i : Nat) (L : PC_MG_Levels Mat KSP Vec) :
    List (Event Mat KSP Vec PC Scalar) :=
  ⟨i, .VecSet L.x 0, (C.VecSet L.x 0).2⟩ ::
    (logBeginEvents C i L.eventsmoothsolve ++
      ⟨i, solveCall transpose (smoother transpose L) L.b (zeroed C L),
        (solveWith C transpose (smoother transpose L) L.b (zeroed C L)).2⟩ ::
      ⟨i, .KSPCheckSolve (smoother transpose L) pc (solved C transpose L),
        (C.KSPCheckSolve (smoother transpose L) pc (solved C transpose L)).2⟩ ::
      logEndEvents C i L.eventsmoothsolve)

/-- The effect of the body of the second loop at `i`, when no call fails. -/
def solveNext [Zero Scalar] (C : Collaborators Mat KSP Vec PC Scalar) (pc : PC)
    (transpose : Bool) (i : Nat) (mem : Nat → PC_MG_Levels Mat KSP Vec) :
    Nat → PC_MG_Levels Mat KSP Vec :=
  Function.update mem i { mem i with x := levelSolve C pc transpose (mem i) }

/-- The calls of the body of the third loop at `i`, when none fails. -/
def interpEvents (C : Collaborators Mat KSP Vec PC Scalar) (transpose : Bool) (i : Nat)
    (mem : Nat → PC_MG_Levels Mat KSP Vec) : List (Event Mat KSP Vec PC Scalar) :=
  logBeginEvents C i (mem i).eventinterprestrict ++
    ⟨i, .MatInterpolateAdd (interpMat transpose (mem i)) (mem (i - 1)).x (mem i).x (mem i).x,
      (C.MatInterpolateAdd (interpMat transpose (mem i)) (mem (i - 1)).x (mem i).x (mem i).x).2⟩ ::
    logEndEvents C i (mem i).eventinterprestrict

/-- The effect of the body of the third loop at `i`, when no call fails. -/
def interpNext (C : Collaborators Mat KSP Vec PC Scalar) (transpose : Bool) (i : Nat)
    (mem : Nat → PC_MG_Levels Mat KSP Vec) : Nat → PC_MG_Levels Mat KSP Vec :=
  Function.update mem i { mem i with
    x := (C.MatInterpolateAdd (interpMat transpose (mem i)) (mem (i - 1)).x (mem i).x (mem i).x).1 }

/-- The calls of the cycle with the second loop in the order `order`, when
none fails. -/
def cycleEvents [Zero Scalar] (C : Collaborators Mat KSP Vec PC Scalar) (pc : PC)
    (transpose : Bool) (l : Nat) (order : List Nat) (mem : Nat → PC_MG_Levels Mat KSP Vec) :
    List (Event Mat KSP Vec PC Scalar) :=
  let mem1 := loopNext (restrictNext C transpose) (downFrom (l - 1)) mem
  let mem2 := loopNext (solveNext C pc transpose) order mem1
  loopEvents (restrictEvents C transpose) (restrictNext C transpose) (downFrom (l - 1)) mem ++
    (loopEvents (fun i m => solveEvents C pc transpose i (m i)) (solveNext C pc transpose)
        order mem1 ++
      loopEvents (interpEvents C transpose) (interpNext C transpose) (List.range' 1 (l - 1)) mem2)

/-- The effect of the cycle with the second loop in the order `order`, when
no call fails. -/
def cycleNext [Zero Scalar] (C : Collaborators Mat KSP Vec PC Scalar) (pc : PC)
    (transpose : Bool) (l : Nat) (order : List Nat) (mem : Nat → PC_MG_Levels Mat KSP Vec) :
    Nat → PC_MG_Levels Mat KSP Vec :=
  loopNext (interpNext C transpose) (List.range' 1 (l - 1))
    (loopNext (solveNext C pc transpose) order
      (loopNext (restrictNext C transpose) (downFrom (l - 1)) mem))

/-! ## The vectors of the claims -/

/-- The chain `R (k+1) (R (k+2) (... (R (k+n) v)))`. -/
def restrictDown (R : Nat → Vec → Vec) (k : Nat) : Nat → Vec → Vec
  | 0, v => v
  | n + 1, v => R (k + 1) (restrictDown R (k + 1) n v)

/-- The chain `P (k+n) (... (P (k+2) (P (k+1) v)))`. -/
def interpUp (P : Nat → Vec → Vec) (k : Nat) : Nat → Vec → Vec
  | 0, v => v
  | n + 1, v => P (k + n + 1) (interpUp P k n v)

/-- The restriction `R_i` of the hierarchy `H`: what `MatRestrict` with the
restriction matrix of level `i` makes of `v`, written into `b` of level `i-1`. -/
def restriction (C : Collaborators Mat KSP Vec PC Scalar) (transpose : Bool)
    (H : Nat → PC_MG_Levels Mat KSP Vec) (i : Nat) (v : Vec) : Vec :=
  (C.MatRestrict (restrictMat transpose (H i)) v (H (i - 1)).b).1

/-- The right-hand side `b_k` of level `k` in a hierarchy of `l` levels:
`b` of the finest level for `k = l-1`, and `R_{k+1}(b_{k+1})` below it. -/
def levelRhs (C : Collaborators Mat KSP Vec PC Scalar) (transpose : Bool)
    (H : Nat → PC_MG_Levels Mat KSP Vec) (l k : Nat) : Vec :=
  if k < l then restrictDown (restriction C transpose H) k (l - 1 - k) (H (l - 1)).b
  else (H k).b

/-- The solve `S_i` of level `i`: the level solve on the right-hand side `v`. -/
def levelSolveOn [Zero Scalar] (C : Collaborators Mat KSP Vec PC Scalar) (pc : PC)
    (transpose : Bool) (H : Nat → PC_MG_Levels Mat KSP Vec) (i : Nat) (v : Vec) : Vec :=
  levelSolve C pc transpose { H i with b := v }

/-- What `MatInterpolateAdd` with the interpolation matrix of level `i` makes
of the coarse vector `x` and the fine vector `y` (passed as `y` and as `w`). -/
def interpolateAdd (C : Collaborators Mat KSP Vec PC Scalar) (transpose : Bool)
    (H : Nat → PC_MG_Levels Mat KSP Vec) (i : Nat) (x y : Vec) : Vec :=
  (C.MatInterpolateAdd (interpMat transpose (H i)) x y y).1

/-- The vector `y_i`: `y_0 = S_0(b_0)` and `y_i = S_i(b_i) + P_i(y_{i-1})`, the
sum being the one `MatInterpolateAdd` forms. -/
def levelX [Zero Scalar] (C : Collaborators Mat KSP Vec PC Scalar) (pc : PC)
    (transpose : Bool) (H : Nat → PC_MG_Levels Mat KSP Vec) (l : Nat) : Nat → Vec
  | 0 => levelSolveOn C pc transpose H 0 (levelRhs C transpose H l 0)
  | i + 1 => interpolateAdd C transpose H (i + 1) (levelX C pc transpose H l i)
      (levelSolveOn C pc transpose H (i + 1) (levelRhs C transpose H l (i + 1)))

/-! ## The call log -/

/-- Whether a call is a solve of a level (`KSPSolve` or `KSPSolveTranspose`). -/
def Call.isSolve : Call Mat KSP Vec PC Scalar → Bool
  | .KSPSolve _ _ _ => true
  | .KSPSolveTranspose _ _ _ => true
  | _ => false

/-- Whether a call is a transfer between levels (`MatRestrict` or
`MatInterpolateAdd`). -/
def Call.isTransfer : Call Mat KSP Vec PC Scalar → Bool
  | .MatRestrict _ _ _ => true
  | .MatInterpolateAdd _ _ _ _ => true
  | _ => false

/-- The error code the collaborators return for a call. -/
def Collaborators.returned (C : Collaborators Mat KSP Vec PC Scalar) :
    Call Mat KSP Vec PC Scalar → PetscErrorCode
  | .PetscLogEventBegin e => C.PetscLogEventBegin e
  | .PetscLogEventEnd e => C.PetscLogEventEnd e
  | .MatRestrict A x y => (C.MatRestrict A x y).2
  | .VecSet x a => (C.VecSet x a).2
  | .KSPSolve ksp b x => (C.KSPSolve ksp b x).2
  | .KSPSolveTranspose ksp b x => (C.KSPSolveTranspose ksp b x).2
  | .KSPCheckSolve ksp pc x => (C.KSPCheckSolve ksp pc x).2
  | .MatInterpolateAdd A x y w => (C.MatInterpolateAdd A x y w).2

/-- The number of solve calls of level `i` in a log. -/
def solverCalls (i : Nat) (evs : List (Event Mat KSP Vec PC Scalar)) : Nat :=
  (evs.filter (fun ev => decide (ev.level = i) && ev.call.isSolve)).length

/-! ## Concrete hierarchies -/

/-- Collaborators for levels of dimension one over the integers: a matrix
handle is its only entry, a solver handle `k` is the operator "times `k`".
The solve is exact whenever `k` divides the right-hand side, leaves a
converged iterate as it is, and fails with code `71` (zero pivot) for `k = 0`. -/
def scalarCollab : Collaborators Int Int Int Unit Int where
  PetscLogEventBegin _ := 0
  PetscLogEventEnd _ := 0
  MatRestrict A x _ := (A * x, 0)
  VecSet _ a := (a, 0)
  KSPSolve k b x := if k = 0 then (x, 71) else (if k * x = b then x else b / k, 0)
  KSPSolveTranspose k b x := if k = 0 then (x, 71) else (if k * x = b then x else b / k, 0)
  KSPCheckSolve _ _ x := (x, 0)
  MatInterpolateAdd A x y _ := (y + A * x, 0)

/-- A level of dimension one: operator and solver `k`, transfer matrices
`rst` and `itp`, vectors `b` and `x`, in a hierarchy of `l` levels. -/
def scalarLevel (l k rst itp b x : Int) : PC_MG_Levels Int Int Int :=
  { levels := l, eventsmoothsolve := 0, eventinterprestrict := 0, A := k, smoothd := k,
    smoothu := k, b := b, r := 0, x := x, restrct := rst, interpolate := itp }

/-- Two levels with identity operators and identity transfers; the residual
`b - A x` is zero on both (`b = x = 0` on level `0`, `b = x = 1` on level `1`). -/
def convergedPair : Nat → PC_MG_Levels Int Int Int
  | 0 => scalarLevel 2 1 1 1 0 0
  | _ => scalarLevel 2 1 1 1 1 1

/-- Three levels: operators `1`, `2`, `4`, restrictions `2`, interpolations `3`,
finest right-hand side `8` and finest initial guess `5`. -/
def threeLevels : Nat → PC_MG_Levels Int Int Int
  | 0 => scalarLevel 3 1 2 3 100 7
  | 1 => scalarLevel 3 2 2 3 200 6
  | _ => scalarLevel 3 4 2 3 8 5

/-- The three levels with a singular operator on level `1`. -/
def brokenLevels : Nat → PC_MG_Levels Int Int Int
  | 1 => scalarLevel 3 0 2 3 200 6
  | j => threeLevels j

/-- Collaborators for levels of dimension two over the rationals whose solver
handle is the operator of the level and whose solve divides the right-hand
side by the diagonal of that operator (exact for a diagonal operator). -/
def diagCollab : Collaborators (Matrix (Fin 2) (Fin 2) ℚ) (Matrix (Fin 2) (Fin 2) ℚ)
    (Fin 2 → ℚ) Unit ℚ where
  PetscLogEventBegin _ := 0
  PetscLogEventEnd _ := 0
  MatRestrict A x _ := (A.mulVec x, 0)
  VecSet _ a := (fun _ => a, 0)
  KSPSolve k b _ := (fun i => b i / k i i, 0)
  KSPSolveTranspose k b _ := (fun i => b i / k i i, 0)
  KSPCheckSolve _ _ x := (x, 0)
  MatInterpolateAdd A x y _ := (y + A.mulVec x, 0)

/-- The single level with operator `diag(4,4)` and right-hand side `(4,8)`. -/
def diagLevel : Nat → PC_MG_Levels (Matrix (Fin 2) (Fin 2) ℚ) (Matrix (Fin 2) (Fin 2) ℚ)
    (Fin 2 → ℚ) :=
  fun _ =>
    { levels := 1, eventsmoothsolve := 0, eventinterprestrict := 0,
      A := Matrix.diagonal ![4, 4], smoothd := Matrix.diagonal ![4, 4],
      smoothu := Matrix.diagonal ![4, 4], b := ![4, 8], r := 0, x := ![9, 9],
      restrct := 1, interpolate := 1 }

/-- The frame of a cycle over `l` levels: against the levels `H` before the
call, the levels `mem` differ at most in the `x` of the levels below `l` and
in the `b` of the levels below `l - 1`. -/
def Frame (l : Nat) (H mem : Nat → PC_MG_Levels Mat KSP Vec) : Prop :=
  ∀ j, { mem j with b := (H j).b, x := (H j).x } = H j ∧
    (l ≤ j + 1 → (mem j).b = (H j).b) ∧ (l ≤ j → (mem j).x = (H j).x)

/-- Two levels with identity operators and transfers, right-hand side `7` and
the initial guess `5` on the finest level. -/
def warmPair : Nat → PC_MG_Levels Int Int Int
  | 0 => scalarLevel 2 1 1 1 0 0
  | _ => scalarLevel 2 1 1 1 7 5

/-! ## Two runs side by side -/

/-- A step of the cycle: a collaborator call without its handles, the two
solve routines counting as the same step. -/
inductive Step (Vec Scalar : Type) where
  | logBegin (e : PetscLogEvent)
  | logEnd (e : PetscLogEvent)
  | restrict (x y : Vec)
  | set (x : Vec) (a : Scalar)
  | solve (b x : Vec)
  | check (x : Vec)
  | interpolateAdd (x y w : Vec)

/-- The step a call is. -/
def Call.step : Call Mat KSP Vec PC Scalar → Step Vec Scalar
  | .PetscLogEventBegin e => .logBegin e
  | .PetscLogEventEnd e => .logEnd e
  | .MatRestrict _ x y => .restrict x y
  | .VecSet x a => .set x a
  | .KSPSolve _ b x => .solve b x
  | .KSPSolveTranspose _ b x => .solve b x
  | .KSPCheckSolve _ _ x => .check x
  | .MatInterpolateAdd _ x y w => .interpolateAdd x y w

/-- The step of a log entry, with its level and its error code. -/
def Event.step (ev : Event Mat KSP Vec PC Scalar) : Nat × Step Vec Scalar × PetscErrorCode :=
  (ev.level, ev.call.step, ev.ierr)

/-- The levels `mem` hold the handles of the levels `H`: they differ from them
in `b` and `x` at most. -/
def SameHandles (H mem : Nat → PC_MG_Levels Mat KSP Vec) : Prop :=
  ∀ j, { mem j with b := (H j).b, x := (H j).x } = H j

/-- The cycle in mode `tr2` on the levels `H2` with the collaborators `C2`
corresponds to the cycle in mode `tr` on `H` with `C`: the logging events are
the same, and the calls the two cycles make at a level return the same for the
same vectors. -/
structure Corresponds {Mat2 KSP2 PC2 : Type}
    (C : Collaborators Mat KSP Vec PC Scalar) (C2 : Collaborators Mat2 KSP2 Vec PC2 Scalar)
    (pc : PC) (pc2 : PC2) (H : Nat → PC_MG_Levels Mat KSP Vec)
    (H2 : Nat → PC_MG_Levels Mat2 KSP2 Vec) (tr tr2 : Bool) : Prop where
  logBegin : C2.PetscLogEventBegin = C.PetscLogEventBegin
  logEnd : C2.PetscLogEventEnd = C.PetscLogEventEnd
  vecSet : C2.VecSet = C.VecSet
  events : ∀ j, (H2 j).eventsmoothsolve = (H j).eventsmoothsolve ∧
    (H2 j).eventinterprestrict = (H j).eventinterprestrict
  restrict : ∀ j v y, C2.MatRestrict (restrictMat tr2 (H2 j)) v y
    = C.MatRestrict (restrictMat tr (H j)) v y
  solve : ∀ j b x, solveWith C2 tr2 (smoother tr2 (H2 j)) b x
    = solveWith C tr (smoother tr (H j)) b x
  check : ∀ j x, C2.KSPCheckSolve (smoother tr2 (H2 j)) pc2 x
    = C.KSPCheckSolve (smoother tr (H j)) pc x
  interp : ∀ j x y w, C2.MatInterpolateAdd (interpMat tr2 (H2 j)) x y w
    = C.MatInterpolateAdd (interpMat tr (H j)) x y w

/-- Two memories in step: each holds the handles of its hierarchy, the vectors
`b` and `x` agree at every level, and the logs show the same steps. -/
def InStep {Mat2 KSP2 PC2 : Type} (H : Nat → PC_MG_Levels Mat KSP Vec)
    (H2 : Nat → PC_MG_Levels Mat2 KSP2 Vec) (s : MGState Mat KSP Vec PC Scalar)
    (s2 : MGState Mat2 KSP2 Vec PC2 Scalar) : Prop :=
  SameHandles H s.mglevels ∧ SameHandles H2 s2.mglevels ∧
    (∀ j, (s2.mglevels j).b = (s.mglevels j).b ∧ (s2.mglevels j).x = (s.mglevels j).x) ∧
    s2.trace.map Event.step = s.trace.map Event.step

/-- The statement `m2` does in one memory what `m` does in the other. -/
def SimStmt {Mat2 KSP2 PC2 : Type} (H : Nat → PC_MG_Levels Mat KSP Vec)
    (H2 : Nat → PC_MG_Levels Mat2 KSP2 Vec) (m : Stmt Mat KSP Vec PC Scalar)
    (m2 : Stmt Mat2 KSP2 Vec PC2 Scalar) : Prop :=
  ∀ s s2, InStep H H2 s s2 → InStep H H2 (m s).1 (m2 s2).1 ∧ (m2 s2).2 = (m s).2

/-- The level with `restrct` and `interpolate` exchanged and `smoothd` and
`smoothu` exchanged. -/
def exchangedLevel (L : PC_MG_Levels Mat KSP Vec) : PC_MG_Levels Mat KSP Vec :=
  { L with restrct := L.interpolate, interpolate := L.restrct,
           smoothd := L.smoothu, smoothu := L.smoothd }

/-- The hierarchy with every level exchanged. -/
def exchanged (H : Nat → PC_MG_Levels Mat KSP Vec) : Nat → PC_MG_Levels Mat KSP Vec :=
  fun j => exchangedLevel (H j)

/-- The collaborators whose `KSPSolve` is the transpose solve (and whose
`KSPSolveTranspose` is the plain solve). -/
def Collaborators.exchanged (C : Collaborators Mat KSP Vec PC Scalar) :
    Collaborators Mat KSP Vec PC Scalar :=
  { C with KSPSolve := C.KSPSolveTranspose, KSPSolveTranspose := C.KSPSolve }

/-! ## Matrices as transfer operators and solvers -/

/-- A matrix with `rows` rows and `cols` columns over `K`. -/
structure DenseMat (K : Type) where
  rows : Nat
  cols : Nat
  entry : Nat → Nat → K

/-- The transposed matrix. -/
def DenseMat.transpose {K : Type} (M : DenseMat K) : DenseMat K :=
  ⟨M.cols, M.rows, fun i j => M.entry j i⟩

/-- Matrix times vector; a vector is the sequence of its entries. -/
def DenseMat.mulVec {K : Type} [Field K] (M : DenseMat K) (v : Nat → K) : Nat → K :=
  fun i => if i < M.rows then ∑ j in Finset.range M.cols, M.entry i j * v j else 0

/-- Modelled from the spec: `MatRestrict` and `MatInterpolateAdd` are not under
`src/`.  Following `TransferOperator.apply(direction, vector)` and the
"adjoint counterparts" of the transpose mode, a transfer handle is a matrix
together with the direction it maps in as it is stored: from the coarse level
to the fine one (an interpolation matrix `P`) or from the fine level to the
coarse one (a restriction matrix `R`).  Used against its direction, the
handle applies the transposed matrix. -/
structure TransferMat (K : Type) where
  mat : DenseMat K
  coarseToFine : Bool

/-- The handle applied from the fine level to the coarse one. -/
def TransferMat.restrictVec {K : Type} [Field K] (T : TransferMat K) (v : Nat → K) : Nat → K :=
  if T.coarseToFine then T.mat.transpose.mulVec v else T.mat.mulVec v

/-- The handle applied from the coarse level to the fine one. -/
def TransferMat.interpolateVec {K : Type} [Field K] (T : TransferMat K) (v : Nat → K) :
    Nat → K :=
  if T.coarseToFine then T.mat.mulVec v else T.mat.transpose.mulVec v

/-- Modelled from the spec: the collaborators over a field `K`, none of which
is under `src/`.  A transfer is the application of the transfer matrix in
its direction, `MatInterpolateAdd` adds the interpolated vector, a level solver
is a linear map (the handle is its matrix `S`, the solve returns `S b`), the
transpose solve is the solve of the transposed operator (it returns `Sᵀ b`),
and no call fails. -/
def linearCollab (K : Type) [Field K] :
    Collaborators (TransferMat K) (DenseMat K) (Nat → K) Unit K where
  PetscLogEventBegin _ := 0
  PetscLogEventEnd _ := 0
  MatRestrict T v _ := (T.restrictVec v, 0)
  VecSet _ a := (fun _ => a, 0)
  KSPSolve S b _ := (S.mulVec b, 0)
  KSPSolveTranspose S b _ := (S.transpose.mulVec b, 0)
  KSPCheckSolve _ _ x := (x, 0)
  MatInterpolateAdd T x y _ := (y + T.interpolateVec x, 0)

/-- Modelled from the spec: the explicitly transposed level, for a level whose
`interpolate` holds a matrix `P` and whose `restrct` holds a matrix `R`.  The
operator and each of the two solvers are transposed (the down solver is the
transposed down solver, the up solver the transposed up solver), the
restriction is the matrix `Pᵀ`, a restriction matrix, and the interpolation is
the matrix `Rᵀ`, an interpolation matrix. -/
def transposedLevel {K : Type} (L : PC_MG_Levels (TransferMat K) (DenseMat K) (Nat → K)) :
    PC_MG_Levels (TransferMat K) (DenseMat K) (Nat → K) :=
  { L with A := ⟨L.A.mat.transpose, L.A.coarseToFine⟩,
           smoothd := L.smoothd.transpose, smoothu := L.smoothu.transpose,
           restrct := ⟨L.interpolate.mat.transpose, false⟩,
           interpolate := ⟨L.restrct.mat.transpose, true⟩ }

/-- The explicitly transposed hierarchy. -/
def transposedHierarchy {K : Type} (H : Nat → PC_MG_Levels (TransferMat K) (DenseMat K) (Nat → K)) :
    Nat → PC_MG_Levels (TransferMat K) (DenseMat K) (Nat → K) :=
  fun j => transposedLevel (H j)

/-- The explicitly transposed level with the transposed up solver as its down
solver: the transpose mode solves with `smoothu`. -/
def transposedUpLevel {K : Type} (L : PC_MG_Levels (TransferMat K) (DenseMat K) (Nat → K)) :
    PC_MG_Levels (TransferMat K) (DenseMat K) (Nat → K) :=
  { transposedLevel L with smoothd := L.smoothu.transpose }

/-- The explicitly transposed hierarchy with the transposed up solvers as down
solvers. -/
def transposedUpHierarchy {K : Type}
    (H : Nat → PC_MG_Levels (TransferMat K) (DenseMat K) (Nat → K)) :
    Nat → PC_MG_Levels (TransferMat K) (DenseMat K) (Nat → K) :=
  fun j => transposedUpLevel (H j)

/-- The vector with the given first entries and zeros after them. -/
def vecOf (entries : List ℚ) : Nat → ℚ :=
  fun i => entries.getD i 0

/-- The matrix with the given rows. -/
def matOf (rows cols : Nat) (entries : List (List ℚ)) : DenseMat ℚ :=
  ⟨rows, cols, fun i j => (entries.getD i []).getD j 0⟩

/-- Two levels of dimensions 1 and 2 over the rationals: the restriction matrix
`R = (3 4)`, the interpolation matrix `P = (1 2)ᵀ`, the one solver `(5)` on
level 0 and the one solver with rows `(1 2)`, `(0 1)` on level 1, and the finest
right-hand side `(1, 1)`. -/
def rectPair : Nat → PC_MG_Levels (TransferMat ℚ) (DenseMat ℚ) (Nat → ℚ)
  | 0 => { levels := 2, eventsmoothsolve := 0, eventinterprestrict := 0,
           A := ⟨matOf 1 1 [[1 / 5]], false⟩, smoothd := matOf 1 1 [[5]], smoothu := matOf 1 1 [[5]],
           b := vecOf [0], r := vecOf [0], x := vecOf [0],
           restrct := ⟨matOf 0 1 [], false⟩, interpolate := ⟨matOf 1 0 [], true⟩ }
  | _ => { levels := 2, eventsmoothsolve := 0, eventinterprestrict := 0,
           A := ⟨matOf 2 2 [[1, -2], [0, 1]], false⟩, smoothd := matOf 2 2 [[1, 2], [0, 1]],
           smoothu := matOf 2 2 [[1, 2], [0, 1]],
           b := vecOf [1, 1], r := vecOf [0, 0], x := vecOf [9, 9],
           restrct := ⟨matOf 1 2 [[3, 4]], false⟩, interpolate := ⟨matOf 2 1 [[1], [2]], true⟩ }

/-- A single level of dimension 1 over the rationals with the down solver `(1)`,
the up solver `(2)` and the right-hand side `(1)`. -/
def twoSolvers : Nat → PC_MG_Levels (TransferMat ℚ) (DenseMat ℚ) (Nat → ℚ) :=
  fun _ =>
    { levels := 1, eventsmoothsolve := 0, eventinterprestrict := 0,
      A := ⟨matOf 1 1 [[1]], false⟩, smoothd := matOf 1 1 [[1]], smoothu := matOf 1 1 [[2]],
      b := vecOf [1], r := vecOf [0], x := vecOf [0],
      restrct := ⟨matOf 0 1 [], false⟩, interpolate := ⟨matOf 1 0 [], true⟩ }

end Model

end PCMG

/-! # Shell matrices (src/mat/impls/shell/shell.c)

The matrix object is a record of the fields the routines touch. The operation
table `mat->ops` is an array of pointer-sized words; a pointer is an address
(`0` is the null pointer). `PetscValidHeaderSpecific` is taken to pass: the
objects of the model are valid matrices. -/

namespace MatShell

/-- A pointer value (`void *`, function pointers included): an address, 0 for null. -/
abbrev Ptr := Nat

/-- The enumeration `MatOperation`: the index of an operation in the table. -/
abbrev MatOperation := Nat

/-- Constants and layout facts of headers that are not under src/: the type tag
    `MATSHELL`, the operation names `MATOP_DESTROY` and `MATOP_VIEW`, the word
    offsets of the fields `destroy` and `view` inside `struct _MatOps`, the
    default table `MatOps_Values`, the address of `MatDestroy_Shell`, and the
    error code `CHKPTRQ` returns for a null pointer. -/
structure Consts where
  MATSHELL : Int
  MATOP_DESTROY : MatOperation
  MATOP_VIEW : MatOperation
  destroyWord : Nat
  viewWord : Nat
  MatOps_Values : Nat → Ptr
  MatDestroy_Shell : Ptr
  PETSC_TRUE : Int
  PETSC_ERR_MEM : Int

/-- The C struct `Mat_Shell`. -/
structure Mat_Shell where
  M : Int
  N : Int
  m : Int
  n : Int
  destroy : Ptr
  ctx : Ptr
deriving DecidableEq

/-- The matrix object `struct _p_Mat`, restricted to what shell.c uses.
    `ops` is the table that the pointer field `mat->ops` points to, so
    `ops i` is `((void**)mat->ops)[i]`. `header i` is the `i`-th word of the
    object itself counted from its field `ops`, so `header i` is
    `((void**)&mat->ops)[i]`; word 0 is the address of the table. `data` is the
    `Mat_Shell` that `mat->data` points to when the type is `MATSHELL`. -/
structure Mat where
  type : Int
  ops : Nat → Ptr
  header : Nat → Ptr
  data : Mat_Shell
  factor : Int
  assembled : Int
  M : Int
  N : Int
  m : Int
  n : Int

/-- `MatShellGetContext`: the output `*ctx` and the return value. -/
def MatShellGetContext (c : Consts) (mat : Mat) : Ptr × Int :=
  if mat.type ≠ c.MATSHELL then (0, 0)
  else (mat.data.ctx, 0)

/-- What the two allocations of `MatCreateShell` give: the object built by
    `PetscHeaderCreate` before its type is set (`none` when memory is
    exhausted), and whether `PetscNew(Mat_Shell)` returns a non-null pointer. -/
structure Heap where
  object : Option Mat
  shellNew : Bool

/-- The macro `PetscHeaderCreate(B,_p_Mat,struct _MatOps,MAT_COOKIE,MATSHELL,...)`
    (not under src/): the new object with its type tag set. -/
def PetscHeaderCreate (raw : Mat) (t : Int) : Mat :=
  { raw with type := t }

/-- `PetscMemzero(b,sizeof(Mat_Shell))`. -/
def zeroShell : Mat_Shell :=
  { M := 0, N := 0, m := 0, n := 0, destroy := 0, ctx := 0 }

/-- `MatCreateShell(comm,m,n,M,N,ctx,A)`: the output `*A` (when it is written)
    and the return value. -/
def MatCreateShell (c : Consts) (heap : Heap) (m n M N : Int) (ctx : Ptr) :
    Option Mat × Int :=
  match heap.object with
  | none => (none, c.PETSC_ERR_MEM)
  | some raw =>
    let B := PetscHeaderCreate raw c.MATSHELL
    let B := { B with factor := 0 }
    let B := { B with assembled := c.PETSC_TRUE }
    let B := { B with ops := c.MatOps_Values }
    let B := { B with ops := Function.update B.ops c.destroyWord c.MatDestroy_Shell }
    if heap.shellNew = false then (none, c.PETSC_ERR_MEM)
    else
      let b := zeroShell
      let B := { B with data := b }
      let B := { B with data := { B.data with M := M }, M := M }
      let B := { B with data := { B.data with N := N }, N := N }
      let B := { B with data := { B.data with m := m }, m := m }
      let B := { B with data := { B.data with n := n }, n := n }
      let B := { B with data := { B.data with ctx := ctx } }
      (some B, 0)

/-- `MatShellSetOperation(mat,op,f)`: the matrix after the call and the
    return value. -/
def MatShellSetOperation (c : Consts) (mat : Mat) (op : MatOperation) (f : Ptr) :
    Mat × Int :=
  if op = c.MATOP_DESTROY then
    if mat.type = c.MATSHELL then
      ({ mat with data := { mat.data with destroy := f } }, 0)
    else ({ mat with ops := Function.update mat.ops c.destroyWord f }, 0)
  else if op = c.MATOP_VIEW then
    ({ mat with ops := Function.update mat.ops c.viewWord f }, 0)
  else ({ mat with ops := Function.update mat.ops op f }, 0)

/-- `MatShellGetOperation(mat,op,f)`: the output `*f` and the return value.
    The last branch reads `((void**)&mat->ops)[op]`. -/
def MatShellGetOperation (c : Consts) (mat : Mat) (op : MatOperation) : Ptr × Int :=
  if op = c.MATOP_DESTROY then
    if mat.type = c.MATSHELL then (mat.data.destroy, 0)
    else (mat.ops c.destroyWord, 0)
  else if op = c.MATOP_VIEW then (mat.ops c.viewWord, 0)
  else (mat.header op, 0)

/-- A sequence of `MatShellSetOperation` calls, each given by its `op` and `f`. -/
def setOperations (c : Consts) (mat : Mat) (calls : List (MatOperation × Ptr)) : Mat :=
  calls.foldl (fun B call => (MatShellSetOperation c B call.1 call.2).1) mat

/-- Sample constants: `MATOP_MULT = 3`, the sentinels 250 and 251 for
    destroy and view, whose fields are words 60 and 61 of the table. -/
def sampleConsts : Consts :=
  { MATSHELL := 7, MATOP_DESTROY := 250, MATOP_VIEW := 251, destroyWord := 60,
    viewWord := 61, MatOps_Values := fun i => 1000 + i, MatDestroy_Shell := 2000,
    PETSC_TRUE := 1, PETSC_ERR_MEM := 55 }

/-- Freshly allocated object memory: the table lives at address 5000 and the
    words after the field `ops` hold 9001, 9002, ... -/
def sampleRaw : Mat :=
  { type := 0, ops := fun _ => 0, header := fun i => if i = 0 then 5000 else 9000 + i,
    data := zeroShell, factor := 0, assembled := 0, M := 0, N := 0, m := 0, n := 0 }

/-- A heap on which both allocations succeed. -/
def sampleHeap : Heap := { object := some sampleRaw, shellNew := true }

/-- The matrix `MatCreateShell(comm,2,2,4,4,ctx = 77,&A)` produces on `sampleHeap`. -/
def sampleShell : Mat :=
  ((MatCreateShell sampleConsts sampleHeap 2 2 4 4 77).1).getD sampleRaw

end MatShell

/-! # Index sets: `ISLocate` (tests in src/vec/is/is/tests/ex7.c)

`ISCreateGeneral`, `ISCreateStride`, `ISSort` and `ISLocate` are not under
src/; the test program ex7.c that calls them is. -/

namespace IS

/-- The integer type `PetscInt`. -/
abbrev PetscInt := Int

/-- Modelled from the spec: a general index set (the object built by
    `ISCreateGeneral`, whose implementation is missing) holds its current
    indices in order. -/
structure General where
  indices : List PetscInt
deriving DecidableEq

/-- Modelled from the spec: `ISCreateGeneral(comm,n,idx,PETSC_COPY_VALUES,&is)`
    (missing): the index set of the first `n` entries of `idx`. -/
def ISCreateGeneral (n : Nat) (idx : List PetscInt) : General :=
  { indices := idx.take n }

/-- Modelled from the spec: `ISSort(is)` (missing) puts the indices in
    ascending order. -/
def ISSort (is : General) : General :=
  { indices := is.indices.insertionSort (fun a b => a ≤ b) }

/-- Modelled from the spec: `ISLocate(is,key,&location)` on a general index
    set (missing): a location of `key` in the current indices when `key` occurs,
    a negative location when it does not. -/
def ISLocate_General (is : General) (key : PetscInt) : PetscInt :=
  if key ∈ is.indices then (is.indices.indexOf key : Int) else -1

/-- Modelled from the spec: a stride index set (the object built by
    `ISCreateStride(comm,n,first,step,&is)`, missing): `n` entries, the first
    value and the stride. -/
structure Stride where
  n : PetscInt
  first : PetscInt
  step : PetscInt
deriving DecidableEq

/-- Modelled from the spec: `ISCreateStride(comm,n,first,step,&is)` (missing). -/
def ISCreateStride (n first step : PetscInt) : Stride :=
  { n := n, first := first, step := step }

/-- Entry `i` of a stride index set: `first + i*step`. -/
def Stride.index (is : Stride) (i : PetscInt) : PetscInt :=
  is.first + i * is.step

/-- Modelled from the spec: `ISLocate(is,key,&location)` on a stride index set
    (missing): `(key - first) / step` when `step` divides `key - first` and the
    quotient lies in `[0, n)`, a negative location otherwise. -/
def ISLocate_Stride (is : Stride) (key : PetscInt) : PetscInt :=
  if is.step ∣ key - is.first ∧ 0 ≤ (key - is.first) / is.step
      ∧ (key - is.first) / is.step < is.n then
    (key - is.first) / is.step
  else -1

/-- The function `TestGeneral` of ex7.c: the error code it returns, with
    `PetscCheckFalse(cond,...,PETSC_ERR_PLIB,...)` returning that code when
    `cond` holds. -/
def TestGeneral (PETSC_ERR_PLIB : Int) : Int :=
  let idx : List PetscInt := [8, 6, 7, -5, 3, 0, 9]
  let n : Nat := 7
  let key : PetscInt := 3
  let nonkey : PetscInt := 1
  let keylocation : PetscInt := 4
  let sortedlocation : PetscInt := 2
  let is := ISCreateGeneral n idx
  let location := ISLocate_General is key
  if location ≠ keylocation then PETSC_ERR_PLIB else
  let location := ISLocate_General is nonkey
  if location ≥ 0 then PETSC_ERR_PLIB else
  let is := ISSort is
  let location := ISLocate_General is key
  if location ≠ sortedlocation then PETSC_ERR_PLIB else
  let location := ISLocate_General is nonkey
  if location ≥ 0 then PETSC_ERR_PLIB else
  0

/-- The function `TestStride` of ex7.c: the error code it returns. -/
def TestStride (PETSC_ERR_PLIB : Int) : Int :=
  let stride : PetscInt := 7
  let first : PetscInt := -3
  let n : PetscInt := 18
  let key : PetscInt := 39
  let keylocation : PetscInt := 6
  let nonkey : List PetscInt := [-2, 123]
  let is := ISCreateStride n first stride
  let location := ISLocate_Stride is key
  if location ≠ keylocation then PETSC_ERR_PLIB else
  if (nonkey.map (ISLocate_Stride is)).any (fun location => location ≥ 0) then PETSC_ERR_PLIB
  else 0

end IS

/-! # The multigrid core of the specification: hierarchy, cycle scheduler, monitor

These components are described by the specification only. -/

namespace LevelHierarchy

/-- The failure kinds of the specification's error taxonomy that the modelled
    operations raise. -/
inductive Failure where
  | DimensionMismatch
  | IndexOutOfRange
  | SmootherFailure
  | CoarseSolveFailure
deriving DecidableEq

/-- Modelled from the spec: a level (one resolution tier) with its index, its
    operator, transfer and smoother handles and its work vectors (the component
    has no source). -/
structure Level (Op Transfer Smoother Vec : Type) where
  index : Int
  operator : Op
  restrict_to_coarser : Transfer
  interpolate_from_coarser : Transfer
  smoother_down : Smoother
  smoother_up : Smoother
  x : Vec
  b : Vec
  r : Vec

/-- Modelled from the spec: the cycle types. -/
inductive CycleType where
  | V
  | W
  | F
  | ADDITIVE
  | MULTIPLICATIVE
deriving DecidableEq

/-- Modelled from the spec: the ordered sequence of levels, of length `L`,
    with the cycle type and smoothing counts (the component has no source). -/
structure Hierarchy (Op Transfer Smoother Vec : Type) where
  levels : List (Level Op Transfer Smoother Vec)
  cycle_type : CycleType
  pre_smooth_steps : Nat
  post_smooth_steps : Nat

/-- The number of levels `L`. -/
def Hierarchy.L {Op Transfer Smoother Vec : Type} (h : Hierarchy Op Transfer Smoother Vec) :
    Int :=
  h.levels.length

/-- Modelled from the spec: `getLevel(i)`, the bounds-checked accessor; it
    fails with `IndexOutOfRange` for `i` outside `[0, L)`. -/
def getLevel {Op Transfer Smoother Vec : Type} (h : Hierarchy Op Transfer Smoother Vec)
    (i : Int) : Except Failure (Level Op Transfer Smoother Vec) :=
  if 0 ≤ i ∧ i < h.L then
    match h.levels.get? i.toNat with
    | some level => Except.ok level
    | none => Except.error Failure.IndexOutOfRange
  else Except.error Failure.IndexOutOfRange

/-- The hierarchy with level `i` replaced (the work vectors of a level are
    updated in place). -/
def setLevel {Op Transfer Smoother Vec : Type} (h : Hierarchy Op Transfer Smoother Vec)
    (i : Nat) (level : Level Op Transfer Smoother Vec) : Hierarchy Op Transfer Smoother Vec :=
  { h with levels := h.levels.set i level }

end LevelHierarchy

namespace CycleScheduler

open LevelHierarchy

/-- Modelled from the spec: the collaborator contracts of its section 6
    (`apply`, `axpy`, `SmootherCapability.relax`, `CoarseSolveCapability.solve`,
    `TransferOperator.apply`) and the zeroing of a work vector; `none` is a
    returned failure. -/
structure Capabilities (Op Transfer Smoother Vec Scalar : Type) where
  apply : Op → Vec → Vec
  axpy : Scalar → Vec → Vec → Vec
  relax : Smoother → Op → Vec → Vec → Nat → Option Vec
  solve : Op → Vec → Option Vec
  transfer : Transfer → Vec → Vec
  zero : Vec → Vec

/-- The state of one cycle invocation: the hierarchy with its work vectors,
    the number of calls made into `CoarseSolveCapability.solve` so far, and the
    failure raised, if any. -/
structure Run (Op Transfer Smoother Vec : Type) where
  hierarchy : Hierarchy Op Transfer Smoother Vec
  coarse_solves : Nat
  failure : Option Failure

section Scheduler

variable {Op Transfer Smoother Vec Scalar : Type}

/-- Sequencing with failure propagation: nothing runs after a failure. -/
def Run.andThen (r : Run Op Transfer Smoother Vec)
    (f : Run Op Transfer Smoother Vec → Run Op Transfer Smoother Vec) :
    Run Op Transfer Smoother Vec :=
  match r.failure with
  | some _ => r
  | none => f r

/-- A step that works on the hierarchy alone. -/
def step (f : Hierarchy Op Transfer Smoother Vec →
      Except Failure (Hierarchy Op Transfer Smoother Vec))
    (r : Run Op Transfer Smoother Vec) : Run Op Transfer Smoother Vec :=
  match f r.hierarchy with
  | Except.ok h => { r with hierarchy := h }
  | Except.error e => { r with failure := some e }

/-- Modelled from the spec: step 2a, `smoother_down` run for `pre_steps`
    iterations on `(operator_l, b, x)`, updating `x`; a returned failure is a
    `SmootherFailure`. -/
def preSmooth (cap : Capabilities Op Transfer Smoother Vec Scalar) (l : Nat)
    (h : Hierarchy Op Transfer Smoother Vec) :
    Except Failure (Hierarchy Op Transfer Smoother Vec) :=
  match getLevel h l with
  | Except.error e => Except.error e
  | Except.ok level =>
    match cap.relax level.smoother_down level.operator level.b level.x h.pre_smooth_steps with
    | none => Except.error Failure.SmootherFailure
    | some x => Except.ok (setLevel h l { level with x := x })

/-- Modelled from the spec: step 2f, `smoother_up` run for `post_steps`
    iterations on `(operator_l, b, x)`. -/
def postSmooth (cap : Capabilities Op Transfer Smoother Vec Scalar) (l : Nat)
    (h : Hierarchy Op Transfer Smoother Vec) :
    Except Failure (Hierarchy Op Transfer Smoother Vec) :=
  match getLevel h l with
  | Except.error e => Except.error e
  | Except.ok level =>
    match cap.relax level.smoother_up level.operator level.b level.x h.post_smooth_steps with
    | none => Except.error Failure.SmootherFailure
    | some x => Except.ok (setLevel h l { level with x := x })

/-- Modelled from the spec: steps 2b and 2c at level `l > 0`: the residual
    `r = b - operator_l x` (one product, one subtraction), its restriction as the
    `b` of level `l-1`, and the zeroing of the `x` of level `l-1`. -/
def restrictResidual [One Scalar] [Neg Scalar]
    (cap : Capabilities Op Transfer Smoother Vec Scalar) (l : Nat)
    (h : Hierarchy Op Transfer Smoother Vec) :
    Except Failure (Hierarchy Op Transfer Smoother Vec) :=
  match getLevel h l with
  | Except.error e => Except.error e
  | Except.ok level =>
    let r := cap.axpy (-1) (cap.apply level.operator level.x) level.b
    let h := setLevel h l { level with r := r }
    match getLevel h ((l : Int) - 1) with
    | Except.error e => Except.error e
    | Except.ok coarser =>
      Except.ok (setLevel h (l - 1)
        { coarser with b := cap.transfer level.restrict_to_coarser r, x := cap.zero coarser.x })

/-- Modelled from the spec: step 2e, `x_l += interpolate_from_coarser(x_{l-1})`. -/
def interpolateAdd [One Scalar] (cap : Capabilities Op Transfer Smoother Vec Scalar) (l : Nat)
    (h : Hierarchy Op Transfer Smoother Vec) :
    Except Failure (Hierarchy Op Transfer Smoother Vec) :=
  match getLevel h l with
  | Except.error e => Except.error e
  | Except.ok level =>
    match getLevel h ((l : Int) - 1) with
    | Except.error e => Except.error e
    | Except.ok coarser =>
      Except.ok (setLevel h l
        { level with x := cap.axpy 1 (cap.transfer level.interpolate_from_coarser coarser.x)
                            level.x })

/-- Modelled from the spec: step 1, the base case: one call of
    `CoarseSolveCapability.solve(operator_0, b)`, stored into the `x` of level 0;
    a returned failure is a `CoarseSolveFailure`. The call is counted whether
    or not it fails. -/
def coarseSolve (cap : Capabilities Op Transfer Smoother Vec Scalar)
    (r : Run Op Transfer Smoother Vec) : Run Op Transfer Smoother Vec :=
  match getLevel r.hierarchy 0 with
  | Except.error e => { r with failure := some e }
  | Except.ok level =>
    match cap.solve level.operator level.b with
    | none => { r with coarse_solves := r.coarse_solves + 1,
                       failure := some Failure.CoarseSolveFailure }
    | some x => { r with coarse_solves := r.coarse_solves + 1,
                         hierarchy := setLevel r.hierarchy 0 { level with x := x } }

/-- Modelled from the spec: `applyCycle(hierarchy, level_index, x, b)` of its
    section 4.2, recursive over the level index. Step 2d is one recursive call
    for V and MULTIPLICATIVE and two sequential calls for W, the second after the
    first correction is applied and the new residual restricted again. The F and
    ADDITIVE procedures are not part of this model: `special` stands for them. -/
def applyCycle [One Scalar] [Neg Scalar] (cap : Capabilities Op Transfer Smoother Vec Scalar)
    (special : CycleType → Nat → Run Op Transfer Smoother Vec → Run Op Transfer Smoother Vec) :
    Nat → Run Op Transfer Smoother Vec → Run Op Transfer Smoother Vec
  | 0, r => coarseSolve cap r
  | l + 1, r =>
    let r := r.andThen (step (preSmooth cap (l + 1)))
    let r := r.andThen (step (restrictResidual cap (l + 1)))
    let r := r.andThen (fun r =>
      match r.hierarchy.cycle_type with
      | CycleType.V => applyCycle cap special l r
      | CycleType.MULTIPLICATIVE => applyCycle cap special l r
      | CycleType.W =>
        (((applyCycle cap special l r).andThen (step (interpolateAdd cap (l + 1)))).andThen
          (step (restrictResidual cap (l + 1)))).andThen (applyCycle cap special l)
      | CycleType.F => special CycleType.F l r
      | CycleType.ADDITIVE => special CycleType.ADDITIVE l r)
    let r := r.andThen (step (interpolateAdd cap (l + 1)))
    r.andThen (step (postSmooth cap (l + 1)))

/-- The counting invariant of a stage `f` of a W-cycle: the cycle type stays W,
    the stage makes at most `n` coarse solves, and exactly `n` when it ends
    without a failure. -/
def CountsW (n : Nat)
    (f : Run Op Transfer Smoother Vec → Run Op Transfer Smoother Vec) : Prop :=
  ∀ r : Run Op Transfer Smoother Vec, r.hierarchy.cycle_type = CycleType.W →
    (f r).hierarchy.cycle_type = CycleType.W ∧
    r.coarse_solves ≤ (f r).coarse_solves ∧
    (f r).coarse_solves ≤ r.coarse_solves + n ∧
    ((f r).failure = none → (f r).coarse_solves = r.coarse_solves + n)

end Scheduler

/-- Collaborators on rational numbers as one-entry vectors: the operator `a`
    multiplies, the transfers copy, a smoother handle `true` leaves the iterate
    alone and `false` fails, and the coarse solve divides. -/
def sampleCap : Capabilities ℚ Unit Bool ℚ ℚ :=
  { apply := fun a x => a * x,
    axpy := fun alpha x y => y + alpha * x,
    relax := fun s _ _ x _ => if s then some x else none,
    solve := fun a b => some (b / a),
    transfer := fun _ v => v,
    zero := fun _ => 0 }

/-- A level with operator 2 and the given right-hand side. -/
def sampleLevel (i : Int) (b : ℚ) : Level ℚ Unit Bool ℚ :=
  { index := i, operator := 2, restrict_to_coarser := (), interpolate_from_coarser := (),
    smoother_down := true, smoother_up := true, x := 0, b := b, r := 0 }

/-- A hierarchy of depth 2 (three levels) with cycle type W. -/
def sampleRun : Run ℚ Unit Bool ℚ :=
  { hierarchy := { levels := [sampleLevel 0 0, sampleLevel 1 0, sampleLevel 2 8],
                   cycle_type := CycleType.W, pre_smooth_steps := 1, post_smooth_steps := 1 },
    coarse_solves := 0, failure := none }

/-- The hierarchy of `sampleRun` with a down smoother that fails on the finest
    level. -/
def failingTopRun : Run ℚ Unit Bool ℚ :=
  { hierarchy := { levels := [sampleLevel 0 0, sampleLevel 1 0,
                              { sampleLevel 2 8 with smoother_down := false }],
                   cycle_type := CycleType.W, pre_smooth_steps := 1, post_smooth_steps := 1 },
    coarse_solves := 0, failure := none }

/-- The hierarchy of `sampleRun` with an up smoother that fails on level 1. -/
def failingMiddleRun : Run ℚ Unit Bool ℚ :=
  { hierarchy := { levels := [sampleLevel 0 0, { sampleLevel 1 0 with smoother_up := false },
                              sampleLevel 2 8],
                   cycle_type := CycleType.W, pre_smooth_steps := 1, post_smooth_steps := 1 },
    coarse_solves := 0, failure := none }

end CycleScheduler

namespace ConvergenceMonitor

/-- Modelled from the spec: the convergence monitor (the component has no
    source): the append-only history of residual norms, the tolerance, the
    maximal number of cycles and the divergence factor. -/
structure Monitor (R : Type) where
  residual_history : List R
  tolerance : R
  max_cycles : Nat
  divergence_factor : R

/-- Modelled from the spec: `recordResidual(norm)` appends to the history and
    signals `Diverged` (the second component) when the new norm exceeds the
    previous one by more than `divergence_factor`, read as a factor. -/
def recordResidual {R : Type} [LinearOrder R] [Mul R] (m : Monitor R) (norm : R) :
    Monitor R × Bool :=
  ({ m with residual_history := m.residual_history ++ [norm] },
    match m.residual_history.getLast? with
    | some previous => decide (m.divergence_factor * previous < norm)
    | none => false)

/-- Modelled from the spec: `isConverged()`: true iff the latest norm is at
    most `tolerance`. -/
def isConverged {R : Type} [LinearOrder R] (m : Monitor R) : Bool :=
  match m.residual_history.getLast? with
  | some latest => decide (latest ≤ m.tolerance)
  | none => false

/-- Modelled from the spec: `isExhausted()`: true iff the history length is
    at least `max_cycles`. -/
def isExhausted {R : Type} (m : Monitor R) : Bool :=
  decide (m.max_cycles ≤ m.residual_history.length)

end ConvergenceMonitor

/-! # LINPACK `dgefa` (src/mat/impls/baij/seq/dgefa.c)

`MatScalar` is a linearly ordered field `K` (exact arithmetic) and
`PetscAbsScalar` the absolute value. The C `int`s are natural numbers: for
`n >= 1` every index of the routine is positive, and `n*n + n` is taken to be
within the range of `int`. After the parameter adjustments `--ipvt` and
`a -= n + 1` the entry in row `i` and column `j` (both counted from 1) is
`a[i + j*n]`. `SETERRQ(k,0,...)` returns the error code `k`. -/

namespace Linpack

section Dgefa

variable {K : Type} [LinearOrderedField K]

/-- A counting loop `for (i = start; ...; i++)` that runs `count` times. -/
def forUp {σ : Type} (body : Nat → σ → σ) : Nat → Nat → σ → σ
  | _, 0, s => s
  | i, c + 1, s => forUp body (i + 1) c (body i s)

/-- The loop `for (i = lo; i < hi; i++) body`. -/
def forRange {σ : Type} (lo hi : Nat) (body : Nat → σ → σ) (s : σ) : σ :=
  forUp body lo (hi - lo) s

/-- The row that takes the place of row `i` when the rows `k` and `l` are
    exchanged. -/
def exchange (k l i : Nat) : Nat :=
  if i = k then l else if i = l then k else i

/-- The adjusted pointer `a -= n + 1`: `(adjust n a)[idx]` is `a[idx - (n+1)]`. -/
def adjust (n : Nat) (a : Nat → K) : Nat → K :=
  fun idx => a (idx - (n + 1))

/-- The caller's view of the array behind the adjusted pointer. -/
def unadjust (n : Nat) (a : Nat → K) : Nat → K :=
  fun idx => a (idx + (n + 1))

/-- The adjusted pointer `--ipvt`. -/
def adjustPivots (ipvt : Nat → Nat) : Nat → Nat :=
  fun k => ipvt (k - 1)

/-- The caller's view of the pivot array behind the adjusted pointer. -/
def unadjustPivots (ipvt : Nat → Nat) : Nat → Nat :=
  fun k => ipvt (k + 1)

/-- Lines 40-48, "find l = pivot index": the search over `aa = &a[knp1]` and
    the final `l += k - 1`. The loop state is `(max, l)`. -/
def pivotSearch (n k : Nat) (a : Nat → K) : Nat :=
  let knp1 := k * n + k
  let i__2 := n - k + 1
  let found := forRange 1 i__2
    (fun ll (s : K × Nat) =>
      let tmp := |a (knp1 + ll)|
      if tmp > s.1 then (tmp, ll + 1) else s)
    (|a (knp1 + 0)|, 1)
  found.2 + (k - 1)

/-- Lines 57-61, "interchange if necessary" in column `k`. -/
def swapPivot (n k l : Nat) (a : Nat → K) : Nat → K :=
  let kn := k * n
  let knp1 := k * n + k
  if l ≠ k then
    let t := a (l + kn)
    let a := Function.update a (l + kn) (a knp1)
    Function.update a knp1 t
  else a

/-- Lines 65-70, "compute multipliers": `t = -1./a[knp1]` and the loop
    `aa[ll] *= t` over `aa = &a[1 + knp1]`. -/
def scaleColumn (n k : Nat) (a : Nat → K) : Nat → K :=
  let knp1 := k * n + k
  let t := -1 / a knp1
  let i__2 := n - k
  forRange 0 i__2 (fun ll a => Function.update a (1 + knp1 + ll) (a (1 + knp1 + ll) * t)) a

/-- Lines 76-87, the body of the loop over the columns `j`: the interchange in
    column `j` and the loop `ay[ll] += t*ax[ll]` with `ax = &a[1 + knp1]` and
    `ay = &a[1 + k + jn1]`. -/
def eliminateColumn (n k l j : Nat) (a : Nat → K) : Nat → K :=
  let knp1 := k * n + k
  let jn1 := j * n
  let t := a (l + jn1)
  let a :=
    if l ≠ k then
      let a := Function.update a (l + jn1) (a (k + jn1))
      Function.update a (k + jn1) t
    else a
  let i__3 := n - k
  forRange 0 i__3
    (fun ll a => Function.update a (1 + k + jn1 + ll)
      (a (1 + k + jn1 + ll) + t * a (1 + knp1 + ll))) a

/-- Lines 57-88: what step `k` does to the array once the pivot row `l` is
    accepted. -/
def eliminate (n k l : Nat) (a : Nat → K) : Nat → K :=
  let kp1 := k + 1
  let a := swapPivot n k l a
  let a := scaleColumn n k a
  forRange kp1 (n + 1) (fun j a => eliminateColumn n k l j a) a

/-- The memory of the routine: the array and the pivot vector, both behind
    their adjusted pointers. -/
structure State (K : Type) where
  a : Nat → K
  ipvt : Nat → Nat

/-- One pass through the body of the loop over `k` (lines 34-88); the second
    component is `some k` when the pass returns through `SETERRQ(k,0,"Zero pivot")`. -/
def DGEFA_step (n k : Nat) (s : State K) : State K × Option Nat :=
  let kn := k * n
  let l := pivotSearch n k s.a
  let s : State K := { s with ipvt := Function.update s.ipvt k l }
  if s.a (l + kn) = 0 then (s, some k)
  else ({ s with a := eliminate n k l s.a }, none)

/-- The loop `for (k = ...; k <= nm1; ++k)` with `count` passes left, left
    early when a pass returns. -/
def DGEFA_loop (n : Nat) : Nat → Nat → State K → State K × Option Nat
  | _, 0, s => (s, none)
  | k, c + 1, s =>
    match DGEFA_step n k s with
    | (s, some e) => (s, some e)
    | (s, none) => DGEFA_loop n (k + 1) c s

/-- What the caller sees after the call: the array, the pivot vector and the
    returned value. -/
structure Output (K : Type) where
  a : Nat → K
  ipvt : Nat → Nat
  ierr : Nat

/-- The caller's view of the final memory together with the return value. -/
def State.output (n : Nat) (s : State K) (ierr : Nat) : Output K :=
  { a := unadjust n s.a, ipvt := unadjustPivots s.ipvt, ierr := ierr }

/-- `int Linpack_DGEFA(MatScalar *a, int n, int *ipvt)`. -/
def Linpack_DGEFA (a : Nat → K) (n : Nat) (ipvt : Nat → Nat) : Output K :=
  let s : State K := { a := adjust n a, ipvt := adjustPivots ipvt }
  let nm1 := n - 1
  match DGEFA_loop n 1 nm1 s with
  | (s, some e) => s.output n e
  | (s, none) =>
    let s : State K := { s with ipvt := Function.update s.ipvt n n }
    if s.a (n + n * n) = 0 then s.output n n
    else s.output n 0

/-- The array after the first `k` passes of the loop when none of them
    returns. -/
def afterSteps (n : Nat) (a : Nat → K) : Nat → Nat → K
  | 0 => a
  | k + 1 => eliminate n (k + 1) (pivotSearch n (k + 1) (afterSteps n a k)) (afterSteps n a k)

/-- The pivot row that pass `k` selects. -/
def pivotRowAt (n : Nat) (a : Nat → K) (k : Nat) : Nat :=
  pivotSearch n k (afterSteps n a (k - 1))

/-- The entry that pass `k` tests against zero: the selected pivot. -/
def pivotAt (n : Nat) (a : Nat → K) (k : Nat) : K :=
  afterSteps n a (k - 1) (pivotRowAt n a k + k * n)

/-- The `n` by `n` matrix that the caller's array holds column-major: the
    entry in row `i` and column `j` (both counted from 0) is `a[i + j*n]`. -/
def toMatrix (n : Nat) (a : Nat → K) : Matrix (Fin n) (Fin n) K :=
  fun i j => a (i.val + j.val * n)

/-- The upper triangle, diagonal included, of the matrix in the caller's array. -/
def upperTriangle (n : Nat) (a : Nat → K) : Matrix (Fin n) (Fin n) K :=
  fun i j => if j.val < i.val then 0 else a (i.val + j.val * n)

/-- The matrix that exchanges the rows `k` and `l` (counted from 0). -/
def rowExchange (n k l : Nat) : Matrix (Fin n) (Fin n) K :=
  fun i j => if j.val = exchange k l i.val then 1 else 0

/-- The entries of the caller's array in column `k` (counted from 0) below the
    diagonal, as a matrix that is zero elsewhere. -/
def belowDiagonal (n : Nat) (a : Nat → K) (k : Nat) : Matrix (Fin n) (Fin n) K :=
  fun i j => if j.val = k ∧ k < i.val then a (i.val + k * n) else 0

/-- The identity plus, in column `k` below the diagonal, the entries of the
    array: the matrix of the elimination of pass `k + 1`. -/
def multiplierMatrix (n : Nat) (a : Nat → K) (k : Nat) : Matrix (Fin n) (Fin n) K :=
  1 + belowDiagonal n a k

/-- The product `L_m P_m ... L_1 P_1` read off the caller's array and pivot
    vector: `P_k` exchanges the rows `k` and `ipvt[k]` (which the caller's vector
    holds at position `k - 1`), `L_k` is `multiplierMatrix` for column `k`. -/
def factorProduct (n : Nat) (a : Nat → K) (ipvt : Nat → Nat) : Nat → Matrix (Fin n) (Fin n) K
  | 0 => 1
  | m + 1 => multiplierMatrix n a m * (rowExchange n m (ipvt m - 1) * factorProduct n a ipvt m)

/-- The matrix the routine works on after `k` passes: the array behind the
    adjusted pointer, with zeros in the places below the diagonal of the first
    `k` columns, where the array keeps the multipliers. -/
def working (n k : Nat) (a : Nat → K) : Matrix (Fin n) (Fin n) K :=
  fun i j => if j.val < k ∧ j.val < i.val then 0 else a (i.val + 1 + (j.val + 1) * n)

end Dgefa

/-- The matrix with rows `(2,1,1)`, `(4,3,1)`, `(6,7,1)`, column-major. -/
def sample3 : Nat → ℚ :=
  fun i => ([2, 4, 6, 1, 3, 7, 1, 1, 1] : List ℚ).getD i 0

/-- The matrix with rows `(2,1)`, `(4,3)`, column-major. -/
def sample2 : Nat → ℚ :=
  fun i => ([2, 4, 1, 3] : List ℚ).getD i 0

/-- The singular matrix with rows `(1,2)`, `(2,4)`, column-major. -/
def singular2 : Nat → ℚ :=
  fun i => ([1, 2, 2, 4] : List ℚ).getD i 0

/-- The singular matrix with rows `(0,1,1)`, `(0,1,2)`, `(0,1,3)`, column-major. -/
def singular3 : Nat → ℚ :=
  fun i => ([0, 0, 0, 1, 1, 1, 1, 2, 3] : List ℚ).getD i 0

end Linpack

/-! # Calls into PETSc in the tutorial programs

The tutorial routines call the library through `CHKERRQ(...)`. The return
codes of these calls are an input of the model: `ret i` is the code returned by
the `i`-th call in the text of the routine. The array accessors
(`VecGetArrayRead`, `VecGetArray`, `MatDenseGetColumn` and their `Restore`
partners) give the entries of the object itself. -/

namespace Petsc

/-- The type `PetscErrorCode`; 0 is success. -/
abbrev PetscErrorCode := Int

/-- The macro `CHKERRQ(ierr)`: a non-zero `ierr` is returned from the enclosing
    routine at once. -/
def CHKERRQ (ierr : PetscErrorCode) : Except PetscErrorCode Unit :=
  if ierr = 0 then Except.ok () else Except.error ierr

/-- All calls into the library succeed. -/
def allOk : Nat → PetscErrorCode :=
  fun _ => 0

/-- The two-entry array with the given entries. -/
def vec2 {K : Type} [Zero K] (a b : K) : Nat → K :=
  fun i => if i = 0 then a else if i = 1 then b else 0

end Petsc

/-! # The van der Pol tutorial (src/ts/tutorials/ex20.c) -/

namespace VanDerPol

open Petsc

/-- The C struct `_n_User`. -/
structure User (K : Type) where
  mu : K
  next_output : K

/-- The right-hand side of the documented ODE `(1)` of the file header:
    `y' = z`, `z' = mu ((1 - y^2) z - y)`, at the state `(y, z)`. -/
def documentedRHS {K : Type} [Field K] (mu y z : K) : K × K :=
  (z, mu * ((1 - y ^ 2) * z - y))

/-- `RHSFunction(ts,t,X,F,ctx)`: the array of `F` after the call. -/
def RHSFunction {K : Type} [Field K] (ret : Nat → PetscErrorCode) (user : User K)
    (X F : Nat → K) : Except PetscErrorCode (Nat → K) := do
  let x := X
  let f := F
  CHKERRQ (ret 0)
  CHKERRQ (ret 1)
  let f := Function.update f 0 (x 1)
  let f := Function.update f 1 (user.mu * (1 - x 0 * x 0) * x 1 - x 0)
  CHKERRQ (ret 2)
  CHKERRQ (ret 3)
  pure f

/-- `IFunction(ts,t,X,Xdot,F,ctx)`: the array of `F` after the call. -/
def IFunction {K : Type} [Field K] (ret : Nat → PetscErrorCode) (user : User K)
    (X Xdot F : Nat → K) : Except PetscErrorCode (Nat → K) := do
  let x := X
  let xdot := Xdot
  let f := F
  CHKERRQ (ret 0)
  CHKERRQ (ret 1)
  CHKERRQ (ret 2)
  let f := Function.update f 0 (xdot 0 - x 1)
  let f := Function.update f 1 (xdot 1 - user.mu * ((1 - x 0 * x 0) * x 1 - x 0))
  CHKERRQ (ret 3)
  CHKERRQ (ret 4)
  CHKERRQ (ret 5)
  pure f

end VanDerPol

/-! # The hybrid-system tutorial (src/ts/tutorials/hybrid/ex1fwd.c) -/

namespace Hybrid

open Petsc

/-- The C struct `AppCtx`. -/
structure AppCtx (K : Type) where
  lambda1 : K
  lambda2 : K
  mode : Int
  print_time : K

/-- The matrix `A_1` of the file header. -/
def A_1 {K : Type} [Field K] : Matrix (Fin 2) (Fin 2) K :=
  Matrix.of ![![1, -100], ![10, 1]]

/-- The matrix `A_2` of the file header. -/
def A_2 {K : Type} [Field K] : Matrix (Fin 2) (Fin 2) K :=
  Matrix.of ![![1, 10], ![-100, 1]]

/-- The matrix `A_i` of the mode `i`. -/
def modeMatrix {K : Type} [Field K] (mode : Int) : Matrix (Fin 2) (Fin 2) K :=
  if mode = 1 then A_1 else A_2

/-- The matrix `a*I - A_i`. -/
def shiftedMatrix {K : Type} [Field K] (a : K) (mode : Int) : Matrix (Fin 2) (Fin 2) K :=
  a • (1 : Matrix (Fin 2) (Fin 2) K) - modeMatrix mode

/-- The first two entries of an array as a vector. -/
def firstTwo {K : Type} (u : Nat → K) : Fin 2 → K :=
  fun i => u i.val

/-- A 2 by 2 matrix as the row-major array `&J[0][0]` of a C array `J[2][2]`. -/
def rowMajor {K : Type} [Zero K] (J : Matrix (Fin 2) (Fin 2) K) : Nat → K :=
  fun idx => if idx = 0 then J 0 0 else if idx = 1 then J 0 1
    else if idx = 2 then J 1 0 else if idx = 3 then J 1 1 else 0

section Routines

variable {K : Type} [Field K]

/-- `EventFunction(ts,t,U,fvalue,ctx)`: the array `fvalue` after the call. -/
def EventFunction (ret : Nat → PetscErrorCode) (actx : AppCtx K) (U fvalue : Nat → K) :
    Except PetscErrorCode (Nat → K) := do
  let u := U
  CHKERRQ (ret 0)
  let fvalue :=
    if actx.mode = 1 then Function.update fvalue 0 (u 1 - actx.lambda1 * u 0)
    else if actx.mode = 2 then Function.update fvalue 0 (u 1 - actx.lambda2 * u 0)
    else fvalue
  CHKERRQ (ret 1)
  pure fvalue

/-- The local arrays `A1[2][2]` (row-major, as `a00 a01 a10 a11`) and `A2[2]`
    that `ShiftGradients` computes from the mode and the state `u`. -/
def shiftMatrices (actx : AppCtx K) (u : Nat → K) : (K × K × K × K) × (K × K) :=
  if actx.mode = 1 then
    let denorm := -actx.lambda1 * (u 0 - 100 * u 1) + 1 * (10 * u 0 + u 1)
    let a00 := 110 * u 1 * (-actx.lambda1) / denorm + 1
    let a10 := -110 * u 0 * (-actx.lambda1) / denorm
    let a01 := 110 * u 1 * 1 / denorm
    let a11 := -110 * u 0 * 1 / denorm + 1
    let b0 := 110 * u 1 * (-u 0) / denorm
    let b1 := -110 * u 0 * (-u 0) / denorm
    ((a00, a01, a10, a11), (b0, b1))
  else
    let denorm := -actx.lambda2 * (u 0 + 10 * u 1) + 1 * (-100 * u 0 + u 1)
    let a00 := 110 * u 1 * actx.lambda2 / denorm + 1
    let a10 := -110 * u 0 * actx.lambda2 / denorm
    let a01 := -110 * u 1 * 1 / denorm
    let a11 := 110 * u 0 * 1 / denorm + 1
    ((a00, a01, a10, a11), (0, 0))

/-- The update of one column `x` of the sensitivity matrix in `ShiftGradients`:
    `tmp = A1 x`, then `x = tmp + shift`. -/
def shiftColumn (A1 : K × K × K × K) (shift : K × K) (x : Nat → K) : Nat → K :=
  let tmp0 := A1.1 * x 0 + A1.2.1 * x 1
  let tmp1 := A1.2.2.1 * x 0 + A1.2.2.2 * x 1
  let x := Function.update x 0 (tmp0 + shift.1)
  Function.update x 1 (tmp1 + shift.2)

/-- `ShiftGradients(ts,U,actx)`: the sensitivity matrix `sp` after the call;
    `sp c` is the array that `MatDenseGetColumn(sp,c,&x)` gives. The first two
    columns are updated without a shift. -/
def ShiftGradients (ret : Nat → PetscErrorCode) (actx : AppCtx K) (U : Nat → K)
    (sp : Nat → Nat → K) : Except PetscErrorCode (Nat → Nat → K) := do
  CHKERRQ (ret 0)
  CHKERRQ (ret 1)
  let u := U
  let A := shiftMatrices actx u
  CHKERRQ (ret 2)
  CHKERRQ (ret 3)
  let sp := Function.update sp 0 (shiftColumn A.1 (0, 0) (sp 0))
  CHKERRQ (ret 4)
  CHKERRQ (ret 5)
  let sp := Function.update sp 1 (shiftColumn A.1 (0, 0) (sp 1))
  CHKERRQ (ret 6)
  CHKERRQ (ret 7)
  let sp := Function.update sp 2 (shiftColumn A.1 A.2 (sp 2))
  CHKERRQ (ret 8)
  pure sp

/-- `PostEventFunction(ts,nevents,event_list,t,U,forwardsolve,ctx)`: the
    context and the sensitivity matrix after the call; `ret` holds the return
    codes of the calls inside `ShiftGradients`. -/
def PostEventFunction (ret : Nat → PetscErrorCode) (actx : AppCtx K) (U : Nat → K)
    (sp : Nat → Nat → K) : Except PetscErrorCode (AppCtx K × (Nat → Nat → K)) := do
  let sp ← ShiftGradients ret actx U sp
  let actx :=
    if actx.mode = 1 then { actx with mode := 2 }
    else if actx.mode = 2 then { actx with mode := 1 }
    else actx
  pure (actx, sp)

/-- The solver calls `PostEventFunction` once per event: a sequence of events,
    each with the return codes of its calls and the state `U` at the event. -/
def handleEvents : List ((Nat → PetscErrorCode) × (Nat → K)) → AppCtx K × (Nat → Nat → K) →
    Except PetscErrorCode (AppCtx K × (Nat → Nat → K))
  | [], s => pure s
  | event :: rest, s => do
    let s ← PostEventFunction event.1 s.1 event.2 s.2
    handleEvents rest s

/-- `IFunction(ts,t,U,Udot,F,ctx)`: the array of `F` after the call. -/
def IFunction (ret : Nat → PetscErrorCode) (actx : AppCtx K) (U Udot F : Nat → K) :
    Except PetscErrorCode (Nat → K) := do
  let u := U
  let udot := Udot
  let f := F
  CHKERRQ (ret 0)
  CHKERRQ (ret 1)
  CHKERRQ (ret 2)
  let f :=
    if actx.mode = 1 then
      let f := Function.update f 0 (udot 0 - u 0 + 100 * u 1)
      Function.update f 1 (udot 1 - 10 * u 0 - u 1)
    else if actx.mode = 2 then
      let f := Function.update f 0 (udot 0 - u 0 - 10 * u 1)
      Function.update f 1 (udot 1 + 100 * u 0 - u 1)
    else f
  CHKERRQ (ret 3)
  CHKERRQ (ret 4)
  CHKERRQ (ret 5)
  pure f

/-- The index array `rowcol[] = {0,1}`. -/
def rowcol : Nat → Int :=
  fun i => if i = 0 then 0 else 1

/-- `IJacobian(ts,t,U,Udot,a,A,B,ctx)`: the matrix `B` after the call. The
    library routine `MatSetValues` (not under src/) is the parameter `setValues`,
    applied to `B`, the two counts, the two index arrays and `&J[0][0]`; `J0` is
    the content of the local array `J` before it is assigned, row-major; `same`
    tells whether `A == B`. -/
def IJacobian {M : Type} (setValues : M → Nat → (Nat → Int) → Nat → (Nat → Int) → (Nat → K) → M)
    (ret : Nat → PetscErrorCode) (actx : AppCtx K) (a : K) ( same : Bool) (J0 : Nat → K)
    (B : M) : Except PetscErrorCode M := do
  CHKERRQ (ret 0)
  CHKERRQ (ret 1)
  let J :=
    if actx.mode = 1 then
      let J := Function.update J0 0 (a - 1)
      let J := Function.update J 1 100
      let J := Function.update J 2 (-10)
      Function.update J 3 (a - 1)
    else if actx.mode = 2 then
      let J := Function.update J0 0 (a - 1)
      let J := Function.update J 1 (-10)
      let J := Function.update J 2 100
      Function.update J 3 (a - 1)
    else J0
  CHKERRQ (ret 2)
  let B := setValues B 2 rowcol 2 rowcol J
  CHKERRQ (ret 3)
  CHKERRQ (ret 4)
  CHKERRQ (ret 5)
  CHKERRQ (ret 6)
  if same = false then do
    CHKERRQ (ret 7)
    CHKERRQ (ret 8)
    pure B
  else pure B

/-- The contract of `MatSetValues(B,m,idxm,n,idxn,v,INSERT_VALUES)` for a dense
    matrix (the routine is not under src/): `v[i*n + j]` is stored in row
    `idxm[i]` and column `idxn[j]`. -/
def insertValues (B : Int → Int → K) (m : Nat) (idxm : Nat → Int) (n : Nat) (idxn : Nat → Int)
    (v : Nat → K) : Int → Int → K :=
  fun r c =>
    match (List.range m).find? (fun i => idxm i = r), (List.range n).find? (fun j => idxn j = c) with
    | some i, some j => v (i * n + j)
    | _, _ => B r c

end Routines

/-- The context of `main`: `lambda1 = 2.75`, `lambda2 = 0.36`, mode 1. -/
def sampleCtx : AppCtx ℚ :=
  { lambda1 := 11 / 4, lambda2 := 9 / 25, mode := 1, print_time := 1 / 256 }

/-- The sensitivity matrix of `main`: zero entries shifted by 1 on the diagonal. -/
def sampleSp : Nat → Nat → ℚ :=
  fun c r => if c = r ∧ r < 2 then 1 else 0

end Hybrid

/-! # The 3D Laplacian tutorial (src/ksp/ksp/tutorials/ex34.c) -/

namespace Laplacian3D

open Petsc

/-- The library struct `MatStencil`: the grid point `(k, j, i)` and the
    component `c`. -/
structure MatStencil where
  k : Int
  j : Int
  i : Int
  c : Int
deriving DecidableEq

/-- What `DMDAGetInfo` and `DMDAGetCorners` report about the grid: the global
    sizes, the number of components, and the corner and widths of the part of
    the grid that this process owns. -/
structure DMDAInfo where
  mx : Int
  my : Int
  mz : Int
  dof : Int
  xs : Int
  ys : Int
  zs : Int
  xm : Int
  ym : Int
  zm : Int

/-- The object made by `MatNullSpaceCreate(comm,has_cnst,n,vecs,&nullspace)`:
    whether the constant vector belongs to the null space, and the number of
    further vectors. -/
structure MatNullSpace where
  has_cnst : Bool
  n : Nat
deriving DecidableEq

/-- A matrix whose rows and columns are named by stencils. -/
abbrev Mat (K : Type) := MatStencil → MatStencil → K

/-- The local arrays `v[7]` and `col[7]` of `ComputeMatrix`. -/
structure Locals (K : Type) where
  v : Nat → K
  col : Nat → MatStencil

/-- The local arrays together with the counters `num`, `numi`, `numj`, `numk`. -/
structure Build (K : Type) where
  v : Nat → K
  col : Nat → MatStencil
  num : Nat
  numi : Int
  numj : Int
  numk : Int

/-- The return codes of the library calls of `ComputeMatrix` (`ret` for the
    calls outside the loops, in the order of the text, `setRet` for the call of
    `MatSetValuesStencil` on a row) and the values that `PetscOptionsGetBool`
    gives for `-dump_mat` and `-check_matis`. -/
structure Env where
  ret : Nat → PetscErrorCode
  setRet : MatStencil → PetscErrorCode
  dump_mat : Bool
  check_matis : Bool

section Routines

variable {K : Type} [Field K]

/-- The statements `v[num] = value; col[num] = c; num++`. -/
def Build.add (b : Build K) (value : K) (c : MatStencil) : Build K :=
  { b with v := Function.update b.v b.num value, col := Function.update b.col b.num c,
           num := b.num + 1 }

/-- The statements `v[num] = value; col[num] = c; num++; numk++`. -/
def Build.addK (b : Build K) (value : K) (c : MatStencil) : Build K :=
  { b.add value c with numk := b.numk + 1 }

/-- The statements `v[num] = value; col[num] = c; num++; numj++`. -/
def Build.addJ (b : Build K) (value : K) (c : MatStencil) : Build K :=
  { b.add value c with numj := b.numj + 1 }

/-- The statements `v[num] = value; col[num] = c; num++; numi++`. -/
def Build.addI (b : Build K) (value : K) (c : MatStencil) : Build K :=
  { b.add value c with numi := b.numi + 1 }

/-- Lines 176-227: the row of a point on the boundary of the grid. -/
def boundaryRow (mx my mz : Int) (HyHzdHx HxHzdHy HxHydHz : K) (k j i d : Int)
    (L : Locals K) : Build K :=
  let b : Build K := { v := L.v, col := L.col, num := 0, numi := 0, numj := 0, numk := 0 }
  let b := if k ≠ 0 then b.addK (-HxHydHz) (MatStencil.mk (k - 1) j i d) else b
  let b := if j ≠ 0 then b.addJ (-HxHzdHy) (MatStencil.mk k (j - 1) i d) else b
  let b := if i ≠ 0 then b.addI (-HyHzdHx) (MatStencil.mk k j (i - 1) d) else b
  let b := if i ≠ mx - 1 then b.addI (-HyHzdHx) (MatStencil.mk k j (i + 1) d) else b
  let b := if j ≠ my - 1 then b.addJ (-HxHzdHy) (MatStencil.mk k (j + 1) i d) else b
  let b := if k ≠ mz - 1 then b.addK (-HxHydHz) (MatStencil.mk (k + 1) j i d) else b
  b.add ((b.numk : K) * HxHydHz + (b.numj : K) * HxHzdHy + (b.numi : K) * HyHzdHx)
    (MatStencil.mk k j i d)

/-- Lines 230-236: the row of an interior point. -/
def interiorRow (HyHzdHx HxHzdHy HxHydHz : K) (k j i d : Int) (L : Locals K) : Locals K :=
  let v := L.v
  let col := L.col
  let v := Function.update v 0 (-HxHydHz)
  let col := Function.update col 0 (MatStencil.mk (k - 1) j i d)
  let v := Function.update v 1 (-HxHzdHy)
  let col := Function.update col 1 (MatStencil.mk k (j - 1) i d)
  let v := Function.update v 2 (-HyHzdHx)
  let col := Function.update col 2 (MatStencil.mk k j (i - 1) d)
  let v := Function.update v 3 (2 * (HyHzdHx + HxHzdHy + HxHydHz))
  let col := Function.update col 3 (MatStencil.mk k j i d)
  let v := Function.update v 4 (-HyHzdHx)
  let col := Function.update col 4 (MatStencil.mk k j (i + 1) d)
  let v := Function.update v 5 (-HxHzdHy)
  let col := Function.update col 5 (MatStencil.mk k (j + 1) i d)
  let v := Function.update v 6 (-HxHydHz)
  let col := Function.update col 6 (MatStencil.mk (k + 1) j i d)
  { v := v, col := col }

/-- The contract of `MatSetValuesStencil(jac,1,&row,n,col,v,INSERT_VALUES)`
    (the routine is not under src/): for `t = 0, ..., n-1` in turn, `v[t]` is
    stored in the row `row` and the column `col[t]`. -/
def MatSetValuesStencil (jac : Mat K) (row : MatStencil) (n : Nat) (col : Nat → MatStencil)
    (v : Nat → K) : Mat K :=
  (List.range n).foldl
    (fun A t => Function.update A row (Function.update (A row) (col t) (v t))) jac

/-- The values and counts passed to `MatSetValuesStencil` for the point
    `(k, j, i)` and the component `d`, with the local arrays after it. -/
def pointRow (mx my mz : Int) (HyHzdHx HxHzdHy HxHydHz : K) (k j i d : Int) (L : Locals K) :
    Locals K × Nat :=
  if i = 0 ∨ j = 0 ∨ k = 0 ∨ i = mx - 1 ∨ j = my - 1 ∨ k = mz - 1 then
    let b := boundaryRow mx my mz HyHzdHx HxHzdHy HxHydHz k j i d L
    ({ v := b.v, col := b.col }, b.num)
  else (interiorRow HyHzdHx HxHzdHy HxHydHz k j i d L, 7)

/-- Lines 174-238: the body of the innermost loop; the state is the matrix
    `jac` and the local arrays. -/
def pointBody (env : Env) (mx my mz : Int) (HyHzdHx HxHzdHy HxHydHz : K) (k j i d : Int)
    (s : Mat K × Locals K) : Except PetscErrorCode (Mat K × Locals K) := do
  let row := MatStencil.mk k j i d
  let r := pointRow mx my mz HyHzdHx HxHzdHy HxHydHz k j i d s.2
  CHKERRQ (env.setRet row)
  pure (MatSetValuesStencil s.1 row r.2 r.1.col r.1.v, r.1)

/-- A loop `for (t = start; ...; t++)` that runs `count` times, left at the
    first pass that returns an error. -/
def loop {σ : Type} (body : Int → σ → Except PetscErrorCode σ) :
    Int → Nat → σ → Except PetscErrorCode σ
  | _, 0, s => pure s
  | t, c + 1, s => do
    let s ← body t s
    loop body (t + 1) c s

/-- The loop `for (t = lo; t < hi; t++) body`. -/
def forRange {σ : Type} (lo hi : Int) (body : Int → σ → Except PetscErrorCode σ) (s : σ) :
    Except PetscErrorCode σ :=
  loop body lo (hi - lo).toNat s

/-- The calls number `first`, ..., `first + count - 1`, each under `CHKERRQ`. -/
def calls (ret : Nat → PetscErrorCode) : Nat → Nat → Except PetscErrorCode Unit
  | _, 0 => pure ()
  | first, count + 1 => do
    CHKERRQ (ret first)
    calls ret (first + 1) count

/-- `ComputeMatrix(ksp,J,jac,ctx)`: the matrix `jac` after the call and the
    null space attached to `J`. `L` is the content of the local arrays `v` and
    `col` at entry. The blocks under `dump_mat` and `check_matis` (4 and 13
    calls) view or copy `jac` and leave it as it is. -/
def ComputeMatrix (env : Env) (da : DMDAInfo) (L : Locals K) (jac : Mat K) :
    Except PetscErrorCode (Mat K × MatNullSpace) := do
  CHKERRQ (env.ret 0)
  CHKERRQ (env.ret 1)
  let Hx : K := 1 / (da.mx : K)
  let Hy : K := 1 / (da.my : K)
  let Hz : K := 1 / (da.mz : K)
  let HyHzdHx := Hy * Hz / Hx
  let HxHzdHy := Hx * Hz / Hy
  let HxHydHz := Hx * Hy / Hz
  CHKERRQ (env.ret 2)
  let s ← forRange da.zs (da.zs + da.zm) (fun k s =>
    forRange da.ys (da.ys + da.ym) (fun j s =>
      forRange da.xs (da.xs + da.xm) (fun i s =>
        forRange 0 da.dof (fun d s =>
          pointBody env da.mx da.my da.mz HyHzdHx HxHzdHy HxHydHz k j i d s) s) s) s) (jac, L)
  CHKERRQ (env.ret 3)
  CHKERRQ (env.ret 4)
  CHKERRQ (env.ret 5)
  (if env.dump_mat then calls env.ret 6 4 else pure ())
  CHKERRQ (env.ret 10)
  CHKERRQ (env.ret 11)
  (if env.check_matis then calls env.ret 12 13 else pure ())
  CHKERRQ (env.ret 25)
  let nullspace : MatNullSpace := { has_cnst := true, n := 0 }
  CHKERRQ (env.ret 26)
  CHKERRQ (env.ret 27)
  pure (s.1, nullspace)

/-- The sum of the first `num` values of the local array `v`. -/
def Build.total (b : Build K) : K :=
  ∑ t ∈ Finset.range b.num, b.v t

/-- The values entered so far cancel the weighted counts. -/
def Build.Balanced (HyHzdHx HxHzdHy HxHydHz : K) (b : Build K) : Prop :=
  b.total = -((b.numk : K) * HxHydHz + (b.numj : K) * HxHzdHy + (b.numi : K) * HyHzdHx)

/-- The first `num` entries of the array `col` are pairwise different and
    satisfy `S`. -/
def ColumnsIn (S : MatStencil → Prop) (col : Nat → MatStencil) (num : Nat) : Prop :=
  (∀ t, t < num → S (col t)) ∧
  ∀ t u, t < num → u < num → col t = col u → t = u

/-- The columns entered so far are pairwise different and satisfy `S`. -/
def Build.Columns (S : MatStencil → Prop) (b : Build K) : Prop :=
  ColumnsIn S b.col b.num

/-- A piece of `ComputeMatrix` sets the rows that satisfy `P`: such a row, when
    it was zero before, is `Good` afterwards, and every other row is left as it
    was. -/
def SetsRows (Good : (MatStencil → K) → Prop) (P : MatStencil → Prop)
    (f : Mat K × Locals K → Except PetscErrorCode (Mat K × Locals K)) : Prop :=
  ∀ s s2, f s = Except.ok s2 →
    ∀ q, (P q → (∀ c, s.1 q c = 0) → Good (s2.1 q)) ∧ (¬ P q → s2.1 q = s.1 q)

/-- The columns of the matrix: the stencils of the points of the grid. -/
def gridColumns (da : DMDAInfo) : Finset MatStencil :=
  (Finset.Ico 0 da.mz ×ˢ Finset.Ico 0 da.my ×ˢ Finset.Ico 0 da.mx ×ˢ Finset.Ico 0 da.dof).image
    (fun p => MatStencil.mk p.1 p.2.1 p.2.2.1 p.2.2.2)

/-- The contract of `MatMult(J,x,r)` (not under src/) in the row `row`: the sum
    of the entries of the row times the entries of `x`. -/
def MatMult (da : DMDAInfo) (A : Mat K) (x : MatStencil → K) (row : MatStencil) : K :=
  ∑ col ∈ gridColumns da, A row col * x col

/-- The row is one that this process owns. -/
def DMDAInfo.owns (da : DMDAInfo) (row : MatStencil) : Prop :=
  da.zs ≤ row.k ∧ row.k < da.zs + da.zm ∧ da.ys ≤ row.j ∧ row.j < da.ys + da.ym ∧
  da.xs ≤ row.i ∧ row.i < da.xs + da.xm ∧ 0 ≤ row.c ∧ row.c < da.dof

/-- The part of the grid that the process owns lies inside the grid. -/
def DMDAInfo.valid (da : DMDAInfo) : Prop :=
  0 ≤ da.zs ∧ da.zs + da.zm ≤ da.mz ∧ 0 ≤ da.ys ∧ da.ys + da.ym ≤ da.my ∧
  0 ≤ da.xs ∧ da.xs + da.xm ≤ da.mx

end Routines

/-- A grid of 2 x 1 x 1 points with one component, owned by one process. -/
def sampleGrid : DMDAInfo :=
  { mx := 2, my := 1, mz := 1, dof := 1, xs := 0, ys := 0, zs := 0, xm := 2, ym := 1, zm := 1 }

/-- Every library call returns 0; neither option is given. -/
def sampleEnv : Env :=
  { ret := allOk, setRet := fun _ => 0, dump_mat := false, check_matis := false }

/-- Local arrays filled with zeros. -/
def sampleLocals : Locals ℚ :=
  { v := fun _ => 0, col := fun _ => MatStencil.mk 0 0 0 0 }

end Laplacian3D

/-! # Theorems about the additive multigrid cycle -/

namespace PCMG

section Model

variable {Mat KSP Vec PC Scalar : Type}

/-! ## Sequencing -/

@[simp] theorem runAll_nil (s : MGState Mat KSP Vec PC Scalar) :
    runAll ([] : List (Stmt Mat KSP Vec PC Scalar)) s = (s, 0) := rfl

theorem runAll_cons (m : Stmt Mat KSP Vec PC Scalar) (ms : List (Stmt Mat KSP Vec PC Scalar))
    (s : MGState Mat KSP Vec PC Scalar) :
    runAll (m :: ms) s = if (m s).2 = 0 then runAll ms (m s).1 else m s := rfl

theorem firstError_append (a b : List (Event Mat KSP Vec PC Scalar)) :
    firstError (a ++ b) = if firstError a = 0 then firstError b else firstError a := by
  induction a with
  | nil => simp [firstError]
  | cons ev evs ih =>
    by_cases h : ev.ierr = 0
    · simp [firstError, h, ih]
    · simp [firstError, h]

theorem upToFailure_of_ok (a : List (Event Mat KSP Vec PC Scalar)) (h : firstError a = 0) :
    upToFailure a = a := by
  induction a with
  | nil => rfl
  | cons ev evs ih =>
    by_cases h0 : ev.ierr = 0
    · simp [firstError, h0] at h
      simp [upToFailure, h0, ih h]
    · simp [firstError, h0] at h

theorem upToFailure_append (a b : List (Event Mat KSP Vec PC Scalar)) :
    upToFailure (a ++ b) = if firstError a = 0 then a ++ upToFailure b else upToFailure a := by
  induction a with
  | nil => simp [firstError, upToFailure]
  | cons ev evs ih =>
    by_cases h : ev.ierr = 0
    · by_cases h2 : firstError evs = 0
      · simp [firstError, upToFailure, h, ih, h2]
      · simp [firstError, upToFailure, h, ih, h2]
    · simp [firstError, upToFailure, h]

theorem runs_nil : Runs (runAll ([] : List (Stmt Mat KSP Vec PC Scalar))) (fun _ => []) (fun mem => mem) := by
  intro s
  simp [upToFailure, firstError]

theorem runs_cons {m : Stmt Mat KSP Vec PC Scalar} {ms : List (Stmt Mat KSP Vec PC Scalar)}
    {ev ev2 : (Nat → PC_MG_Levels Mat KSP Vec) → List (Event Mat KSP Vec PC Scalar)}
    {nx nx2 : (Nat → PC_MG_Levels Mat KSP Vec) → (Nat → PC_MG_Levels Mat KSP Vec)}
    (h1 : Runs m ev nx) (h2 : Runs (runAll ms) ev2 nx2) :
    Runs (runAll (m :: ms)) (fun mem => ev mem ++ ev2 (nx mem)) (fun mem => nx2 (nx mem)) := by
  intro s
  obtain ⟨ht, he, hm⟩ := h1 s
  rw [runAll_cons]
  by_cases h0 : firstError (ev s.mglevels) = 0
  · have hm0 := hm h0
    obtain ⟨ht2, he2, hm2⟩ := h2 (m s).1
    rw [he, if_pos h0]
    simp only [firstError_append, upToFailure_append, if_pos h0]
    rw [ht2, he2, ht, hm0, upToFailure_of_ok _ h0]
    refine ⟨by simp, rfl, ?_⟩
    intro h3
    rw [hm2 (by rw [hm0]; exact h3), hm0]
  · rw [he, if_neg h0]
    simp only [firstError_append, upToFailure_append, if_neg h0]
    exact ⟨ht, he, fun h => absurd h h0⟩

theorem runs_congr {m : Stmt Mat KSP Vec PC Scalar}
    {ev ev2 : (Nat → PC_MG_Levels Mat KSP Vec) → List (Event Mat KSP Vec PC Scalar)}
    {nx nx2 : (Nat → PC_MG_Levels Mat KSP Vec) → (Nat → PC_MG_Levels Mat KSP Vec)}
    (h1 : Runs m ev nx) (hev : ∀ mem, ev mem = ev2 mem) (hnx : ∀ mem, nx mem = nx2 mem) :
    Runs m ev2 nx2 := by
  have e1 : ev = ev2 := funext hev
  have e2 : nx = nx2 := funext hnx
  subst e1 e2
  exact h1

theorem runs_forLoop {body : Nat → Stmt Mat KSP Vec PC Scalar}
    {ev : Nat → (Nat → PC_MG_Levels Mat KSP Vec) → List (Event Mat KSP Vec PC Scalar)}
    {nx : Nat → (Nat → PC_MG_Levels Mat KSP Vec) → (Nat → PC_MG_Levels Mat KSP Vec)}
    (h : ∀ i, Runs (body i) (ev i) (nx i)) (is : List Nat) :
    Runs (forLoop is body) (loopEvents ev nx is) (loopNext nx is) := by
  induction is with
  | nil => exact runs_nil
  | cons i is ih => exact runs_cons (h i) ih

/-! ## The statements of the cycle -/

theorem runs_logBegin (C : Collaborators Mat KSP Vec PC Scalar) (i : Nat)
    (event : PC_MG_Levels Mat KSP Vec → PetscLogEvent) :
    Runs (doLogEventBegin C i event) (fun mem => logBeginEvents C i (event (mem i)))
      (fun mem => mem) := by
  intro s
  by_cases h : event (s.mglevels i) = 0
  · simp [doLogEventBegin, logBeginEvents, h, upToFailure, firstError]
  · by_cases h2 : C.PetscLogEventBegin (event (s.mglevels i)) = 0 <;>
      simp [doLogEventBegin, logBeginEvents, h, h2, upToFailure, firstError, MGState.log]

theorem runs_logEnd (C : Collaborators Mat KSP Vec PC Scalar) (i : Nat)
    (event : PC_MG_Levels Mat KSP Vec → PetscLogEvent) :
    Runs (doLogEventEnd C i event) (fun mem => logEndEvents C i (event (mem i)))
      (fun mem => mem) := by
  intro s
  by_cases h : event (s.mglevels i) = 0
  · simp [doLogEventEnd, logEndEvents, h, upToFailure, firstError]
  · by_cases h2 : C.PetscLogEventEnd (event (s.mglevels i)) = 0 <;>
      simp [doLogEventEnd, logEndEvents, h, h2, upToFailure, firstError, MGState.log]

theorem runs_matRestrict (C : Collaborators Mat KSP Vec PC Scalar) (i : Nat)
    (T : PC_MG_Levels Mat KSP Vec → Mat) :
    Runs (doMatRestrict C i T)
      (fun mem => [⟨i, .MatRestrict (T (mem i)) (mem i).b (mem (i - 1)).b,
        (C.MatRestrict (T (mem i)) (mem i).b (mem (i - 1)).b).2⟩])
      (fun mem => Function.update mem (i - 1) { mem (i - 1) with
        b := (C.MatRestrict (T (mem i)) (mem i).b (mem (i - 1)).b).1 }) := by
  intro s
  by_cases h2 : (C.MatRestrict (T (s.mglevels i)) (s.mglevels i).b (s.mglevels (i - 1)).b).2 = 0 <;>
    simp [doMatRestrict, h2, upToFailure, firstError, MGState.log, MGState.setb]

theorem runs_vecSet [Zero Scalar] (C : Collaborators Mat KSP Vec PC Scalar) (i : Nat) :
    Runs (doVecSet C i)
      (fun mem => [⟨i, .VecSet (mem i).x 0, (C.VecSet (mem i).x 0).2⟩])
      (fun mem => Function.update mem i { mem i with x := (C.VecSet (mem i).x 0).1 }) := by
  intro s
  by_cases h2 : (C.VecSet (s.mglevels i).x 0).2 = 0 <;>
    simp [doVecSet, h2, upToFailure, firstError, MGState.log, MGState.setx]

theorem runs_kspSolve (C : Collaborators Mat KSP Vec PC Scalar) (i : Nat) :
    Runs (doKSPSolve C i)
      (fun mem => [⟨i, .KSPSolve (mem i).smoothd (mem i).b (mem i).x,
        (C.KSPSolve (mem i).smoothd (mem i).b (mem i).x).2⟩])
      (fun mem => Function.update mem i { mem i with
        x := (C.KSPSolve (mem i).smoothd (mem i).b (mem i).x).1 }) := by
  intro s
  by_cases h2 : (C.KSPSolve (s.mglevels i).smoothd (s.mglevels i).b (s.mglevels i).x).2 = 0 <;>
    simp [doKSPSolve, h2, upToFailure, firstError, MGState.log, MGState.setx]

theorem runs_kspSolveTranspose (C : Collaborators Mat KSP Vec PC Scalar) (i : Nat) :
    Runs (doKSPSolveTranspose C i)
      (fun mem => [⟨i, .KSPSolveTranspose (mem i).smoothu (mem i).b (mem i).x,
        (C.KSPSolveTranspose (mem i).smoothu (mem i).b (mem i).x).2⟩])
      (fun mem => Function.update mem i { mem i with
        x := (C.KSPSolveTranspose (mem i).smoothu (mem i).b (mem i).x).1 }) := by
  intro s
  by_cases h2 : (C.KSPSolveTranspose (s.mglevels i).smoothu (s.mglevels i).b
      (s.mglevels i).x).2 = 0 <;>
    simp [doKSPSolveTranspose, h2, upToFailure, firstError, MGState.log, MGState.setx]

theorem runs_kspCheckSolve (C : Collaborators Mat KSP Vec PC Scalar) (pc : PC) (i : Nat)
    (S : PC_MG_Levels Mat KSP Vec → KSP) :
    Runs (doKSPCheckSolve C pc i S)
      (fun mem => [⟨i, .KSPCheckSolve (S (mem i)) pc (mem i).x,
        (C.KSPCheckSolve (S (mem i)) pc (mem i).x).2⟩])
      (fun mem => Function.update mem i { mem i with
        x := (C.KSPCheckSolve (S (mem i)) pc (mem i).x).1 }) := by
  intro s
  by_cases h2 : (C.KSPCheckSolve (S (s.mglevels i)) pc (s.mglevels i).x).2 = 0 <;>
    simp [doKSPCheckSolve, h2, upToFailure, firstError, MGState.log, MGState.setx]

theorem runs_matInterpolateAdd (C : Collaborators Mat KSP Vec PC Scalar) (i : Nat)
    (T : PC_MG_Levels Mat KSP Vec → Mat) :
    Runs (doMatInterpolateAdd C i T)
      (fun mem => [⟨i, .MatInterpolateAdd (T (mem i)) (mem (i - 1)).x (mem i).x (mem i).x,
        (C.MatInterpolateAdd (T (mem i)) (mem (i - 1)).x (mem i).x (mem i).x).2⟩])
      (fun mem => Function.update mem i { mem i with
        x := (C.MatInterpolateAdd (T (mem i)) (mem (i - 1)).x (mem i).x (mem i).x).1 }) := by
  intro s
  by_cases h2 : (C.MatInterpolateAdd (T (s.mglevels i)) (s.mglevels (i - 1)).x (s.mglevels i).x
      (s.mglevels i).x).2 = 0 <;>
    simp [doMatInterpolateAdd, h2, upToFailure, firstError, MGState.log, MGState.setx]

@[simp] theorem update_b_eventinterprestrict (mem : Nat → PC_MG_Levels Mat KSP Vec) (k j : Nat) (v : Vec) :
    (Function.update mem k { mem k with b := v } j).eventinterprestrict
      = (mem j).eventinterprestrict := by
  by_cases h : j = k
  · subst h; simp
  · simp [h]

theorem runs_restrictBody (C : Collaborators Mat KSP Vec PC Scalar) (transpose : Bool) (i : Nat) :
    Runs (restrictBody C transpose i) (restrictEvents C transpose i)
      (restrictNext C transpose i) := by
  cases transpose
  · refine runs_congr (runs_cons (runs_logBegin C i _) (runs_cons (runs_matRestrict C i _)
      (runs_cons (runs_logEnd C i _) runs_nil))) ?_ ?_
    · intro mem; simp [restrictEvents, restrictMat]
    · intro mem; simp [restrictNext, restrictMat]
  · refine runs_congr (runs_cons (runs_logBegin C i _) (runs_cons (runs_matRestrict C i _)
      (runs_cons (runs_logEnd C i _) runs_nil))) ?_ ?_
    · intro mem; simp [restrictEvents, restrictMat]
    · intro mem; simp [restrictNext, restrictMat]

theorem runs_solveBody [Zero Scalar] (C : Collaborators Mat KSP Vec PC Scalar) (pc : PC)
    (transpose : Bool) (i : Nat) :
    Runs (solveBody C pc transpose i) (fun mem => solveEvents C pc transpose i (mem i))
      (solveNext C pc transpose i) := by
  cases transpose
  · refine runs_congr (runs_cons (runs_vecSet C i) (runs_cons (runs_logBegin C i _)
      (runs_cons (runs_cons (runs_kspSolve C i) (runs_cons (runs_kspCheckSolve C pc i _) runs_nil))
      (runs_cons (runs_logEnd C i _) runs_nil)))) ?_ ?_
    · intro mem; simp [solveEvents, smoother, solveCall, solveWith, zeroed, solved]
    · intro mem; simp [solveNext, levelSolve, smoother, solveWith, zeroed, solved]
  · refine runs_congr (runs_cons (runs_vecSet C i) (runs_cons (runs_logBegin C i _)
      (runs_cons (runs_cons (runs_kspSolveTranspose C i) (runs_cons (runs_kspCheckSolve C pc i _) runs_nil))
      (runs_cons (runs_logEnd C i _) runs_nil)))) ?_ ?_
    · intro mem; simp [solveEvents, smoother, solveCall, solveWith, zeroed, solved]
    · intro mem; simp [solveNext, levelSolve, smoother, solveWith, zeroed, solved]

theorem runs_interpBody (C : Collaborators Mat KSP Vec PC Scalar) (transpose : Bool) (i : Nat) :
    Runs (interpBody C transpose i) (interpEvents C transpose i)
      (interpNext C transpose i) := by
  cases transpose
  · refine runs_congr (runs_cons (runs_logBegin C i _) (runs_cons (runs_matInterpolateAdd C i _)
      (runs_cons (runs_logEnd C i _) runs_nil))) ?_ ?_
    · intro mem; simp [interpEvents, interpMat]
    · intro mem; simp [interpNext, interpMat]
  · refine runs_congr (runs_cons (runs_logBegin C i _) (runs_cons (runs_matInterpolateAdd C i _)
      (runs_cons (runs_logEnd C i _) runs_nil))) ?_ ?_
    · intro mem; simp [interpEvents, interpMat]
    · intro mem; simp [interpNext, interpMat]

theorem runs_cycleWithOrder [Zero Scalar] (C : Collaborators Mat KSP Vec PC Scalar) (pc : PC)
    (transpose : Bool) (l : Nat) (order : List Nat) :
    Runs (cycleWithOrder C pc transpose l order) (cycleEvents C pc transpose l order)
      (cycleNext C pc transpose l order) := by
  refine runs_congr (runs_cons (runs_forLoop (runs_restrictBody C transpose) _)
    (runs_cons (runs_forLoop (runs_solveBody C pc transpose) _)
      (runs_cons (runs_forLoop (runs_interpBody C transpose) _) runs_nil))) ?_ ?_
  · intro mem; simp [cycleEvents]
  · intro mem; simp [cycleNext]

/-! ## The three loops when no call fails -/

theorem restrictDown_succ (R : Nat → Vec → Vec) (k n : Nat) (v : Vec) :
    restrictDown R k (n + 1) v = restrictDown R k n (R (k + n + 1) v) := by
  induction n generalizing k with
  | zero => rfl
  | succ n ih =>
    show R (k + 1) (restrictDown R (k + 1) (n + 1) v) = R (k + 1) (restrictDown R (k + 1) n _)
    rw [ih (k + 1)]
    congr 3
    omega

theorem restrictDown_congr (R R2 : Nat → Vec → Vec) (k n : Nat) (v : Vec)
    (h : ∀ i, k < i → i ≤ k + n → R i = R2 i) :
    restrictDown R k n v = restrictDown R2 k n v := by
  induction n generalizing k with
  | zero => rfl
  | succ n ih =>
    show R (k + 1) (restrictDown R (k + 1) n v) = R2 (k + 1) (restrictDown R2 (k + 1) n v)
    rw [ih (k + 1) (fun i h1 h2 => h i (by omega) (by omega)), h (k + 1) (by omega) (by omega)]

theorem loopNext_restrict (C : Collaborators Mat KSP Vec PC Scalar) (transpose : Bool)
    (n : Nat) (mem : Nat → PC_MG_Levels Mat KSP Vec) (j : Nat) :
    loopNext (restrictNext C transpose) (downFrom n) mem j =
      if j < n then { mem j with b := restrictDown (restriction C transpose mem) j (n - j) (mem n).b }
      else mem j := by
  induction n generalizing mem with
  | zero => simp [downFrom, loopNext]
  | succ n ih =>
    simp only [downFrom, loopNext]
    rw [ih]
    have hm : ∀ i, i ≠ n → restrictNext C transpose (n + 1) mem i = mem i := by
      intro i hi
      simp [restrictNext, hi]
    have hn : restrictNext C transpose (n + 1) mem n = { mem n with
        b := restriction C transpose mem (n + 1) (mem (n + 1)).b } := by
      simp [restrictNext, restriction]
    by_cases h1 : j < n
    · rw [if_pos h1, if_pos (by omega), hm j (by omega), hn]
      have e : n + 1 - j = (n - j) + 1 := by omega
      rw [e, restrictDown_succ]
      have e2 : j + (n - j) + 1 = n + 1 := by omega
      rw [e2]
      have key : ∀ v, restrictDown (restriction C transpose (restrictNext C transpose (n + 1) mem))
          j (n - j) v = restrictDown (restriction C transpose mem) j (n - j) v := by
        intro v
        apply restrictDown_congr
        intro i hi1 hi2
        funext v
        by_cases hin : i = n
        · subst hin
          simp [restriction, hn, restrictMat, hm (i - 1) (by omega)]
        · simp [restriction, hm i hin, hm (i - 1) (by omega)]
      simp only [key]
    · rw [if_neg h1]
      by_cases h2 : j = n
      · subst h2
        rw [if_pos (by omega), hn]
        simp [restrictDown]
      · rw [if_neg (by omega), hm j h2]

theorem solveNext_other [Zero Scalar] (C : Collaborators Mat KSP Vec PC Scalar) (pc : PC)
    (transpose : Bool) (i j : Nat) (mem : Nat → PC_MG_Levels Mat KSP Vec) (h : j ≠ i) :
    solveNext C pc transpose i mem j = mem j := by
  simp [solveNext, h]

theorem loopNext_solve [Zero Scalar] (C : Collaborators Mat KSP Vec PC Scalar) (pc : PC)
    (transpose : Bool) (is : List Nat) (hnd : is.Nodup) (mem : Nat → PC_MG_Levels Mat KSP Vec)
    (j : Nat) :
    loopNext (solveNext C pc transpose) is mem j =
      if j ∈ is then { mem j with x := levelSolve C pc transpose (mem j) } else mem j := by
  induction is generalizing mem with
  | nil => simp [loopNext]
  | cons i is ih =>
    simp only [loopNext]
    rw [ih (List.nodup_cons.mp hnd).2]
    have hi : i ∉ is := (List.nodup_cons.mp hnd).1
    by_cases hj : j = i
    · subst hj
      simp [hi, solveNext]
    · have hji : j ∈ i :: is ↔ j ∈ is := by simp [hj]
      simp only [hji, solveNext_other C pc transpose i j mem hj]

theorem loopEvents_solve [Zero Scalar] (C : Collaborators Mat KSP Vec PC Scalar) (pc : PC)
    (transpose : Bool) (is : List Nat) (hnd : is.Nodup) (mem : Nat → PC_MG_Levels Mat KSP Vec) :
    loopEvents (fun i m => solveEvents C pc transpose i (m i)) (solveNext C pc transpose) is mem =
      is.flatMap (fun i => solveEvents C pc transpose i (mem i)) := by
  induction is generalizing mem with
  | nil => simp [loopEvents]
  | cons i is ih =>
    simp only [loopEvents, List.flatMap_cons]
    rw [ih (List.nodup_cons.mp hnd).2]
    have hi : i ∉ is := (List.nodup_cons.mp hnd).1
    congr 1
    apply List.flatMap_congr
    intro k hk
    rw [solveNext_other C pc transpose i k mem (by rintro rfl; exact hi hk)]

theorem loopNext_append (nx : Nat → (Nat → PC_MG_Levels Mat KSP Vec) → (Nat → PC_MG_Levels Mat KSP Vec))
    (is js : List Nat) (mem : Nat → PC_MG_Levels Mat KSP Vec) :
    loopNext nx (is ++ js) mem = loopNext nx js (loopNext nx is mem) := by
  induction is generalizing mem with
  | nil => rfl
  | cons i is ih =>
    show loopNext nx (is ++ js) (nx i mem) = _
    exact ih _

/-- The vector of level `j` after the third loop has run up to level `n`. -/
theorem loopNext_interp (C : Collaborators Mat KSP Vec PC Scalar) (transpose : Bool)
    (n : Nat) (mem : Nat → PC_MG_Levels Mat KSP Vec) :
    ∃ X : Nat → Vec, X 0 = (mem 0).x ∧
      (∀ i, i < n → X (i + 1) = interpolateAdd C transpose mem (i + 1) (X i) (mem (i + 1)).x) ∧
      ∀ j, loopNext (interpNext C transpose) (List.range' 1 n) mem j =
        if j ≤ n then { mem j with x := X j } else mem j := by
  induction n with
  | zero =>
    refine ⟨fun j => (mem j).x, rfl, fun i hi => absurd hi (by omega), fun j => ?_⟩
    simp [loopNext]
  | succ n ih =>
    obtain ⟨X, h0, hstep, hall⟩ := ih
    refine ⟨fun j => if j ≤ n then X j else
      interpolateAdd C transpose mem (n + 1) (X n) (mem (n + 1)).x, ?_, ?_, ?_⟩
    · simp [h0]
    · intro i hi
      by_cases hin : i = n
      · subst hin
        simp
      · have h1 : i < n := by omega
        have h2 : i + 1 ≤ n := by omega
        have h3 : i ≤ n := by omega
        simp only [h2, h3, if_true, hstep i h1]
    · intro j
      rw [List.range'_concat, loopNext_append]
      simp only [loopNext]
      have e : 1 + 1 * n = n + 1 := by omega
      rw [e]
      by_cases hj : j = n + 1
      · subst hj
        have hn1 := hall (n + 1)
        have hn0 := hall n
        simp only [show ¬ (n + 1 ≤ n) by omega, if_false, le_refl, if_true] at hn1 hn0
        simp [interpNext, hn1, hn0, interpolateAdd]
      · have hne : interpNext C transpose (n + 1)
            (loopNext (interpNext C transpose) (List.range' 1 n) mem) j
            = loopNext (interpNext C transpose) (List.range' 1 n) mem j := by
          simp [interpNext, hj]
        rw [hne, hall j]
        by_cases hjn : j ≤ n
        · simp [hjn, show j ≤ n + 1 by omega]
        · simp [hjn, show ¬ (j ≤ n + 1) by omega]

theorem afterRestrict_eq (C : Collaborators Mat KSP Vec PC Scalar) (transpose : Bool) (l : Nat)
    (H : Nat → PC_MG_Levels Mat KSP Vec) (j : Nat) :
    loopNext (restrictNext C transpose) (downFrom (l - 1)) H j =
      { H j with b := levelRhs C transpose H l j } := by
  rw [loopNext_restrict]
  by_cases h1 : j < l - 1
  · simp [h1, levelRhs, show j < l by omega]
  · rw [if_neg h1]
    by_cases h2 : j < l
    · have e : j = l - 1 := by omega
      have e2 : l - 1 - j = 0 := by omega
      simp only [levelRhs, h2, if_true, e2, restrictDown]
      rw [← e]
    · simp [levelRhs, h2]

theorem afterSolve_eq [Zero Scalar] (C : Collaborators Mat KSP Vec PC Scalar) (pc : PC)
    (transpose : Bool) (l : Nat) (order : List Nat) (hnd : order.Nodup)
    (H : Nat → PC_MG_Levels Mat KSP Vec) (j : Nat) :
    loopNext (solveNext C pc transpose) order
        (loopNext (restrictNext C transpose) (downFrom (l - 1)) H) j =
      if j ∈ order then { H j with b := levelRhs C transpose H l j,
                                    x := levelSolveOn C pc transpose H j (levelRhs C transpose H l j) }
      else { H j with b := levelRhs C transpose H l j } := by
  rw [loopNext_solve C pc transpose order hnd, afterRestrict_eq]
  by_cases h : j ∈ order
  · simp only [h, if_true, levelSolveOn]
  · simp only [h, if_false]

theorem cycleNext_eq [Zero Scalar] (C : Collaborators Mat KSP Vec PC Scalar) (pc : PC)
    (transpose : Bool) (l : Nat) (order : List Nat) (hnd : order.Nodup)
    (hmem : ∀ j, j ∈ order ↔ j < l) (H : Nat → PC_MG_Levels Mat KSP Vec) (j : Nat) :
    cycleNext C pc transpose l order H j =
      if j < l then { H j with b := levelRhs C transpose H l j,
                               x := levelX C pc transpose H l j }
      else H j := by
  unfold cycleNext
  obtain ⟨X, h0, hstep, hall⟩ := loopNext_interp C transpose (l - 1)
    (loopNext (solveNext C pc transpose) order
      (loopNext (restrictNext C transpose) (downFrom (l - 1)) H))
  rw [hall j]
  have hX : ∀ i, i < l → X i = levelX C pc transpose H l i := by
    intro i
    induction i with
    | zero =>
      intro hi
      rw [h0, afterSolve_eq C pc transpose l order hnd, if_pos ((hmem 0).2 hi)]
      rfl
    | succ i ih =>
      intro hi
      rw [hstep i (by omega), ih (by omega), afterSolve_eq C pc transpose l order hnd,
        if_pos ((hmem (i + 1)).2 hi)]
      simp only [levelX, interpolateAdd, afterSolve_eq C pc transpose l order hnd,
        if_pos ((hmem (i + 1)).2 hi), interpMat]
  rw [afterSolve_eq C pc transpose l order hnd]
  by_cases hj : j < l
  · rw [if_pos (by omega), if_pos ((hmem j).2 hj), if_pos hj, hX j hj]
  · have hjo : j ∉ order := fun h => hj ((hmem j).1 h)
    rw [if_neg hjo, if_neg hj]
    have hb : levelRhs C transpose H l j = (H j).b := by simp [levelRhs, hj]
    by_cases h1 : j ≤ l - 1
    · have e : j = 0 := by omega
      subst e
      rw [if_pos h1, h0, afterSolve_eq C pc transpose l order hnd, if_neg hjo, hb]
    · rw [if_neg h1, hb]

theorem PCMGACycle_Private_runs [Zero Scalar] (C : Collaborators Mat KSP Vec PC Scalar) (pc : PC)
    (H : Nat → PC_MG_Levels Mat KSP Vec) (transpose : Bool) (l : Nat)
    (hl : (H 0).levels = (l : Int)) :
    (PCMGACycle_Private C pc H transpose).1.trace
        = upToFailure (cycleEvents C pc transpose l (List.range l) H) ∧
      (PCMGACycle_Private C pc H transpose).2
        = firstError (cycleEvents C pc transpose l (List.range l) H) ∧
      ((PCMGACycle_Private C pc H transpose).2 = 0 →
        ∀ j, (PCMGACycle_Private C pc H transpose).1.mglevels j =
          if j < l then { H j with b := levelRhs C transpose H l j,
                                   x := levelX C pc transpose H l j }
          else H j) := by
  have e : (H 0).levels.toNat = l := by rw [hl]; simp
  obtain ⟨h1, h2, h3⟩ := runs_cycleWithOrder C pc transpose l (List.range l) ⟨H, []⟩
  simp only [PCMGACycle_Private, e]
  refine ⟨by simpa using h1, h2, ?_⟩
  intro h0 j
  rw [h3 (by rw [← h2]; exact h0)]
  exact cycleNext_eq C pc transpose l (List.range l) (List.nodup_range l)
    (fun j => List.mem_range) H j

theorem levelRhs_finest (C : Collaborators Mat KSP Vec PC Scalar) (transpose : Bool)
    (H : Nat → PC_MG_Levels Mat KSP Vec) (l : Nat) (h : 1 ≤ l) :
    levelRhs C transpose H l (l - 1) = (H (l - 1)).b := by
  simp [levelRhs, show l - 1 < l by omega, restrictDown]

theorem levelRhs_pred (C : Collaborators Mat KSP Vec PC Scalar) (transpose : Bool)
    (H : Nat → PC_MG_Levels Mat KSP Vec) (l i : Nat) (h1 : 1 ≤ i) (h2 : i < l) :
    levelRhs C transpose H l (i - 1)
      = restriction C transpose H i (levelRhs C transpose H l i) := by
  obtain ⟨k, rfl⟩ : ∃ k, i = k + 1 := ⟨i - 1, by omega⟩
  have e : l - 1 - k = (l - 1 - (k + 1)) + 1 := by omega
  simp only [levelRhs, h2, if_true, Nat.add_sub_cancel]
  rw [if_pos (show k < l by omega), e]
  rfl

theorem map_sum_range_succ [AddCommMonoid Vec] (P : Vec → Vec)
    (hP : ∀ u v, P (u + v) = P u + P v) (t : Nat → Vec) (n : Nat) :
    P (∑ k in Finset.range (n + 1), t k) = ∑ k in Finset.range (n + 1), P (t k) := by
  induction n with
  | zero => simp
  | succ n ih => rw [Finset.sum_range_succ, hP, ih, ← Finset.sum_range_succ (fun k => P (t k))]

theorem levelX_sum [Zero Scalar] [AddCommMonoid Vec] (C : Collaborators Mat KSP Vec PC Scalar)
    (pc : PC) (transpose : Bool) (H : Nat → PC_MG_Levels Mat KSP Vec) (l : Nat)
    (P : Nat → Vec → Vec)
    (hadd : ∀ i x y, interpolateAdd C transpose H i x y = y + P i x)
    (hlin : ∀ i u v, P i (u + v) = P i u + P i v) (i : Nat) :
    levelX C pc transpose H l i = ∑ k in Finset.range (i + 1),
      interpUp P k (i - k) (levelSolveOn C pc transpose H k (levelRhs C transpose H l k)) := by
  induction i with
  | zero => simp [levelX, interpUp]
  | succ i ih =>
    rw [levelX, hadd, ih, map_sum_range_succ (P (i + 1)) (hlin (i + 1)),
      Finset.sum_range_succ _ (i + 1), add_comm]
    congr 1
    · apply Finset.sum_congr rfl
      intro k hk
      have hk2 : k ≤ i := by have := Finset.mem_range.mp hk; omega
      have e : i + 1 - k = (i - k) + 1 := by omega
      have e2 : k + (i - k) + 1 = i + 1 := by omega
      rw [e, interpUp, e2]
    · simp [interpUp]

/-- Claim C1. In a hierarchy of `l >= 1` levels a successful non-transpose call
of `PCMGACycle_Private` leaves, at every level `i < l`, `b_i` and `x_i = y_i`
with `b_{l-1}` the `b` of the caller, `b_{i-1} = R_i(b_i)`, `y_0 = S_0(b_0)` and
`y_i = S_i(b_i) + P_i(y_{i-1})`, the sum being the one `MatInterpolateAdd`
forms (`S_i` is the level solve started from the zeroed `x`, `R_i` the
restriction with `restrct` of level `i`).  When `MatInterpolateAdd` adds the
image under an additive map `P_i`, the finest `x` is the sum over the levels
`k` of `P_{l-1} ... P_{k+1} S_k(R_{k+1} ... R_{l-1} b)`. -/
theorem additive_cycle_result [Zero Scalar] [AddCommMonoid Vec]
    (C : Collaborators Mat KSP Vec PC Scalar) (pc : PC)
    (H : Nat → PC_MG_Levels Mat KSP Vec) (l : Nat)
    (hl : (H 0).levels = (l : Int)) (h1 : 1 ≤ l)
    (hok : (PCMGACycle_Private C pc H false).2 = 0) :
    ((PCMGACycle_Private C pc H false).1.mglevels (l - 1)).b = (H (l - 1)).b ∧
    (∀ i, 1 ≤ i → i < l →
      ((PCMGACycle_Private C pc H false).1.mglevels (i - 1)).b =
        (C.MatRestrict (H i).restrct ((PCMGACycle_Private C pc H false).1.mglevels i).b
          (H (i - 1)).b).1) ∧
    ((PCMGACycle_Private C pc H false).1.mglevels 0).x =
      levelSolveOn C pc false H 0 ((PCMGACycle_Private C pc H false).1.mglevels 0).b ∧
    (∀ i, 1 ≤ i → i < l →
      ((PCMGACycle_Private C pc H false).1.mglevels i).x =
        (C.MatInterpolateAdd (H i).interpolate
          ((PCMGACycle_Private C pc H false).1.mglevels (i - 1)).x
          (levelSolveOn C pc false H i ((PCMGACycle_Private C pc H false).1.mglevels i).b)
          (levelSolveOn C pc false H i ((PCMGACycle_Private C pc H false).1.mglevels i).b)).1) ∧
    (∀ i v, levelSolveOn C pc false H i v =
      (C.KSPCheckSolve (H i).smoothd pc
        (C.KSPSolve (H i).smoothd v (C.VecSet (H i).x 0).1).1).1) ∧
    (∀ P : Nat → Vec → Vec,
      (∀ i x y, (C.MatInterpolateAdd (H i).interpolate x y y).1 = y + P i x) →
      (∀ i u v, P i (u + v) = P i u + P i v) →
      ((PCMGACycle_Private C pc H false).1.mglevels (l - 1)).x =
        ∑ k in Finset.range l, interpUp P k (l - 1 - k)
          (levelSolveOn C pc false H k
            (restrictDown (fun i v => (C.MatRestrict (H i).restrct v (H (i - 1)).b).1)
              k (l - 1 - k) (H (l - 1)).b))) := by
  have hm := (PCMGACycle_Private_runs C pc H false l hl).2.2 hok
  have hx : ∀ i, i < l → ((PCMGACycle_Private C pc H false).1.mglevels i).x
      = levelX C pc false H l i := by
    intro i hi; rw [hm i, if_pos hi]
  have hb : ∀ i, i < l → ((PCMGACycle_Private C pc H false).1.mglevels i).b
      = levelRhs C false H l i := by
    intro i hi; rw [hm i, if_pos hi]
  refine ⟨?_, ?_, ?_, ?_, ?_, ?_⟩
  · rw [hb _ (by omega), levelRhs_finest C false H l h1]
  · intro i hi1 hi2
    rw [hb _ (by omega), hb _ hi2, levelRhs_pred C false H l i hi1 hi2]
    rfl
  · rw [hx 0 (by omega), hb 0 (by omega)]
    rfl
  · intro i hi1 hi2
    obtain ⟨k, rfl⟩ : ∃ k, i = k + 1 := ⟨i - 1, by omega⟩
    rw [hx _ hi2, hx _ (by omega), hb _ hi2]
    rfl
  · intro i v
    rfl
  · intro P hadd hlin
    rw [hx _ (by omega), levelX_sum C pc false H l P (fun i x y => hadd i x y) hlin (l - 1)]
    have e : l - 1 + 1 = l := by omega
    rw [e]
    apply Finset.sum_congr rfl
    intro k hk
    have hk2 : k < l := Finset.mem_range.mp hk
    simp only [levelRhs, hk2, if_true]
    rfl

set_option maxRecDepth 100000 in
/-- Witness of C1: the three levels (restrictions `2`, interpolations `3`,
operators `1`, `2`, `4`, finest `b = 8`) end with the finest `x = 314`. -/
theorem additive_cycle_result_witness :
    (threeLevels 0).levels = ((3 : Nat) : Int) ∧
    (PCMGACycle_Private scalarCollab () threeLevels false).2 = 0 ∧
    ((PCMGACycle_Private scalarCollab () threeLevels false).1.mglevels (3 - 1)).x = 314 ∧
    ((PCMGACycle_Private scalarCollab () threeLevels false).1.mglevels (3 - 1)).x =
      ∑ k in Finset.range 3, interpUp (fun _ x => 3 * x) k (3 - 1 - k)
        (levelSolveOn scalarCollab () false threeLevels k
          (restrictDown (fun i v => (scalarCollab.MatRestrict (threeLevels i).restrct v
            (threeLevels (i - 1)).b).1) k (3 - 1 - k) (threeLevels (3 - 1)).b)) := by
  refine ⟨rfl, by decide, by decide,
    (additive_cycle_result scalarCollab () threeLevels 3 rfl (by decide) (by decide)).2.2.2.2.2
      (fun _ x => 3 * x) ?_ (fun _ u v => mul_add 3 u v)⟩
  intro i x y
  rcases i with _ | _ | i <;> rfl

/-! ## The call log of the cycle -/

theorem upToFailure_split (L pre post : List (Event Mat KSP Vec PC Scalar))
    (ev : Event Mat KSP Vec PC Scalar) (h : upToFailure L = pre ++ ev :: post)
    (hev : ev.ierr ≠ 0) : post = [] ∧ firstError L = ev.ierr := by
  induction L generalizing pre with
  | nil => simp [upToFailure] at h
  | cons e es ih =>
    by_cases h0 : e.ierr = 0
    · simp only [upToFailure, h0, if_true] at h
      cases pre with
      | nil =>
        simp only [List.nil_append, List.cons.injEq] at h
        exact absurd (h.1 ▸ h0) hev
      | cons p ps =>
        simp only [List.cons_append, List.cons.injEq] at h
        simpa [firstError, h0] using ih ps h.2
    · simp only [upToFailure, h0, if_false] at h
      cases pre with
      | nil =>
        simp only [List.nil_append, List.cons.injEq] at h
        refine ⟨h.2.symm, ?_⟩
        rw [← h.1]
        simp [firstError, h0]
      | cons p ps =>
        simp at h

theorem upToFailure_last (L : List (Event Mat KSP Vec PC Scalar)) (h : firstError L ≠ 0) :
    ∃ pre ev, upToFailure L = pre ++ [ev] ∧ ev.ierr = firstError L := by
  induction L with
  | nil => simp [firstError] at h
  | cons e es ih =>
    by_cases h0 : e.ierr = 0
    · simp only [firstError, h0, if_true] at h
      obtain ⟨pre, ev, h1, h2⟩ := ih h
      exact ⟨e :: pre, ev, by simp [upToFailure, h0, h1], by simp [firstError, h0, h2]⟩
    · exact ⟨[], e, by simp [upToFailure, h0], by simp [firstError, h0]⟩

theorem upToFailure_sublist (L : List (Event Mat KSP Vec PC Scalar)) :
    (upToFailure L).Sublist L := by
  induction L with
  | nil => exact List.Sublist.refl _
  | cons e es ih =>
    by_cases h0 : e.ierr = 0
    · simp only [upToFailure, h0, if_true]
      exact ih.cons₂ e
    · simp only [upToFailure, h0, if_false]
      exact List.Sublist.cons₂ e (List.nil_sublist es)

theorem mem_loopEvents
    (evf : Nat → (Nat → PC_MG_Levels Mat KSP Vec) → List (Event Mat KSP Vec PC Scalar))
    (nx : Nat → (Nat → PC_MG_Levels Mat KSP Vec) → (Nat → PC_MG_Levels Mat KSP Vec))
    (is : List Nat) (mem : Nat → PC_MG_Levels Mat KSP Vec) (ev : Event Mat KSP Vec PC Scalar)
    (h : ev ∈ loopEvents evf nx is mem) : ∃ i ∈ is, ∃ m, ev ∈ evf i m := by
  induction is generalizing mem with
  | nil => simp [loopEvents] at h
  | cons i is ih =>
    simp only [loopEvents, List.mem_append] at h
    rcases h with h | h
    · exact ⟨i, List.mem_cons_self _ _, mem, h⟩
    · obtain ⟨k, hk, m, hm⟩ := ih _ h
      exact ⟨k, List.mem_cons_of_mem _ hk, m, hm⟩

theorem mem_restrictEvents (C : Collaborators Mat KSP Vec PC Scalar) (transpose : Bool)
    (i : Nat) (mem : Nat → PC_MG_Levels Mat KSP Vec) (ev : Event Mat KSP Vec PC Scalar)
    (h : ev ∈ restrictEvents C transpose i mem) :
    ev.ierr = C.returned ev.call ∧ ev.call.isSolve = false ∧ ev.level = i := by
  simp only [restrictEvents, logBeginEvents, logEndEvents, List.mem_append, List.mem_cons] at h
  rcases h with h | h | h
  · split_ifs at h
    · simp at h
    · simp only [List.mem_singleton] at h; subst h; exact ⟨rfl, rfl, rfl⟩
  · subst h; exact ⟨rfl, rfl, rfl⟩
  · split_ifs at h
    · simp at h
    · simp only [List.mem_singleton] at h; subst h; exact ⟨rfl, rfl, rfl⟩

theorem mem_interpEvents (C : Collaborators Mat KSP Vec PC Scalar) (transpose : Bool)
    (i : Nat) (mem : Nat → PC_MG_Levels Mat KSP Vec) (ev : Event Mat KSP Vec PC Scalar)
    (h : ev ∈ interpEvents C transpose i mem) :
    ev.ierr = C.returned ev.call ∧ ev.call.isSolve = false ∧ ev.level = i := by
  simp only [interpEvents, logBeginEvents, logEndEvents, List.mem_append, List.mem_cons] at h
  rcases h with h | h | h
  · split_ifs at h
    · simp at h
    · simp only [List.mem_singleton] at h; subst h; exact ⟨rfl, rfl, rfl⟩
  · subst h; exact ⟨rfl, rfl, rfl⟩
  · split_ifs at h
    · simp at h
    · simp only [List.mem_singleton] at h; subst h; exact ⟨rfl, rfl, rfl⟩

/-- The calls of the body of the second loop: each is the call the
collaborators answer, none is a transfer, and a solve call is made with the
smoother of the mode, the `b` of the level and the zeroed `x`. -/
theorem mem_solveEvents [Zero Scalar] (C : Collaborators Mat KSP Vec PC Scalar) (pc : PC)
    (transpose : Bool) (i : Nat) (L : PC_MG_Levels Mat KSP Vec)
    (ev : Event Mat KSP Vec PC Scalar) (h : ev ∈ solveEvents C pc transpose i L) :
    ev.ierr = C.returned ev.call ∧ ev.call.isTransfer = false ∧ ev.level = i ∧
      (ev.call.isSolve = true →
        ev.call = solveCall transpose (smoother transpose L) L.b (C.VecSet L.x 0).1) := by
  simp only [solveEvents, logBeginEvents, logEndEvents, List.mem_append, List.mem_cons] at h
  rcases h with h | h | h | h | h
  · subst h; exact ⟨rfl, rfl, rfl, fun h => by simp [Call.isSolve] at h⟩
  · split_ifs at h
    · simp at h
    · simp only [List.mem_singleton] at h; subst h
      exact ⟨rfl, rfl, rfl, fun h => by simp [Call.isSolve] at h⟩
  · subst h
    cases transpose
    · exact ⟨rfl, rfl, rfl, fun _ => rfl⟩
    · exact ⟨rfl, rfl, rfl, fun _ => rfl⟩
  · subst h; exact ⟨rfl, rfl, rfl, fun h => by simp [Call.isSolve] at h⟩
  · split_ifs at h
    · simp at h
    · simp only [List.mem_singleton] at h; subst h
      exact ⟨rfl, rfl, rfl, fun h => by simp [Call.isSolve] at h⟩

theorem solverCalls_append (k : Nat) (a b : List (Event Mat KSP Vec PC Scalar)) :
    solverCalls k (a ++ b) = solverCalls k a + solverCalls k b := by
  simp [solverCalls, List.filter_append]

theorem solverCalls_eq_zero (k : Nat) (a : List (Event Mat KSP Vec PC Scalar))
    (h : ∀ ev ∈ a, ev.call.isSolve = false) : solverCalls k a = 0 := by
  simp only [solverCalls, List.length_eq_zero, List.filter_eq_nil_iff]
  intro ev hev
  simp [h ev hev]

theorem solverCalls_other (k i : Nat) (a : List (Event Mat KSP Vec PC Scalar))
    (h : ∀ ev ∈ a, ev.level = i) (hik : i ≠ k) : solverCalls k a = 0 := by
  simp only [solverCalls, List.length_eq_zero, List.filter_eq_nil_iff]
  intro ev hev
  simp [h ev hev, hik]

theorem solverCalls_solveEvents [Zero Scalar] (C : Collaborators Mat KSP Vec PC Scalar) (pc : PC)
    (transpose : Bool) (i : Nat) (L : PC_MG_Levels Mat KSP Vec) (k : Nat) :
    solverCalls k (solveEvents C pc transpose i L) ≤ 1 := by
  have e : solveEvents C pc transpose i L =
      (⟨i, .VecSet L.x 0, (C.VecSet L.x 0).2⟩ :: logBeginEvents C i L.eventsmoothsolve) ++
      ([⟨i, solveCall transpose (smoother transpose L) L.b (zeroed C L),
        (solveWith C transpose (smoother transpose L) L.b (zeroed C L)).2⟩] ++
      (⟨i, .KSPCheckSolve (smoother transpose L) pc (solved C transpose L),
        (C.KSPCheckSolve (smoother transpose L) pc (solved C transpose L)).2⟩ ::
      logEndEvents C i L.eventsmoothsolve)) := by
    simp [solveEvents]
  rw [e, solverCalls_append, solverCalls_append, solverCalls_eq_zero, solverCalls_eq_zero k
    (_ :: logEndEvents C i L.eventsmoothsolve)]
  · simp only [solverCalls, zero_add, add_zero]
    exact (List.length_filter_le _ _).trans (by simp)
  · intro ev hev
    simp only [logEndEvents, List.mem_cons] at hev
    rcases hev with h | h
    · subst h; rfl
    · split_ifs at h
      · simp at h
      · simp only [List.mem_singleton] at h; subst h; rfl
  · intro ev hev
    simp only [logBeginEvents, List.mem_cons] at hev
    rcases hev with h | h
    · subst h; rfl
    · split_ifs at h
      · simp at h
      · simp only [List.mem_singleton] at h; subst h; rfl

theorem solverCalls_flatMap (k : Nat) (f : Nat → List (Event Mat KSP Vec PC Scalar))
    (hlev : ∀ i, ∀ ev ∈ f i, ev.level = i) (hone : ∀ i, solverCalls k (f i) ≤ 1)
    (is : List Nat) (hnd : is.Nodup) :
    solverCalls k (is.flatMap f) ≤ 1 ∧ (k ∉ is → solverCalls k (is.flatMap f) = 0) := by
  induction is with
  | nil => simp [solverCalls]
  | cons i is ih =>
    obtain ⟨hi, hnd2⟩ := List.nodup_cons.mp hnd
    obtain ⟨ih1, ih2⟩ := ih hnd2
    simp only [List.flatMap_cons, solverCalls_append]
    by_cases hik : i = k
    · subst hik
      rw [ih2 hi]
      exact ⟨by simpa using hone i, fun h => absurd (List.mem_cons_self _ _) h⟩
    · rw [solverCalls_other k i (f i) (hlev i) hik]
      refine ⟨by simpa using ih1, fun h => ?_⟩
      simpa using ih2 (fun h2 => h (List.mem_cons_of_mem _ h2))

theorem mem_downFrom (n i : Nat) : i ∈ downFrom n ↔ 1 ≤ i ∧ i ≤ n := by
  induction n with
  | zero => simp [downFrom]; omega
  | succ n ih => simp only [downFrom, List.mem_cons, ih]; omega

/-- What the calls of a cycle that does not fail are. -/
theorem mem_cycleEvents [Zero Scalar] (C : Collaborators Mat KSP Vec PC Scalar) (pc : PC)
    (transpose : Bool) (l : Nat) (order : List Nat) (hnd : order.Nodup)
    (hmem : ∀ j, j ∈ order → j < l) (H : Nat → PC_MG_Levels Mat KSP Vec)
    (ev : Event Mat KSP Vec PC Scalar) (h : ev ∈ cycleEvents C pc transpose l order H) :
    ev.ierr = C.returned ev.call ∧ ev.level < l ∧
      (ev.call.isTransfer = true → 1 ≤ ev.level) ∧
      (ev.call.isSolve = true →
        ev.call = solveCall transpose (smoother transpose (H ev.level))
          (levelRhs C transpose H l ev.level) (C.VecSet (H ev.level).x 0).1) := by
  simp only [cycleEvents, List.mem_append] at h
  rcases h with h | h | h
  · obtain ⟨i, hi, m, hm⟩ := mem_loopEvents _ _ _ _ _ h
    obtain ⟨h1, h2, h3⟩ := mem_restrictEvents C transpose i m ev hm
    have := (mem_downFrom _ _).1 hi
    exact ⟨h1, by omega, fun _ => by omega, fun hs => by rw [h2] at hs; cases hs⟩
  · rw [loopEvents_solve C pc transpose order hnd, List.mem_flatMap] at h
    obtain ⟨i, hi, hm⟩ := h
    obtain ⟨h1, h2, h3, h4⟩ := mem_solveEvents C pc transpose i _ ev hm
    refine ⟨h1, by rw [h3]; exact hmem i hi, ?_, fun hs => ?_⟩
    · intro ht; rw [h2] at ht; cases ht
    · rw [h4 hs, h3, afterRestrict_eq]
      cases transpose <;> rfl
  · obtain ⟨i, hi, m, hm⟩ := mem_loopEvents _ _ _ _ _ h
    obtain ⟨h1, h2, h3⟩ := mem_interpEvents C transpose i m ev hm
    have := List.mem_range'_1.1 hi
    exact ⟨h1, by omega, fun _ => by omega, fun hs => by rw [h2] at hs; cases hs⟩

theorem solverCalls_cycleEvents [Zero Scalar] (C : Collaborators Mat KSP Vec PC Scalar) (pc : PC)
    (transpose : Bool) (l : Nat) (order : List Nat) (hnd : order.Nodup)
    (H : Nat → PC_MG_Levels Mat KSP Vec) (k : Nat) :
    solverCalls k (cycleEvents C pc transpose l order H) ≤ 1 := by
  simp only [cycleEvents, solverCalls_append]
  rw [solverCalls_eq_zero, solverCalls_eq_zero k (loopEvents (interpEvents C transpose) _ _ _),
    loopEvents_solve C pc transpose order hnd]
  · simpa using (solverCalls_flatMap k _
      (fun i ev hev => (mem_solveEvents C pc transpose i _ ev hev).2.2.1)
      (fun i => solverCalls_solveEvents C pc transpose i _ k) order hnd).1
  · intro ev hev
    obtain ⟨i, _, m, hm⟩ := mem_loopEvents _ _ _ _ _ hev
    exact (mem_interpEvents C transpose i m ev hm).2.1
  · intro ev hev
    obtain ⟨i, _, m, hm⟩ := mem_loopEvents _ _ _ _ _ hev
    exact (mem_restrictEvents C transpose i m ev hm).2.1

theorem PCMGACycle_Private_trace [Zero Scalar] (C : Collaborators Mat KSP Vec PC Scalar) (pc : PC)
    (H : Nat → PC_MG_Levels Mat KSP Vec) (transpose : Bool) :
    (PCMGACycle_Private C pc H transpose).1.trace
        = upToFailure (cycleEvents C pc transpose (H 0).levels.toNat
            (List.range (H 0).levels.toNat) H) ∧
      (PCMGACycle_Private C pc H transpose).2
        = firstError (cycleEvents C pc transpose (H 0).levels.toNat
            (List.range (H 0).levels.toNat) H) := by
  obtain ⟨h1, h2, _⟩ := runs_cycleWithOrder C pc transpose (H 0).levels.toNat
    (List.range (H 0).levels.toNat) ⟨H, []⟩
  exact ⟨by simpa [PCMGACycle_Private] using h1, h2⟩

theorem mem_trace [Zero Scalar] (C : Collaborators Mat KSP Vec PC Scalar) (pc : PC)
    (H : Nat → PC_MG_Levels Mat KSP Vec) (transpose : Bool) (l : Nat)
    (hl : (H 0).levels = (l : Int)) (ev : Event Mat KSP Vec PC Scalar)
    (h : ev ∈ (PCMGACycle_Private C pc H transpose).1.trace) :
    ev.ierr = C.returned ev.call ∧ ev.level < l ∧
      (ev.call.isTransfer = true → 1 ≤ ev.level) ∧
      (ev.call.isSolve = true →
        ev.call = solveCall transpose (smoother transpose (H ev.level))
          (levelRhs C transpose H l ev.level) (C.VecSet (H ev.level).x 0).1) := by
  have e : (H 0).levels.toNat = l := by rw [hl]; simp
  rw [(PCMGACycle_Private_trace C pc H transpose).1, e] at h
  exact mem_cycleEvents C pc transpose l (List.range l) (List.nodup_range l)
    (fun j hj => List.mem_range.1 hj) H ev ((upToFailure_sublist _).subset h)

theorem solverCalls_trace [Zero Scalar] (C : Collaborators Mat KSP Vec PC Scalar) (pc : PC)
    (H : Nat → PC_MG_Levels Mat KSP Vec) (transpose : Bool) (i : Nat) :
    solverCalls i (PCMGACycle_Private C pc H transpose).1.trace ≤ 1 := by
  rw [(PCMGACycle_Private_trace C pc H transpose).1]
  exact (((upToFailure_sublist _).filter _).length_le).trans
    (solverCalls_cycleEvents C pc transpose _ _ (List.nodup_range _) H i)

/-- Claim C2. Whatever collaborator call of `PCMGACycle_Private` fails (the log
holds every call with the error code the collaborator returned for it), the
failed call is the last call of the log and its error code is the one
`PCMGACycle_Private` returns; no level is solved more than once; and a nonzero
return value is always the error code of the last call made. -/
theorem failure_propagates [Zero Scalar] (C : Collaborators Mat KSP Vec PC Scalar) (pc : PC)
    (H : Nat → PC_MG_Levels Mat KSP Vec) (transpose : Bool) :
    (∀ ev ∈ (PCMGACycle_Private C pc H transpose).1.trace, ev.ierr = C.returned ev.call) ∧
    (∀ pre ev post, (PCMGACycle_Private C pc H transpose).1.trace = pre ++ ev :: post →
      ev.ierr ≠ 0 → post = [] ∧ (PCMGACycle_Private C pc H transpose).2 = ev.ierr) ∧
    (∀ i, solverCalls i (PCMGACycle_Private C pc H transpose).1.trace ≤ 1) ∧
    ((PCMGACycle_Private C pc H transpose).2 ≠ 0 →
      ∃ pre ev, (PCMGACycle_Private C pc H transpose).1.trace = pre ++ [ev] ∧
        ev.ierr = (PCMGACycle_Private C pc H transpose).2) := by
  obtain ⟨ht, he⟩ := PCMGACycle_Private_trace C pc H transpose
  refine ⟨?_, ?_, ?_, ?_⟩
  · intro ev hev
    exact (mem_trace C pc H transpose (H 0).levels.toNat
      (Int.toNat_of_nonneg (by
        rcases Int.le_total 0 (H 0).levels with h | h
        · exact h
        · exfalso
          have e0 : (H 0).levels.toNat = 0 := Int.toNat_eq_zero.2 h
          rw [ht, e0] at hev
          simp [cycleEvents, downFrom, loopEvents, upToFailure] at hev)).symm ev hev).1
  · intro pre ev post h hne
    rw [ht] at h
    rw [he]
    exact upToFailure_split _ pre post ev h hne
  · exact fun i => solverCalls_trace C pc H transpose i
  · intro hne
    rw [ht, he]
    rw [he] at hne
    exact upToFailure_last _ hne

set_option maxRecDepth 100000 in
/-- Witness of C2: with a singular operator on level `1` of three levels the
solve of level `1` fails with code `71`; the cycle returns `71` and the failed
solve is its last call. -/
theorem failure_propagates_witness :
    (PCMGACycle_Private scalarCollab () brokenLevels false).2 = 71 ∧
    (PCMGACycle_Private scalarCollab () brokenLevels false).1.trace.getLast? =
      some ⟨1, .KSPSolve 0 16 0, 71⟩ ∧
    solverCalls 2 (PCMGACycle_Private scalarCollab () brokenLevels false).1.trace = 0 ∧
    ∀ pre ev post, (PCMGACycle_Private scalarCollab () brokenLevels false).1.trace
        = pre ++ ev :: post → ev.ierr ≠ 0 → post = [] ∧ (71 : Int) = ev.ierr :=
  ⟨by decide, by decide, by decide,
    (failure_propagates scalarCollab () brokenLevels false).2.1⟩

/-! ## The frame of the cycle -/

theorem runAll_preserves (P : (Nat → PC_MG_Levels Mat KSP Vec) → Prop)
    (ms : List (Stmt Mat KSP Vec PC Scalar))
    (h : ∀ m ∈ ms, ∀ s, P s.mglevels → P (m s).1.mglevels)
    (s : MGState Mat KSP Vec PC Scalar) (hs : P s.mglevels) : P (runAll ms s).1.mglevels := by
  induction ms generalizing s with
  | nil => exact hs
  | cons m ms ih =>
    rw [runAll_cons]
    have hm := h m (List.mem_cons_self _ _) s hs
    by_cases h0 : (m s).2 = 0
    · rw [if_pos h0]
      exact ih (fun m2 hm2 => h m2 (List.mem_cons_of_mem _ hm2)) _ hm
    · rw [if_neg h0]
      exact hm

theorem forLoop_preserves (P : (Nat → PC_MG_Levels Mat KSP Vec) → Prop) (is : List Nat)
    (body : Nat → Stmt Mat KSP Vec PC Scalar)
    (h : ∀ i ∈ is, ∀ s, P s.mglevels → P (body i s).1.mglevels)
    (s : MGState Mat KSP Vec PC Scalar) (hs : P s.mglevels) :
    P (forLoop is body s).1.mglevels := by
  apply runAll_preserves P _ _ s hs
  intro m hm
  obtain ⟨i, hi, rfl⟩ := List.mem_map.1 hm
  exact h i hi

theorem frame_setb {l : Nat} {H mem : Nat → PC_MG_Levels Mat KSP Vec} (h : Frame l H mem)
    (k : Nat) (hk : k + 1 < l) (v : Vec) :
    Frame l H (Function.update mem k { mem k with b := v }) := by
  intro j
  by_cases hj : j = k
  · subst hj
    obtain ⟨h1, _, h3⟩ := h j
    simp only [Function.update_same]
    exact ⟨h1, fun h => absurd h (by omega), h3⟩
  · simpa [hj] using h j

theorem frame_setx {l : Nat} {H mem : Nat → PC_MG_Levels Mat KSP Vec} (h : Frame l H mem)
    (k : Nat) (hk : k < l) (v : Vec) :
    Frame l H (Function.update mem k { mem k with x := v }) := by
  intro j
  by_cases hj : j = k
  · subst hj
    obtain ⟨h1, h2, _⟩ := h j
    simp only [Function.update_same]
    exact ⟨h1, h2, fun h => absurd h (by omega)⟩
  · simpa [hj] using h j

theorem doLogEventBegin_mglevels (C : Collaborators Mat KSP Vec PC Scalar) (i : Nat)
    (event : PC_MG_Levels Mat KSP Vec → PetscLogEvent) (s : MGState Mat KSP Vec PC Scalar) :
    (doLogEventBegin C i event s).1.mglevels = s.mglevels := by
  simp only [doLogEventBegin]
  split_ifs <;> rfl

theorem doLogEventEnd_mglevels (C : Collaborators Mat KSP Vec PC Scalar) (i : Nat)
    (event : PC_MG_Levels Mat KSP Vec → PetscLogEvent) (s : MGState Mat KSP Vec PC Scalar) :
    (doLogEventEnd C i event s).1.mglevels = s.mglevels := by
  simp only [doLogEventEnd]
  split_ifs <;> rfl

theorem restrictBody_frame (C : Collaborators Mat KSP Vec PC Scalar) (transpose : Bool)
    (l : Nat) (H : Nat → PC_MG_Levels Mat KSP Vec) (i : Nat) (h1 : 1 ≤ i) (h2 : i < l)
    (s : MGState Mat KSP Vec PC Scalar) (hs : Frame l H s.mglevels) :
    Frame l H (restrictBody C transpose i s).1.mglevels := by
  apply runAll_preserves (Frame l H) _ _ s hs
  intro m hm s2 hs2
  simp only [List.mem_cons, List.mem_singleton, List.not_mem_nil, or_false] at hm
  rcases hm with rfl | rfl | rfl
  · rw [doLogEventBegin_mglevels]; exact hs2
  · cases transpose <;> exact frame_setb hs2 (i - 1) (by omega) _
  · rw [doLogEventEnd_mglevels]; exact hs2

theorem solveBody_frame [Zero Scalar] (C : Collaborators Mat KSP Vec PC Scalar) (pc : PC)
    (transpose : Bool) (l : Nat) (H : Nat → PC_MG_Levels Mat KSP Vec) (i : Nat) (h2 : i < l)
    (s : MGState Mat KSP Vec PC Scalar) (hs : Frame l H s.mglevels) :
    Frame l H (solveBody C pc transpose i s).1.mglevels := by
  apply runAll_preserves (Frame l H) _ _ s hs
  intro m hm s2 hs2
  simp only [List.mem_cons, List.mem_singleton, List.not_mem_nil, or_false] at hm
  rcases hm with rfl | rfl | rfl | rfl
  · exact frame_setx hs2 i h2 _
  · rw [doLogEventBegin_mglevels]; exact hs2
  · cases transpose
    · apply runAll_preserves (Frame l H) _ _ s2 hs2
      intro m hm s3 hs3
      simp only [List.mem_cons, List.mem_singleton, List.not_mem_nil, or_false] at hm
      rcases hm with rfl | rfl <;> exact frame_setx hs3 i h2 _
    · apply runAll_preserves (Frame l H) _ _ s2 hs2
      intro m hm s3 hs3
      simp only [List.mem_cons, List.mem_singleton, List.not_mem_nil, or_false] at hm
      rcases hm with rfl | rfl <;> exact frame_setx hs3 i h2 _
  · rw [doLogEventEnd_mglevels]; exact hs2

theorem interpBody_frame (C : Collaborators Mat KSP Vec PC Scalar) (transpose : Bool)
    (l : Nat) (H : Nat → PC_MG_Levels Mat KSP Vec) (i : Nat) (h2 : i < l)
    (s : MGState Mat KSP Vec PC Scalar) (hs : Frame l H s.mglevels) :
    Frame l H (interpBody C transpose i s).1.mglevels := by
  apply runAll_preserves (Frame l H) _ _ s hs
  intro m hm s2 hs2
  simp only [List.mem_cons, List.mem_singleton, List.not_mem_nil, or_false] at hm
  rcases hm with rfl | rfl | rfl
  · rw [doLogEventBegin_mglevels]; exact hs2
  · cases transpose <;> exact frame_setx hs2 i h2 _
  · rw [doLogEventEnd_mglevels]; exact hs2

theorem cycleWithOrder_frame [Zero Scalar] (C : Collaborators Mat KSP Vec PC Scalar) (pc : PC)
    (transpose : Bool) (l : Nat) (order : List Nat) (hmem : ∀ j ∈ order, j < l)
    (H : Nat → PC_MG_Levels Mat KSP Vec) :
    Frame l H (cycleWithOrder C pc transpose l order ⟨H, []⟩).1.mglevels := by
  have h0 : Frame l H H := fun j => ⟨rfl, fun _ => rfl, fun _ => rfl⟩
  apply runAll_preserves (Frame l H) _ _ ⟨H, []⟩ h0
  intro m hm s2 hs2
  simp only [List.mem_cons, List.mem_singleton, List.not_mem_nil, or_false] at hm
  rcases hm with rfl | rfl | rfl
  · apply forLoop_preserves (Frame l H) _ _ _ s2 hs2
    intro i hi s3 hs3
    have := (mem_downFrom _ _).1 hi
    exact restrictBody_frame C transpose l H i (by omega) (by omega) s3 hs3
  · apply forLoop_preserves (Frame l H) _ _ _ s2 hs2
    intro i hi s3 hs3
    exact solveBody_frame C pc transpose l H i (hmem i hi) s3 hs3
  · apply forLoop_preserves (Frame l H) _ _ _ s2 hs2
    intro i hi s3 hs3
    have := List.mem_range'_1.1 hi
    exact interpBody_frame C transpose l H i (by omega) s3 hs3

/-- Claim C10. For both values of `transpose`, on success and on failure,
`PCMGACycle_Private` leaves at every level the number of levels, the operator,
the matrices `restrct` and `interpolate`, the solver handles, the logging
events and the vector `r` as they were; it leaves `b` as it was at the finest
level (and above), and `x` as it was at every index that is not a level. -/
theorem cycle_frame [Zero Scalar] (C : Collaborators Mat KSP Vec PC Scalar) (pc : PC)
    (H : Nat → PC_MG_Levels Mat KSP Vec) (transpose : Bool) (j : Nat) :
    ((PCMGACycle_Private C pc H transpose).1.mglevels j).levels = (H j).levels ∧
    ((PCMGACycle_Private C pc H transpose).1.mglevels j).A = (H j).A ∧
    ((PCMGACycle_Private C pc H transpose).1.mglevels j).restrct = (H j).restrct ∧
    ((PCMGACycle_Private C pc H transpose).1.mglevels j).interpolate = (H j).interpolate ∧
    ((PCMGACycle_Private C pc H transpose).1.mglevels j).smoothd = (H j).smoothd ∧
    ((PCMGACycle_Private C pc H transpose).1.mglevels j).smoothu = (H j).smoothu ∧
    ((PCMGACycle_Private C pc H transpose).1.mglevels j).eventsmoothsolve
      = (H j).eventsmoothsolve ∧
    ((PCMGACycle_Private C pc H transpose).1.mglevels j).eventinterprestrict
      = (H j).eventinterprestrict ∧
    ((PCMGACycle_Private C pc H transpose).1.mglevels j).r = (H j).r ∧
    ((H 0).levels ≤ (j : Int) + 1 →
      ((PCMGACycle_Private C pc H transpose).1.mglevels j).b = (H j).b) ∧
    ((H 0).levels ≤ (j : Int) →
      ((PCMGACycle_Private C pc H transpose).1.mglevels j).x = (H j).x) := by
  obtain ⟨h1, h2, h3⟩ := cycleWithOrder_frame C pc transpose (H 0).levels.toNat
    (List.range (H 0).levels.toNat) (fun j hj => List.mem_range.1 hj) H j
  have e : (PCMGACycle_Private C pc H transpose).1.mglevels j =
      (cycleWithOrder C pc transpose (H 0).levels.toNat (List.range (H 0).levels.toNat)
        ⟨H, []⟩).1.mglevels j := rfl
  rw [e]
  refine ⟨?_, ?_, ?_, ?_, ?_, ?_, ?_, ?_, ?_, ?_, ?_⟩
  · have k := congrArg PC_MG_Levels.levels h1; exact k
  · have k := congrArg PC_MG_Levels.A h1; exact k
  · have k := congrArg PC_MG_Levels.restrct h1; exact k
  · have k := congrArg PC_MG_Levels.interpolate h1; exact k
  · have k := congrArg PC_MG_Levels.smoothd h1; exact k
  · have k := congrArg PC_MG_Levels.smoothu h1; exact k
  · have k := congrArg PC_MG_Levels.eventsmoothsolve h1; exact k
  · have k := congrArg PC_MG_Levels.eventinterprestrict h1; exact k
  · have k := congrArg PC_MG_Levels.r h1; exact k
  · intro h
    exact h2 (Int.toNat_le.2 (by push_cast; exact h))
  · intro h
    exact h3 (Int.toNat_le.2 h)

/-- Claim C3. In a hierarchy of one level a cycle calls neither `MatRestrict`
nor `MatInterpolateAdd`, solves level `0` at most once, leaves `b_0` as it
was, and on success leaves in `x_0` the result of the level solve on `b_0`.
In particular, for the operator `diag(4,4)`, `b = (4,8)` and a level-0 solver
that is exact (its result `y` satisfies `A y = b`, and `KSPCheckSolve` keeps
it), a successful cycle returns `x = (1,2)`. -/
theorem single_level_cycle :
    (∀ (Mat KSP Vec PC Scalar : Type) [Zero Scalar] (C : Collaborators Mat KSP Vec PC Scalar)
      (pc : PC) (H : Nat → PC_MG_Levels Mat KSP Vec) (transpose : Bool),
      (H 0).levels = 1 →
        (∀ ev ∈ (PCMGACycle_Private C pc H transpose).1.trace, ev.call.isTransfer = false) ∧
        solverCalls 0 (PCMGACycle_Private C pc H transpose).1.trace ≤ 1 ∧
        ((PCMGACycle_Private C pc H transpose).1.mglevels 0).b = (H 0).b ∧
        ((PCMGACycle_Private C pc H transpose).2 = 0 →
          ((PCMGACycle_Private C pc H transpose).1.mglevels 0).x =
            levelSolve C pc transpose (H 0))) ∧
    (∀ (KSP PC Scalar : Type) [Zero Scalar]
      (C : Collaborators (Matrix (Fin 2) (Fin 2) ℚ) KSP (Fin 2 → ℚ) PC Scalar)
      (pc : PC) (H : Nat → PC_MG_Levels (Matrix (Fin 2) (Fin 2) ℚ) KSP (Fin 2 → ℚ)),
      (H 0).levels = 1 → (H 0).A = Matrix.diagonal ![4, 4] → (H 0).b = ![4, 8] →
      (∀ b x0, (H 0).A.mulVec (C.KSPSolve (H 0).smoothd b x0).1 = b) →
      (∀ x, (C.KSPCheckSolve (H 0).smoothd pc x).1 = x) →
      (PCMGACycle_Private C pc H false).2 = 0 →
        ((PCMGACycle_Private C pc H false).1.mglevels 0).x = ![1, 2]) := by
  have gen : ∀ (Mat KSP Vec PC Scalar : Type) [Zero Scalar]
      (C : Collaborators Mat KSP Vec PC Scalar)
      (pc : PC) (H : Nat → PC_MG_Levels Mat KSP Vec) (transpose : Bool),
      (H 0).levels = 1 →
        ((PCMGACycle_Private C pc H transpose).1.mglevels 0).b = (H 0).b ∧
        ((PCMGACycle_Private C pc H transpose).2 = 0 →
          ((PCMGACycle_Private C pc H transpose).1.mglevels 0).x =
            levelSolve C pc transpose (H 0)) := by
    intro Mat KSP Vec PC Scalar _ C pc H transpose hl
    have hl1 : (H 0).levels = ((1 : Nat) : Int) := by simpa using hl
    have e : (H 0).levels.toNat = 1 := by rw [hl]; rfl
    constructor
    · have hf := (cycleWithOrder_frame C pc transpose (H 0).levels.toNat
        (List.range (H 0).levels.toNat) (fun j hj => List.mem_range.1 hj) H 0).2.1
      exact hf (by rw [e])
    · intro hok
      have hm := (PCMGACycle_Private_runs C pc H transpose 1 hl1).2.2 hok 0
      rw [hm, if_pos (by omega)]
      simp [levelX, levelSolveOn, levelRhs, restrictDown]
  refine ⟨?_, ?_⟩
  · intro Mat KSP Vec PC Scalar _ C pc H transpose hl
    have hl1 : (H 0).levels = ((1 : Nat) : Int) := by simpa using hl
    refine ⟨?_, ?_, gen Mat KSP Vec PC Scalar C pc H transpose hl⟩
    · intro ev hev
      obtain ⟨_, h2, h3, _⟩ := mem_trace C pc H transpose 1 hl1 ev hev
      cases h : ev.call.isTransfer
      · rfl
      · have := h3 h
        omega
    · exact solverCalls_trace C pc H transpose 0
  · intro KSP PC Scalar _ C pc H hl hA hb hexact hcheck hok
    rw [(gen _ KSP _ PC Scalar C pc H false hl).2 hok]
    have hx := hexact (H 0).b (zeroed C (H 0))
    simp only [levelSolve, solved, solveWith, smoother, Bool.not_false, if_true, hcheck]
    rw [hA, hb] at hx
    rw [hb]
    have h0 := congrFun hx 0
    have h1 := congrFun hx 1
    rw [Matrix.mulVec_diagonal] at h0 h1
    simp only [Matrix.cons_val_zero, Matrix.cons_val_one, Matrix.head_cons] at h0 h1
    funext i
    fin_cases i
    · show (C.KSPSolve (H 0).smoothd ![4, 8] (zeroed C (H 0))).1 0 = 1
      linarith
    · show (C.KSPSolve (H 0).smoothd ![4, 8] (zeroed C (H 0))).1 1 = 2
      linarith

/-- Witness of C3: the level with operator `diag(4,4)` and `b = (4,8)`, solved
by division by the diagonal, started from the guess `(9,9)`. -/
theorem single_level_cycle_witness :
    (diagLevel 0).levels = 1 ∧ (PCMGACycle_Private diagCollab () diagLevel false).2 = 0 ∧
      ((PCMGACycle_Private diagCollab () diagLevel false).1.mglevels 0).x = ![1, 2] := by
  have hok : (PCMGACycle_Private diagCollab () diagLevel false).2 = 0 := by
    simp [PCMGACycle_Private, cycleWithOrder, forLoop, downFrom, runAll_cons, solveBody,
      doVecSet, doLogEventBegin, doLogEventEnd, doKSPSolve, doKSPCheckSolve, diagLevel,
      diagCollab, MGState.log, MGState.setx, List.range_succ]
  refine ⟨rfl, hok, ?_⟩
  refine single_level_cycle.2 _ Unit ℚ diagCollab () diagLevel rfl rfl rfl ?_ (fun x => rfl) hok
  intro b x0
  funext i
  simp only [diagLevel, diagCollab, Matrix.mulVec_diagonal]
  fin_cases i
  · simp; ring
  · simp; ring

theorem solveCall_inj (transpose : Bool) (ksp ksp2 : KSP) (b b2 x x2 : Vec)
    (h : (solveCall transpose ksp b x : Call Mat KSP Vec PC Scalar) = .KSPSolve ksp2 b2 x2 ∨
      (solveCall transpose ksp b x : Call Mat KSP Vec PC Scalar)
        = .KSPSolveTranspose ksp2 b2 x2) :
    ksp = ksp2 ∧ b = b2 ∧ x = x2 := by
  cases transpose <;> rcases h with h | h <;>
    simp only [solveCall, Bool.not_false, Bool.not_true, if_true, Bool.false_eq_true,
      if_false, Call.KSPSolve.injEq, Call.KSPSolveTranspose.injEq, reduceCtorEq] at h <;>
    exact h

/-- The arguments of every solve call of a cycle over `l` levels. -/
theorem solve_arguments [Zero Scalar] (C : Collaborators Mat KSP Vec PC Scalar) (pc : PC)
    (H : Nat → PC_MG_Levels Mat KSP Vec) (transpose : Bool) (l : Nat)
    (hl : (H 0).levels = (l : Int)) (ev : Event Mat KSP Vec PC Scalar)
    (hev : ev ∈ (PCMGACycle_Private C pc H transpose).1.trace) (ksp : KSP) (b x : Vec)
    (hc : ev.call = .KSPSolve ksp b x ∨ ev.call = .KSPSolveTranspose ksp b x) :
    ev.level < l ∧ ksp = smoother transpose (H ev.level) ∧
      b = levelRhs C transpose H l ev.level ∧ x = (C.VecSet (H ev.level).x 0).1 := by
  obtain ⟨_, h2, _, h4⟩ := mem_trace C pc H transpose l hl ev hev
  have hs : ev.call.isSolve = true := by rcases hc with h | h <;> rw [h] <;> rfl
  have h5 := h4 hs
  rw [h5] at hc
  obtain ⟨e1, e2, e3⟩ := solveCall_inj transpose _ _ _ _ _ _ hc
  exact ⟨h2, e1.symm, e2.symm, e3.symm⟩

/-- Claim C7. In a hierarchy of `l` levels, every solve call of the cycle at a
level `k` is made with the right-hand side `R_{k+1}(R_{k+2}(... R_{l-1}(b)))`,
where `b` is the `b` of the finest level and `R_i` is `MatRestrict` with the
restriction matrix of level `i` writing into `b` of level `i-1`.  The same
vector is the right-hand side in every hierarchy, and with any collaborators,
that have the same `MatRestrict`, number of levels, transfer matrices and `b`
vectors, whatever their solvers, `x` vectors and interpolation may be. -/
theorem rhs_is_restricted_finest [Zero Scalar] (C : Collaborators Mat KSP Vec PC Scalar)
    (pc : PC) (H : Nat → PC_MG_Levels Mat KSP Vec) (transpose : Bool) (l : Nat)
    (hl : (H 0).levels = (l : Int)) :
    (∀ ev ∈ (PCMGACycle_Private C pc H transpose).1.trace, ∀ ksp b x,
      ev.call = .KSPSolve ksp b x ∨ ev.call = .KSPSolveTranspose ksp b x →
      ev.level < l ∧
      b = restrictDown
        (fun i v => (C.MatRestrict (if !transpose then (H i).restrct else (H i).interpolate) v
          (H (i - 1)).b).1)
        ev.level (l - 1 - ev.level) (H (l - 1)).b) ∧
    (∀ (C2 : Collaborators Mat KSP Vec PC Scalar) (pc2 : PC)
      (H2 : Nat → PC_MG_Levels Mat KSP Vec),
      C2.MatRestrict = C.MatRestrict →
      (∀ j, (H2 j).levels = (H j).levels ∧ (H2 j).b = (H j).b ∧
        (H2 j).restrct = (H j).restrct ∧ (H2 j).interpolate = (H j).interpolate) →
      ∀ ev ∈ (PCMGACycle_Private C2 pc2 H2 transpose).1.trace, ∀ ksp b x,
        ev.call = .KSPSolve ksp b x ∨ ev.call = .KSPSolveTranspose ksp b x →
        b = restrictDown
          (fun i v => (C.MatRestrict (if !transpose then (H i).restrct else (H i).interpolate) v
            (H (i - 1)).b).1)
          ev.level (l - 1 - ev.level) (H (l - 1)).b) := by
  have key : ∀ (C2 : Collaborators Mat KSP Vec PC Scalar) (pc2 : PC)
      (H2 : Nat → PC_MG_Levels Mat KSP Vec), (H2 0).levels = (l : Int) →
      ∀ ev ∈ (PCMGACycle_Private C2 pc2 H2 transpose).1.trace, ∀ ksp b x,
      ev.call = .KSPSolve ksp b x ∨ ev.call = .KSPSolveTranspose ksp b x →
      ev.level < l ∧
      b = restrictDown
        (fun i v => (C2.MatRestrict (if !transpose then (H2 i).restrct else (H2 i).interpolate)
          v (H2 (i - 1)).b).1)
        ev.level (l - 1 - ev.level) (H2 (l - 1)).b := by
    intro C2 pc2 H2 hl2 ev hev ksp b x hc
    obtain ⟨h1, _, h3, _⟩ := solve_arguments C2 pc2 H2 transpose l hl2 ev hev ksp b x hc
    refine ⟨h1, ?_⟩
    rw [h3]
    simp only [levelRhs, h1, if_true]
    rfl
  refine ⟨key C pc H hl, ?_⟩
  intro C2 pc2 H2 hR hH ev hev ksp b x hc
  have h := (key C2 pc2 H2 (by rw [(hH 0).1, hl]) ev hev ksp b x hc).2
  rw [h, hR]
  have e1 : ∀ i, (H2 i).restrct = (H i).restrct := fun i => (hH i).2.2.1
  have e2 : ∀ i, (H2 i).interpolate = (H i).interpolate := fun i => (hH i).2.2.2
  have e3 : ∀ i, (H2 i).b = (H i).b := fun i => (hH i).2.1
  simp only [e1, e2, e3]

set_option maxRecDepth 100000 in
/-- Witness of C7: in the three levels the solve of level `0` is called with
`b_0 = 2 * (2 * 8)`. -/
theorem rhs_is_restricted_finest_witness :
    (threeLevels 0).levels = ((3 : Nat) : Int) ∧
    (⟨0, .KSPSolve 1 32 0, 0⟩ : Event Int Int Int Unit Int)
      ∈ (PCMGACycle_Private scalarCollab () threeLevels false).1.trace ∧
    (32 : Int) = restrictDown
      (fun i v => (scalarCollab.MatRestrict
        (if !false then (threeLevels i).restrct else (threeLevels i).interpolate) v
        (threeLevels (i - 1)).b).1) 0 (3 - 1 - 0) (threeLevels (3 - 1)).b :=
  ⟨rfl, by decide,
    ((rhs_is_restricted_finest scalarCollab () threeLevels false 3 rfl).1
      ⟨0, .KSPSolve 1 32 0, 0⟩ (by decide) 1 32 0 (Or.inl rfl)).2⟩

/-- Claim C8 (amended). In every cycle invocation every solve call, at the
finest level as at the levels below it, is made with `x` as `VecSet(x,0.0)`
left it: the solver of each level starts from the zeroed vector, not from the
content `x` had before the call. -/
theorem every_level_starts_zeroed [Zero Scalar] (C : Collaborators Mat KSP Vec PC Scalar)
    (pc : PC) (H : Nat → PC_MG_Levels Mat KSP Vec) (transpose : Bool)
    (ev : Event Mat KSP Vec PC Scalar)
    (hev : ev ∈ (PCMGACycle_Private C pc H transpose).1.trace) (ksp : KSP) (b x : Vec)
    (hc : ev.call = .KSPSolve ksp b x ∨ ev.call = .KSPSolveTranspose ksp b x) :
    (ev.level : Int) < (H 0).levels ∧ x = (C.VecSet (H ev.level).x 0).1 := by
  have hnn : 0 ≤ (H 0).levels := by
    rcases Int.le_total 0 (H 0).levels with h | h
    · exact h
    · exfalso
      have e0 : (H 0).levels.toNat = 0 := Int.toNat_eq_zero.2 h
      rw [(PCMGACycle_Private_trace C pc H transpose).1, e0] at hev
      simp [cycleEvents, downFrom, loopEvents, upToFailure] at hev
  obtain ⟨h1, _, _, h4⟩ := solve_arguments C pc H transpose (H 0).levels.toNat
    (Int.toNat_of_nonneg hnn).symm ev hev ksp b x hc
  exact ⟨by omega, h4⟩

set_option maxRecDepth 100000 in
/-- Witness of C8 (amended): the finest level of `warmPair` is solved from `0`. -/
theorem every_level_starts_zeroed_witness :
    (⟨1, .KSPSolve 1 7 0, 0⟩ : Event Int Int Int Unit Int)
      ∈ (PCMGACycle_Private scalarCollab () warmPair false).1.trace ∧
    (0 : Int) = (scalarCollab.VecSet (warmPair 1).x 0).1 :=
  ⟨by decide, (every_level_starts_zeroed scalarCollab () warmPair false
    ⟨1, .KSPSolve 1 7 0, 0⟩ (by decide) 1 7 0 (Or.inl rfl)).2⟩

set_option maxRecDepth 100000 in
/-- Counterexample to C8 as stated: on `warmPair` the caller leaves the guess
`5` in `x` of the finest level `1`, and the solve of level `1` is called with
`x = 0`; so it is not the case that every solve call of the finest level
receives the caller's `x`. -/
theorem finest_guess_kept_counterexample :
    (warmPair 0).levels = 2 ∧ (warmPair 1).x = 5 ∧
    ¬ (∀ ev ∈ (PCMGACycle_Private scalarCollab () warmPair false).1.trace, ∀ ksp b x,
        ev.level = 1 → ev.call = .KSPSolve ksp b x → x = (warmPair 1).x) := by
  refine ⟨rfl, rfl, ?_⟩
  intro h
  have h2 := h ⟨1, .KSPSolve 1 7 0, 0⟩ (by decide) 1 7 0 rfl rfl
  exact absurd h2 (by decide)

theorem firstError_append_eq_zero (a b : List (Event Mat KSP Vec PC Scalar)) :
    firstError (a ++ b) = 0 ↔ firstError a = 0 ∧ firstError b = 0 := by
  rw [firstError_append]
  by_cases h : firstError a = 0 <;> simp [h]

theorem firstError_flatMap_eq_zero (f : Nat → List (Event Mat KSP Vec PC Scalar))
    (is : List Nat) : firstError (is.flatMap f) = 0 ↔ ∀ i ∈ is, firstError (f i) = 0 := by
  induction is with
  | nil => simp [firstError]
  | cons i is ih => simp [List.flatMap_cons, firstError_append_eq_zero, ih]

theorem afterSolve_perm [Zero Scalar] (C : Collaborators Mat KSP Vec PC Scalar) (pc : PC)
    (transpose : Bool) (l : Nat) (order order2 : List Nat) (hnd : order.Nodup)
    (hnd2 : order2.Nodup) (hmem : ∀ j, j ∈ order ↔ j ∈ order2)
    (H : Nat → PC_MG_Levels Mat KSP Vec) :
    loopNext (solveNext C pc transpose) order
        (loopNext (restrictNext C transpose) (downFrom (l - 1)) H) =
      loopNext (solveNext C pc transpose) order2
        (loopNext (restrictNext C transpose) (downFrom (l - 1)) H) := by
  funext j
  rw [afterSolve_eq C pc transpose l order hnd, afterSolve_eq C pc transpose l order2 hnd2]
  simp only [hmem j]

theorem firstError_cycleEvents_perm [Zero Scalar] (C : Collaborators Mat KSP Vec PC Scalar)
    (pc : PC) (transpose : Bool) (l : Nat) (order order2 : List Nat) (hnd : order.Nodup)
    (hnd2 : order2.Nodup) (hmem : ∀ j, j ∈ order ↔ j ∈ order2)
    (H : Nat → PC_MG_Levels Mat KSP Vec) :
    firstError (cycleEvents C pc transpose l order H) = 0 ↔
      firstError (cycleEvents C pc transpose l order2 H) = 0 := by
  simp only [cycleEvents, firstError_append_eq_zero,
    loopEvents_solve C pc transpose order hnd, loopEvents_solve C pc transpose order2 hnd2,
    firstError_flatMap_eq_zero, afterSolve_perm C pc transpose l order order2 hnd hnd2 hmem H,
    hmem]

/-- Claim C4 (amended). For every hierarchy of `l` levels, both values of
`transpose` and every permutation `order` of the levels `0..l-1`: the cycle
whose second loop (zero `x_i`, solve level `i` on `b_i`) visits the levels in
the order `order`, between the unchanged first and third loops, returns success
exactly when `PCMGACycle_Private` does, and when they return success it leaves
the same vectors (the same `x`, and all else) at every level. -/
theorem solve_order_irrelevant [Zero Scalar] (C : Collaborators Mat KSP Vec PC Scalar)
    (pc : PC) (H : Nat → PC_MG_Levels Mat KSP Vec) (transpose : Bool) (l : Nat)
    (order : List Nat) (hl : (H 0).levels = (l : Int)) (hperm : order.Perm (List.range l)) :
    ((cycleWithOrder C pc transpose l order ⟨H, []⟩).2 = 0 ↔
      (PCMGACycle_Private C pc H transpose).2 = 0) ∧
    ((PCMGACycle_Private C pc H transpose).2 = 0 →
      ∀ j, ((cycleWithOrder C pc transpose l order ⟨H, []⟩).1.mglevels j).x =
          ((PCMGACycle_Private C pc H transpose).1.mglevels j).x ∧
        (cycleWithOrder C pc transpose l order ⟨H, []⟩).1.mglevels j =
          (PCMGACycle_Private C pc H transpose).1.mglevels j) := by
  have e : (H 0).levels.toNat = l := by rw [hl]; simp
  have hnd : order.Nodup := (hperm.nodup_iff).2 (List.nodup_range l)
  have hmem : ∀ j, j ∈ order ↔ j ∈ List.range l := fun j => hperm.mem_iff
  obtain ⟨_, p2, p3⟩ := runs_cycleWithOrder C pc transpose l order ⟨H, []⟩
  obtain ⟨_, q2, q3⟩ := runs_cycleWithOrder C pc transpose l (List.range l) ⟨H, []⟩
  have hiff : (cycleWithOrder C pc transpose l order ⟨H, []⟩).2 = 0 ↔
      (PCMGACycle_Private C pc H transpose).2 = 0 := by
    simp only [PCMGACycle_Private, e]
    rw [p2, q2]
    exact firstError_cycleEvents_perm C pc transpose l order (List.range l) hnd
      (List.nodup_range l) hmem H
  refine ⟨hiff, ?_⟩
  intro hok j
  have hok2 := hiff.2 hok
  have key : (cycleWithOrder C pc transpose l order ⟨H, []⟩).1.mglevels j =
      (PCMGACycle_Private C pc H transpose).1.mglevels j := by
    simp only [PCMGACycle_Private, e] at hok ⊢
    rw [p3 (by rw [← p2]; exact hok2), q3 (by rw [← q2]; exact hok)]
    show cycleNext C pc transpose l order H j = cycleNext C pc transpose l (List.range l) H j
    rw [cycleNext_eq C pc transpose l order hnd (fun j => (hmem j).trans List.mem_range) H j,
      cycleNext_eq C pc transpose l (List.range l) (List.nodup_range l)
        (fun j => List.mem_range) H j]
  exact ⟨by rw [key], key⟩

set_option maxRecDepth 100000 in
/-- Witness of C4: the three levels solved in the order `2, 0, 1`. -/
theorem solve_order_irrelevant_witness :
    (threeLevels 0).levels = ((3 : Nat) : Int) ∧ [2, 0, 1].Perm (List.range 3) ∧
    (PCMGACycle_Private scalarCollab () threeLevels false).2 = 0 ∧
    ((cycleWithOrder scalarCollab () false 3 [2, 0, 1] ⟨threeLevels, []⟩).1.mglevels 2).x =
      ((PCMGACycle_Private scalarCollab () threeLevels false).1.mglevels 2).x ∧
    ((PCMGACycle_Private scalarCollab () threeLevels false).1.mglevels 2).x = 314 :=
  ⟨rfl, by decide, by decide,
    ((solve_order_irrelevant scalarCollab () threeLevels false 3 [2, 0, 1] rfl (by decide)).2
      (by decide) 2).1, by decide⟩

set_option maxRecDepth 100000 in
/-- Counterexample to C4 as stated: on `brokenLevels` the solve of level `1`
fails with code `71`. In the order `0, 1, 2` of `PCMGACycle_Private` the cycle
stops there and level `2` keeps `x = 5`; in the order `2, 0, 1` level `2` has
been solved before the failure and holds `x = 2`. Both runs return `71`, and
the final `x` is not the same at every level. -/
theorem failed_run_keeps_order_counterexample :
    (brokenLevels 0).levels = ((3 : Nat) : Int) ∧ [2, 0, 1].Perm (List.range 3) ∧
    (PCMGACycle_Private scalarCollab () brokenLevels false).2 = 71 ∧
    (cycleWithOrder scalarCollab () false 3 [2, 0, 1] ⟨brokenLevels, []⟩).2 = 71 ∧
    ((PCMGACycle_Private scalarCollab () brokenLevels false).1.mglevels 2).x = 5 ∧
    ((cycleWithOrder scalarCollab () false 3 [2, 0, 1] ⟨brokenLevels, []⟩).1.mglevels 2).x = 2 ∧
    ¬ (∀ j, ((cycleWithOrder scalarCollab () false 3 [2, 0, 1] ⟨brokenLevels, []⟩).1.mglevels j).x =
        ((PCMGACycle_Private scalarCollab () brokenLevels false).1.mglevels j).x) := by
  refine ⟨rfl, by decide, by decide, by decide, by decide, by decide, ?_⟩
  intro h
  exact absurd (h 2) (by decide)

/-- Claim C9 (amended). Let the level solvers be exact for the operators
`A_i` (the solve returns the vector with zero residual, whatever iterate it
is started from, so it leaves a converged iterate as it is) and let
`KSPCheckSolve` keep the iterate.  If before the cycle `b_i - A_i x_i = 0` at
every level, then after a successful cycle of `PCMGACycle_Private` the finest
`x` is what `MatInterpolateAdd` makes of its value before the cycle and the
final `x` of the next coarser level (the interpolated coarse correction is
added to it); in a hierarchy of one level it equals its value before the
cycle. -/
theorem zero_residual_cycle [Zero Scalar] [AddCommGroup Vec]
    (C : Collaborators Mat KSP Vec PC Scalar) (pc : PC)
    (H : Nat → PC_MG_Levels Mat KSP Vec) (l : Nat) (mul : Mat → Vec → Vec)
    (hl : (H 0).levels = (l : Int)) (h1 : 1 ≤ l)
    (hexact : ∀ i, i < l → ∀ v x0 y, v - mul (H i).A y = 0 →
      (C.KSPSolve (H i).smoothd v x0).1 = y)
    (hcheck : ∀ i, i < l → ∀ x, (C.KSPCheckSolve (H i).smoothd pc x).1 = x)
    (hres : ∀ i, i < l → (H i).b - mul (H i).A (H i).x = 0)
    (hok : (PCMGACycle_Private C pc H false).2 = 0) :
    (l = 1 → ((PCMGACycle_Private C pc H false).1.mglevels 0).x = (H 0).x) ∧
    (2 ≤ l → ((PCMGACycle_Private C pc H false).1.mglevels (l - 1)).x =
      (C.MatInterpolateAdd (H (l - 1)).interpolate
        ((PCMGACycle_Private C pc H false).1.mglevels (l - 2)).x
        (H (l - 1)).x (H (l - 1)).x).1) := by
  have hm := (PCMGACycle_Private_runs C pc H false l hl).2.2 hok
  have hx : ∀ i, i < l → ((PCMGACycle_Private C pc H false).1.mglevels i).x
      = levelX C pc false H l i := by
    intro i hi; rw [hm i, if_pos hi]
  have hs : levelSolveOn C pc false H (l - 1) (levelRhs C false H l (l - 1)) = (H (l - 1)).x := by
    rw [levelRhs_finest C false H l h1]
    simp only [levelSolveOn, levelSolve, solved, solveWith, smoother, Bool.not_false, if_true]
    rw [hcheck (l - 1) (by omega), hexact (l - 1) (by omega) _ _ _ (hres (l - 1) (by omega))]
  constructor
  · intro h
    subst h
    rw [hx 0 (by omega)]
    exact hs
  · intro h2
    obtain ⟨k, rfl⟩ : ∃ k, l = k + 2 := ⟨l - 2, by omega⟩
    rw [hx _ (by omega), hx _ (by omega)]
    have e1 : k + 2 - 1 = k + 1 := by omega
    have e2 : k + 2 - 2 = k := by omega
    rw [e1] at hs
    rw [e1, e2, levelX, hs]
    rfl

set_option maxRecDepth 100000 in
/-- Witness of C9 (amended): on `convergedPair` the finest `x` goes from `1`
to `1 + 1 * 1`. -/
theorem zero_residual_cycle_witness :
    (convergedPair 0).levels = ((2 : Nat) : Int) ∧
    (PCMGACycle_Private scalarCollab () convergedPair false).2 = 0 ∧
    ((PCMGACycle_Private scalarCollab () convergedPair false).1.mglevels (2 - 1)).x =
      (scalarCollab.MatInterpolateAdd (convergedPair (2 - 1)).interpolate
        ((PCMGACycle_Private scalarCollab () convergedPair false).1.mglevels (2 - 2)).x
        (convergedPair (2 - 1)).x (convergedPair (2 - 1)).x).1 := by
  have hA : ∀ i, i < 2 → (convergedPair i).A = 1 ∧ (convergedPair i).smoothd = 1 ∧
      (convergedPair i).b = (convergedPair i).x := by
    intro i hi
    interval_cases i <;> exact ⟨rfl, rfl, rfl⟩
  refine ⟨rfl, by decide, (zero_residual_cycle scalarCollab () convergedPair 2
    (fun a v => a * v) rfl (by decide) ?_ (fun _ _ _ => rfl) ?_ (by decide)).2 (by decide)⟩
  · intro i hi v x0 y hy
    obtain ⟨h1, h2, _⟩ := hA i hi
    rw [h1] at hy
    rw [h2]
    have e : v = y := by simp only at hy; linarith
    subst e
    simp [scalarCollab]
  · intro i hi
    obtain ⟨h1, _, h3⟩ := hA i hi
    rw [h1, h3]
    simp

set_option maxRecDepth 100000 in
/-- Counterexample to C9 as stated: on `convergedPair` (two levels, identity
operators and transfers, exact solvers) the residual `b - A x` is zero at both
levels before the cycle, the cycle succeeds, and the finest `x` goes from `1`
to `2`. -/
theorem zero_residual_unchanged_counterexample :
    (convergedPair 0).levels = 2 ∧
    (∀ i, i < 2 → (convergedPair i).b - (convergedPair i).A * (convergedPair i).x = 0) ∧
    (∀ i, i < 2 → ∀ v x0 y : Int, v - (convergedPair i).A * y = 0 →
      scalarCollab.KSPSolve (convergedPair i).smoothd v x0 = (y, 0)) ∧
    (∀ i, i < 2 → ∀ v x0 : Int, v - (convergedPair i).A * x0 = 0 →
      scalarCollab.KSPSolve (convergedPair i).smoothd v x0 = (x0, 0)) ∧
    (PCMGACycle_Private scalarCollab () convergedPair false).2 = 0 ∧
    (convergedPair 1).x = 1 ∧
    ((PCMGACycle_Private scalarCollab () convergedPair false).1.mglevels 1).x = 2 := by
  have hA : ∀ i, i < 2 → (convergedPair i).A = 1 ∧ (convergedPair i).smoothd = 1 ∧
      (convergedPair i).b = (convergedPair i).x := by
    intro i hi
    interval_cases i <;> exact ⟨rfl, rfl, rfl⟩
  have hsolve : ∀ i, i < 2 → ∀ v x0 y : Int, v - (convergedPair i).A * y = 0 →
      scalarCollab.KSPSolve (convergedPair i).smoothd v x0 = (y, 0) := by
    intro i hi v x0 y hy
    obtain ⟨h1, h2, _⟩ := hA i hi
    rw [h1] at hy
    rw [h2]
    have e : v = y := by linarith
    subst e
    simp [scalarCollab]
  refine ⟨rfl, ?_, hsolve, fun i hi v x0 h => hsolve i hi v x0 x0 h, by decide, rfl, by decide⟩
  intro i hi
  obtain ⟨h1, _, h3⟩ := hA i hi
  rw [h1, h3]
  simp

/-! ## Corresponding runs -/

section Sim

variable {Mat2 KSP2 PC2 : Type}

theorem sim_runAll {H : Nat → PC_MG_Levels Mat KSP Vec}
    {H2 : Nat → PC_MG_Levels Mat2 KSP2 Vec} {ms : List (Stmt Mat KSP Vec PC Scalar)}
    {ms2 : List (Stmt Mat2 KSP2 Vec PC2 Scalar)} (h : List.Forall₂ (SimStmt H H2) ms ms2) :
    SimStmt H H2 (runAll ms) (runAll ms2) := by
  induction h with
  | nil => exact fun s s2 hs => ⟨hs, rfl⟩
  | cons hm _ ih =>
    intro s s2 hs
    obtain ⟨h1, h2⟩ := hm s s2 hs
    rw [runAll_cons, runAll_cons, h2]
    split_ifs
    · exact ih _ _ h1
    · exact ⟨h1, h2⟩

theorem sim_forLoop {H : Nat → PC_MG_Levels Mat KSP Vec}
    {H2 : Nat → PC_MG_Levels Mat2 KSP2 Vec} {body : Nat → Stmt Mat KSP Vec PC Scalar}
    {body2 : Nat → Stmt Mat2 KSP2 Vec PC2 Scalar} (h : ∀ i, SimStmt H H2 (body i) (body2 i))
    (is : List Nat) : SimStmt H H2 (forLoop is body) (forLoop is body2) := by
  apply sim_runAll
  induction is with
  | nil => exact List.Forall₂.nil
  | cons i is ih => exact List.Forall₂.cons (h i) ih

theorem sameHandles_setb {H mem : Nat → PC_MG_Levels Mat KSP Vec} (h : SameHandles H mem)
    (k : Nat) (v : Vec) : SameHandles H (Function.update mem k { mem k with b := v }) := by
  intro j
  by_cases hj : j = k
  · subst hj; simpa using h j
  · simpa [hj] using h j

theorem sameHandles_setx {H mem : Nat → PC_MG_Levels Mat KSP Vec} (h : SameHandles H mem)
    (k : Nat) (v : Vec) : SameHandles H (Function.update mem k { mem k with x := v }) := by
  intro j
  by_cases hj : j = k
  · subst hj; simpa using h j
  · simpa [hj] using h j

theorem sameHandles_fields {H mem : Nat → PC_MG_Levels Mat KSP Vec} (h : SameHandles H mem)
    (j : Nat) (tr : Bool) :
    (mem j).eventsmoothsolve = (H j).eventsmoothsolve ∧
    (mem j).eventinterprestrict = (H j).eventinterprestrict ∧
    restrictMat tr (mem j) = restrictMat tr (H j) ∧
    interpMat tr (mem j) = interpMat tr (H j) ∧
    smoother tr (mem j) = smoother tr (H j) := by
  have h1 := congrArg PC_MG_Levels.eventsmoothsolve (h j)
  have h2 := congrArg PC_MG_Levels.eventinterprestrict (h j)
  have h3 := congrArg PC_MG_Levels.restrct (h j)
  have h4 := congrArg PC_MG_Levels.interpolate (h j)
  have h5 := congrArg PC_MG_Levels.smoothd (h j)
  have h6 := congrArg PC_MG_Levels.smoothu (h j)
  simp only at h1 h2 h3 h4 h5 h6
  cases tr <;> simp [restrictMat, interpMat, smoother, h1, h2, h3, h4, h5, h6]

theorem inStep_setb {H : Nat → PC_MG_Levels Mat KSP Vec} {H2 : Nat → PC_MG_Levels Mat2 KSP2 Vec}
    {s : MGState Mat KSP Vec PC Scalar} {s2 : MGState Mat2 KSP2 Vec PC2 Scalar}
    (h : InStep H H2 s s2) (k i : Nat) (v : Vec) (c : Call Mat KSP Vec PC Scalar)
    (c2 : Call Mat2 KSP2 Vec PC2 Scalar) (e : PetscErrorCode) (hc : c2.step = c.step) :
    InStep H H2 ((s.setb k v).log i c e) ((s2.setb k v).log i c2 e) := by
  obtain ⟨h1, h2, h3, h4⟩ := h
  refine ⟨sameHandles_setb h1 k v, sameHandles_setb h2 k v, fun j => ?_, ?_⟩
  · by_cases hj : j = k
    · subst hj; simpa [MGState.setb, MGState.log] using (h3 j).2
    · simpa [MGState.setb, MGState.log, hj] using h3 j
  · simp [MGState.setb, MGState.log, h4, Event.step, hc]

theorem inStep_setx {H : Nat → PC_MG_Levels Mat KSP Vec} {H2 : Nat → PC_MG_Levels Mat2 KSP2 Vec}
    {s : MGState Mat KSP Vec PC Scalar} {s2 : MGState Mat2 KSP2 Vec PC2 Scalar}
    (h : InStep H H2 s s2) (k i : Nat) (v : Vec) (c : Call Mat KSP Vec PC Scalar)
    (c2 : Call Mat2 KSP2 Vec PC2 Scalar) (e : PetscErrorCode) (hc : c2.step = c.step) :
    InStep H H2 ((s.setx k v).log i c e) ((s2.setx k v).log i c2 e) := by
  obtain ⟨h1, h2, h3, h4⟩ := h
  refine ⟨sameHandles_setx h1 k v, sameHandles_setx h2 k v, fun j => ?_, ?_⟩
  · by_cases hj : j = k
    · subst hj; simpa [MGState.setx, MGState.log] using (h3 j).1
    · simpa [MGState.setx, MGState.log, hj] using h3 j
  · simp [MGState.setx, MGState.log, h4, Event.step, hc]

theorem sim_logBegin {H : Nat → PC_MG_Levels Mat KSP Vec}
    {H2 : Nat → PC_MG_Levels Mat2 KSP2 Vec} (C : Collaborators Mat KSP Vec PC Scalar)
    (C2 : Collaborators Mat2 KSP2 Vec PC2 Scalar)
    (hlog : C2.PetscLogEventBegin = C.PetscLogEventBegin) (i : Nat)
    (ev : PC_MG_Levels Mat KSP Vec → PetscLogEvent)
    (ev2 : PC_MG_Levels Mat2 KSP2 Vec → PetscLogEvent)
    (hev : ∀ (s : MGState Mat KSP Vec PC Scalar) (s2 : MGState Mat2 KSP2 Vec PC2 Scalar),
      InStep H H2 s s2 → ev2 (s2.mglevels i) = ev (s.mglevels i)) :
    SimStmt H H2 (doLogEventBegin C i ev) (doLogEventBegin C2 i ev2) := by
  intro s s2 hs
  simp only [doLogEventBegin, hev s s2 hs, hlog]
  split_ifs
  · exact ⟨hs, rfl⟩
  · obtain ⟨h1, h2, h3, h4⟩ := hs
    exact ⟨⟨h1, h2, h3, by simp [MGState.log, h4, Event.step, Call.step]⟩, rfl⟩

theorem sim_logEnd {H : Nat → PC_MG_Levels Mat KSP Vec}
    {H2 : Nat → PC_MG_Levels Mat2 KSP2 Vec} (C : Collaborators Mat KSP Vec PC Scalar)
    (C2 : Collaborators Mat2 KSP2 Vec PC2 Scalar)
    (hlog : C2.PetscLogEventEnd = C.PetscLogEventEnd) (i : Nat)
    (ev : PC_MG_Levels Mat KSP Vec → PetscLogEvent)
    (ev2 : PC_MG_Levels Mat2 KSP2 Vec → PetscLogEvent)
    (hev : ∀ (s : MGState Mat KSP Vec PC Scalar) (s2 : MGState Mat2 KSP2 Vec PC2 Scalar),
      InStep H H2 s s2 → ev2 (s2.mglevels i) = ev (s.mglevels i)) :
    SimStmt H H2 (doLogEventEnd C i ev) (doLogEventEnd C2 i ev2) := by
  intro s s2 hs
  simp only [doLogEventEnd, hev s s2 hs, hlog]
  split_ifs
  · exact ⟨hs, rfl⟩
  · obtain ⟨h1, h2, h3, h4⟩ := hs
    exact ⟨⟨h1, h2, h3, by simp [MGState.log, h4, Event.step, Call.step]⟩, rfl⟩

theorem inStep_events {H : Nat → PC_MG_Levels Mat KSP Vec}
    {H2 : Nat → PC_MG_Levels Mat2 KSP2 Vec} {C : Collaborators Mat KSP Vec PC Scalar}
    {C2 : Collaborators Mat2 KSP2 Vec PC2 Scalar} {pc : PC} {pc2 : PC2} {tr tr2 : Bool}
    (hc : Corresponds C C2 pc pc2 H H2 tr tr2) {s : MGState Mat KSP Vec PC Scalar}
    {s2 : MGState Mat2 KSP2 Vec PC2 Scalar} (hs : InStep H H2 s s2) (i : Nat) :
    (s2.mglevels i).eventsmoothsolve = (s.mglevels i).eventsmoothsolve ∧
    (s2.mglevels i).eventinterprestrict = (s.mglevels i).eventinterprestrict := by
  obtain ⟨a1, a2, _⟩ := sameHandles_fields hs.1 i tr
  obtain ⟨b1, b2, _⟩ := sameHandles_fields hs.2.1 i tr2
  rw [a1, a2, b1, b2]
  exact hc.events i

theorem sim_restrictBody {H : Nat → PC_MG_Levels Mat KSP Vec}
    {H2 : Nat → PC_MG_Levels Mat2 KSP2 Vec} {C : Collaborators Mat KSP Vec PC Scalar}
    {C2 : Collaborators Mat2 KSP2 Vec PC2 Scalar} {pc : PC} {pc2 : PC2} {tr tr2 : Bool}
    (hc : Corresponds C C2 pc pc2 H H2 tr tr2) (i : Nat) :
    @SimStmt Mat KSP Vec PC Scalar Mat2 KSP2 PC2 H H2 (restrictBody C tr i) (restrictBody C2 tr2 i) := by
  have e1 : PCMG.restrictBody C tr i = PCMG.runAll [doLogEventBegin C i (fun L => L.eventinterprestrict),
      doMatRestrict C i (restrictMat tr), doLogEventEnd C i (fun L => L.eventinterprestrict)] := by
    cases tr <;> rfl
  have e2 : PCMG.restrictBody C2 tr2 i = PCMG.runAll [doLogEventBegin C2 i (fun L => L.eventinterprestrict),
      doMatRestrict C2 i (restrictMat tr2), doLogEventEnd C2 i (fun L => L.eventinterprestrict)] := by
    cases tr2 <;> rfl
  rw [e1, e2]
  refine sim_runAll (List.Forall₂.cons ?_ (List.Forall₂.cons ?_ (List.Forall₂.cons ?_
    List.Forall₂.nil)))
  · exact sim_logBegin C C2 hc.logBegin i _ _ (fun s s2 hs => (inStep_events hc hs i).2)
  · intro s s2 hs
    have hb := hs.2.2.1
    simp only [doMatRestrict, (hb i).1, (hb (i - 1)).1, (sameHandles_fields hs.1 i tr).2.2.1,
      (sameHandles_fields hs.2.1 i tr2).2.2.1, hc.restrict]
    exact ⟨inStep_setb hs (i - 1) i _ _ _ _ rfl, trivial⟩
  · exact sim_logEnd C C2 hc.logEnd i _ _ (fun s s2 hs => (inStep_events hc hs i).2)

theorem sim_interpBody {H : Nat → PC_MG_Levels Mat KSP Vec}
    {H2 : Nat → PC_MG_Levels Mat2 KSP2 Vec} {C : Collaborators Mat KSP Vec PC Scalar}
    {C2 : Collaborators Mat2 KSP2 Vec PC2 Scalar} {pc : PC} {pc2 : PC2} {tr tr2 : Bool}
    (hc : Corresponds C C2 pc pc2 H H2 tr tr2) (i : Nat) :
    @SimStmt Mat KSP Vec PC Scalar Mat2 KSP2 PC2 H H2 (interpBody C tr i) (interpBody C2 tr2 i) := by
  have e1 : PCMG.interpBody C tr i = PCMG.runAll [doLogEventBegin C i (fun L => L.eventinterprestrict),
      doMatInterpolateAdd C i (interpMat tr),
      doLogEventEnd C i (fun L => L.eventinterprestrict)] := by
    cases tr <;> rfl
  have e2 : PCMG.interpBody C2 tr2 i = PCMG.runAll [doLogEventBegin C2 i (fun L => L.eventinterprestrict),
      doMatInterpolateAdd C2 i (interpMat tr2),
      doLogEventEnd C2 i (fun L => L.eventinterprestrict)] := by
    cases tr2 <;> rfl
  rw [e1, e2]
  refine sim_runAll (List.Forall₂.cons ?_ (List.Forall₂.cons ?_ (List.Forall₂.cons ?_
    List.Forall₂.nil)))
  · exact sim_logBegin C C2 hc.logBegin i _ _ (fun s s2 hs => (inStep_events hc hs i).2)
  · intro s s2 hs
    have hb := hs.2.2.1
    simp only [doMatInterpolateAdd, (hb i).2, (hb (i - 1)).2, (sameHandles_fields hs.1 i tr).2.2.2.1,
      (sameHandles_fields hs.2.1 i tr2).2.2.2.1, hc.interp]
    exact ⟨inStep_setx hs i i _ _ _ _ rfl, trivial⟩
  · exact sim_logEnd C C2 hc.logEnd i _ _ (fun s s2 hs => (inStep_events hc hs i).2)

theorem solveStmt_eq (C : Collaborators Mat KSP Vec PC Scalar) (pc : PC) (tr : Bool) (i : Nat) :
    (if !tr then PCMG.runAll [doKSPSolve C i, doKSPCheckSolve C pc i (fun L => L.smoothd)]
      else PCMG.runAll [doKSPSolveTranspose C i, doKSPCheckSolve C pc i (fun L => L.smoothu)]) =
    PCMG.runAll [fun s =>
      ((s.setx i (solveWith C tr (smoother tr (s.mglevels i)) (s.mglevels i).b
          (s.mglevels i).x).1).log i
        (solveCall tr (smoother tr (s.mglevels i)) (s.mglevels i).b (s.mglevels i).x)
        (solveWith C tr (smoother tr (s.mglevels i)) (s.mglevels i).b (s.mglevels i).x).2,
       (solveWith C tr (smoother tr (s.mglevels i)) (s.mglevels i).b (s.mglevels i).x).2),
      doKSPCheckSolve C pc i (smoother tr)] := by
  cases tr <;> rfl

theorem solveCall_step (tr : Bool) (ksp : KSP) (b x : Vec) :
    (solveCall tr ksp b x : Call Mat KSP Vec PC Scalar).step = .solve b x := by
  cases tr <;> rfl

theorem sim_solveBody [Zero Scalar] {H : Nat → PC_MG_Levels Mat KSP Vec}
    {H2 : Nat → PC_MG_Levels Mat2 KSP2 Vec} {C : Collaborators Mat KSP Vec PC Scalar}
    {C2 : Collaborators Mat2 KSP2 Vec PC2 Scalar} {pc : PC} {pc2 : PC2} {tr tr2 : Bool}
    (hc : Corresponds C C2 pc pc2 H H2 tr tr2) (i : Nat) :
    SimStmt H H2 (solveBody C pc tr i) (solveBody C2 pc2 tr2 i) := by
  simp only [PCMG.solveBody, solveStmt_eq]
  refine sim_runAll (List.Forall₂.cons ?_ (List.Forall₂.cons ?_ (List.Forall₂.cons ?_
    (List.Forall₂.cons ?_ List.Forall₂.nil))))
  · intro s s2 hs
    simp only [doVecSet, (hs.2.2.1 i).2, hc.vecSet]
    exact ⟨inStep_setx hs i i _ _ _ _ rfl, trivial⟩
  · exact sim_logBegin C C2 hc.logBegin i _ _ (fun s s2 hs => (inStep_events hc hs i).1)
  · refine sim_runAll (List.Forall₂.cons ?_ (List.Forall₂.cons ?_ List.Forall₂.nil))
    · intro s s2 hs
      have hb := hs.2.2.1
      simp only [(hb i).1, (hb i).2, (sameHandles_fields hs.1 i tr).2.2.2.2,
        (sameHandles_fields hs.2.1 i tr2).2.2.2.2, hc.solve]
      exact ⟨inStep_setx hs i i _ _ _ _ (by rw [solveCall_step, solveCall_step]), trivial⟩
    · intro s s2 hs
      have hb := hs.2.2.1
      simp only [doKSPCheckSolve, (hb i).2, (sameHandles_fields hs.1 i tr).2.2.2.2,
        (sameHandles_fields hs.2.1 i tr2).2.2.2.2, hc.check]
      exact ⟨inStep_setx hs i i _ _ _ _ rfl, trivial⟩
  · exact sim_logEnd C C2 hc.logEnd i _ _ (fun s s2 hs => (inStep_events hc hs i).1)

/-- Corresponding cycles return the same error code, leave the same `b` and
`x` at every level, and make the same steps in the same order. -/
theorem cycle_corresponds [Zero Scalar] {H : Nat → PC_MG_Levels Mat KSP Vec}
    {H2 : Nat → PC_MG_Levels Mat2 KSP2 Vec} {C : Collaborators Mat KSP Vec PC Scalar}
    {C2 : Collaborators Mat2 KSP2 Vec PC2 Scalar} {pc : PC} {pc2 : PC2} {tr tr2 : Bool}
    (hc : Corresponds C C2 pc pc2 H H2 tr tr2)
    (hlev : (H2 0).levels = (H 0).levels)
    (hvec : ∀ j, (H2 j).b = (H j).b ∧ (H2 j).x = (H j).x) :
    (PCMGACycle_Private C2 pc2 H2 tr2).2 = (PCMGACycle_Private C pc H tr).2 ∧
    InStep H H2 (PCMGACycle_Private C pc H tr).1 (PCMGACycle_Private C2 pc2 H2 tr2).1 := by
  have h0 : @InStep Mat KSP Vec PC Scalar Mat2 KSP2 PC2 H H2 ⟨H, []⟩ ⟨H2, []⟩ :=
    ⟨fun _ => rfl, fun _ => rfl, hvec, rfl⟩
  have hsim : SimStmt H H2
      (cycleWithOrder C pc tr (H 0).levels.toNat (List.range (H 0).levels.toNat))
      (cycleWithOrder C2 pc2 tr2 (H 0).levels.toNat (List.range (H 0).levels.toNat)) := by
    refine sim_runAll (List.Forall₂.cons ?_ (List.Forall₂.cons ?_ (List.Forall₂.cons ?_
      List.Forall₂.nil)))
    · exact sim_forLoop (fun i => sim_restrictBody hc i) _
    · exact sim_forLoop (fun i => sim_solveBody hc i) _
    · exact sim_forLoop (fun i => sim_interpBody hc i) _
  obtain ⟨h1, h2⟩ := hsim _ _ h0
  simp only [PCMGACycle_Private, hlev]
  exact ⟨h2, h1⟩

end Sim

theorem exchanged_of_sameHandles (H m m2 : Nat → PC_MG_Levels Mat KSP Vec)
    (h : SameHandles H m) (h2 : SameHandles (exchanged H) m2)
    (hbx : ∀ j, (m2 j).b = (m j).b ∧ (m2 j).x = (m j).x) (j : Nat) :
    m2 j = exchangedLevel (m j) := by
  have a := h j
  have b := h2 j
  have c := hbx j
  simp only [exchanged] at b
  generalize m j = L at a b c
  generalize m2 j = L2 at a b c
  generalize H j = L0 at a b c
  cases L
  cases L2
  cases L0
  simp only [exchangedLevel, PC_MG_Levels.mk.injEq] at a b c ⊢
  obtain ⟨a1, a2, a3, a4, a5, a6, _, a8, _, a10, a11⟩ := a
  obtain ⟨b1, b2, b3, b4, b5, b6, _, b8, _, b10, b11⟩ := b
  obtain ⟨c1, c2⟩ := c
  subst a1 a2 a3 a4 a5 a6 a8 a10 a11 b1 b2 b3 b4 b5 b6 b8 b10 b11 c1 c2
  exact ⟨rfl, rfl, rfl, rfl, rfl, rfl, rfl, rfl, rfl, rfl, rfl⟩

/-- Claim C5. For every hierarchy `H`, `PCMGACycle_Private` with `transpose = true`
on `H` and `PCMGACycle_Private` with `transpose = false` on the hierarchy that
has `restrct` and `interpolate` exchanged and `smoothu` in the place of
`smoothd` at every level, with the transpose solve in the place of `KSPSolve`,
return the same error code and leave the same levels (the same `b` and `x`,
the handles exchanged); their logs have the same length and show the same steps
(same level, same vectors, same error code) in the same order. -/
theorem transpose_is_exchanged [Zero Scalar] (C : Collaborators Mat KSP Vec PC Scalar)
    (pc : PC) (H : Nat → PC_MG_Levels Mat KSP Vec) :
    (PCMGACycle_Private C.exchanged pc (exchanged H) false).2
      = (PCMGACycle_Private C pc H true).2 ∧
    (∀ j, ((PCMGACycle_Private C.exchanged pc (exchanged H) false).1.mglevels j).x
        = ((PCMGACycle_Private C pc H true).1.mglevels j).x ∧
      ((PCMGACycle_Private C.exchanged pc (exchanged H) false).1.mglevels j).b
        = ((PCMGACycle_Private C pc H true).1.mglevels j).b ∧
      (PCMGACycle_Private C.exchanged pc (exchanged H) false).1.mglevels j
        = exchangedLevel ((PCMGACycle_Private C pc H true).1.mglevels j)) ∧
    (PCMGACycle_Private C.exchanged pc (exchanged H) false).1.trace.map Event.step
      = (PCMGACycle_Private C pc H true).1.trace.map Event.step ∧
    (PCMGACycle_Private C.exchanged pc (exchanged H) false).1.trace.length
      = (PCMGACycle_Private C pc H true).1.trace.length := by
  have hc : Corresponds C C.exchanged pc pc H (exchanged H) true false :=
    { logBegin := rfl, logEnd := rfl, vecSet := rfl, events := fun _ => ⟨rfl, rfl⟩,
      restrict := fun _ _ _ => rfl, solve := fun _ _ _ => rfl, check := fun _ _ => rfl,
      interp := fun _ _ _ _ => rfl }
  obtain ⟨h1, h2, h3, h4, h5⟩ := cycle_corresponds hc rfl (fun _ => ⟨rfl, rfl⟩)
  refine ⟨h1, fun j => ⟨(h4 j).2, (h4 j).1, ?_⟩, h5, ?_⟩
  · exact exchanged_of_sameHandles H _ _ h2 h3 h4 j
  · have := congrArg List.length h5
    simpa using this

theorem firstError_eq_zero (L : List (Event Mat KSP Vec PC Scalar))
    (h : ∀ ev ∈ L, ev.ierr = 0) : firstError L = 0 := by
  induction L with
  | nil => rfl
  | cons e es ih =>
    simp only [firstError, h e (List.mem_cons_self _ _), if_true]
    exact ih (fun ev hev => h ev (List.mem_cons_of_mem _ hev))

theorem linear_cycle_succeeds (K : Type) [Field K]
    (H : Nat → PC_MG_Levels (TransferMat K) (DenseMat K) (Nat → K)) (tr : Bool) :
    (PCMGACycle_Private (linearCollab K) () H tr).2 = 0 := by
  rw [(PCMGACycle_Private_trace (linearCollab K) () H tr).2]
  apply firstError_eq_zero
  intro ev hev
  rw [(mem_cycleEvents (linearCollab K) () tr _ _ (List.nodup_range _)
    (fun j hj => List.mem_range.1 hj) H ev hev).1]
  cases ev.call <;> rfl

/-- The restriction with the matrix `Pᵀ` of the transposed level is the
restriction that the transpose mode does with `interpolate`. -/
theorem transposed_restrict (K : Type) [Field K]
    (L : PC_MG_Levels (TransferMat K) (DenseMat K) (Nat → K))
    (h : L.interpolate.coarseToFine = true) (v y : Nat → K) :
    (linearCollab K).MatRestrict (restrictMat false (transposedLevel L)) v y
      = (linearCollab K).MatRestrict (restrictMat true L) v y := by
  show (TransferMat.restrictVec ⟨L.interpolate.mat.transpose, false⟩ v, (0 : Int)) =
    (L.interpolate.restrictVec v, (0 : Int))
  simp [TransferMat.restrictVec, h]

/-- The interpolation with the matrix `Rᵀ` of the transposed level is the
interpolation that the transpose mode does with `restrct`. -/
theorem transposed_interpolate (K : Type) [Field K]
    (L : PC_MG_Levels (TransferMat K) (DenseMat K) (Nat → K))
    (h : L.restrct.coarseToFine = false) (x y w : Nat → K) :
    (linearCollab K).MatInterpolateAdd (interpMat false (transposedLevel L)) x y w
      = (linearCollab K).MatInterpolateAdd (interpMat true L) x y w := by
  show (y + TransferMat.interpolateVec ⟨L.restrct.mat.transpose, true⟩ x, (0 : Int)) =
    (y + L.restrct.interpolateVec x, (0 : Int))
  simp [TransferMat.interpolateVec, h]

/-- Claim C6 (amended). Over a field `K`, with level solvers that are linear
maps and transfer operators that are matrices, `interpolate` holding an
interpolation matrix `P` and `restrct` a restriction matrix `R` at every level:
the cycle in transpose mode on a hierarchy `H` and the ordinary cycle on the
explicitly transposed hierarchy (restriction by `Pᵀ`, interpolation by `Rᵀ`,
solvers transposed) whose down solver is the transposed up solver both succeed
and leave the same `x` (and `b`) at every level, the finest included.  With the
transposed down solver as the down solver the same holds when the down solver
and the up solver of every level are the same linear map. -/
theorem transpose_mode_is_transposed_hierarchy (K : Type) [Field K]
    (H : Nat → PC_MG_Levels (TransferMat K) (DenseMat K) (Nat → K))
    (hstored : ∀ j, (H j).interpolate.coarseToFine = true ∧ (H j).restrct.coarseToFine = false) :
    (PCMGACycle_Private (linearCollab K) () H true).2 = 0 ∧
    (PCMGACycle_Private (linearCollab K) () (transposedUpHierarchy H) false).2 = 0 ∧
    (∀ j, ((PCMGACycle_Private (linearCollab K) () H true).1.mglevels j).x =
        ((PCMGACycle_Private (linearCollab K) () (transposedUpHierarchy H) false).1.mglevels j).x ∧
      ((PCMGACycle_Private (linearCollab K) () H true).1.mglevels j).b =
        ((PCMGACycle_Private (linearCollab K) () (transposedUpHierarchy H) false).1.mglevels j).b) ∧
    ((∀ j b, (H j).smoothd.transpose.mulVec b = (H j).smoothu.transpose.mulVec b) →
      (PCMGACycle_Private (linearCollab K) () (transposedHierarchy H) false).2 = 0 ∧
      ∀ j, ((PCMGACycle_Private (linearCollab K) () H true).1.mglevels j).x =
          ((PCMGACycle_Private (linearCollab K) () (transposedHierarchy H) false).1.mglevels j).x ∧
        ((PCMGACycle_Private (linearCollab K) () H true).1.mglevels j).b =
          ((PCMGACycle_Private (linearCollab K) () (transposedHierarchy H) false).1.mglevels j).b) ∧
    (∀ j v y, ((linearCollab K).MatRestrict (transposedHierarchy H j).restrct v y).1 =
        (H j).interpolate.mat.transpose.mulVec v ∧
      ((linearCollab K).MatRestrict (H j).interpolate v y).1 =
        (H j).interpolate.mat.transpose.mulVec v) ∧
    (∀ j x y w, ((linearCollab K).MatInterpolateAdd (transposedHierarchy H j).interpolate x y w).1 =
        y + (H j).restrct.mat.transpose.mulVec x ∧
      ((linearCollab K).MatInterpolateAdd (H j).restrct x y w).1 =
        y + (H j).restrct.mat.transpose.mulVec x) ∧
    (∀ j b x, ((linearCollab K).KSPSolve (transposedHierarchy H j).smoothd b x).1 =
        (H j).smoothd.transpose.mulVec b ∧
      ((linearCollab K).KSPSolve (transposedUpHierarchy H j).smoothd b x).1 =
        (H j).smoothu.transpose.mulVec b ∧
      ((linearCollab K).KSPSolveTranspose (H j).smoothu b x).1 =
        (H j).smoothu.transpose.mulVec b) := by
  have hup : Corresponds (linearCollab K) (linearCollab K) () () H (transposedUpHierarchy H)
      true false :=
    { logBegin := rfl, logEnd := rfl, vecSet := rfl, events := fun _ => ⟨rfl, rfl⟩,
      restrict := fun j v y => transposed_restrict K (H j) (hstored j).1 v y,
      solve := fun _ _ _ => rfl, check := fun _ _ => rfl,
      interp := fun j x y w => transposed_interpolate K (H j) (hstored j).2 x y w }
  obtain ⟨_, _, _, h4, _⟩ := cycle_corresponds hup rfl (fun _ => ⟨rfl, rfl⟩)
  refine ⟨linear_cycle_succeeds K H true, linear_cycle_succeeds K _ false,
    fun j => ⟨(h4 j).2.symm, (h4 j).1.symm⟩, ?_, ?_, ?_, ?_⟩
  · intro hsame
    have hlit : Corresponds (linearCollab K) (linearCollab K) () () H (transposedHierarchy H)
        true false :=
      { logBegin := rfl, logEnd := rfl, vecSet := rfl, events := fun _ => ⟨rfl, rfl⟩,
        restrict := fun j v y => transposed_restrict K (H j) (hstored j).1 v y,
        solve := by
          intro j b x
          show ((H j).smoothd.transpose.mulVec b, (0 : Int)) =
            ((H j).smoothu.transpose.mulVec b, (0 : Int))
          rw [hsame j b]
        check := fun _ _ => rfl,
        interp := fun j x y w => transposed_interpolate K (H j) (hstored j).2 x y w }
    obtain ⟨_, _, _, k4, _⟩ := cycle_corresponds hlit rfl (fun _ => ⟨rfl, rfl⟩)
    exact ⟨linear_cycle_succeeds K _ false, fun j => ⟨(k4 j).2.symm, (k4 j).1.symm⟩⟩
  · intro j v y
    refine ⟨rfl, ?_⟩
    show (H j).interpolate.restrictVec v = _
    simp [TransferMat.restrictVec, (hstored j).1]
  · intro j x y w
    refine ⟨rfl, ?_⟩
    show y + (H j).restrct.interpolateVec x = _
    simp [TransferMat.interpolateVec, (hstored j).2]
  · intro j b x
    exact ⟨rfl, rfl, rfl⟩

set_option maxRecDepth 100000 in
/-- Claim C6 (amended) on `rectPair`: the transpose mode and the ordinary cycle
on the explicitly transposed hierarchy leave the same finest `x`, with entries
`46` and `63`; the ordinary cycle on `rectPair` itself leaves `38` and `71`. -/
theorem transpose_mode_is_transposed_hierarchy_witness :
    (∀ j, (rectPair j).interpolate.coarseToFine = true ∧
      (rectPair j).restrct.coarseToFine = false) ∧
    (∀ j b, (rectPair j).smoothd.transpose.mulVec b = (rectPair j).smoothu.transpose.mulVec b) ∧
    ((PCMGACycle_Private (linearCollab ℚ) () rectPair true).1.mglevels 1).x =
      ((PCMGACycle_Private (linearCollab ℚ) () (transposedHierarchy rectPair) false).1.mglevels
        1).x ∧
    ((PCMGACycle_Private (linearCollab ℚ) () rectPair true).1.mglevels 1).x 0 = 46 ∧
    ((PCMGACycle_Private (linearCollab ℚ) () rectPair true).1.mglevels 1).x 1 = 63 ∧
    ((PCMGACycle_Private (linearCollab ℚ) () (transposedHierarchy rectPair) false).1.mglevels
      1).x 0 = 46 ∧
    ((PCMGACycle_Private (linearCollab ℚ) () (transposedHierarchy rectPair) false).1.mglevels
      1).x 1 = 63 ∧
    ((PCMGACycle_Private (linearCollab ℚ) () rectPair false).1.mglevels 1).x 0 = 38 ∧
    ((PCMGACycle_Private (linearCollab ℚ) () rectPair false).1.mglevels 1).x 1 = 71 := by
  have hst : ∀ j, (rectPair j).interpolate.coarseToFine = true ∧
      (rectPair j).restrct.coarseToFine = false := by
    intro j
    cases j <;> exact ⟨rfl, rfl⟩
  have hsame : ∀ j b,
      (rectPair j).smoothd.transpose.mulVec b = (rectPair j).smoothu.transpose.mulVec b := by
    intro j b
    cases j <;> rfl
  exact ⟨hst, hsame,
    (((transpose_mode_is_transposed_hierarchy ℚ rectPair hst).2.2.2.1 hsame).2 1).1,
    by decide!, by decide!, by decide!, by decide!, by decide!, by decide!⟩

set_option maxRecDepth 100000 in
/-- Counterexample to C6 as stated: on the single level `twoSolvers`, whose
down solver is `(1)` and whose up solver is `(2)`, the transpose mode solves with
the up solver and leaves `x = 2`, and the ordinary cycle on the explicitly
transposed hierarchy (each solver transposed) solves with the transposed down
solver and leaves `x = 1`. -/
theorem distinct_smoothers_counterexample :
    (twoSolvers 0).levels = 1 ∧
    (∀ j, (twoSolvers j).interpolate.coarseToFine = true ∧
      (twoSolvers j).restrct.coarseToFine = false) ∧
    ((PCMGACycle_Private (linearCollab ℚ) () twoSolvers true).1.mglevels 0).x 0 = 2 ∧
    ((PCMGACycle_Private (linearCollab ℚ) () (transposedHierarchy twoSolvers) false).1.mglevels
      0).x 0 = 1 ∧
    ¬ (((PCMGACycle_Private (linearCollab ℚ) () twoSolvers true).1.mglevels 0).x =
      ((PCMGACycle_Private (linearCollab ℚ) () (transposedHierarchy twoSolvers) false).1.mglevels
        0).x) := by
  have h1 : ((PCMGACycle_Private (linearCollab ℚ) () twoSolvers true).1.mglevels 0).x 0 = 2 := by
    decide!
  have h2 : ((PCMGACycle_Private (linearCollab ℚ) () (transposedHierarchy twoSolvers)
      false).1.mglevels 0).x 0 = 1 := by
    decide!
  refine ⟨rfl, fun _ => ⟨rfl, rfl⟩, h1, h2, ?_⟩
  intro h
  have h3 := congrFun h 0
  rw [h1, h2] at h3
  exact absurd h3 (by decide!)

end Model

end PCMG

/-! # Theorems about shell matrices -/

namespace MatShell

theorem setOperation_type (c : Consts) (mat : Mat) (op : MatOperation) (f : Ptr) :
    (MatShellSetOperation c mat op f).1.type = mat.type := by
  unfold MatShellSetOperation
  split_ifs <;> rfl

theorem setOperation_ctx (c : Consts) (mat : Mat) (op : MatOperation) (f : Ptr) :
    (MatShellSetOperation c mat op f).1.data.ctx = mat.data.ctx := by
  unfold MatShellSetOperation
  split_ifs <;> rfl

theorem setOperation_header (c : Consts) (mat : Mat) (op : MatOperation) (f : Ptr) :
    (MatShellSetOperation c mat op f).1.header = mat.header := by
  unfold MatShellSetOperation
  split_ifs <;> rfl

theorem setOperations_type (c : Consts) (calls : List (MatOperation × Ptr)) (mat : Mat) :
    (setOperations c mat calls).type = mat.type := by
  induction calls generalizing mat with
  | nil => rfl
  | cons call rest ih =>
    show (setOperations c (MatShellSetOperation c mat call.1 call.2).1 rest).type = _
    rw [ih, setOperation_type]

theorem setOperations_ctx (c : Consts) (calls : List (MatOperation × Ptr)) (mat : Mat) :
    (setOperations c mat calls).data.ctx = mat.data.ctx := by
  induction calls generalizing mat with
  | nil => rfl
  | cons call rest ih =>
    show (setOperations c (MatShellSetOperation c mat call.1 call.2).1 rest).data.ctx = _
    rw [ih, setOperation_ctx]

theorem createShell_some (c : Consts) (heap : Heap) (m n M N : Int) (ctx : Ptr) (B : Mat)
    (h : MatCreateShell c heap m n M N ctx = (some B, 0)) :
    B.type = c.MATSHELL ∧ B.data.ctx = ctx := by
  unfold MatCreateShell at h
  cases ho : heap.object with
  | none => rw [ho] at h; simp at h
  | some raw =>
    rw [ho] at h
    cases hs : heap.shellNew with
    | false => simp [hs] at h
    | true =>
      simp only [hs, Bool.true_eq_false, if_false, Prod.mk.injEq, Option.some.injEq,
        and_true] at h
      subst h
      exact ⟨rfl, rfl⟩

/-- Claim C13. `MatShellGetOperation(mat,op)` after `MatShellSetOperation(mat,op,f)`
    yields `f` when `op` is `MATOP_DESTROY` or `MATOP_VIEW`; for every other
    operation it yields the word of the matrix object that it yielded before the
    call, whatever `f` is: the set routine writes entry `op` of the table
    `mat->ops`, the get routine reads word `op` counted from the address of the
    field `ops`. -/
theorem get_after_set (c : Consts) (mat : Mat) (op : MatOperation) (f : Ptr) :
    ((op = c.MATOP_DESTROY ∨ op = c.MATOP_VIEW) →
      MatShellGetOperation c (MatShellSetOperation c mat op f).1 op = (f, 0)) ∧
    ((op ≠ c.MATOP_DESTROY ∧ op ≠ c.MATOP_VIEW) →
      MatShellGetOperation c (MatShellSetOperation c mat op f).1 op
        = MatShellGetOperation c mat op ∧
      MatShellGetOperation c mat op = (mat.header op, 0) ∧
      (MatShellSetOperation c mat op f).1.ops op = f) := by
  constructor
  · intro h
    unfold MatShellGetOperation MatShellSetOperation
    by_cases hd : op = c.MATOP_DESTROY
    · by_cases ht : mat.type = c.MATSHELL <;> simp [hd, ht]
    · have hv : op = c.MATOP_VIEW := h.resolve_left hd
      subst hv
      simp [hd]
  · rintro ⟨hd, hv⟩
    unfold MatShellGetOperation MatShellSetOperation
    simp [hd, hv]

/-- The shell matrix of `sampleShell` and `MATOP_MULT = 3`: after
    `MatShellSetOperation(A,3,4242)` the table entry 3 is 4242 and
    `MatShellGetOperation(A,3)` yields the object word 9003 and returns 0. -/
theorem get_after_set_witness :
    MatShellGetOperation sampleConsts (MatShellSetOperation sampleConsts sampleShell 3 4242).1 3
      = (9003, 0) ∧
    (MatShellSetOperation sampleConsts sampleShell 3 4242).1.ops 3 = 4242 := by
  have h := (get_after_set sampleConsts sampleShell 3 4242).2 (by decide)
  refine ⟨?_, h.2.2⟩
  rw [h.1, h.2.1]
  rfl

/-- Claim C14. `MatShellGetContext` on the matrix that a successful
    `MatCreateShell(comm,m,n,M,N,ctx,&A)` produced yields `ctx` and returns 0,
    also after any sequence of `MatShellSetOperation` calls; on a matrix whose
    type is not `MATSHELL` it yields the null pointer and returns 0. -/
theorem context_roundtrip (c : Consts) (heap : Heap) (m n M N : Int) (ctx : Ptr) (B : Mat)
    (calls : List (MatOperation × Ptr))
    (h : MatCreateShell c heap m n M N ctx = (some B, 0)) :
    MatShellGetContext c (setOperations c B calls) = (ctx, 0) ∧
    ∀ mat : Mat, mat.type ≠ c.MATSHELL → MatShellGetContext c mat = (0, 0) := by
  obtain ⟨ht, hc⟩ := createShell_some c heap m n M N ctx B h
  constructor
  · unfold MatShellGetContext
    rw [setOperations_type, setOperations_ctx, ht, hc]
    simp
  · intro mat hm
    unfold MatShellGetContext
    simp [hm]

/-- Claim C14 on `sampleHeap`: the creation succeeds, the context 77 is
    returned after three set calls (destroy, view and `MATOP_MULT`). -/
theorem context_roundtrip_witness :
    MatCreateShell sampleConsts sampleHeap 2 2 4 4 77 = (some sampleShell, 0) ∧
    MatShellGetContext sampleConsts
      (setOperations sampleConsts sampleShell [(250, 11), (251, 12), (3, 13)]) = (77, 0) ∧
    ∀ mat : Mat, mat.type ≠ sampleConsts.MATSHELL →
      MatShellGetContext sampleConsts mat = (0, 0) :=
  ⟨rfl, context_roundtrip sampleConsts sampleHeap 2 2 4 4 77 sampleShell
    [(250, 11), (251, 12), (3, 13)] rfl⟩

end MatShell

/-! # Theorems about `ISLocate` -/

namespace IS

theorem locate_general_found (is : General) (key : PetscInt) (h : key ∈ is.indices) :
    0 ≤ ISLocate_General is key ∧ ISLocate_General is key < is.indices.length ∧
    is.indices.get? (ISLocate_General is key).toNat = some key := by
  unfold ISLocate_General
  rw [if_pos h]
  have hlt : is.indices.indexOf key < is.indices.length := List.indexOf_lt_length.2 h
  refine ⟨Int.natCast_nonneg _, by exact_mod_cast hlt, ?_⟩
  rw [Int.toNat_natCast, List.get?_eq_get hlt]
  exact congrArg some (List.indexOf_get hlt)

theorem locate_general_absent (is : General) (key : PetscInt) (h : key ∉ is.indices) :
    ISLocate_General is key < 0 := by
  unfold ISLocate_General
  rw [if_neg h]
  decide

theorem mem_ISSort (is : General) (key : PetscInt) :
    key ∈ (ISSort is).indices ↔ key ∈ is.indices :=
  (List.perm_insertionSort (fun a b : PetscInt => a ≤ b) is.indices).mem_iff

/-- Claim C15. For the general index set built from an index array `idx` of
    length `n` and every key: if the key occurs in `idx`, `ISLocate` returns a
    location `i` with `0 <= i < n` whose current index is the key, and if it does
    not occur the location is negative; the same holds after `ISSort`, whose
    indices are `idx` rearranged in ascending order. -/
theorem ISLocate_general (n : Nat) (idx : List PetscInt) (key : PetscInt)
    (hn : idx.length = n) :
    (∀ cur : General, cur = ISCreateGeneral n idx ∨ cur = ISSort (ISCreateGeneral n idx) →
      (key ∈ idx → 0 ≤ ISLocate_General cur key ∧ ISLocate_General cur key < n ∧
        cur.indices.get? (ISLocate_General cur key).toNat = some key) ∧
      (key ∉ idx → ISLocate_General cur key < 0)) ∧
    (ISCreateGeneral n idx).indices = idx ∧
    (ISSort (ISCreateGeneral n idx)).indices.Sorted (fun a b => a ≤ b) ∧
    (ISSort (ISCreateGeneral n idx)).indices.Perm idx := by
  have hidx : (ISCreateGeneral n idx).indices = idx := by
    show idx.take n = idx
    rw [← hn, List.take_length]
  have hperm : (ISSort (ISCreateGeneral n idx)).indices.Perm idx := by
    have h := List.perm_insertionSort (fun a b : PetscInt => a ≤ b) (ISCreateGeneral n idx).indices
    rw [hidx] at h
    show List.Perm (List.insertionSort _ (ISCreateGeneral n idx).indices) idx
    rw [hidx]
    exact h
  refine ⟨?_, hidx, List.sorted_insertionSort _ _, hperm⟩
  intro cur hcur
  have hmem : key ∈ cur.indices ↔ key ∈ idx := by
    rcases hcur with h | h
    · rw [h, hidx]
    · rw [h]; exact hperm.mem_iff
  have hlen : cur.indices.length = n := by
    rcases hcur with h | h
    · rw [h, hidx, hn]
    · rw [h, hperm.length_eq, hn]
  constructor
  · intro hk
    have h := locate_general_found cur key (hmem.2 hk)
    rw [hlen] at h
    exact h
  · intro hk
    exact locate_general_absent cur key (fun h => hk (hmem.1 h))

set_option maxRecDepth 100000 in
/-- Claim C15 on the data of `TestGeneral` in ex7.c: `idx = {8,6,7,-5,3,0,9}`,
    key 3 is at 4 before and at 2 after sorting, key 1 is never found, and the
    test function returns 0. -/
theorem ISLocate_general_witness :
    ((∀ cur : General, cur = ISCreateGeneral 7 [8, 6, 7, -5, 3, 0, 9]
        ∨ cur = ISSort (ISCreateGeneral 7 [8, 6, 7, -5, 3, 0, 9]) →
      ((3 : PetscInt) ∈ [8, 6, 7, -5, 3, 0, 9] → 0 ≤ ISLocate_General cur 3 ∧
        ISLocate_General cur 3 < (7 : Nat) ∧
        cur.indices.get? (ISLocate_General cur 3).toNat = some 3) ∧
      ((3 : PetscInt) ∉ [8, 6, 7, -5, 3, 0, 9] → ISLocate_General cur 3 < 0)) ∧
    (ISCreateGeneral 7 [8, 6, 7, -5, 3, 0, 9]).indices = [8, 6, 7, -5, 3, 0, 9] ∧
    (ISSort (ISCreateGeneral 7 [8, 6, 7, -5, 3, 0, 9])).indices.Sorted (fun a b => a ≤ b) ∧
    (ISSort (ISCreateGeneral 7 [8, 6, 7, -5, 3, 0, 9])).indices.Perm [8, 6, 7, -5, 3, 0, 9]) ∧
    ISLocate_General (ISCreateGeneral 7 [8, 6, 7, -5, 3, 0, 9]) 3 = 4 ∧
    ISLocate_General (ISSort (ISCreateGeneral 7 [8, 6, 7, -5, 3, 0, 9])) 3 = 2 ∧
    ISLocate_General (ISCreateGeneral 7 [8, 6, 7, -5, 3, 0, 9]) 1 = -1 ∧
    ISLocate_General (ISSort (ISCreateGeneral 7 [8, 6, 7, -5, 3, 0, 9])) 1 = -1 ∧
    TestGeneral 77 = 0 :=
  ⟨ISLocate_general 7 [8, 6, 7, -5, 3, 0, 9] 3 rfl, by decide, by decide, by decide,
    by decide, by decide⟩

/-- Claim C16. For the stride index set with `n` entries, first value `first`
    and stride `step`, and every key: `ISLocate` returns `(key - first) / step`
    when `step` divides `key - first` and the quotient lies in `[0, n)`, and a
    negative location otherwise; a non-negative location is below `n` and its
    entry `first + location*step` is the key, and for a non-zero stride every
    entry is located at its own position. -/
theorem ISLocate_stride (n first step key : PetscInt) :
    ((step ∣ key - first ∧ 0 ≤ (key - first) / step ∧ (key - first) / step < n) →
      ISLocate_Stride (ISCreateStride n first step) key = (key - first) / step) ∧
    (¬ (step ∣ key - first ∧ 0 ≤ (key - first) / step ∧ (key - first) / step < n) →
      ISLocate_Stride (ISCreateStride n first step) key < 0) ∧
    (0 ≤ ISLocate_Stride (ISCreateStride n first step) key →
      ISLocate_Stride (ISCreateStride n first step) key < n ∧
      (ISCreateStride n first step).index (ISLocate_Stride (ISCreateStride n first step) key)
        = key) ∧
    (step ≠ 0 → ∀ i : PetscInt, 0 ≤ i → i < n →
      ISLocate_Stride (ISCreateStride n first step)
        ((ISCreateStride n first step).index i) = i) := by
  refine ⟨?_, ?_, ?_, ?_⟩
  · intro h
    unfold ISLocate_Stride ISCreateStride
    rw [if_pos h]
  · intro h
    unfold ISLocate_Stride ISCreateStride
    rw [if_neg h]
    decide
  · intro h
    unfold ISLocate_Stride ISCreateStride Stride.index at *
    by_cases hc : step ∣ key - first ∧ 0 ≤ (key - first) / step ∧ (key - first) / step < n
    · simp only [if_pos hc]
      refine ⟨hc.2.2, ?_⟩
      rw [Int.ediv_mul_cancel hc.1]
      ring
    · simp only [if_neg hc] at h
      exact absurd h (by decide)
  · intro hs i h0 hi
    unfold ISLocate_Stride ISCreateStride Stride.index
    have e : first + i * step - first = i * step := by ring
    simp only [e]
    have q : i * step / step = i := Int.mul_ediv_cancel i hs
    rw [q, if_pos ⟨Dvd.intro_left i rfl, h0, hi⟩]

/-- Claim C16 on the data of `TestStride` in ex7.c: `n = 18`, `first = -3`,
    `step = 7`; key 39 is at 6, the keys -2 and 123 are not found, and the test
    function returns 0. -/
theorem ISLocate_stride_witness :
    ISLocate_Stride (ISCreateStride 18 (-3) 7) 39 = 6 ∧
    ISLocate_Stride (ISCreateStride 18 (-3) 7) (-2) < 0 ∧
    ISLocate_Stride (ISCreateStride 18 (-3) 7) 123 < 0 ∧
    (ISCreateStride 18 (-3) 7).index 18 = 123 ∧
    TestStride 77 = 0 :=
  ⟨(ISLocate_stride 18 (-3) 7 39).1 (by decide), (ISLocate_stride 18 (-3) 7 (-2)).2.1 (by decide),
    (ISLocate_stride 18 (-3) 7 123).2.1 (by decide), by decide, by decide⟩

end IS

/-! # Theorems about the specification's hierarchy accessor -/

namespace LevelHierarchy

/-- Claim C18. For every hierarchy of `L` levels and every integer `i`,
    `getLevel(i)` returns level `i` when `0 <= i < L` and fails with
    `IndexOutOfRange` when `i < 0` or `i >= L`. -/
theorem getLevel_bounds {Op Transfer Smoother Vec : Type}
    (h : Hierarchy Op Transfer Smoother Vec) (i : Int) :
    ((0 ≤ i ∧ i < h.L) →
      ∃ level, h.levels.get? i.toNat = some level ∧ getLevel h i = Except.ok level) ∧
    ((i < 0 ∨ h.L ≤ i) → getLevel h i = Except.error Failure.IndexOutOfRange) := by
  constructor
  · intro hi
    have hlt : i.toNat < h.levels.length := by
      have := hi.2
      unfold Hierarchy.L at this
      omega
    refine ⟨h.levels.get ⟨i.toNat, hlt⟩, List.get?_eq_get hlt, ?_⟩
    unfold getLevel
    rw [if_pos hi, List.get?_eq_get hlt]
  · intro hi
    unfold getLevel
    rw [if_neg]
    intro hc
    rcases hi with hi | hi <;> omega

/-- Claim C18 on a hierarchy of three levels: `getLevel(1)` returns a level,
    `getLevel(3)` and `getLevel(-1)` fail with `IndexOutOfRange`. -/
theorem getLevel_bounds_witness :
    (∃ level, CycleScheduler.sampleRun.hierarchy.levels.get? (1 : Int).toNat = some level ∧
      getLevel CycleScheduler.sampleRun.hierarchy 1 = Except.ok level) ∧
    getLevel CycleScheduler.sampleRun.hierarchy 3 = Except.error Failure.IndexOutOfRange ∧
    getLevel CycleScheduler.sampleRun.hierarchy (-1) = Except.error Failure.IndexOutOfRange :=
  ⟨(getLevel_bounds CycleScheduler.sampleRun.hierarchy 1).1 (by decide),
    (getLevel_bounds CycleScheduler.sampleRun.hierarchy 3).2 (by decide),
    (getLevel_bounds CycleScheduler.sampleRun.hierarchy (-1)).2 (by decide)⟩

end LevelHierarchy

/-! # Theorems about the specification's cycle scheduler and monitor -/

namespace CycleScheduler

open LevelHierarchy

section Scheduler

variable {Op Transfer Smoother Vec Scalar : Type}

theorem countsW_andThen {n m : Nat}
    {f g : Run Op Transfer Smoother Vec → Run Op Transfer Smoother Vec}
    (hf : CountsW n f) (hg : CountsW m g) :
    CountsW (n + m) (fun r => (f r).andThen g) := by
  intro r hr
  obtain ⟨h1, h2, h3, h4⟩ := hf r hr
  show ((f r).andThen g).hierarchy.cycle_type = _ ∧ _ ≤ ((f r).andThen g).coarse_solves ∧
    ((f r).andThen g).coarse_solves ≤ _ ∧
    (((f r).andThen g).failure = none → ((f r).andThen g).coarse_solves = _)
  cases hfail : (f r).failure with
  | some e =>
    have e1 : (f r).andThen g = f r := by
      unfold Run.andThen
      rw [hfail]
    rw [e1]
    refine ⟨h1, h2, by omega, ?_⟩
    intro hn
    rw [hfail] at hn
    cases hn
  | none =>
    have e1 : (f r).andThen g = g (f r) := by
      unfold Run.andThen
      rw [hfail]
    rw [e1]
    obtain ⟨k1, k2, k3, k4⟩ := hg (f r) h1
    have h5 := h4 hfail
    refine ⟨k1, by omega, by omega, ?_⟩
    intro hn
    have := k4 hn
    omega

theorem countsW_id : CountsW 0 (fun r : Run Op Transfer Smoother Vec => r) := by
  intro r hr
  exact ⟨hr, le_refl _, le_refl _, fun _ => rfl⟩

theorem countsW_after {n : Nat} {g : Run Op Transfer Smoother Vec → Run Op Transfer Smoother Vec}
    (hg : CountsW n g) : CountsW n (fun r => r.andThen g) := by
  have h := countsW_andThen countsW_id hg
  rw [Nat.zero_add] at h
  exact h

theorem countsW_step
    (f : Hierarchy Op Transfer Smoother Vec → Except Failure (Hierarchy Op Transfer Smoother Vec))
    (hf : ∀ h h2, f h = Except.ok h2 → h2.cycle_type = h.cycle_type) :
    CountsW 0 (step f) := by
  intro r hr
  unfold step
  cases hh : f r.hierarchy with
  | error e => exact ⟨hr, le_refl _, le_refl _, fun _ => rfl⟩
  | ok h2 =>
    refine ⟨?_, le_refl _, le_refl _, fun _ => rfl⟩
    show h2.cycle_type = _
    rw [hf _ _ hh, hr]

theorem preSmooth_cycle_type (cap : Capabilities Op Transfer Smoother Vec Scalar) (l : Nat)
    (h h2 : Hierarchy Op Transfer Smoother Vec) (e : preSmooth cap l h = Except.ok h2) :
    h2.cycle_type = h.cycle_type := by
  unfold preSmooth at e
  split at e
  · cases e
  · split at e
    · cases e
    · cases e; rfl

theorem postSmooth_cycle_type (cap : Capabilities Op Transfer Smoother Vec Scalar) (l : Nat)
    (h h2 : Hierarchy Op Transfer Smoother Vec) (e : postSmooth cap l h = Except.ok h2) :
    h2.cycle_type = h.cycle_type := by
  unfold postSmooth at e
  split at e
  · cases e
  · split at e
    · cases e
    · cases e; rfl

theorem restrictResidual_cycle_type [One Scalar] [Neg Scalar]
    (cap : Capabilities Op Transfer Smoother Vec Scalar) (l : Nat)
    (h h2 : Hierarchy Op Transfer Smoother Vec) (e : restrictResidual cap l h = Except.ok h2) :
    h2.cycle_type = h.cycle_type := by
  unfold restrictResidual at e
  split at e
  · cases e
  · simp only at e
    split at e
    · cases e
    · cases e; rfl

theorem interpolateAdd_cycle_type [One Scalar]
    (cap : Capabilities Op Transfer Smoother Vec Scalar) (l : Nat)
    (h h2 : Hierarchy Op Transfer Smoother Vec) (e : interpolateAdd cap l h = Except.ok h2) :
    h2.cycle_type = h.cycle_type := by
  unfold interpolateAdd at e
  split at e
  · cases e
  · split at e
    · cases e
    · cases e; rfl

theorem countsW_coarseSolve (cap : Capabilities Op Transfer Smoother Vec Scalar) :
    CountsW 1 (coarseSolve cap) := by
  intro r hr
  unfold coarseSolve
  split
  · refine ⟨hr, le_refl _, Nat.le_succ _, ?_⟩
    intro hn
    cases hn
  · split
    · refine ⟨hr, Nat.le_succ _, le_refl _, fun _ => rfl⟩
    · exact ⟨hr, Nat.le_succ _, le_refl _, fun _ => rfl⟩

theorem countsW_applyCycle [One Scalar] [Neg Scalar]
    (cap : Capabilities Op Transfer Smoother Vec Scalar)
    (special : CycleType → Nat → Run Op Transfer Smoother Vec → Run Op Transfer Smoother Vec)
    (l : Nat) : CountsW (2 ^ l) (applyCycle cap special l) := by
  induction l with
  | zero => exact countsW_coarseSolve cap
  | succ l ih =>
    have hpre := countsW_step (preSmooth cap (l + 1)) (preSmooth_cycle_type cap (l + 1))
    have hpost := countsW_step (postSmooth cap (l + 1)) (postSmooth_cycle_type cap (l + 1))
    have hres := countsW_step (restrictResidual cap (l + 1))
      (restrictResidual_cycle_type cap (l + 1))
    have hint := countsW_step (interpolateAdd cap (l + 1))
      (interpolateAdd_cycle_type cap (l + 1))
    have hW : CountsW (2 ^ l + 2 ^ l) (fun r =>
        (((applyCycle cap special l r).andThen (step (interpolateAdd cap (l + 1)))).andThen
          (step (restrictResidual cap (l + 1)))).andThen (applyCycle cap special l)) := by
      have h := countsW_andThen (countsW_andThen (countsW_andThen ih hint) hres) ih
      simpa using h
    have hD : CountsW (2 ^ l + 2 ^ l) (fun r : Run Op Transfer Smoother Vec =>
        match r.hierarchy.cycle_type with
        | CycleType.V => applyCycle cap special l r
        | CycleType.MULTIPLICATIVE => applyCycle cap special l r
        | CycleType.W =>
          (((applyCycle cap special l r).andThen (step (interpolateAdd cap (l + 1)))).andThen
            (step (restrictResidual cap (l + 1)))).andThen (applyCycle cap special l)
        | CycleType.F => special CycleType.F l r
        | CycleType.ADDITIVE => special CycleType.ADDITIVE l r) := by
      intro r hr
      have h := hW r hr
      simp only [hr]
      exact h
    have h := countsW_andThen (countsW_andThen (countsW_andThen (countsW_andThen
      (countsW_after hpre) hres) hD) hint) hpost
    have e : 0 + 0 + (2 ^ l + 2 ^ l) + 0 + 0 = 2 ^ (l + 1) := by
      rw [pow_succ]; omega
    rw [e] at h
    exact h

/-- Claim C17 (amended). For every depth `d`, one invocation of `applyCycle`
    with cycle type W at level `d` makes exactly `2^d` calls of the coarsest-level
    solve when it ends without a failure, and at most `2^d` when a failure cuts
    it short. -/
theorem W_cycle_coarse_solves [One Scalar] [Neg Scalar]
    (cap : Capabilities Op Transfer Smoother Vec Scalar)
    (special : CycleType → Nat → Run Op Transfer Smoother Vec → Run Op Transfer Smoother Vec)
    (d : Nat) (r : Run Op Transfer Smoother Vec)
    (hW : r.hierarchy.cycle_type = CycleType.W) :
    (applyCycle cap special d r).coarse_solves ≤ r.coarse_solves + 2 ^ d ∧
    ((applyCycle cap special d r).failure = none →
      (applyCycle cap special d r).coarse_solves = r.coarse_solves + 2 ^ d) :=
  ⟨(countsW_applyCycle cap special d r hW).2.2.1, (countsW_applyCycle cap special d r hW).2.2.2⟩

end Scheduler

set_option maxRecDepth 100000 in
/-- Claim C17 on a hierarchy of depth 2: the W-cycle ends without a failure
    and has made 4 coarse solves. -/
theorem W_cycle_coarse_solves_witness :
    sampleRun.hierarchy.levels.length = 3 ∧
    (applyCycle sampleCap (fun _ _ r => r) 2 sampleRun).failure = none ∧
    (applyCycle sampleCap (fun _ _ r => r) 2 sampleRun).coarse_solves = 4 := by
  have hf : (applyCycle sampleCap (fun _ _ r => r) 2 sampleRun).failure = none := by
    decide
  exact ⟨rfl, hf, (W_cycle_coarse_solves sampleCap (fun _ _ r => r) 2 sampleRun rfl).2 hf⟩

set_option maxRecDepth 100000 in
/-- Counterexample to C17 as stated, at depth 2 with cycle type W: with a down
    smoother that fails on the finest level the invocation ends with
    `SmootherFailure` before any coarse solve, and with an up smoother that fails
    on level 1 it ends after 2 coarse solves; neither makes `2^2 = 4`. -/
theorem failed_cycle_fewer_solves_counterexample :
    failingTopRun.hierarchy.levels.length = 3 ∧
    failingTopRun.hierarchy.cycle_type = CycleType.W ∧
    (applyCycle sampleCap (fun _ _ r => r) 2 failingTopRun).failure
      = some Failure.SmootherFailure ∧
    (applyCycle sampleCap (fun _ _ r => r) 2 failingTopRun).coarse_solves = 0 ∧
    failingMiddleRun.hierarchy.levels.length = 3 ∧
    failingMiddleRun.hierarchy.cycle_type = CycleType.W ∧
    (applyCycle sampleCap (fun _ _ r => r) 2 failingMiddleRun).failure
      = some Failure.SmootherFailure ∧
    (applyCycle sampleCap (fun _ _ r => r) 2 failingMiddleRun).coarse_solves = 2 ∧
    ¬ (∀ r : Run ℚ Unit Bool ℚ, r.hierarchy.levels.length = 3 →
        r.hierarchy.cycle_type = CycleType.W → r.coarse_solves = 0 →
        (applyCycle sampleCap (fun _ _ r => r) 2 r).coarse_solves = 2 ^ 2) := by
  refine ⟨rfl, rfl, by decide, by decide, rfl, rfl, by decide, by decide, ?_⟩
  intro h
  exact absurd (h failingTopRun rfl rfl rfl) (by decide)

end CycleScheduler

namespace ConvergenceMonitor

/-- Claim C19. For every convergence monitor with a non-empty residual
    history, `isConverged()` is true if and only if the most recently recorded
    residual norm is at most the tolerance; in particular right after
    `recordResidual(norm)` it is true if and only if `norm <= tolerance`. -/
theorem isConverged_iff {R : Type} [LinearOrder R] [Mul R] (m : Monitor R)
    (h : m.residual_history ≠ []) :
    (isConverged m = true ↔ m.residual_history.getLast h ≤ m.tolerance) ∧
    ∀ norm : R, isConverged (recordResidual m norm).1 = true ↔ norm ≤ m.tolerance := by
  constructor
  · unfold isConverged
    rw [List.getLast?_eq_getLast _ h]
    simp
  · intro norm
    unfold isConverged recordResidual
    simp

/-- Claim C19 on a monitor with tolerance 10 and history 100, 50, 5: it is
    converged; with history 100, 50 it is not. -/
theorem isConverged_iff_witness :
    ((isConverged (@Monitor.mk ℤ [100, 50, 5] 10 50 3) = true ↔
      ([100, 50, 5] : List ℤ).getLast (by simp) ≤ 10) ∧
      ∀ norm : ℤ, isConverged (recordResidual (@Monitor.mk ℤ [100, 50, 5] 10 50 3) norm).1
        = true ↔ norm ≤ 10) ∧
    isConverged (@Monitor.mk ℤ [100, 50, 5] 10 50 3) = true ∧
    isConverged (@Monitor.mk ℤ [100, 50] 10 50 3) = false :=
  ⟨isConverged_iff (@Monitor.mk ℤ [100, 50, 5] 10 50 3) (by simp), by decide, by decide⟩

end ConvergenceMonitor

/-! # Theorems about LINPACK `dgefa` -/

namespace Linpack

section Dgefa

variable {K : Type} [LinearOrderedField K]

theorem forUp_succ {σ : Type} (body : Nat → σ → σ) (c : Nat) :
    ∀ (i : Nat) (s : σ), forUp body i (c + 1) s = body (i + c) (forUp body i c s) := by
  induction c with
  | zero => intro i s; rfl
  | succ c ih =>
    intro i s
    show forUp body (i + 1) (c + 1) (body i s) = _
    rw [ih (i + 1) (body i s)]
    have e : i + 1 + c = i + (c + 1) := by omega
    rw [e]
    rfl

/-- A loop over an array leaves alone every cell outside the footprints of its
    passes. -/
theorem forUp_untouched {α : Type} (body : Nat → (Nat → α) → Nat → α) (F : Nat → Nat → Prop)
    (idx : Nat) (c : Nat) :
    ∀ (s : Nat) (a : Nat → α),
      (∀ t, s ≤ t → t < s + c → ∀ (a : Nat → α) (x : Nat), ¬ F t x → body t a x = a x) →
      (∀ t, s ≤ t → t < s + c → ¬ F t idx) →
      forUp body s c a idx = a idx := by
  induction c with
  | zero => intro s a _ _; rfl
  | succ c ih =>
    intro s a hframe hno
    show forUp body (s + 1) c (body s a) idx = _
    rw [ih (s + 1) (body s a) (fun t h1 h2 => hframe t (by omega) (by omega))
      (fun t h1 h2 => hno t (by omega) (by omega))]
    exact hframe s (le_refl _) (by omega) a idx (hno s (le_refl _) (by omega))

/-- A loop over an array whose passes have disjoint footprints and read,
    besides their own footprint, only a region `R` that no pass writes: a cell in
    the footprint of pass `t` ends with the value pass `t` computes from the
    initial array. -/
theorem forUp_touched {α : Type} (body : Nat → (Nat → α) → Nat → α) (F : Nat → Nat → Prop)
    (R : Nat → Prop) (idx t : Nat) (c : Nat) :
    ∀ (s : Nat) (a : Nat → α),
      (∀ t, s ≤ t → t < s + c → ∀ (a : Nat → α) (x : Nat), ¬ F t x → body t a x = a x) →
      (∀ t, s ≤ t → t < s + c → ∀ (a b : Nat → α), (∀ x, F t x ∨ R x → a x = b x) →
        ∀ x, F t x → body t a x = body t b x) →
      (∀ t u, s ≤ t → t < s + c → s ≤ u → u < s + c → ∀ x, F t x → F u x → t = u) →
      (∀ t, s ≤ t → t < s + c → ∀ x, F t x → ¬ R x) →
      s ≤ t → t < s + c → F t idx →
      forUp body s c a idx = body t a idx := by
  induction c with
  | zero => intro s a _ _ _ _ h1 h2; omega
  | succ c ih =>
    intro s a hframe hlocal hdisj hR h1 h2 hF
    show forUp body (s + 1) c (body s a) idx = _
    by_cases hts : t = s
    · subst hts
      refine forUp_untouched body F idx c (t + 1) (body t a)
        (fun u h1 h2 => hframe u (by omega) (by omega)) ?_
      intro u hu1 hu2 hFu
      have := hdisj u t (by omega) (by omega) (by omega) (by omega) idx hFu hF
      omega
    · rw [ih (s + 1) (body s a) (fun u h1 h2 => hframe u (by omega) (by omega))
        (fun u h1 h2 => hlocal u (by omega) (by omega))
        (fun u v h1 h2 h3 h4 => hdisj u v (by omega) (by omega) (by omega) (by omega))
        (fun u h1 h2 => hR u (by omega) (by omega)) (by omega) (by omega) hF]
      refine hlocal t h1 h2 (body s a) a ?_ idx hF
      intro x hx
      refine hframe s (le_refl _) (by omega) a x ?_
      intro hFs
      rcases hx with hx | hx
      · exact hts (hdisj t s h1 h2 (le_refl _) (by omega) x hx hFs)
      · exact hR s (le_refl _) (by omega) x hFs hx

/-- Column-major indexing: two cells with rows in `1..n` coincide only when
    their rows and their columns do. -/
theorem flat_inj {n i j i2 j2 : Nat} (hi : 1 ≤ i) (hin : i ≤ n) (hi2 : 1 ≤ i2) (hi2n : i2 ≤ n)
    (h : i + j * n = i2 + j2 * n) : i = i2 ∧ j = j2 := by
  have hj : j = j2 := by
    rcases Nat.lt_trichotomy j j2 with hlt | heq | hgt
    · have := Nat.mul_le_mul_right n (Nat.succ_le_of_lt hlt)
      rw [Nat.succ_mul] at this
      omega
    · exact heq
    · have := Nat.mul_le_mul_right n (Nat.succ_le_of_lt hgt)
      rw [Nat.succ_mul] at this
      omega
  subst hj
  exact ⟨by omega, rfl⟩

theorem mul_lt_flat {n j j2 : Nat} (h : j < j2) : j * n + n ≤ j2 * n := by
  have := Nat.mul_le_mul_right n (Nat.succ_le_of_lt h)
  rw [Nat.succ_mul] at this
  exact this

/-- The state `(max, l)` of the pivot search after `c` passes. -/
theorem pivotSearch_loop (a : Nat → K) (p : Nat) (c : Nat) :
    let found := forUp (fun ll (s : K × Nat) =>
        if |a (p + ll)| > s.1 then (|a (p + ll)|, ll + 1) else s) 1 c (|a (p + 0)|, 1)
    1 ≤ found.2 ∧ found.2 ≤ c + 1 ∧ found.1 = |a (p + (found.2 - 1))| ∧
    (∀ m, m ≤ c → |a (p + m)| ≤ found.1) ∧
    (∀ m, m < found.2 - 1 → |a (p + m)| < found.1) := by
  induction c with
  | zero =>
    refine ⟨le_refl _, le_refl _, rfl, ?_, ?_⟩
    · intro m hm
      have : m = 0 := by omega
      subst this
      exact le_refl _
    · intro m hm
      simp only [forUp] at hm
      omega
  | succ c ih =>
    simp only [forUp_succ]
    simp only at ih
    generalize forUp (fun ll (s : K × Nat) =>
        if |a (p + ll)| > s.1 then (|a (p + ll)|, ll + 1) else s) 1 c (|a (p + 0)|, 1) = st at ih ⊢
    obtain ⟨h1, h2, h3, h4, h5⟩ := ih
    by_cases hgt : |a (p + (1 + c))| > st.1
    · simp only [if_pos hgt]
      refine ⟨by omega, by omega, ?_, ?_, ?_⟩
      · show _ = |a (p + (1 + c + 1 - 1))|
        rfl
      · intro m hm
        by_cases hmc : m ≤ c
        · exact le_of_lt (lt_of_le_of_lt (h4 m hmc) hgt)
        · have : m = 1 + c := by omega
          subst this
          exact le_refl _
      · intro m hm
        have hmc : m ≤ c := by
          have : m < 1 + c + 1 - 1 := hm
          omega
        exact lt_of_le_of_lt (h4 m hmc) hgt
    · simp only [if_neg hgt]
      refine ⟨h1, by omega, h3, ?_, h5⟩
      intro m hm
      by_cases hmc : m ≤ c
      · exact h4 m hmc
      · have : m = 1 + c := by omega
        subst this
        exact not_lt.1 hgt

/-- The pivot search returns the smallest row `l` in `k..n` whose entry in
    column `k` has the largest absolute value among the rows `k..n`. -/
theorem pivotSearch_spec (n k : Nat) (a : Nat → K) (hk : 1 ≤ k) (hkn : k ≤ n) :
    k ≤ pivotSearch n k a ∧ pivotSearch n k a ≤ n ∧
    (∀ i, k ≤ i → i ≤ n → |a (i + k * n)| ≤ |a (pivotSearch n k a + k * n)|) ∧
    (∀ i, k ≤ i → i < pivotSearch n k a → |a (i + k * n)| < |a (pivotSearch n k a + k * n)|) := by
  have h := pivotSearch_loop a (k * n + k) (n - k)
  simp only at h
  have e : pivotSearch n k a = (forUp (fun ll (s : K × Nat) =>
        if |a (k * n + k + ll)| > s.1 then (|a (k * n + k + ll)|, ll + 1) else s) 1 (n - k)
        (|a (k * n + k + 0)|, 1)).2 + (k - 1) := by
    unfold pivotSearch forRange
    have : n - k + 1 - 1 = n - k := by omega
    simp only [this]
  rw [e]
  generalize forUp (fun ll (s : K × Nat) =>
        if |a (k * n + k + ll)| > s.1 then (|a (k * n + k + ll)|, ll + 1) else s) 1 (n - k)
        (|a (k * n + k + 0)|, 1) = st at h ⊢
  obtain ⟨h1, h2, h3, h4, h5⟩ := h
  have el : st.2 + (k - 1) + k * n = k * n + k + (st.2 - 1) := by omega
  refine ⟨by omega, by omega, ?_, ?_⟩
  · intro i hi hin
    have := h4 (i - k) (by omega)
    rw [el, ← h3]
    have ei : i + k * n = k * n + k + (i - k) := by omega
    rw [ei]
    exact this
  · intro i hi hil
    have := h5 (i - k) (by omega)
    rw [el, ← h3]
    have ei : i + k * n = k * n + k + (i - k) := by omega
    rw [ei]
    exact this

/-- A loop `for (ll = 0; ll < c; ll++) a[q + ll] = g(ll, a)` whose pass `ll`
    reads the cell it writes and a region `R` outside `q .. q+c-1`. -/
theorem forUp_cells {α : Type} (g : Nat → (Nat → α) → α) (R : Nat → Prop) (q c : Nat)
    (a : Nat → α)
    (hg : ∀ ll, ll < c → ∀ (a b : Nat → α), a (q + ll) = b (q + ll) →
      (∀ x, R x → a x = b x) → g ll a = g ll b)
    (hR : ∀ x, R x → ¬ (q ≤ x ∧ x < q + c)) (idx : Nat) :
    forUp (fun ll a => Function.update a (q + ll) (g ll a)) 0 c a idx
      = if q ≤ idx ∧ idx < q + c then g (idx - q) a else a idx := by
  by_cases h : q ≤ idx ∧ idx < q + c
  · rw [if_pos h]
    have e := forUp_touched (fun ll a => Function.update a (q + ll) (g ll a))
      (fun ll x => x = q + ll) R idx (idx - q) c 0 a
      (fun t _ _ a x hx => Function.update_noteq hx _ _)
      (fun t _ ht a b hab x hx => by
        subst hx
        simp only [Function.update_same]
        exact hg t (by omega) a b (hab _ (Or.inl rfl)) (fun x hx => hab x (Or.inr hx)))
      (fun t u _ _ _ _ x hx hu => by omega)
      (fun t _ ht x hx hRx => hR x hRx (by omega))
      (Nat.zero_le _) (by omega) (by omega)
    rw [e]
    have e2 : q + (idx - q) = idx := by omega
    show Function.update a (q + (idx - q)) (g (idx - q) a) idx = g (idx - q) a
    rw [e2, Function.update_same]
  · rw [if_neg h]
    exact forUp_untouched (fun ll a => Function.update a (q + ll) (g ll a))
      (fun ll x => x = q + ll) idx c 0 a
      (fun t _ _ a x hx => Function.update_noteq hx _ _)
      (fun t _ ht hx => h (by omega))

omit [LinearOrderedField K] in
theorem swapPivot_apply (n k l : Nat) (a : Nat → K) (idx : Nat) :
    swapPivot n k l a idx
      = if idx = k * n + k then a (l + k * n)
        else if idx = l + k * n then a (k * n + k) else a idx := by
  unfold swapPivot
  by_cases hl : l = k
  · subst hl
    simp only [ne_eq, not_true_eq_false, if_false]
    by_cases h1 : idx = l * n + l
    · rw [if_pos h1, h1, Nat.add_comm]
    · rw [if_neg h1]
      by_cases h2 : idx = l + l * n
      · rw [if_pos h2, h2, Nat.add_comm]
      · rw [if_neg h2]
  · simp only [ne_eq, hl, not_false_eq_true, if_true, Function.update_apply]

theorem scaleColumn_apply (n k : Nat) (a : Nat → K) (idx : Nat) :
    scaleColumn n k a idx
      = if 1 + (k * n + k) ≤ idx ∧ idx < 1 + (k * n + k) + (n - k)
        then a idx * (-1 / a (k * n + k)) else a idx := by
  unfold scaleColumn forRange
  simp only [Nat.sub_zero]
  rw [forUp_cells (fun ll a0 => a0 (1 + (k * n + k) + ll) * (-1 / a (k * n + k)))
    (fun _ => False) (1 + (k * n + k)) (n - k) a
    (fun ll _ a b h _ => by simp only [h]) (fun x hx => hx.elim) idx]
  by_cases h : 1 + (k * n + k) ≤ idx ∧ idx < 1 + (k * n + k) + (n - k)
  · have e : 1 + (k * n + k) + (idx - (1 + (k * n + k))) = idx := by omega
    simp only [if_pos h, e]
  · simp only [if_neg h]

theorem eliminateColumn_apply (n k l j : Nat) (a : Nat → K) (hk : 1 ≤ k) (hjk : k < j)
    (hkl : k ≤ l) (idx : Nat) :
    eliminateColumn n k l j a idx
      = if 1 + k + j * n ≤ idx ∧ idx < 1 + k + j * n + (n - k) then
          (if idx = k + j * n then a (l + j * n)
            else if idx = l + j * n then a (k + j * n) else a idx)
          + a (l + j * n) * a (1 + (k * n + k) + (idx - (1 + k + j * n)))
        else
          (if idx = k + j * n then a (l + j * n)
            else if idx = l + j * n then a (k + j * n) else a idx) := by
  have hb : ∀ x, (if l ≠ k then
        Function.update (Function.update a (l + j * n) (a (k + j * n))) (k + j * n) (a (l + j * n))
      else a) x
      = if x = k + j * n then a (l + j * n)
        else if x = l + j * n then a (k + j * n) else a x := by
    intro x
    by_cases hl : l = k
    · subst hl
      simp only [ne_eq, not_true_eq_false, if_false]
      by_cases h1 : x = l + j * n
      · rw [if_pos h1, h1]
      · rw [if_neg h1, if_neg h1]
    · simp only [ne_eq, hl, not_false_eq_true, if_true, Function.update_apply]
  have hjn := @mul_lt_flat n k j hjk
  unfold eliminateColumn forRange
  simp only [Nat.sub_zero]
  rw [forUp_cells (fun ll a0 => a0 (1 + k + j * n + ll) + a (l + j * n) * a0 (1 + (k * n + k) + ll))
    (fun x => 1 + (k * n + k) ≤ x ∧ x < 1 + (k * n + k) + (n - k)) (1 + k + j * n) (n - k) _
    (fun ll hll a b h hR => by
      simp only [h]
      rw [hR (1 + (k * n + k) + ll) ⟨by omega, by omega⟩])
    (fun x hx => by omega) idx]
  have hax : ∀ m, m < n - k →
      (if l ≠ k then
        Function.update (Function.update a (l + j * n) (a (k + j * n))) (k + j * n) (a (l + j * n))
      else a) (1 + (k * n + k) + m) = a (1 + (k * n + k) + m) := by
    intro m hm
    rw [hb, if_neg (by omega), if_neg (by omega)]
  by_cases h : 1 + k + j * n ≤ idx ∧ idx < 1 + k + j * n + (n - k)
  · have e : 1 + k + j * n + (idx - (1 + k + j * n)) = idx := by omega
    simp only [if_pos h, e]
    rw [hb, hax _ (by omega)]
  · simp only [if_neg h]
    rw [hb]

theorem eliminateColumn_frame (n k l j : Nat) (a : Nat → K) (hk : 1 ≤ k) (hjk : k < j)
    (hkl : k ≤ l) (hln : l ≤ n) (x : Nat) (hx : ∀ i, k ≤ i → i ≤ n → x ≠ i + j * n) :
    eliminateColumn n k l j a x = a x := by
  rw [eliminateColumn_apply n k l j a hk hjk hkl]
  have h1 : ¬ (1 + k + j * n ≤ x ∧ x < 1 + k + j * n + (n - k)) := by
    intro h
    exact hx (x - j * n) (by omega) (by omega) (by omega)
  rw [if_neg h1, if_neg (hx k (le_refl _) (by omega)), if_neg (hx l hkl hln)]

theorem eliminateColumn_entry (n k l j : Nat) (a : Nat → K) (hk : 1 ≤ k) (hjk : k < j)
    (hkl : k ≤ l) (i : Nat) (hki : k ≤ i) (hin : i ≤ n) :
    eliminateColumn n k l j a (i + j * n)
      = if i = k then a (l + j * n)
        else a (exchange k l i + j * n) + a (l + j * n) * a (i + k * n) := by
  rw [eliminateColumn_apply n k l j a hk hjk hkl]
  by_cases hik : i = k
  · subst hik
    rw [if_neg (by omega), if_pos rfl, if_pos rfl]
  · rw [if_pos (by omega), if_neg (by omega), if_neg hik]
    have e : 1 + (k * n + k) + (i + j * n - (1 + k + j * n)) = i + k * n := by omega
    rw [e]
    unfold exchange
    rw [if_neg hik]
    by_cases hil : i = l
    · subst hil
      rw [if_pos rfl, if_pos rfl]
    · rw [if_neg (by omega), if_neg hil]


/-- The array after the interchange and the scaling in column `k`. -/
theorem prepared_entry (n k l : Nat) (a : Nat → K) (hk : 1 ≤ k) (hkl : k ≤ l) (hln : l ≤ n)
    (i j : Nat) (hi : 1 ≤ i) (hin : i ≤ n) :
    scaleColumn n k (swapPivot n k l a) (i + j * n)
      = if j = k ∧ k ≤ i then
          (if i = k then a (l + k * n)
            else a (exchange k l i + k * n) * (-1 / a (l + k * n)))
        else a (i + j * n) := by
  rw [scaleColumn_apply]
  simp only [swapPivot_apply]
  unfold exchange
  rcases Nat.lt_trichotomy j k with hlt | heq | hgt
  · have := @mul_lt_flat n j k hlt
    split_ifs <;> first | rfl | (exfalso; omega) 
  · subst heq
    split_ifs <;> first | rfl | (exfalso; omega) | rw [Nat.add_comm (j * n) j]
  · have := @mul_lt_flat n k j hgt
    split_ifs <;> first | rfl | (exfalso; omega) 

omit [LinearOrderedField K] in
theorem exchange_range {k l n i : Nat} (hkl : k ≤ l) (hln : l ≤ n) (h1 : k ≤ i) (h2 : i ≤ n) :
    k ≤ exchange k l i ∧ exchange k l i ≤ n := by
  unfold exchange
  split_ifs <;> omega

/-- The entries of the array after pass `k` with pivot row `l`, in terms of the
    entries before the pass. -/
theorem eliminate_entry (n k l : Nat) (a : Nat → K) (hk : 1 ≤ k) (hkl : k ≤ l) (hln : l ≤ n)
    (i j : Nat) (hi : 1 ≤ i) (hin : i ≤ n) (hjn : j ≤ n) :
    eliminate n k l a (i + j * n)
      = if k ≤ i ∧ k ≤ j then
          (if i = k then a (l + j * n)
            else if j = k then a (exchange k l i + k * n) * (-1 / a (l + k * n))
            else a (exchange k l i + j * n)
              + a (l + j * n) * (a (exchange k l i + k * n) * (-1 / a (l + k * n))))
        else a (i + j * n) := by
  have hframe : ∀ t, k + 1 ≤ t → t < k + 1 + (n + 1 - (k + 1)) → ∀ (a : Nat → K) (x : Nat),
      ¬ (∃ i, k ≤ i ∧ i ≤ n ∧ x = i + t * n) → eliminateColumn n k l t a x = a x := by
    intro t ht1 _ a x hx
    exact eliminateColumn_frame n k l t a hk (by omega) hkl hln x
      (fun i h1 h2 h3 => hx ⟨i, h1, h2, h3⟩)
  unfold eliminate forRange
  by_cases hc : k ≤ i ∧ k < j
  · rw [forUp_touched (fun j a => eliminateColumn n k l j a)
      (fun t x => ∃ i, k ≤ i ∧ i ≤ n ∧ x = i + t * n)
      (fun x => ∃ i, k < i ∧ i ≤ n ∧ x = i + k * n) (i + j * n) j (n + 1 - (k + 1)) (k + 1) _
      hframe ?_ ?_ ?_ (by omega) (by omega) ⟨i, hc.1, hin, rfl⟩]
    · show eliminateColumn n k l j (scaleColumn n k (swapPivot n k l a)) (i + j * n) = _
      rw [eliminateColumn_entry n k l j _ hk hc.2 hkl i hc.1 hin]
      rw [prepared_entry n k l a hk hkl hln l j (by omega) hln,
        prepared_entry n k l a hk hkl hln i k hi hin,
        prepared_entry n k l a hk hkl hln (exchange k l i) j
          (by have := exchange_range hkl hln hc.1 hin; omega)
          (exchange_range hkl hln hc.1 hin).2]
      split_ifs <;> first | rfl | (exfalso; omega)
    · intro t ht1 ht2 a b hab x hx
      obtain ⟨r, hr1, hr2, hr3⟩ := hx
      subst hr3
      show eliminateColumn n k l t a (r + t * n) = eliminateColumn n k l t b (r + t * n)
      rw [eliminateColumn_entry n k l t a hk (by omega) hkl r hr1 hr2,
        eliminateColumn_entry n k l t b hk (by omega) hkl r hr1 hr2]
      have e1 : a (l + t * n) = b (l + t * n) := hab _ (Or.inl ⟨l, hkl, hln, rfl⟩)
      by_cases hrk : r = k
      · rw [if_pos hrk, if_pos hrk, e1]
      · rw [if_neg hrk, if_neg hrk, e1,
          hab (exchange k l r + t * n) (Or.inl ⟨_, (exchange_range hkl hln hr1 hr2).1,
            (exchange_range hkl hln hr1 hr2).2, rfl⟩),
          hab (r + k * n) (Or.inr ⟨r, by omega, hr2, rfl⟩)]
    · intro t u _ _ _ _ x hx hu
      obtain ⟨r, hr1, hr2, hr3⟩ := hx
      obtain ⟨r2, hq1, hq2, hq3⟩ := hu
      exact (flat_inj (by omega) hr2 (by omega) hq2 (hr3.symm.trans hq3)).2
    · intro t ht1 _ x hx hR
      obtain ⟨r, hr1, hr2, hr3⟩ := hx
      obtain ⟨r2, hq1, hq2, hq3⟩ := hR
      have := (flat_inj (by omega) hr2 (by omega) hq2 (hr3.symm.trans hq3)).2
      omega
  · rw [forUp_untouched (fun j a => eliminateColumn n k l j a)
      (fun t x => ∃ i, k ≤ i ∧ i ≤ n ∧ x = i + t * n) (i + j * n) (n + 1 - (k + 1)) (k + 1) _
      hframe ?_]
    · show scaleColumn n k (swapPivot n k l a) (i + j * n) = _
      rw [prepared_entry n k l a hk hkl hln i j hi hin]
      by_cases hjk : j = k
      · subst hjk
        split_ifs <;> first | rfl | (exfalso; omega)
      · split_ifs <;> first | rfl | (exfalso; omega)
    · intro t ht1 ht2 hx
      obtain ⟨r, hr1, hr2, hr3⟩ := hx
      have := flat_inj hi hin (by omega) hr2 hr3
      omega

theorem first_failure (P : Nat → Prop) (m : Nat) :
    (∀ k, 1 ≤ k → k ≤ m → ¬ P k) ∨
    ∃ k, 1 ≤ k ∧ k ≤ m ∧ P k ∧ ∀ k2, 1 ≤ k2 → k2 < k → ¬ P k2 := by
  induction m with
  | zero => left; intro k h1 h2; omega
  | succ m ih =>
    rcases ih with h | ⟨k, h1, h2, h3, h4⟩
    · by_cases hp : P (m + 1)
      · right
        exact ⟨m + 1, by omega, le_refl _, hp, fun k2 h1 h2 => h k2 h1 (by omega)⟩
      · left
        intro k h1 h2
        by_cases hk : k = m + 1
        · rw [hk]; exact hp
        · exact h k h1 (by omega)
    · right
      exact ⟨k, h1, by omega, h3, h4⟩

theorem step_of_zero (n k0 : Nat) (a0 : Nat → K) (s : State K) (hs : s.a = afterSteps n a0 k0)
    (hp : pivotAt n a0 (k0 + 1) = 0) :
    DGEFA_step n (k0 + 1) s
      = ({ s with ipvt := Function.update s.ipvt (k0 + 1) (pivotRowAt n a0 (k0 + 1)) },
          some (k0 + 1)) := by
  unfold DGEFA_step
  have e : pivotSearch n (k0 + 1) s.a = pivotRowAt n a0 (k0 + 1) := by
    unfold pivotRowAt
    rw [hs]
    rfl
  have e2 : s.a (pivotRowAt n a0 (k0 + 1) + (k0 + 1) * n) = 0 := by
    rw [hs]
    exact hp
  simp only [e, e2, if_true]

theorem step_of_nonzero (n k0 : Nat) (a0 : Nat → K) (s : State K)
    (hs : s.a = afterSteps n a0 k0) (hp : pivotAt n a0 (k0 + 1) ≠ 0) :
    DGEFA_step n (k0 + 1) s
      = ({ a := afterSteps n a0 (k0 + 1),
           ipvt := Function.update s.ipvt (k0 + 1) (pivotRowAt n a0 (k0 + 1)) }, none) := by
  unfold DGEFA_step
  have e : pivotSearch n (k0 + 1) s.a = pivotRowAt n a0 (k0 + 1) := by
    unfold pivotRowAt
    rw [hs]
    rfl
  have e2 : s.a (pivotRowAt n a0 (k0 + 1) + (k0 + 1) * n) ≠ 0 := by
    rw [hs]
    exact hp
  simp only [e, e2, if_false]
  rw [hs]
  rfl

/-- The loop when no pass meets a zero pivot. -/
theorem loop_of_nonzero (n : Nat) (a0 : Nat → K) (c : Nat) :
    ∀ (k0 : Nat) (s : State K), s.a = afterSteps n a0 k0 →
      (∀ k, k0 < k → k ≤ k0 + c → pivotAt n a0 k ≠ 0) →
      (DGEFA_loop n (k0 + 1) c s).2 = none ∧
      (DGEFA_loop n (k0 + 1) c s).1.a = afterSteps n a0 (k0 + c) ∧
      ∀ j, (DGEFA_loop n (k0 + 1) c s).1.ipvt j
        = if k0 < j ∧ j ≤ k0 + c then pivotRowAt n a0 j else s.ipvt j := by
  induction c with
  | zero =>
    intro k0 s hs _
    refine ⟨rfl, hs, ?_⟩
    intro j
    rw [if_neg (by omega)]
    rfl
  | succ c ih =>
    intro k0 s hs hp
    have hstep := step_of_nonzero n k0 a0 s hs (hp (k0 + 1) (by omega) (by omega))
    have e : DGEFA_loop n (k0 + 1) (c + 1) s
        = DGEFA_loop n (k0 + 1 + 1) c (State.mk (afterSteps n a0 (k0 + 1))
            (Function.update s.ipvt (k0 + 1) (pivotRowAt n a0 (k0 + 1)))) := by
      show (match DGEFA_step n (k0 + 1) s with
        | (s, some e) => (s, some e)
        | (s, none) => DGEFA_loop n (k0 + 1 + 1) c s) = _
      rw [hstep]
    rw [e]
    obtain ⟨h1, h2, h3⟩ := ih (k0 + 1) (State.mk (afterSteps n a0 (k0 + 1))
      (Function.update s.ipvt (k0 + 1) (pivotRowAt n a0 (k0 + 1)))) rfl
      (fun k hk1 hk2 => hp k (by omega) (by omega))
    refine ⟨h1, ?_, ?_⟩
    · have e3 : k0 + 1 + c = k0 + (c + 1) := by omega
      rw [h2, e3]
    · intro j
      rw [h3 j]
      simp only [Function.update_apply]
      split_ifs <;> first | rfl | (exfalso; omega) | (subst_vars; rfl)

/-- The loop when pass `k` is the first to meet a zero pivot. -/
theorem loop_of_zero (n : Nat) (a0 : Nat → K) (c : Nat) :
    ∀ (k0 : Nat) (s : State K) (k : Nat), s.a = afterSteps n a0 k0 →
      k0 < k → k ≤ k0 + c → pivotAt n a0 k = 0 →
      (∀ k2, k0 < k2 → k2 < k → pivotAt n a0 k2 ≠ 0) →
      (DGEFA_loop n (k0 + 1) c s).2 = some k ∧
      (DGEFA_loop n (k0 + 1) c s).1.a = afterSteps n a0 (k - 1) ∧
      ∀ j, (DGEFA_loop n (k0 + 1) c s).1.ipvt j
        = if k0 < j ∧ j ≤ k then pivotRowAt n a0 j else s.ipvt j := by
  induction c with
  | zero => intro k0 s k _ h1 h2; omega
  | succ c ih =>
    intro k0 s k hs hk1 hk2 hz hnz
    by_cases hk : k = k0 + 1
    · subst hk
      have hstep := step_of_zero n k0 a0 s hs hz
      have e : DGEFA_loop n (k0 + 1) (c + 1) s
          = ({ s with ipvt := Function.update s.ipvt (k0 + 1) (pivotRowAt n a0 (k0 + 1)) },
              some (k0 + 1)) := by
        show (match DGEFA_step n (k0 + 1) s with
          | (s, some e) => (s, some e)
          | (s, none) => DGEFA_loop n (k0 + 1 + 1) c s) = _
        rw [hstep]
      rw [e]
      refine ⟨rfl, hs, ?_⟩
      intro j
      simp only [Function.update_apply]
      split_ifs <;> first | rfl | (exfalso; omega) | (subst_vars; rfl)
    · have hstep := step_of_nonzero n k0 a0 s hs (hnz (k0 + 1) (by omega) (by omega))
      have e : DGEFA_loop n (k0 + 1) (c + 1) s
          = DGEFA_loop n (k0 + 1 + 1) c (State.mk (afterSteps n a0 (k0 + 1))
              (Function.update s.ipvt (k0 + 1) (pivotRowAt n a0 (k0 + 1)))) := by
        show (match DGEFA_step n (k0 + 1) s with
          | (s, some e) => (s, some e)
          | (s, none) => DGEFA_loop n (k0 + 1 + 1) c s) = _
        rw [hstep]
      rw [e]
      obtain ⟨h1, h2, h3⟩ := ih (k0 + 1) (State.mk (afterSteps n a0 (k0 + 1))
      (Function.update s.ipvt (k0 + 1) (pivotRowAt n a0 (k0 + 1)))) k rfl (by omega) (by omega) hz
        (fun k2 hk1 hk2 => hnz k2 (by omega) hk2)
      refine ⟨h1, h2, ?_⟩
      intro j
      rw [h3 j]
      simp only [Function.update_apply]
      split_ifs <;> first | rfl | (exfalso; omega) | (subst_vars; rfl)

/-- The call when no pass of the loop meets a zero pivot. -/
theorem run_of_nonzero (n : Nat) (a : Nat → K) (ipvt : Nat → Nat) (hn : 1 ≤ n)
    (hp : ∀ k, 1 ≤ k → k ≤ n - 1 → pivotAt n (adjust n a) k ≠ 0) :
    (Linpack_DGEFA a n ipvt).a = unadjust n (afterSteps n (adjust n a) (n - 1)) ∧
    (∀ j, (Linpack_DGEFA a n ipvt).ipvt j
      = if j + 1 = n then n
        else if j + 1 ≤ n - 1 then pivotRowAt n (adjust n a) (j + 1) else ipvt j) ∧
    (Linpack_DGEFA a n ipvt).ierr
      = if afterSteps n (adjust n a) (n - 1) (n + n * n) = 0 then n else 0 := by
  obtain ⟨h1, h2, h3⟩ := loop_of_nonzero n (adjust n a) (n - 1) 0
    (State.mk (adjust n a) (adjustPivots ipvt)) rfl
    (fun k hk1 hk2 => hp k (by omega) (by omega))
  unfold Linpack_DGEFA
  dsimp only
  simp only [Nat.zero_add] at h1 h2 h3
  generalize DGEFA_loop n 1 (n - 1) (State.mk (adjust n a) (adjustPivots ipvt)) = r at h1 h2 h3 ⊢
  obtain ⟨s, e⟩ := r
  simp only at h1 h2 h3
  subst h1
  simp only [h2]
  have hip : ∀ j, unadjustPivots (Function.update s.ipvt n n) j
      = if j + 1 = n then n
        else if j + 1 ≤ n - 1 then pivotRowAt n (adjust n a) (j + 1) else ipvt j := by
    intro j
    unfold unadjustPivots
    simp only [Function.update_apply, h3, adjustPivots]
    split_ifs <;> first | rfl | (exfalso; omega)
  by_cases hz : afterSteps n (adjust n a) (n - 1) (n + n * n) = 0
  · simp only [hz, if_true, State.output, h2]
    exact ⟨trivial, hip, trivial⟩
  · simp only [hz, if_false, State.output, h2]
    exact ⟨trivial, hip, trivial⟩

/-- The call when pass `k` is the first to meet a zero pivot. -/
theorem run_of_zero (n : Nat) (a : Nat → K) (ipvt : Nat → Nat) (k : Nat) (hk : 1 ≤ k)
    (hkn : k ≤ n - 1) (hz : pivotAt n (adjust n a) k = 0)
    (hp : ∀ k2, 1 ≤ k2 → k2 < k → pivotAt n (adjust n a) k2 ≠ 0) :
    (Linpack_DGEFA a n ipvt).a = unadjust n (afterSteps n (adjust n a) (k - 1)) ∧
    (∀ j, (Linpack_DGEFA a n ipvt).ipvt j
      = if j + 1 ≤ k then pivotRowAt n (adjust n a) (j + 1) else ipvt j) ∧
    (Linpack_DGEFA a n ipvt).ierr = k := by
  obtain ⟨h1, h2, h3⟩ := loop_of_zero n (adjust n a) (n - 1) 0
    (State.mk (adjust n a) (adjustPivots ipvt)) k rfl (by omega) (by omega) hz
    (fun k2 hk1 hk2 => hp k2 (by omega) hk2)
  unfold Linpack_DGEFA
  dsimp only
  simp only [Nat.zero_add] at h1 h2 h3
  generalize DGEFA_loop n 1 (n - 1) (State.mk (adjust n a) (adjustPivots ipvt)) = r at h1 h2 h3 ⊢
  obtain ⟨s, e⟩ := r
  simp only at h1 h2 h3
  subst h1
  simp only [State.output, h2]
  refine ⟨trivial, ?_, trivial⟩
  intro j
  unfold unadjustPivots
  simp only [h3, adjustPivots]
  split_ifs <;> first | rfl | (exfalso; omega)

/-- When the loop has not returned during its first `m` passes, none of them
    met a zero pivot, and the array is the one `afterSteps` gives. -/
theorem reached_nonzero (n : Nat) (a0 : Nat → K) (s : State K) (hs : s.a = a0) (m : Nat)
    (h : (DGEFA_loop n 1 m s).2 = none) :
    (∀ k, 1 ≤ k → k ≤ m → pivotAt n a0 k ≠ 0) ∧ (DGEFA_loop n 1 m s).1.a = afterSteps n a0 m := by
  have hall : ∀ k, 1 ≤ k → k ≤ m → pivotAt n a0 k ≠ 0 := by
    rcases first_failure (fun k => pivotAt n a0 k = 0) m with hnz | ⟨k, h1, h2, h3, h4⟩
    · exact hnz
    · have := (loop_of_zero n a0 m 0 s k hs (by omega) (by omega) h3
        (fun k2 hk1 hk2 => h4 k2 (by omega) hk2)).1
      simp only [Nat.zero_add] at this
      rw [h] at this
      cases this
  refine ⟨hall, ?_⟩
  have := (loop_of_nonzero n a0 m 0 s hs (fun k hk1 hk2 => hall k (by omega) (by omega))).2.1
  simp only [Nat.zero_add] at this
  exact this

/-- Claim C20. For every `n >= 1` and every pass `k < n` that the loop of
    `Linpack_DGEFA` reaches, the recorded pivot row `ipvt[k]` is the smallest row
    `l` with `k <= l <= n` whose entry in column `k` of the current array (the
    array at the entry of pass `k`) has the largest absolute value among the rows
    `k..n`; and when the call returns 0, `ipvt[n] = n`. -/
theorem pivot_is_first_maximal (n : Nat) (a : Nat → K) (ipvt : Nat → Nat) (hn : 1 ≤ n) :
    (∀ k, 1 ≤ k → k < n →
      (DGEFA_loop n 1 (k - 1) (State.mk (adjust n a) (adjustPivots ipvt))).2 = none →
      k ≤ (Linpack_DGEFA a n ipvt).ipvt (k - 1) ∧ (Linpack_DGEFA a n ipvt).ipvt (k - 1) ≤ n ∧
      (∀ i, k ≤ i → i ≤ n →
        |(DGEFA_loop n 1 (k - 1) (State.mk (adjust n a) (adjustPivots ipvt))).1.a (i + k * n)|
        ≤ |(DGEFA_loop n 1 (k - 1) (State.mk (adjust n a) (adjustPivots ipvt))).1.a
            ((Linpack_DGEFA a n ipvt).ipvt (k - 1) + k * n)|) ∧
      (∀ i, k ≤ i → i < (Linpack_DGEFA a n ipvt).ipvt (k - 1) →
        |(DGEFA_loop n 1 (k - 1) (State.mk (adjust n a) (adjustPivots ipvt))).1.a (i + k * n)|
        < |(DGEFA_loop n 1 (k - 1) (State.mk (adjust n a) (adjustPivots ipvt))).1.a
            ((Linpack_DGEFA a n ipvt).ipvt (k - 1) + k * n)|)) ∧
    ((Linpack_DGEFA a n ipvt).ierr = 0 → (Linpack_DGEFA a n ipvt).ipvt (n - 1) = n) := by
  constructor
  · intro k hk hkn hreach
    obtain ⟨hall, hcur⟩ := reached_nonzero n (adjust n a)
      (State.mk (adjust n a) (adjustPivots ipvt)) rfl (k - 1) hreach
    rw [hcur]
    have hrow : (Linpack_DGEFA a n ipvt).ipvt (k - 1)
        = pivotSearch n k (afterSteps n (adjust n a) (k - 1)) := by
      rcases first_failure (fun k => pivotAt n (adjust n a) k = 0) (n - 1) with
        hnz | ⟨k2, h1, h2, h3, h4⟩
      · rw [(run_of_nonzero n a ipvt hn hnz).2.1 (k - 1), if_neg (by omega), if_pos (by omega)]
        have e : k - 1 + 1 = k := by omega
        rw [e]
        rfl
      · have hk2 : k ≤ k2 := by
          by_contra hlt
          exact hall k2 h1 (by omega) h3
        rw [(run_of_zero n a ipvt k2 h1 h2 h3 h4).2.1 (k - 1), if_pos (by omega)]
        have e : k - 1 + 1 = k := by omega
        rw [e]
        rfl
    rw [hrow]
    exact pivotSearch_spec n k _ hk (le_of_lt hkn)
  · intro h0
    rcases first_failure (fun k => pivotAt n (adjust n a) k = 0) (n - 1) with
      hnz | ⟨k2, h1, h2, h3, h4⟩
    · rw [(run_of_nonzero n a ipvt hn hnz).2.1 (n - 1), if_pos (by omega)]
    · have := (run_of_zero n a ipvt k2 h1 h2 h3 h4).2.2
      omega

theorem rowExchange_mul (n k l : Nat) (M : Matrix (Fin n) (Fin n) K) (i j r : Fin n)
    (hr : r.val = exchange k l i.val) :
    ((rowExchange n k l : Matrix (Fin n) (Fin n) K) * M) i j = M r j := by
  rw [Matrix.mul_apply, Finset.sum_eq_single r]
  · unfold rowExchange
    rw [if_pos hr, one_mul]
  · intro b _ hb
    unfold rowExchange
    rw [if_neg, zero_mul]
    intro h
    exact hb (Fin.ext (h.trans hr.symm))
  · intro h
    exact absurd (Finset.mem_univ r) h

theorem belowDiagonal_mul (n : Nat) (a : Nat → K) (k : Nat) (M : Matrix (Fin n) (Fin n) K)
    (i j r : Fin n) (hr : r.val = k) :
    (belowDiagonal n a k * M) i j = if k < i.val then a (i.val + k * n) * M r j else 0 := by
  rw [Matrix.mul_apply, Finset.sum_eq_single r]
  · unfold belowDiagonal
    by_cases h : k < i.val
    · rw [if_pos ⟨hr, h⟩, if_pos h]
    · rw [if_neg (fun hc => h hc.2), if_neg h, zero_mul]
  · intro b _ hb
    unfold belowDiagonal
    rw [if_neg, zero_mul]
    intro h
    exact hb (Fin.ext (h.1.trans hr.symm))
  · intro h
    exact absurd (Finset.mem_univ r) h

omit [LinearOrderedField K] in
theorem exchange_pred (k l i : Nat) (hl : 1 ≤ l) :
    exchange k (l - 1) i + 1 = exchange (k + 1) l (i + 1) := by
  unfold exchange
  split_ifs <;> omega

/-- One pass of the loop as a matrix equation: the working matrix after pass
    `k + 1` is `L P` times the working matrix before it. -/
theorem working_step (n k l : Nat) (a : Nat → K) (hkn : k + 1 < n) (hkl : k + 1 ≤ l)
    (hln : l ≤ n) (hp : a (l + (k + 1) * n) ≠ 0) :
    working n (k + 1) (eliminate n (k + 1) l a)
      = multiplierMatrix n (unadjust n (eliminate n (k + 1) l a)) k
          * (rowExchange n k (l - 1) * working n k a) := by
  ext i j
  have hi := i.2
  have hj := j.2
  have hex : exchange k (l - 1) i.val < n := by
    unfold exchange
    split_ifs <;> omega
  unfold multiplierMatrix
  rw [Matrix.add_mul, Matrix.one_mul, Matrix.add_apply,
    belowDiagonal_mul n _ k _ i j ⟨k, by omega⟩ rfl,
    rowExchange_mul n k (l - 1) _ i j ⟨exchange k (l - 1) i.val, hex⟩ rfl,
    rowExchange_mul n k (l - 1) _ ⟨k, by omega⟩ j ⟨l - 1, by omega⟩
      (by unfold exchange; simp)]
  unfold working unadjust
  simp only []
  have e1 : i.val + k * n + (n + 1) = i.val + 1 + (k + 1) * n := by
    rw [Nat.succ_mul]; omega
  rw [e1, exchange_pred k l i.val (by omega)]
  have el : l - 1 + 1 = l := by omega
  rw [el]
  rw [eliminate_entry n (k + 1) l a (by omega) hkl hln (i.val + 1) (j.val + 1) (by omega)
    (by omega) (by omega),
    eliminate_entry n (k + 1) l a (by omega) hkl hln (i.val + 1) (k + 1) (by omega)
    (by omega) (by omega)]
  have hy1 : ↑i < k → exchange k (l - 1) i.val = i.val := by
    intro h; unfold exchange; split_ifs <;> omega
  have hy2 : k ≤ ↑i → k ≤ exchange k (l - 1) i.val := by
    intro h; unfold exchange; split_ifs <;> omega
  have hx1 : ↑i < k → exchange (k + 1) l (i.val + 1) = i.val + 1 := by
    intro h; unfold exchange; split_ifs <;> omega
  have hx2 : ↑i = k → exchange (k + 1) l (i.val + 1) = l := by
    intro h; unfold exchange; split_ifs <;> omega
  rcases Nat.lt_trichotomy j.val k with hjk | hjk | hjk
  · by_cases hik : i.val < k
    · have f2 : ¬ (k + 1 ≤ i.val + 1 ∧ k + 1 ≤ j.val + 1) := by omega
      have f6 : ¬ (k < i.val) := by omega
      simp only [if_neg f2, if_neg f6, hy1 hik, hx1 hik, add_zero]
      by_cases hji : j.val < i.val
      · rw [if_pos ⟨by omega, hji⟩, if_pos ⟨hjk, hji⟩]
      · rw [if_neg (fun h => hji h.2), if_neg (fun h => hji h.2)]
    · have f1 : j.val < k + 1 ∧ j.val < i.val := by omega
      have f5 : j.val < k ∧ j.val < exchange k (l - 1) i.val :=
        ⟨hjk, by have := hy2 (by omega); omega⟩
      have f9 : j.val < k ∧ j.val < l - 1 := by omega
      simp only [if_pos f1, if_pos f5, if_pos f9, mul_zero, ite_self, add_zero]
  · have f5 : ¬ (j.val < k ∧ j.val < exchange k (l - 1) i.val) := by omega
    have f9 : ¬ (j.val < k ∧ j.val < l - 1) := by omega
    simp only [if_neg f5, if_neg f9, eq_self_iff_true, if_true]
    rcases Nat.lt_trichotomy i.val k with hik | hik | hik
    · have f1 : ¬ (j.val < k + 1 ∧ j.val < i.val) := by omega
      have f2 : ¬ (k + 1 ≤ i.val + 1 ∧ k + 1 ≤ j.val + 1) := by omega
      have f6 : ¬ (k < i.val) := by omega
      simp only [if_neg f1, if_neg f2, if_neg f6, hx1 hik, add_zero]
    · have f1 : ¬ (j.val < k + 1 ∧ j.val < i.val) := by omega
      have f2 : k + 1 ≤ i.val + 1 ∧ k + 1 ≤ j.val + 1 := by omega
      have f3 : i.val + 1 = k + 1 := by omega
      have f6 : ¬ (k < i.val) := by omega
      simp only [if_neg f1, if_pos f2, if_pos f3, if_neg f6, hx2 hik, add_zero]
    · have f1 : j.val < k + 1 ∧ j.val < i.val := by omega
      have f3 : ¬ (i.val + 1 = k + 1) := by omega
      have f6 : k < i.val := by omega
      have f7 : k + 1 ≤ i.val + 1 ∧ k + 1 ≤ k + 1 := by omega
      have e3 : (j.val + 1) * n = (k + 1) * n := by rw [hjk]
      simp only [if_pos f1, if_neg f3, if_pos f6, if_pos f7, e3]
      field_simp
  · have f1 : ¬ (j.val < k + 1 ∧ j.val < i.val) := by omega
    have f5 : ¬ (j.val < k ∧ j.val < exchange k (l - 1) i.val) := by omega
    have f9 : ¬ (j.val < k ∧ j.val < l - 1) := by omega
    have f4 : ¬ (j.val + 1 = k + 1) := by omega
    simp only [if_neg f1, if_neg f5, if_neg f9, eq_self_iff_true, if_true, if_neg f4]
    rcases Nat.lt_trichotomy i.val k with hik | hik | hik
    · have f2 : ¬ (k + 1 ≤ i.val + 1 ∧ k + 1 ≤ j.val + 1) := by omega
      have f6 : ¬ (k < i.val) := by omega
      simp only [if_neg f2, if_neg f6, hx1 hik, add_zero]
    · have f2 : k + 1 ≤ i.val + 1 ∧ k + 1 ≤ j.val + 1 := by omega
      have f3 : i.val + 1 = k + 1 := by omega
      have f6 : ¬ (k < i.val) := by omega
      simp only [if_pos f2, if_pos f3, if_neg f6, hx2 hik, add_zero]
    · have f2 : k + 1 ≤ i.val + 1 ∧ k + 1 ≤ j.val + 1 := by omega
      have f3 : ¬ (i.val + 1 = k + 1) := by omega
      have f6 : k < i.val := by omega
      have f7 : k + 1 ≤ i.val + 1 ∧ k + 1 ≤ k + 1 := by omega
      simp only [if_pos f2, if_neg f3, if_pos f6, if_pos f7]
      ring

/-- The pivot row of pass `k` lies in `k..n`. -/
theorem pivotRowAt_range (n : Nat) (a0 : Nat → K) (k : Nat) (hk : 1 ≤ k) (hkn : k ≤ n) :
    k ≤ pivotRowAt n a0 k ∧ pivotRowAt n a0 k ≤ n :=
  ⟨(pivotSearch_spec n k _ hk hkn).1, (pivotSearch_spec n k _ hk hkn).2.1⟩

/-- The entries of the array after pass `m + 1` in terms of those after pass `m`. -/
theorem afterSteps_succ_entry (n : Nat) (a0 : Nat → K) (m : Nat) (hm : m + 1 ≤ n)
    (i j : Nat) (hi : 1 ≤ i) (hin : i ≤ n) (hjn : j ≤ n) :
    afterSteps n a0 (m + 1) (i + j * n)
      = if m + 1 ≤ i ∧ m + 1 ≤ j then
          (if i = m + 1 then afterSteps n a0 m (pivotRowAt n a0 (m + 1) + j * n)
            else if j = m + 1 then
              afterSteps n a0 m (exchange (m + 1) (pivotRowAt n a0 (m + 1)) i + (m + 1) * n)
                * (-1 / pivotAt n a0 (m + 1))
            else afterSteps n a0 m (exchange (m + 1) (pivotRowAt n a0 (m + 1)) i + j * n)
              + afterSteps n a0 m (pivotRowAt n a0 (m + 1) + j * n)
                * (afterSteps n a0 m (exchange (m + 1) (pivotRowAt n a0 (m + 1)) i + (m + 1) * n)
                  * (-1 / pivotAt n a0 (m + 1))))
        else afterSteps n a0 m (i + j * n) := by
  have hr := pivotRowAt_range n a0 (m + 1) (by omega) hm
  exact eliminate_entry n (m + 1) (pivotRowAt n a0 (m + 1)) (afterSteps n a0 m) (by omega)
    hr.1 hr.2 i j hi hin hjn

/-- An entry in one of the first `k` rows or columns is final after pass `k`. -/
theorem afterSteps_stable (n : Nat) (a0 : Nat → K) (k : Nat) (i j : Nat) (hi : 1 ≤ i)
    (hin : i ≤ n) (hjn : j ≤ n) (hij : i ≤ k ∨ j ≤ k) (c : Nat) (hc : k + c ≤ n) :
    afterSteps n a0 (k + c) (i + j * n) = afterSteps n a0 k (i + j * n) := by
  induction c with
  | zero => rfl
  | succ c ih =>
    have e : k + (c + 1) = (k + c) + 1 := by omega
    rw [e, afterSteps_succ_entry n a0 (k + c) (by omega) i j hi hin hjn, if_neg (by omega),
      ih (by omega)]

/-- The diagonal entry `(k,k)` holds the pivot of pass `k` from that pass on. -/
theorem afterSteps_diagonal (n : Nat) (a0 : Nat → K) (k : Nat) (hk : 1 ≤ k) (c : Nat)
    (hc : k + c ≤ n) : afterSteps n a0 (k + c) (k + k * n) = pivotAt n a0 k := by
  rw [afterSteps_stable n a0 k k k hk (by omega) (by omega) (Or.inl (le_refl _)) c hc]
  obtain ⟨m, rfl⟩ : ∃ m, k = m + 1 := ⟨k - 1, by omega⟩
  rw [afterSteps_succ_entry n a0 m (by omega) (m + 1) (m + 1) (by omega) (by omega) (by omega),
    if_pos ⟨le_refl _, le_refl _⟩, if_pos rfl]
  rfl

theorem working_zero (n : Nat) (a : Nat → K) : working n 0 (adjust n a) = toMatrix n a := by
  ext i j
  unfold working adjust toMatrix
  rw [if_neg (by omega)]
  congr 1
  rw [Nat.succ_mul]
  omega

theorem factorProduct_congr (n : Nat) (a a2 : Nat → K) (ipvt ipvt2 : Nat → Nat) (m : Nat)
    (ha : ∀ k, k < m → ∀ i, i < n → a (i + k * n) = a2 (i + k * n))
    (hp : ∀ k, k < m → ipvt k = ipvt2 k) :
    factorProduct n a ipvt m = factorProduct n a2 ipvt2 m := by
  induction m with
  | zero => rfl
  | succ m ih =>
    show multiplierMatrix n a m * (rowExchange n m (ipvt m - 1) * factorProduct n a ipvt m)
      = multiplierMatrix n a2 m * (rowExchange n m (ipvt2 m - 1) * factorProduct n a2 ipvt2 m)
    rw [ih (fun k hk => ha k (by omega)) (fun k hk => hp k (by omega)), hp m (by omega)]
    congr 1
    unfold multiplierMatrix
    congr 1
    ext i j
    unfold belowDiagonal
    rw [ha m (by omega) i.val i.2]

/-- The pivot rows as the caller's pivot vector holds them. -/
theorem working_eq_product (n : Nat) (a0 : Nat → K) (m : Nat) (hm : m + 1 ≤ n)
    (hp : ∀ k, 1 ≤ k → k ≤ m → pivotAt n a0 k ≠ 0) :
    working n m (afterSteps n a0 m)
      = factorProduct n (unadjust n (afterSteps n a0 m)) (fun j => pivotRowAt n a0 (j + 1)) m
          * working n 0 a0 := by
  induction m with
  | zero =>
    show _ = 1 * _
    rw [Matrix.one_mul]
    rfl
  | succ m ih =>
    have hr := pivotRowAt_range n a0 (m + 1) (by omega) (by omega)
    have hstep := working_step n m (pivotRowAt n a0 (m + 1)) (afterSteps n a0 m) (by omega)
      hr.1 hr.2 (hp (m + 1) (by omega) (le_refl _))
    have e : afterSteps n a0 (m + 1)
        = eliminate n (m + 1) (pivotRowAt n a0 (m + 1)) (afterSteps n a0 m) := rfl
    rw [e, hstep, ih (by omega) (fun k h1 h2 => hp k h1 (by omega))]
    show _ = multiplierMatrix n _ m * (rowExchange n m (pivotRowAt n a0 (m + 1) - 1)
      * factorProduct n _ _ m) * _
    rw [← e, Matrix.mul_assoc, Matrix.mul_assoc]
    congr 2
    congr 1
    apply factorProduct_congr
    · intro k hk i hi
      unfold unadjust
      have e1 : i + k * n + (n + 1) = (i + 1) + (k + 1) * n := by
        rw [Nat.succ_mul]; omega
      rw [e1]
      exact (afterSteps_stable n a0 m (i + 1) (k + 1) (by omega) (by omega) (by omega)
        (Or.inr (by omega)) 1 (by omega)).symm
    · intro k _
      rfl

omit [LinearOrderedField K] in
theorem exchange_exchange (k l i : Nat) : exchange k l (exchange k l i) = i := by
  unfold exchange
  split_ifs <;> omega

theorem rowExchange_sq (n k l : Nat) (hk : k < n) (hl : l < n) :
    (rowExchange n k l : Matrix (Fin n) (Fin n) K) * rowExchange n k l = 1 := by
  ext i j
  have hex : exchange k l i.val < n := by
    have := i.2
    unfold exchange
    split_ifs <;> omega
  rw [rowExchange_mul n k l _ i j ⟨exchange k l i.val, hex⟩ rfl, Matrix.one_apply]
  unfold rowExchange
  simp only [exchange_exchange]
  by_cases h : i = j
  · rw [if_pos h, if_pos (by rw [h])]
  · rw [if_neg h, if_neg (fun hc => h (Fin.ext hc.symm))]

theorem det_rowExchange_ne (n k l : Nat) (hk : k < n) (hl : l < n) :
    (rowExchange n k l : Matrix (Fin n) (Fin n) K).det ≠ 0 := by
  intro h
  have := congrArg Matrix.det (@rowExchange_sq K _ n k l hk hl)
  rw [Matrix.det_mul, Matrix.det_one, h, zero_mul] at this
  exact zero_ne_one this

theorem belowDiagonal_sq (n : Nat) (a : Nat → K) (k : Nat) (hk : k < n) :
    belowDiagonal n a k * belowDiagonal n a k = 0 := by
  ext i j
  rw [belowDiagonal_mul n a k _ i j ⟨k, hk⟩ rfl]
  have : belowDiagonal n a k ⟨k, hk⟩ j = 0 := by
    unfold belowDiagonal
    rw [if_neg (fun h => Nat.lt_irrefl k h.2)]
  rw [this, mul_zero, ite_self]
  rfl

theorem det_multiplierMatrix_ne (n : Nat) (a : Nat → K) (k : Nat) (hk : k < n) :
    (multiplierMatrix n a k).det ≠ 0 := by
  intro h
  have e : multiplierMatrix n a k * (1 - belowDiagonal n a k) = 1 := by
    unfold multiplierMatrix
    rw [Matrix.add_mul, Matrix.mul_sub, Matrix.mul_sub, belowDiagonal_sq n a k hk]
    simp only [Matrix.one_mul, Matrix.mul_one]
    abel
  have := congrArg Matrix.det e
  rw [Matrix.det_mul, Matrix.det_one, h, zero_mul] at this
  exact zero_ne_one this

theorem det_factorProduct_ne (n : Nat) (a : Nat → K) (ipvt : Nat → Nat) (m : Nat) (hm : m ≤ n)
    (hp : ∀ k, k < m → 1 ≤ ipvt k ∧ ipvt k ≤ n) : (factorProduct n a ipvt m).det ≠ 0 := by
  induction m with
  | zero =>
    show (1 : Matrix (Fin n) (Fin n) K).det ≠ 0
    rw [Matrix.det_one]
    exact one_ne_zero
  | succ m ih =>
    have e : factorProduct n a ipvt (m + 1)
        = multiplierMatrix n a m * (rowExchange n m (ipvt m - 1) * factorProduct n a ipvt m) :=
      rfl
    rw [e]
    rw [Matrix.det_mul, Matrix.det_mul]
    have := hp m (by omega)
    exact mul_ne_zero (det_multiplierMatrix_ne n a m (by omega))
      (mul_ne_zero (det_rowExchange_ne n m (ipvt m - 1) (by omega) (by omega))
        (ih (by omega) (fun k hk => hp k (by omega))))

/-- A matrix with zeros below the diagonal in its first `k0` columns and zeros
    from the diagonal down in column `k0` has determinant zero. -/
theorem det_eq_zero_of_column (n : Nat) (M : Matrix (Fin n) (Fin n) K) (k0 : Nat) (hk : k0 < n)
    (h1 : ∀ i j : Fin n, j.val < k0 → j.val < i.val → M i j = 0)
    (h2 : ∀ i : Fin n, k0 ≤ i.val → M i ⟨k0, hk⟩ = 0) : M.det = 0 := by
  rw [Matrix.twoBlockTriangular_det M (fun i => i.val < k0)
    (fun i hi j hj => h1 i j hj (by omega))]
  have : (Matrix.toSquareBlockProp M fun i => ¬ i.val < k0).det = 0 :=
    Matrix.det_eq_zero_of_column_eq_zero ⟨⟨k0, hk⟩, Nat.lt_irrefl k0⟩
      (fun i => h2 i.1 (Nat.le_of_not_lt i.2))
  rw [this, mul_zero]

/-- The determinant of the working matrix once all columns are eliminated. -/
theorem det_working_last (n : Nat) (a : Nat → K) (hn : 1 ≤ n) :
    (working n (n - 1) a).det = ∏ i : Fin n, a (i.val + 1 + (i.val + 1) * n) := by
  rw [Matrix.det_of_upperTriangular]
  · apply Finset.prod_congr rfl
    intro i _
    unfold working
    rw [if_neg (fun h => Nat.lt_irrefl _ h.2)]
  · intro i j hij
    have hlt : j.val < i.val := hij
    unfold working
    rw [if_pos ⟨by have := i.2; omega, hlt⟩]

/-- The working matrix after `m` passes without a zero pivot is an invertible
    matrix times the input matrix. -/
theorem det_working (n : Nat) (a : Nat → K) (m : Nat) (hm : m + 1 ≤ n)
    (hp : ∀ k, 1 ≤ k → k ≤ m → pivotAt n (adjust n a) k ≠ 0) :
    ∃ d : K, d ≠ 0 ∧
      (working n m (afterSteps n (adjust n a) m)).det = d * (toMatrix n a).det := by
  refine ⟨(factorProduct n (unadjust n (afterSteps n (adjust n a) m))
    (fun j => pivotRowAt n (adjust n a) (j + 1)) m).det, ?_, ?_⟩
  · apply det_factorProduct_ne n _ _ m (by omega)
    intro k hk
    have := pivotRowAt_range n (adjust n a) (k + 1) (by omega) (by omega)
    exact ⟨by omega, this.2⟩
  · rw [working_eq_product n (adjust n a) m hm hp, Matrix.det_mul, working_zero]

/-- When no pass meets a zero pivot, the matrix is nonsingular exactly when the
    last diagonal entry of the final array is not zero. -/
theorem det_of_nonzero (n : Nat) (a : Nat → K) (hn : 1 ≤ n)
    (hp : ∀ k, 1 ≤ k → k ≤ n - 1 → pivotAt n (adjust n a) k ≠ 0) :
    (toMatrix n a).det ≠ 0 ↔ afterSteps n (adjust n a) (n - 1) (n + n * n) ≠ 0 := by
  obtain ⟨d, hd, hdet⟩ := det_working n a (n - 1) (by omega) hp
  rw [det_working_last n _ hn] at hdet
  have hiff : (toMatrix n a).det ≠ 0
      ↔ (∏ i : Fin n, afterSteps n (adjust n a) (n - 1) (i.val + 1 + (i.val + 1) * n)) ≠ 0 := by
    rw [hdet]
    constructor
    · intro h
      exact mul_ne_zero hd h
    · intro h hz
      rw [hz, mul_zero] at h
      exact h rfl
  rw [hiff, Finset.prod_ne_zero_iff]
  constructor
  · intro h
    have := h ⟨n - 1, by omega⟩ (Finset.mem_univ _)
    have e : n - 1 + 1 = n := by omega
    simp only [e] at this
    exact this
  · intro h i _
    by_cases hi : i.val + 1 = n
    · rw [hi]
      exact h
    · have hin := i.2
      have := afterSteps_diagonal n (adjust n a) (i.val + 1) (by omega) (n - 1 - (i.val + 1))
        (by omega)
      have e : i.val + 1 + (n - 1 - (i.val + 1)) = n - 1 := by omega
      rw [e] at this
      rw [this]
      exact hp (i.val + 1) (by omega) (by omega)

/-- When a pass meets a zero pivot, the matrix is singular. -/
theorem det_of_zero (n : Nat) (a : Nat → K) (k : Nat) (hk : 1 ≤ k) (hkn : k ≤ n - 1)
    (hz : pivotAt n (adjust n a) k = 0)
    (hp : ∀ k2, 1 ≤ k2 → k2 < k → pivotAt n (adjust n a) k2 ≠ 0) :
    (toMatrix n a).det = 0 := by
  obtain ⟨d, hd, hdet⟩ := det_working n a (k - 1) (by omega)
    (fun k2 h1 h2 => hp k2 h1 (by omega))
  have hzero : (working n (k - 1) (afterSteps n (adjust n a) (k - 1))).det = 0 := by
    apply det_eq_zero_of_column n _ (k - 1) (by omega)
    · intro i j h1 h2
      unfold working
      rw [if_pos ⟨h1, h2⟩]
    · intro i hi
      unfold working
      rw [if_neg (fun h => Nat.lt_irrefl _ h.1)]
      have hin := i.2
      have hspec := (pivotSearch_spec n k (afterSteps n (adjust n a) (k - 1)) hk (by omega)).2.2.1
        (i.val + 1) (by omega) (by omega)
      have hz2 : afterSteps n (adjust n a) (k - 1)
          (pivotSearch n k (afterSteps n (adjust n a) (k - 1)) + k * n) = 0 := hz
      rw [hz2, abs_zero] at hspec
      have e : k - 1 + 1 = k := by omega
      show afterSteps n (adjust n a) (k - 1) (i.val + 1 + (k - 1 + 1) * n) = 0
      rw [e]
      exact abs_eq_zero.1 (le_antisymm hspec (abs_nonneg _))
  rw [hzero] at hdet
  rcases mul_eq_zero.1 hdet.symm with h | h
  · exact absurd h hd
  · exact h

/-- The call returns 0 exactly when the matrix is nonsingular. -/
theorem ierr_eq_zero_iff (n : Nat) (a : Nat → K) (ipvt : Nat → Nat) (hn : 1 ≤ n) :
    (Linpack_DGEFA a n ipvt).ierr = 0 ↔ (toMatrix n a).det ≠ 0 := by
  rcases first_failure (fun k => pivotAt n (adjust n a) k = 0) (n - 1) with
    hnz | ⟨k, h1, h2, h3, h4⟩
  · rw [(run_of_nonzero n a ipvt hn hnz).2.2, det_of_nonzero n a hn hnz]
    by_cases hl : afterSteps n (adjust n a) (n - 1) (n + n * n) = 0
    · rw [if_pos hl]
      constructor
      · intro h; omega
      · intro h; exact absurd hl h
    · rw [if_neg hl]
      exact ⟨fun _ => hl, fun _ => rfl⟩
  · rw [(run_of_zero n a ipvt k h1 h2 h3 h4).2.2, det_of_zero n a k h1 h2 h3 h4]
    constructor
    · intro h; omega
    · intro h; exact absurd rfl h

/-- Claim C11. Over exact arithmetic, for every `n >= 1` and every `n` by `n`
    matrix `A` held column-major in `a`, `Linpack_DGEFA` returns 0 if and only
    if `A` is nonsingular; it returns `k` with `1 <= k < n` exactly when pass `k`
    is the first whose selected pivot is zero, and `n` exactly when no pass meets
    a zero pivot and the last diagonal entry is zero; and when it returns a
    non-zero `k` the array is the one left by the first `k - 1` passes: no
    elimination is done in or after the failing pass. -/
theorem DGEFA_error_iff_singular (n : Nat) (a : Nat → K) (ipvt : Nat → Nat) (hn : 1 ≤ n) :
    ((Linpack_DGEFA a n ipvt).ierr = 0 ↔ (toMatrix n a).det ≠ 0) ∧
    (∀ k, 1 ≤ k → k < n →
      ((Linpack_DGEFA a n ipvt).ierr = k ↔
        (pivotAt n (adjust n a) k = 0 ∧
          ∀ k2, 1 ≤ k2 → k2 < k → pivotAt n (adjust n a) k2 ≠ 0))) ∧
    ((Linpack_DGEFA a n ipvt).ierr = n ↔
      ((∀ k, 1 ≤ k → k < n → pivotAt n (adjust n a) k ≠ 0) ∧
        afterSteps n (adjust n a) (n - 1) (n + n * n) = 0)) ∧
    (Linpack_DGEFA a n ipvt).ierr ≤ n ∧
    ((Linpack_DGEFA a n ipvt).ierr ≠ 0 →
      (Linpack_DGEFA a n ipvt).a
        = unadjust n (afterSteps n (adjust n a) ((Linpack_DGEFA a n ipvt).ierr - 1))) := by
  refine ⟨ierr_eq_zero_iff n a ipvt hn, ?_⟩
  rcases first_failure (fun k => pivotAt n (adjust n a) k = 0) (n - 1) with
    hnz | ⟨k, h1, h2, h3, h4⟩
  · obtain ⟨ha, _, he⟩ := run_of_nonzero n a ipvt hn hnz
    refine ⟨?_, ?_, ?_, ?_⟩
    · intro k hk hkn
      constructor
      · intro h
        rw [he] at h
        split_ifs at h <;> omega
      · intro h
        exact absurd h.1 (hnz k hk (by omega))
    · rw [he]
      constructor
      · intro h
        refine ⟨fun k hk hkn => hnz k hk (by omega), ?_⟩
        by_contra hl
        rw [if_neg hl] at h
        omega
      · intro h
        rw [if_pos h.2]
    · rw [he]
      split_ifs <;> omega
    · intro hne
      rw [he] at hne ⊢
      by_cases hl : afterSteps n (adjust n a) (n - 1) (n + n * n) = 0
      · rw [if_pos hl, ha]
      · rw [if_neg hl] at hne
        exact absurd rfl hne
  · obtain ⟨ha, _, he⟩ := run_of_zero n a ipvt k h1 h2 h3 h4
    refine ⟨?_, ?_, ?_, ?_⟩
    · intro k2 hk2 hk2n
      rw [he]
      constructor
      · intro h
        subst h
        exact ⟨h3, h4⟩
      · intro h
        rcases Nat.lt_trichotomy k k2 with hlt | heq | hgt
        · exact absurd h3 (h.2 k h1 hlt)
        · exact heq
        · exact absurd h.1 (h4 k2 hk2 hgt)
    · rw [he]
      constructor
      · intro h; omega
      · intro h
        exact absurd h3 (h.1 k h1 (by omega))
    · rw [he]; omega
    · intro _
      rw [he, ha]

/-- Claim C12. Over exact arithmetic, for every `n >= 1` and every nonsingular
    `n` by `n` matrix `A`, `Linpack_DGEFA` returns 0 and its output `(a, ipvt)` is
    the LU factorization with partial pivoting in LINPACK form:
    `U = L_{n-1} P_{n-1} ... L_1 P_1 A`, where `U` is the upper triangle (with the
    diagonal) of the output `a`, `P_k` exchanges the rows `k` and `ipvt[k]`, and
    `L_k` is the identity plus the output entries `a(i,k)`, `i > k`, in column
    `k` below the diagonal. -/
theorem DGEFA_factorization (n : Nat) (a : Nat → K) (ipvt : Nat → Nat) (hn : 1 ≤ n)
    (hA : (toMatrix n a).det ≠ 0) :
    (Linpack_DGEFA a n ipvt).ierr = 0 ∧
    upperTriangle n (Linpack_DGEFA a n ipvt).a
      = factorProduct n (Linpack_DGEFA a n ipvt).a (Linpack_DGEFA a n ipvt).ipvt (n - 1)
          * toMatrix n a := by
  have h0 := (ierr_eq_zero_iff n a ipvt hn).2 hA
  refine ⟨h0, ?_⟩
  rcases first_failure (fun k => pivotAt n (adjust n a) k = 0) (n - 1) with
    hnz | ⟨k, h1, h2, h3, h4⟩
  · obtain ⟨ha, hi, _⟩ := run_of_nonzero n a ipvt hn hnz
    have hU : upperTriangle n (Linpack_DGEFA a n ipvt).a
        = working n (n - 1) (afterSteps n (adjust n a) (n - 1)) := by
      ext i j
      rw [ha]
      unfold upperTriangle working unadjust
      have hin := i.2
      by_cases hji : j.val < i.val
      · rw [if_pos hji, if_pos ⟨by omega, hji⟩]
      · rw [if_neg hji, if_neg (fun h => hji h.2)]
        congr 1
        rw [Nat.succ_mul]
        omega
    rw [hU, working_eq_product n (adjust n a) (n - 1) (by omega) hnz, working_zero]
    congr 1
    apply factorProduct_congr
    · intro k _ i _
      rw [ha]
    · intro k hk
      rw [hi k, if_neg (by omega), if_pos (by omega)]
  · have := (run_of_zero n a ipvt k h1 h2 h3 h4).2.2
    omega

end Dgefa

/-- Claim C11 on concrete matrices: the nonsingular `sample3` gives 0, the
    singular `singular2` gives 2 (only the last diagonal entry is zero) and
    `singular3` gives 1 (the first column is zero) with the array untouched. -/
theorem DGEFA_error_iff_singular_witness :
    (((Linpack_DGEFA sample3 3 (fun _ => 0)).ierr = 0 ↔ (toMatrix 3 sample3).det ≠ 0) ∧
    (∀ k, 1 ≤ k → k < 3 →
      ((Linpack_DGEFA sample3 3 (fun _ => 0)).ierr = k ↔
        (pivotAt 3 (adjust 3 sample3) k = 0 ∧
          ∀ k2, 1 ≤ k2 → k2 < k → pivotAt 3 (adjust 3 sample3) k2 ≠ 0))) ∧
    ((Linpack_DGEFA sample3 3 (fun _ => 0)).ierr = 3 ↔
      ((∀ k, 1 ≤ k → k < 3 → pivotAt 3 (adjust 3 sample3) k ≠ 0) ∧
        afterSteps 3 (adjust 3 sample3) (3 - 1) (3 + 3 * 3) = 0)) ∧
    (Linpack_DGEFA sample3 3 (fun _ => 0)).ierr ≤ 3 ∧
    ((Linpack_DGEFA sample3 3 (fun _ => 0)).ierr ≠ 0 →
      (Linpack_DGEFA sample3 3 (fun _ => 0)).a
        = unadjust 3 (afterSteps 3 (adjust 3 sample3)
            ((Linpack_DGEFA sample3 3 (fun _ => 0)).ierr - 1)))) ∧
    (Linpack_DGEFA sample3 3 (fun _ => 0)).ierr = 0 ∧
    (Linpack_DGEFA singular2 2 (fun _ => 0)).ierr = 2 ∧
    (Linpack_DGEFA singular3 3 (fun _ => 0)).ierr = 1 ∧
    (List.range 9).map (Linpack_DGEFA singular3 3 (fun _ => 0)).a = (List.range 9).map singular3 :=
  ⟨DGEFA_error_iff_singular 3 sample3 (fun _ => 0) (by decide), by decide!, by decide!,
    by decide!, by decide!⟩

theorem det_sample2 : (toMatrix 2 sample2).det ≠ 0 := by
  rw [Matrix.det_fin_two]
  decide!

/-- Claim C12 on the matrix with rows `(2,1)`, `(4,3)`: the call returns 0, the
    output array is `4, -1/2, 3, -1/2`, the pivot vector is `2, 2`, and
    `U = L_1 P_1 A`. -/
theorem DGEFA_factorization_witness :
    ((Linpack_DGEFA sample2 2 (fun _ => 0)).ierr = 0 ∧
    upperTriangle 2 (Linpack_DGEFA sample2 2 (fun _ => 0)).a
      = factorProduct 2 (Linpack_DGEFA sample2 2 (fun _ => 0)).a
          (Linpack_DGEFA sample2 2 (fun _ => 0)).ipvt (2 - 1) * toMatrix 2 sample2) ∧
    (List.range 4).map (Linpack_DGEFA sample2 2 (fun _ => 0)).a = [4, -1/2, 3, -1/2] ∧
    (List.range 2).map (Linpack_DGEFA sample2 2 (fun _ => 0)).ipvt = [2, 2] :=
  ⟨DGEFA_factorization 2 sample2 (fun _ => 0) (by decide) det_sample2, by decide!, by decide!⟩

/-- Claim C20 on the matrix with rows `(2,1,1)`, `(4,3,1)`, `(6,7,1)`: the
    recorded pivot rows are 3 and 2, and `ipvt[3] = 3`. -/
theorem pivot_is_first_maximal_witness :
    ((∀ k, 1 ≤ k → k < 3 →
      (DGEFA_loop 3 1 (k - 1) (State.mk (adjust 3 sample3) (adjustPivots (fun _ => 0)))).2 = none →
      k ≤ (Linpack_DGEFA sample3 3 (fun _ => 0)).ipvt (k - 1) ∧
      (Linpack_DGEFA sample3 3 (fun _ => 0)).ipvt (k - 1) ≤ 3 ∧
      (∀ i, k ≤ i → i ≤ 3 →
        |(DGEFA_loop 3 1 (k - 1) (State.mk (adjust 3 sample3) (adjustPivots (fun _ => 0)))).1.a
            (i + k * 3)|
        ≤ |(DGEFA_loop 3 1 (k - 1) (State.mk (adjust 3 sample3) (adjustPivots (fun _ => 0)))).1.a
            ((Linpack_DGEFA sample3 3 (fun _ => 0)).ipvt (k - 1) + k * 3)|) ∧
      (∀ i, k ≤ i → i < (Linpack_DGEFA sample3 3 (fun _ => 0)).ipvt (k - 1) →
        |(DGEFA_loop 3 1 (k - 1) (State.mk (adjust 3 sample3) (adjustPivots (fun _ => 0)))).1.a
            (i + k * 3)|
        < |(DGEFA_loop 3 1 (k - 1) (State.mk (adjust 3 sample3) (adjustPivots (fun _ => 0)))).1.a
            ((Linpack_DGEFA sample3 3 (fun _ => 0)).ipvt (k - 1) + k * 3)|)) ∧
    ((Linpack_DGEFA sample3 3 (fun _ => 0)).ierr = 0 →
      (Linpack_DGEFA sample3 3 (fun _ => 0)).ipvt (3 - 1) = 3)) ∧
    (List.range 3).map (Linpack_DGEFA sample3 3 (fun _ => 0)).ipvt = [3, 2, 3] ∧
    (DGEFA_loop 3 1 1 (State.mk (adjust 3 sample3) (adjustPivots (fun _ => 0)))).2 = none :=
  ⟨pivot_is_first_maximal 3 sample3 (fun _ => 0) (by decide), by decide!, by decide!⟩

end Linpack

/-! # Theorems about the tutorial programs -/

namespace Petsc

theorem chk_bind {α : Type} (e : PetscErrorCode) (k : Unit → Except PetscErrorCode α) (v : α) :
    (CHKERRQ e >>= k) = Except.ok v ↔ e = 0 ∧ k () = Except.ok v := by
  unfold CHKERRQ
  by_cases h : e = 0
  · simp only [h, if_true, true_and]
    rfl
  · simp only [h, if_false, false_and, iff_false]
    intro hc
    cases hc

theorem chk_zero_bind {α : Type} (k : Unit → Except PetscErrorCode α) :
    (CHKERRQ 0 >>= k) = k () := rfl

end Petsc

namespace VanDerPol

open Petsc

theorem RHSFunction_ok {K : Type} [Field K] (ret : Nat → PetscErrorCode) (user : User K)
    (X F R : Nat → K) (h : RHSFunction ret user X F = Except.ok R) :
    R = Function.update (Function.update F 0 (X 1)) 1
      (user.mu * (1 - X 0 * X 0) * X 1 - X 0) := by
  unfold RHSFunction at h
  simp only [chk_bind] at h
  obtain ⟨_, _, _, _, h⟩ := h
  cases h
  rfl

theorem implicitResidual_ok {K : Type} [Field K] (ret : Nat → PetscErrorCode) (user : User K)
    (X Xdot F G : Nat → K) (h : IFunction ret user X Xdot F = Except.ok G) :
    G = Function.update (Function.update F 0 (Xdot 0 - X 1)) 1
      (Xdot 1 - user.mu * ((1 - X 0 * X 0) * X 1 - X 0)) := by
  unfold IFunction at h
  simp only [chk_bind] at h
  obtain ⟨_, _, _, _, _, _, h⟩ := h
  cases h
  rfl

theorem RHSFunction_returns {K : Type} [Field K] (ret : Nat → PetscErrorCode) (user : User K)
    (X F : Nat → K) (h : ∀ n, ret n = 0) : ∃ R, RHSFunction ret user X F = Except.ok R := by
  unfold RHSFunction
  simp only [h, chk_zero_bind]
  exact ⟨_, rfl⟩

theorem implicitResidual_returns {K : Type} [Field K] (ret : Nat → PetscErrorCode)
    (user : User K) (X Xdot F : Nat → K) (h : ∀ n, ret n = 0) :
    ∃ G, IFunction ret user X Xdot F = Except.ok G := by
  unfold IFunction
  simp only [h, chk_zero_bind]
  exact ⟨_, rfl⟩

/-- The results of `IFunction` and `RHSFunction` compared with each other and
    with the documented right-hand side. -/
theorem residuals_compared {K : Type} [Field K] (ret ret2 : Nat → PetscErrorCode)
    (user : User K) (X Xdot F F2 G R : Nat → K)
    (hI : IFunction ret user X Xdot F = Except.ok G)
    (hR : RHSFunction ret2 user X F2 = Except.ok R) :
    G 0 = Xdot 0 - (documentedRHS user.mu (X 0) (X 1)).1 ∧
    G 1 = Xdot 1 - (documentedRHS user.mu (X 0) (X 1)).2 ∧
    G 0 = Xdot 0 - R 0 ∧
    G 1 = Xdot 1 - R 1 + (user.mu - 1) * X 0 ∧
    (G 1 = Xdot 1 - R 1 ↔ (user.mu = 1 ∨ X 0 = 0)) := by
  rw [implicitResidual_ok ret user X Xdot F G hI, RHSFunction_ok ret2 user X F2 R hR]
  have e1 : ∀ (A : Nat → K) (a b : K), Function.update (Function.update A 0 a) 1 b 0 = a := by
    intro A a b
    rw [Function.update_noteq (by decide), Function.update_same]
  have e2 : ∀ (A : Nat → K) (a b : K), Function.update (Function.update A 0 a) 1 b 1 = b := by
    intro A a b
    rw [Function.update_same]
  simp only [e1, e2, documentedRHS]
  refine ⟨trivial, by ring, trivial, by ring, ?_⟩
  constructor
  · intro h
    have h2 : (user.mu - 1) * X 0 = 0 := by
      have e : Xdot 1 - user.mu * ((1 - X 0 * X 0) * X 1 - X 0)
          - (Xdot 1 - (user.mu * (1 - X 0 * X 0) * X 1 - X 0)) = (user.mu - 1) * X 0 := by ring
      rw [← e, h, sub_self]
    rcases mul_eq_zero.1 h2 with h3 | h3
    · left; exact sub_eq_zero.1 h3
    · right; exact h3
  · intro h
    rcases h with h | h
    · rw [h]; ring
    · rw [h]; ring

/-- Claim C21. In the van der Pol tutorial `IFunction(X, Xdot)` is `Xdot` minus
    the right-hand side of the documented ODE in both components, and its first
    component is `Xdot - RHSFunction(X)`; its second component is
    `Xdot - RHSFunction(X)` plus `(mu - 1) * x[0]`: `RHSFunction` computes
    `mu (1 - y^2) z - y` where the documented ODE has `mu ((1 - y^2) z - y)`. The
    two forms agree in the second component only for `mu = 1` or `x[0] = 0`. Both
    routines return 0 when their library calls do. -/
theorem implicit_minus_explicit {K : Type} [Field K] (ret ret2 : Nat → PetscErrorCode)
    (user : User K) (X Xdot F F2 : Nat → K) :
    (∀ G R : Nat → K, IFunction ret user X Xdot F = Except.ok G →
      RHSFunction ret2 user X F2 = Except.ok R →
      G 0 = Xdot 0 - (documentedRHS user.mu (X 0) (X 1)).1 ∧
      G 1 = Xdot 1 - (documentedRHS user.mu (X 0) (X 1)).2 ∧
      G 0 = Xdot 0 - R 0 ∧
      G 1 = Xdot 1 - R 1 + (user.mu - 1) * X 0 ∧
      (G 1 = Xdot 1 - R 1 ↔ (user.mu = 1 ∨ X 0 = 0))) ∧
    ((∀ n, ret n = 0) → ∃ G, IFunction ret user X Xdot F = Except.ok G) ∧
    ((∀ n, ret2 n = 0) → ∃ R, RHSFunction ret2 user X F2 = Except.ok R) :=
  ⟨fun G R hI hR => residuals_compared ret ret2 user X Xdot F F2 G R hI hR,
    implicitResidual_returns ret user X Xdot F, RHSFunction_returns ret2 user X F2⟩

/-- Claim C21 at `mu = 2`, `X = (1, 0)`, `Xdot = (0, 0)`: both routines return
    0; the second component of `IFunction` is 2, that of `Xdot - RHSFunction` is 1. -/
theorem implicit_minus_explicit_witness :
    ∃ G R : Nat → ℚ,
      IFunction allOk (User.mk 2 0) (vec2 1 0) (vec2 0 0) (vec2 0 0) = Except.ok G ∧
      RHSFunction allOk (User.mk 2 0) (vec2 1 0) (vec2 0 0) = Except.ok R ∧
      G 1 = 2 ∧ (vec2 0 0 : Nat → ℚ) 1 - R 1 = 1 ∧
      G 0 = (vec2 0 0 : Nat → ℚ) 0 - R 0 ∧
      ¬ (G 1 = (vec2 0 0 : Nat → ℚ) 1 - R 1) := by
  have h := (implicit_minus_explicit allOk allOk (User.mk (2 : ℚ) 0) (vec2 1 0) (vec2 0 0)
    (vec2 0 0) (vec2 0 0)).1 _ _ rfl rfl
  refine ⟨_, _, rfl, rfl, by decide!, by decide!, h.2.2.1, fun hc => ?_⟩
  rcases h.2.2.2.2.1 hc with h1 | h1
  · exact absurd h1 (by decide!)
  · exact absurd h1 (by decide!)

end VanDerPol

namespace Hybrid

open Petsc

section Routines

variable {K : Type} [Field K]

theorem modeResidual_ok (ret : Nat → PetscErrorCode) (actx : AppCtx K) (U Udot F G : Nat → K)
    (h : IFunction ret actx U Udot F = Except.ok G) :
    G = if actx.mode = 1 then
        Function.update (Function.update F 0 (Udot 0 - U 0 + 100 * U 1)) 1
          (Udot 1 - 10 * U 0 - U 1)
      else if actx.mode = 2 then
        Function.update (Function.update F 0 (Udot 0 - U 0 - 10 * U 1)) 1
          (Udot 1 + 100 * U 0 - U 1)
      else F := by
  unfold IFunction at h
  simp only [chk_bind] at h
  obtain ⟨_, _, _, _, _, _, h⟩ := h
  cases h
  rfl

theorem IFunction_entries (ret : Nat → PetscErrorCode) (actx : AppCtx K) (U Udot F G : Nat → K)
    (hmode : actx.mode = 1 ∨ actx.mode = 2)
    (h : IFunction ret actx U Udot F = Except.ok G) (i : Fin 2) :
    G i.val = Udot i.val - (Matrix.mulVec (modeMatrix actx.mode) (firstTwo U)) i := by
  rw [modeResidual_ok ret actx U Udot F G h]
  rcases hmode with hm | hm
  · fin_cases i <;>
      simp [hm, modeMatrix, A_1, firstTwo, Matrix.mulVec, Matrix.dotProduct, Fin.sum_univ_two]
        <;> ring
  · fin_cases i <;>
      simp [hm, modeMatrix, A_2, firstTwo, Matrix.mulVec, Matrix.dotProduct, Fin.sum_univ_two]
        <;> ring

theorem IJacobian_ok {M : Type}
    (setValues : M → Nat → (Nat → Int) → Nat → (Nat → Int) → (Nat → K) → M)
    (ret : Nat → PetscErrorCode) (actx : AppCtx K) (a : K) ( same : Bool) (J0 : Nat → K)
    (B B2 : M) (h : IJacobian setValues ret actx a same J0 B = Except.ok B2) :
    B2 = setValues B 2 rowcol 2 rowcol
      (if actx.mode = 1 then
        Function.update (Function.update (Function.update (Function.update J0 0 (a - 1)) 1 100)
          2 (-10)) 3 (a - 1)
      else if actx.mode = 2 then
        Function.update (Function.update (Function.update (Function.update J0 0 (a - 1)) 1 (-10))
          2 100) 3 (a - 1)
      else J0) := by
  unfold IJacobian at h
  simp only [chk_bind] at h
  obtain ⟨_, _, _, _, _, _, _, h⟩ := h
  cases hs : same
  · rw [hs] at h
    simp only [if_true, chk_bind] at h
    obtain ⟨_, _, h⟩ := h
    cases h
    rfl
  · rw [hs] at h
    simp only [Bool.true_eq_false, if_false] at h
    cases h
    rfl

omit [Field K] in
theorem insertValues_rowMajor (B : Int → Int → K) (J : Nat → K) (i j : Fin 2) :
    insertValues B 2 rowcol 2 rowcol J i.val j.val = J (2 * i.val + j.val) := by
  fin_cases i <;> fin_cases j <;> rfl

theorem modeResidual_returns (ret : Nat → PetscErrorCode) (actx : AppCtx K)
    (U Udot F : Nat → K) (h : ∀ n, ret n = 0) :
    ∃ G, IFunction ret actx U Udot F = Except.ok G := by
  unfold IFunction
  simp only [h, chk_zero_bind]
  exact ⟨_, rfl⟩

theorem IJacobian_returns {M : Type}
    (setValues : M → Nat → (Nat → Int) → Nat → (Nat → Int) → (Nat → K) → M)
    (ret : Nat → PetscErrorCode) (actx : AppCtx K) (a : K) ( same : Bool) (J0 : Nat → K) (B : M)
    (h : ∀ n, ret n = 0) : ∃ B2, IJacobian setValues ret actx a same J0 B = Except.ok B2 := by
  unfold IJacobian
  simp only [h, chk_zero_bind]
  cases same
  · exact ⟨_, rfl⟩
  · exact ⟨_, rfl⟩

/-- The results of `IFunction` and `IJacobian` in the modes 1 and 2. -/
theorem residual_and_jacobian {M : Type}
    (setValues : M → Nat → (Nat → Int) → Nat → (Nat → Int) → (Nat → K) → M)
    (ret ret2 : Nat → PetscErrorCode) (actx : AppCtx K) (a : K) ( same : Bool)
    (U Udot F G J0 : Nat → K) (B B2 : M)
    (hmode : actx.mode = 1 ∨ actx.mode = 2)
    (hF : IFunction ret actx U Udot F = Except.ok G)
    (hJ : IJacobian setValues ret2 actx a same J0 B = Except.ok B2) :
    (∀ i : Fin 2, G i.val = Udot i.val - (Matrix.mulVec (modeMatrix actx.mode) (firstTwo U)) i) ∧
    (∀ n, 2 ≤ n → G n = F n) ∧
    (∃ J : Nat → K, B2 = setValues B 2 rowcol 2 rowcol J ∧
      (∀ i j : Fin 2, J (2 * i.val + j.val) = (shiftedMatrix a actx.mode) i j) ∧
      ∀ (D : Int → Int → K) (i j : Fin 2),
        insertValues D 2 rowcol 2 rowcol J i.val j.val = (shiftedMatrix a actx.mode) i j) ∧
    (∀ (V G2 : Nat → K),
      IFunction ret actx (fun n => U n + V n) (fun n => Udot n + a * V n) F = Except.ok G2 →
      ∀ i : Fin 2, G2 i.val - G i.val
        = (Matrix.mulVec (shiftedMatrix a actx.mode) (firstTwo V)) i) := by
  have hentries : ∀ J : Nat → K,
      J = (if actx.mode = 1 then
        Function.update (Function.update (Function.update (Function.update J0 0 (a - 1)) 1 100)
          2 (-10)) 3 (a - 1)
      else if actx.mode = 2 then
        Function.update (Function.update (Function.update (Function.update J0 0 (a - 1)) 1 (-10))
          2 100) 3 (a - 1)
      else J0) →
      ∀ i j : Fin 2, J (2 * i.val + j.val) = (shiftedMatrix a actx.mode) i j := by
    intro J hJ2 i j
    rw [hJ2]
    rcases hmode with hm | hm
    · fin_cases i <;> fin_cases j <;>
        simp [hm, shiftedMatrix, modeMatrix, A_1, Function.update_apply]
    · fin_cases i <;> fin_cases j <;>
        simp [hm, shiftedMatrix, modeMatrix, A_2, Function.update_apply]
  refine ⟨IFunction_entries ret actx U Udot F G hmode hF, ?_, ?_, ?_⟩
  · intro n hn
    rw [modeResidual_ok ret actx U Udot F G hF]
    have h0 : n ≠ 0 := by omega
    have h1 : n ≠ 1 := by omega
    split_ifs <;> simp [Function.update_apply, h0, h1]
  · refine ⟨_, IJacobian_ok setValues ret2 actx a same J0 B B2 hJ, hentries _ rfl, ?_⟩
    intro D i j
    rw [insertValues_rowMajor]
    exact hentries _ rfl i j
  · intro V G2 hG2 i
    rw [IFunction_entries ret actx U Udot F G hmode hF i,
      IFunction_entries ret actx _ _ F G2 hmode hG2 i]
    rcases hmode with hm | hm
    · fin_cases i <;>
        simp [hm, shiftedMatrix, modeMatrix, A_1, firstTwo, Matrix.mulVec, Matrix.dotProduct,
          Fin.sum_univ_two] <;> ring
    · fin_cases i <;>
        simp [hm, shiftedMatrix, modeMatrix, A_2, firstTwo, Matrix.mulVec, Matrix.dotProduct,
          Fin.sum_univ_two] <;> ring

theorem EventFunction_ok (ret : Nat → PetscErrorCode) (actx : AppCtx K) (U fvalue g : Nat → K)
    (h : EventFunction ret actx U fvalue = Except.ok g) :
    g = if actx.mode = 1 then Function.update fvalue 0 (U 1 - actx.lambda1 * U 0)
      else if actx.mode = 2 then Function.update fvalue 0 (U 1 - actx.lambda2 * U 0)
      else fvalue := by
  unfold EventFunction at h
  simp only [chk_bind] at h
  obtain ⟨_, _, h⟩ := h
  cases h
  rfl

theorem PostEventFunction_ok (ret : Nat → PetscErrorCode) (actx : AppCtx K) (U : Nat → K)
    (sp : Nat → Nat → K) (out : AppCtx K × (Nat → Nat → K))
    (h : PostEventFunction ret actx U sp = Except.ok out) :
    out.1 = (if actx.mode = 1 then { actx with mode := 2 }
      else if actx.mode = 2 then { actx with mode := 1 } else actx) ∧
    ShiftGradients ret actx U sp = Except.ok out.2 := by
  unfold PostEventFunction at h
  cases hs : ShiftGradients ret actx U sp with
  | error e =>
    rw [hs] at h
    cases h
  | ok sp2 =>
    rw [hs] at h
    cases h
    exact ⟨rfl, rfl⟩

theorem PostEventFunction_mode (ret : Nat → PetscErrorCode) (actx : AppCtx K) (U : Nat → K)
    (sp : Nat → Nat → K) (out : AppCtx K × (Nat → Nat → K))
    (h : PostEventFunction ret actx U sp = Except.ok out) :
    out.1.mode = (if actx.mode = 1 then 2 else if actx.mode = 2 then 1 else actx.mode) ∧
    out.1.lambda1 = actx.lambda1 ∧ out.1.lambda2 = actx.lambda2 := by
  rw [(PostEventFunction_ok ret actx U sp out h).1]
  split_ifs <;> exact ⟨rfl, rfl, rfl⟩

theorem handleEvents_mode (events : List ((Nat → PetscErrorCode) × (Nat → K))) :
    ∀ (s out : AppCtx K × (Nat → Nat → K)), (s.1.mode = 1 ∨ s.1.mode = 2) →
      handleEvents events s = Except.ok out →
      out.1.mode = (if events.length % 2 = 0 then s.1.mode else 3 - s.1.mode) ∧
      out.1.lambda1 = s.1.lambda1 ∧ out.1.lambda2 = s.1.lambda2 := by
  induction events with
  | nil =>
    intro s out _ h
    cases h
    exact ⟨rfl, rfl, rfl⟩
  | cons event rest ih =>
    intro s out hs h
    unfold handleEvents at h
    cases hp : PostEventFunction event.1 s.1 event.2 s.2 with
    | error e =>
      rw [hp] at h
      cases h
    | ok s2 =>
      rw [hp] at h
      have hm := PostEventFunction_mode event.1 s.1 event.2 s.2 s2 hp
      have h2 : s2.1.mode = 3 - s.1.mode := by
        rw [hm.1]
        rcases hs with h1 | h1 <;> rw [h1] <;> rfl
      have hs2 : s2.1.mode = 1 ∨ s2.1.mode = 2 := by
        rcases hs with h1 | h1 <;> rw [h2, h1] <;> decide
      obtain ⟨k1, k2, k3⟩ := ih s2 out hs2 h
      refine ⟨?_, k2.trans hm.2.1, k3.trans hm.2.2⟩
      rw [k1, h2, List.length_cons]
      rcases Nat.mod_two_eq_zero_or_one rest.length with hr | hr
      · have : (rest.length + 1) % 2 = 1 := by omega
        rw [if_pos hr, if_neg (by omega)]
      · have : (rest.length + 1) % 2 = 0 := by omega
        rw [if_neg (by omega), if_pos this]
        omega

theorem EventFunction_returns (ret : Nat → PetscErrorCode) (actx : AppCtx K)
    (U fvalue : Nat → K) (h : ∀ n, ret n = 0) :
    ∃ g, EventFunction ret actx U fvalue = Except.ok g := by
  unfold EventFunction
  simp only [h, chk_zero_bind]
  exact ⟨_, rfl⟩

theorem PostEventFunction_returns (ret : Nat → PetscErrorCode) (actx : AppCtx K) (U : Nat → K)
    (sp : Nat → Nat → K) (h : ∀ n, ret n = 0) :
    ∃ out, PostEventFunction ret actx U sp = Except.ok out := by
  unfold PostEventFunction ShiftGradients
  simp only [h, chk_zero_bind]
  exact ⟨_, rfl⟩

theorem handleEvents_returns (events : List ((Nat → PetscErrorCode) × (Nat → K)))
    (h : ∀ event ∈ events, ∀ n, event.1 n = 0) :
    ∀ s : AppCtx K × (Nat → Nat → K), ∃ out, handleEvents events s = Except.ok out := by
  induction events with
  | nil =>
    intro s
    exact ⟨s, rfl⟩
  | cons event rest ih =>
    intro s
    obtain ⟨s2, h2⟩ := PostEventFunction_returns event.1 s.1 event.2 s.2
      (h event (List.mem_cons_self _ _))
    obtain ⟨out, h3⟩ := ih (fun e he => h e (List.mem_cons_of_mem _ he)) s2
    refine ⟨out, ?_⟩
    unfold handleEvents
    rw [h2]
    exact h3

/-- The mode after a sequence of events that starts in mode 1. -/
theorem modes_after_events (events : List ((Nat → PetscErrorCode) × (Nat → K)))
    (s out : AppCtx K × (Nat → Nat → K)) (h1 : s.1.mode = 1)
    (hrun : handleEvents events s = Except.ok out) :
    (out.1.mode = 1 ∨ out.1.mode = 2) ∧
    (events.length % 2 = 0 → out.1.mode = 1) ∧
    (events.length % 2 = 1 → out.1.mode = 2) ∧
    (∀ (ret : Nat → PetscErrorCode) (U : Nat → K) (next : AppCtx K × (Nat → Nat → K)),
      PostEventFunction ret out.1 U out.2 = Except.ok next →
      (out.1.mode = 1 → next.1.mode = 2) ∧ (out.1.mode = 2 → next.1.mode = 1)) ∧
    (∀ (e1 e2 : (Nat → PetscErrorCode) × (Nat → K)) (next : AppCtx K × (Nat → Nat → K)),
      handleEvents [e1, e2] out = Except.ok next → next.1.mode = out.1.mode) ∧
    (∀ (ret : Nat → PetscErrorCode) (U fvalue g : Nat → K),
      EventFunction ret out.1 U fvalue = Except.ok g →
      (out.1.mode = 1 → (g 0 = 0 ↔ U 1 = s.1.lambda1 * U 0)) ∧
      (out.1.mode = 2 → (g 0 = 0 ↔ U 1 = s.1.lambda2 * U 0))) := by
  obtain ⟨hm, hl1, hl2⟩ := handleEvents_mode events s out (Or.inl h1) hrun
  rw [h1] at hm
  have hmode : out.1.mode = 1 ∨ out.1.mode = 2 := by
    rw [hm]
    split_ifs
    · left; rfl
    · right; rfl
  refine ⟨hmode, ?_, ?_, ?_, ?_, ?_⟩
  · intro he
    rw [hm, if_pos he]
  · intro he
    rw [hm, if_neg (by omega)]
    rfl
  · intro ret U next hn
    have := (PostEventFunction_mode ret out.1 U out.2 next hn).1
    constructor
    · intro h
      rw [this, if_pos h]
    · intro h
      rw [this, if_neg (by rw [h]; decide), if_pos h]
  · intro e1 e2 next hn
    have := (handleEvents_mode [e1, e2] out next hmode hn).1
    have e : [e1, e2].length % 2 = 0 := by simp
    rw [this, if_pos e]
  · intro ret U fvalue g hg
    rw [EventFunction_ok ret out.1 U fvalue g hg, hl1, hl2]
    constructor
    · intro h
      rw [if_pos h, Function.update_same]
      exact sub_eq_zero
    · intro h
      rw [if_neg (by rw [h]; decide), if_pos h, Function.update_same]
      exact sub_eq_zero

/-- Claim C22. In the hybrid-system tutorial, for each mode `i` in `{1, 2}`,
    every `U`, `Udot` and shift `a`: `IFunction` computes `F = Udot - A_i U`
    (and leaves the other entries of `F` alone); `IJacobian` passes to
    `MatSetValues`, for the rows and columns `{0,1}`, the row-major array of
    `a*I - A_i`, which a dense matrix then holds in these places; and
    `a*I - A_i` is `a * dF/dUdot + dF/dU`: moving `U` by `V` and `Udot` by `a V`
    changes `F` by `(a*I - A_i) V`. Both routines return 0 when their library
    calls do. -/
theorem implicit_form_and_jacobian {M : Type}
    (setValues : M → Nat → (Nat → Int) → Nat → (Nat → Int) → (Nat → K) → M)
    (ret ret2 : Nat → PetscErrorCode) (actx : AppCtx K) (a : K) ( same : Bool)
    (U Udot F J0 : Nat → K) (B : M) (hmode : actx.mode = 1 ∨ actx.mode = 2) :
    (∀ (G : Nat → K) (B2 : M), IFunction ret actx U Udot F = Except.ok G →
      IJacobian setValues ret2 actx a same J0 B = Except.ok B2 →
      (∀ i : Fin 2,
        G i.val = Udot i.val - (Matrix.mulVec (modeMatrix actx.mode) (firstTwo U)) i) ∧
      (∀ n, 2 ≤ n → G n = F n) ∧
      (∃ J : Nat → K, B2 = setValues B 2 rowcol 2 rowcol J ∧
        (∀ i j : Fin 2, J (2 * i.val + j.val) = (shiftedMatrix a actx.mode) i j) ∧
        ∀ (D : Int → Int → K) (i j : Fin 2),
          insertValues D 2 rowcol 2 rowcol J i.val j.val = (shiftedMatrix a actx.mode) i j) ∧
      (∀ (V G2 : Nat → K),
        IFunction ret actx (fun n => U n + V n) (fun n => Udot n + a * V n) F = Except.ok G2 →
        ∀ i : Fin 2, G2 i.val - G i.val
          = (Matrix.mulVec (shiftedMatrix a actx.mode) (firstTwo V)) i)) ∧
    ((∀ n, ret n = 0) → ∃ G, IFunction ret actx U Udot F = Except.ok G) ∧
    ((∀ n, ret2 n = 0) → ∃ B2, IJacobian setValues ret2 actx a same J0 B = Except.ok B2) :=
  ⟨fun G B2 hF hJ =>
      residual_and_jacobian setValues ret ret2 actx a same U Udot F G J0 B B2 hmode hF hJ,
    modeResidual_returns ret actx U Udot F, IJacobian_returns setValues ret2 actx a same J0 B⟩

/-- Claim C24. In the hybrid-system tutorial `PostEventFunction` changes mode
    1 to 2 and mode 2 to 1; starting from mode 1 the mode after a sequence of
    events is in `{1, 2}`, equal to 1 after an even and to 2 after an odd number
    of events, and two consecutive events restore the mode; the value of
    `EventFunction` is zero exactly when `u[1] = lambda1*u[0]` in mode 1 and when
    `u[1] = lambda2*u[0]` in mode 2, with `lambda1` and `lambda2` as they were at
    the start. The routines return 0 when their library calls do. -/
theorem mode_two_state_machine (events : List ((Nat → PetscErrorCode) × (Nat → K)))
    (s : AppCtx K × (Nat → Nat → K)) (h1 : s.1.mode = 1) :
    (∀ out, handleEvents events s = Except.ok out →
      (out.1.mode = 1 ∨ out.1.mode = 2) ∧
      (events.length % 2 = 0 → out.1.mode = 1) ∧
      (events.length % 2 = 1 → out.1.mode = 2) ∧
      (∀ (ret : Nat → PetscErrorCode) (U : Nat → K) (next : AppCtx K × (Nat → Nat → K)),
        PostEventFunction ret out.1 U out.2 = Except.ok next →
        (out.1.mode = 1 → next.1.mode = 2) ∧ (out.1.mode = 2 → next.1.mode = 1)) ∧
      (∀ (e1 e2 : (Nat → PetscErrorCode) × (Nat → K)) (next : AppCtx K × (Nat → Nat → K)),
        handleEvents [e1, e2] out = Except.ok next → next.1.mode = out.1.mode) ∧
      (∀ (ret : Nat → PetscErrorCode) (U fvalue g : Nat → K),
        EventFunction ret out.1 U fvalue = Except.ok g →
        (out.1.mode = 1 → (g 0 = 0 ↔ U 1 = s.1.lambda1 * U 0)) ∧
        (out.1.mode = 2 → (g 0 = 0 ↔ U 1 = s.1.lambda2 * U 0)))) ∧
    ((∀ event ∈ events, ∀ n, event.1 n = 0) → ∃ out, handleEvents events s = Except.ok out) ∧
    (∀ (ret : Nat → PetscErrorCode) (actx : AppCtx K) (U fvalue : Nat → K),
      (∀ n, ret n = 0) → ∃ g, EventFunction ret actx U fvalue = Except.ok g) :=
  ⟨fun out hrun => modes_after_events events s out h1 hrun,
    fun h => handleEvents_returns events h s, EventFunction_returns⟩

end Routines

/-- Claim C22 in mode 1 with `a = 3`, `U = (2, 5)`, `Udot = (7, 1)`: both
    routines return 0, `F = (505, -24)` is `Udot - A_1 U`, and the dense matrix
    holds `3*I - A_1`, the entries 2, 100, -10, 2. -/
theorem implicit_form_and_jacobian_witness :
    ∃ (G : Nat → ℚ) (B2 : Int → Int → ℚ),
      IFunction allOk sampleCtx (vec2 2 5) (vec2 7 1) (vec2 0 0) = Except.ok G ∧
      IJacobian insertValues allOk sampleCtx 3 true (fun _ => 0) (fun _ _ => 0) = Except.ok B2 ∧
      (∀ i : Fin 2, G i.val
        = (vec2 7 1 : Nat → ℚ) i.val - (Matrix.mulVec A_1 (firstTwo (vec2 2 5))) i) ∧
      (∀ i j : Fin 2, B2 i.val j.val = shiftedMatrix (3 : ℚ) 1 i j) ∧
      G 0 = 505 ∧ G 1 = -24 ∧ B2 0 0 = 2 ∧ B2 0 1 = 100 ∧ B2 1 0 = -10 ∧ B2 1 1 = 2 := by
  have h := (implicit_form_and_jacobian (insertValues : (Int → Int → ℚ) → _) allOk allOk sampleCtx 3
    true (vec2 2 5) (vec2 7 1) (vec2 0 0) (fun _ => 0) (fun _ _ => 0) (Or.inl rfl)).1 _ _ rfl rfl
  obtain ⟨h1, _, ⟨J, hJ1, _, hJ3⟩, _⟩ := h
  refine ⟨_, _, rfl, rfl, h1, ?_, by decide!, by decide!, by decide!, by decide!, by decide!,
    by decide!⟩
  intro i j
  rw [hJ1]
  exact hJ3 _ i j

/-- Claim C24 on three events from the context of `main` (mode 1): the calls
    succeed and the mode is 2; after a fourth event it is 1 again. -/
theorem mode_two_state_machine_witness :
    ∃ out : AppCtx ℚ × (Nat → Nat → ℚ),
      handleEvents [(allOk, vec2 1 3), (allOk, vec2 2 1), (allOk, vec2 (-1) 1)]
        (sampleCtx, sampleSp) = Except.ok out ∧
      out.1.mode = 2 ∧
      (∀ (ret : Nat → PetscErrorCode) (U fvalue g : Nat → ℚ),
        EventFunction ret out.1 U fvalue = Except.ok g →
        (g 0 = 0 ↔ U 1 = 9 / 25 * U 0)) ∧
      ∃ next : AppCtx ℚ × (Nat → Nat → ℚ),
        PostEventFunction allOk out.1 (vec2 1 1) out.2 = Except.ok next ∧ next.1.mode = 1 := by
  have h := (mode_two_state_machine
    [(allOk, (vec2 1 3 : Nat → ℚ)), (allOk, vec2 2 1), (allOk, vec2 (-1) 1)]
    (sampleCtx, sampleSp) rfl).1 _ rfl
  obtain ⟨_, _, h3, h4, _, h6⟩ := h
  have hm := h3 rfl
  refine ⟨_, rfl, hm, ?_, _, rfl, ?_⟩
  · intro ret U fvalue g hg
    exact (h6 ret U fvalue g hg).2 hm
  · exact (h4 allOk (vec2 1 1) _ rfl).2 hm

end Hybrid

namespace Laplacian3D
open Petsc
section Routines
variable {K : Type} [Field K]

theorem total_add (b : Build K) (value : K) (c : MatStencil) :
    (b.add value c).total = b.total + value := by
  unfold Build.total Build.add
  simp only [Finset.sum_range_succ, Function.update_same]
  congr 1
  apply Finset.sum_congr rfl
  intro t ht
  rw [Function.update_noteq (Nat.ne_of_lt (Finset.mem_range.1 ht))]

omit [Field K] in
theorem columns_add (S : MatStencil → Prop) (b : Build K) (value : K) (c : MatStencil)
    (hb : b.Columns S) (hc : ¬ S c) :
    (b.add value c).Columns (fun q => S q ∨ q = c) := by
  obtain ⟨h1, h2⟩ := hb
  have hcol : ∀ t, t < b.num → (b.add value c).col t = b.col t := by
    intro t ht
    exact Function.update_noteq (Nat.ne_of_lt ht) _ _
  have hlast : (b.add value c).col b.num = c := Function.update_same _ _ _
  have hnum : (b.add value c).num = b.num + 1 := rfl
  constructor
  · intro t ht
    rw [hnum] at ht
    by_cases hlt : t < b.num
    · rw [hcol t hlt]
      exact Or.inl (h1 t hlt)
    · have : t = b.num := by omega
      rw [this, hlast]
      exact Or.inr rfl
  · intro t u ht hu htu
    rw [hnum] at ht hu
    by_cases h3 : t < b.num
    · by_cases h4 : u < b.num
      · rw [hcol t h3, hcol u h4] at htu
        exact h2 t u h3 h4 htu
      · have : u = b.num := by omega
        rw [this, hlast, hcol t h3] at htu
        exact absurd (htu ▸ h1 t h3) hc
    · have e3 : t = b.num := by omega
      by_cases h4 : u < b.num
      · rw [e3, hlast, hcol u h4] at htu
        exact absurd (htu ▸ h1 u h4) hc
      · omega

omit [Field K] in
theorem columns_mono (S T : MatStencil → Prop) (b : Build K) (hb : b.Columns S)
    (h : ∀ q, S q → T q) : b.Columns T :=
  ⟨fun t ht => h _ (hb.1 t ht), hb.2⟩

theorem balanced_addK (Hx Hy Hz : K) (b : Build K) (cond : Prop) [Decidable cond]
    (c : MatStencil) (h : b.Balanced Hx Hy Hz) :
    (if cond then b.addK (-Hz) c else b).Balanced Hx Hy Hz := by
  by_cases hc : cond
  · rw [if_pos hc]
    unfold Build.Balanced at h ⊢
    have e : (b.addK (-Hz) c).total = (b.add (-Hz) c).total := rfl
    rw [e, total_add, h]
    show _ = -(((b.numk + 1 : Int) : K) * Hz + (b.numj : K) * Hy + (b.numi : K) * Hx)
    push_cast
    ring
  · rw [if_neg hc]
    exact h

theorem balanced_addJ (Hx Hy Hz : K) (b : Build K) (cond : Prop) [Decidable cond]
    (c : MatStencil) (h : b.Balanced Hx Hy Hz) :
    (if cond then b.addJ (-Hy) c else b).Balanced Hx Hy Hz := by
  by_cases hc : cond
  · rw [if_pos hc]
    unfold Build.Balanced at h ⊢
    have e : (b.addJ (-Hy) c).total = (b.add (-Hy) c).total := rfl
    rw [e, total_add, h]
    show _ = -((b.numk : K) * Hz + ((b.numj + 1 : Int) : K) * Hy + (b.numi : K) * Hx)
    push_cast
    ring
  · rw [if_neg hc]
    exact h

theorem balanced_addI (Hx Hy Hz : K) (b : Build K) (cond : Prop) [Decidable cond]
    (c : MatStencil) (h : b.Balanced Hx Hy Hz) :
    (if cond then b.addI (-Hx) c else b).Balanced Hx Hy Hz := by
  by_cases hc : cond
  · rw [if_pos hc]
    unfold Build.Balanced at h ⊢
    have e : (b.addI (-Hx) c).total = (b.add (-Hx) c).total := rfl
    rw [e, total_add, h]
    show _ = -((b.numk : K) * Hz + (b.numj : K) * Hy + ((b.numi + 1 : Int) : K) * Hx)
    push_cast
    ring
  · rw [if_neg hc]
    exact h

theorem total_finish (Hx Hy Hz : K) (b : Build K) (c : MatStencil)
    (h : b.Balanced Hx Hy Hz) :
    (b.add ((b.numk : K) * Hz + (b.numj : K) * Hy + (b.numi : K) * Hx) c).total = 0 := by
  unfold Build.Balanced at h
  rw [total_add, h]
  ring

/-- The values of the row of a boundary point sum to zero. -/
theorem boundaryRow_total (mx my mz : Int) (Hx Hy Hz : K) (k j i d : Int) (L : Locals K) :
    (boundaryRow mx my mz Hx Hy Hz k j i d L).total = 0 := by
  have h0 : (Build.mk L.v L.col 0 0 0 0 : Build K).Balanced Hx Hy Hz := by
    unfold Build.Balanced Build.total
    simp
  have h1 := balanced_addK Hx Hy Hz _ (k ≠ 0) (MatStencil.mk (k - 1) j i d) h0
  have h2 := balanced_addJ Hx Hy Hz _ (j ≠ 0) (MatStencil.mk k (j - 1) i d) h1
  have h3 := balanced_addI Hx Hy Hz _ (i ≠ 0) (MatStencil.mk k j (i - 1) d) h2
  have h4 := balanced_addI Hx Hy Hz _ (i ≠ mx - 1) (MatStencil.mk k j (i + 1) d) h3
  have h5 := balanced_addJ Hx Hy Hz _ (j ≠ my - 1) (MatStencil.mk k (j + 1) i d) h4
  have h6 := balanced_addK Hx Hy Hz _ (k ≠ mz - 1) (MatStencil.mk (k + 1) j i d) h5
  exact total_finish Hx Hy Hz _ (MatStencil.mk k j i d) h6

omit [Field K] in
theorem columns_if (S : MatStencil → Prop) (b b1 : Build K) (cond : Prop) [Decidable cond]
    (value : K) (c : MatStencil) (h1 : b1.col = (b.add value c).col)
    (h2 : b1.num = (b.add value c).num) (hb : b.Columns S) (hc : cond → ¬ S c) :
    (if cond then b1 else b).Columns (fun q => S q ∨ (cond ∧ q = c)) := by
  by_cases h : cond
  · rw [if_pos h]
    have := columns_add S b value c hb (hc h)
    unfold Build.Columns at this ⊢
    rw [h1, h2]
    exact ⟨fun t ht => (this.1 t ht).imp id (fun e => ⟨h, e⟩), this.2⟩
  · rw [if_neg h]
    exact columns_mono S _ b hb (fun q hq => Or.inl hq)

omit [Field K] in
theorem mem_gridColumns (da : DMDAInfo) (q : MatStencil) :
    q ∈ gridColumns da ↔
      (0 ≤ q.k ∧ q.k < da.mz) ∧ (0 ≤ q.j ∧ q.j < da.my) ∧ (0 ≤ q.i ∧ q.i < da.mx) ∧
      (0 ≤ q.c ∧ q.c < da.dof) := by
  unfold gridColumns
  simp only [Finset.mem_image, Finset.mem_product, Finset.mem_Ico, Prod.exists]
  constructor
  · rintro ⟨a, b, c, d, h, rfl⟩
    exact h
  · intro h
    exact ⟨q.k, q.j, q.i, q.c, h, rfl⟩

/-- The columns of the row of a boundary point of the grid are pairwise
    different columns of the matrix. -/
theorem boundaryRow_columns (da : DMDAInfo) (Hx Hy Hz : K) (k j i d : Int) (L : Locals K)
    (hk : 0 ≤ k ∧ k < da.mz) (hj : 0 ≤ j ∧ j < da.my) (hi : 0 ≤ i ∧ i < da.mx)
    (hd : 0 ≤ d ∧ d < da.dof) :
    (boundaryRow da.mx da.my da.mz Hx Hy Hz k j i d L).Columns (fun q => q ∈ gridColumns da) := by
  have h0 : (Build.mk L.v L.col 0 0 0 0 : Build K).Columns (fun _ => False) :=
    ⟨fun t ht => absurd ht (Nat.not_lt_zero t), fun t u ht => absurd ht (Nat.not_lt_zero t)⟩
  have h1 := columns_if _ _ (Build.addK _ (-Hz) (MatStencil.mk (k - 1) j i d)) (k ≠ 0) (-Hz)
    (MatStencil.mk (k - 1) j i d) rfl rfl h0 (fun _ h => h)
  have h2 := columns_if _ _ (Build.addJ _ (-Hy) (MatStencil.mk k (j - 1) i d)) (j ≠ 0) (-Hy)
    (MatStencil.mk k (j - 1) i d) rfl rfl h1
    (fun _ h => by simp only [MatStencil.mk.injEq, false_or, and_true] at h; omega)
  have h3 := columns_if _ _ (Build.addI _ (-Hx) (MatStencil.mk k j (i - 1) d)) (i ≠ 0) (-Hx)
    (MatStencil.mk k j (i - 1) d) rfl rfl h2
    (fun _ h => by simp only [MatStencil.mk.injEq, false_or, and_true] at h; omega)
  have h4 := columns_if _ _ (Build.addI _ (-Hx) (MatStencil.mk k j (i + 1) d)) (i ≠ da.mx - 1)
    (-Hx) (MatStencil.mk k j (i + 1) d) rfl rfl h3
    (fun _ h => by simp only [MatStencil.mk.injEq, false_or, and_true] at h; omega)
  have h5 := columns_if _ _ (Build.addJ _ (-Hy) (MatStencil.mk k (j + 1) i d)) (j ≠ da.my - 1)
    (-Hy) (MatStencil.mk k (j + 1) i d) rfl rfl h4
    (fun _ h => by simp only [MatStencil.mk.injEq, false_or, and_true] at h; omega)
  have h6 := columns_if _ _ (Build.addK _ (-Hz) (MatStencil.mk (k + 1) j i d)) (k ≠ da.mz - 1)
    (-Hz) (MatStencil.mk (k + 1) j i d) rfl rfl h5
    (fun _ h => by simp only [MatStencil.mk.injEq, false_or, and_true] at h; omega)
  have h7 := fun value : K => columns_add _ _ value (MatStencil.mk k j i d)
    h6 (fun h => by simp only [MatStencil.mk.injEq, false_or, and_true] at h; omega)
  refine columns_mono _ _ _ (h7 _) ?_
  intro q hq
  rw [mem_gridColumns]
  rcases hq with ((((((hq | hq) | hq) | hq) | hq) | hq) | hq) | hq
  · exact hq.elim
  all_goals
    obtain ⟨hc, rfl⟩ := hq
    dsimp only
    omega

theorem interiorRow_col (Hx Hy Hz : K) (k j i d : Int) (L : Locals K) :
    (interiorRow Hx Hy Hz k j i d L).col 0 = MatStencil.mk (k - 1) j i d ∧
    (interiorRow Hx Hy Hz k j i d L).col 1 = MatStencil.mk k (j - 1) i d ∧
    (interiorRow Hx Hy Hz k j i d L).col 2 = MatStencil.mk k j (i - 1) d ∧
    (interiorRow Hx Hy Hz k j i d L).col 3 = MatStencil.mk k j i d ∧
    (interiorRow Hx Hy Hz k j i d L).col 4 = MatStencil.mk k j (i + 1) d ∧
    (interiorRow Hx Hy Hz k j i d L).col 5 = MatStencil.mk k (j + 1) i d ∧
    (interiorRow Hx Hy Hz k j i d L).col 6 = MatStencil.mk (k + 1) j i d := by
  unfold interiorRow
  simp [Function.update_apply]

/-- The values of the row of an interior point sum to zero. -/
theorem interiorRow_total (Hx Hy Hz : K) (k j i d : Int) (L : Locals K) :
    ∑ t ∈ Finset.range 7, (interiorRow Hx Hy Hz k j i d L).v t = 0 := by
  unfold interiorRow
  simp [Finset.sum_range_succ, Function.update_apply]
  ring

/-- The columns of the row of an interior point of the grid are pairwise
    different columns of the matrix. -/
theorem interiorRow_columns (da : DMDAInfo) (Hx Hy Hz : K) (k j i d : Int) (L : Locals K)
    (hk : 0 < k ∧ k < da.mz - 1) (hj : 0 < j ∧ j < da.my - 1) (hi : 0 < i ∧ i < da.mx - 1)
    (hd : 0 ≤ d ∧ d < da.dof) :
    ColumnsIn (fun q => q ∈ gridColumns da) (interiorRow Hx Hy Hz k j i d L).col 7 := by
  obtain ⟨c0, c1, c2, c3, c4, c5, c6⟩ := interiorRow_col Hx Hy Hz k j i d L
  constructor
  · intro t ht
    rw [mem_gridColumns]
    interval_cases t
    · rw [c0]; dsimp only; omega
    · rw [c1]; dsimp only; omega
    · rw [c2]; dsimp only; omega
    · rw [c3]; dsimp only; omega
    · rw [c4]; dsimp only; omega
    · rw [c5]; dsimp only; omega
    · rw [c6]; dsimp only; omega
  · intro t u ht hu h
    interval_cases t <;> interval_cases u <;>
      first
        | rfl
        | (exfalso
           simp only [c0, c1, c2, c3, c4, c5, c6, MatStencil.mk.injEq] at h
           omega)

/-- The values passed to `MatSetValuesStencil` for a point sum to zero. -/
theorem pointRow_total (mx my mz : Int) (Hx Hy Hz : K) (k j i d : Int) (L : Locals K) :
    ∑ t ∈ Finset.range (pointRow mx my mz Hx Hy Hz k j i d L).2,
      (pointRow mx my mz Hx Hy Hz k j i d L).1.v t = 0 := by
  unfold pointRow
  split_ifs
  · exact boundaryRow_total mx my mz Hx Hy Hz k j i d L
  · exact interiorRow_total Hx Hy Hz k j i d L

/-- The columns passed to `MatSetValuesStencil` for a point of the grid are
    pairwise different columns of the matrix. -/
theorem pointRow_columns (da : DMDAInfo) (Hx Hy Hz : K) (k j i d : Int) (L : Locals K)
    (hk : 0 ≤ k ∧ k < da.mz) (hj : 0 ≤ j ∧ j < da.my) (hi : 0 ≤ i ∧ i < da.mx)
    (hd : 0 ≤ d ∧ d < da.dof) :
    ColumnsIn (fun q => q ∈ gridColumns da)
      (pointRow da.mx da.my da.mz Hx Hy Hz k j i d L).1.col
      (pointRow da.mx da.my da.mz Hx Hy Hz k j i d L).2 := by
  unfold pointRow
  split_ifs with h
  · exact boundaryRow_columns da Hx Hy Hz k j i d L hk hj hi hd
  · exact interiorRow_columns da Hx Hy Hz k j i d L (by omega) (by omega) (by omega) hd

omit [Field K] in
theorem setValues_succ (jac : Mat K) (row : MatStencil) (n : Nat) (col : Nat → MatStencil)
    (v : Nat → K) :
    MatSetValuesStencil jac row (n + 1) col v
      = Function.update (MatSetValuesStencil jac row n col v) row
          (Function.update (MatSetValuesStencil jac row n col v row) (col n) (v n)) := by
  unfold MatSetValuesStencil
  rw [List.range_succ, List.foldl_append]
  rfl

omit [Field K] in
theorem setValues_other (jac : Mat K) (row : MatStencil) (n : Nat) (col : Nat → MatStencil)
    (v : Nat → K) (q : MatStencil) (hq : q ≠ row) :
    MatSetValuesStencil jac row n col v q = jac q := by
  induction n with
  | zero => rfl
  | succ n ih => rw [setValues_succ, Function.update_noteq hq, ih]

/-- A row that was zero holds, after `MatSetValuesStencil` with pairwise
    different columns of the matrix, entries whose sum is the sum of the values. -/
theorem setValues_row (G : Finset MatStencil) (jac : Mat K) (row : MatStencil)
    (col : Nat → MatStencil) (v : Nat → K) (h0 : ∀ c, jac row c = 0) (n : Nat)
    (hcol : ColumnsIn (fun q => q ∈ G) col n) :
    (∀ c, (∀ t, t < n → col t ≠ c) → MatSetValuesStencil jac row n col v row c = 0) ∧
    ∑ c ∈ G, MatSetValuesStencil jac row n col v row c = ∑ t ∈ Finset.range n, v t := by
  induction n with
  | zero =>
    constructor
    · intro c _
      exact h0 c
    · rw [Finset.sum_range_zero]
      exact Finset.sum_eq_zero (fun c _ => h0 c)
  | succ n ih =>
    have hprev : ColumnsIn (fun q => q ∈ G) col n :=
      ⟨fun t ht => hcol.1 t (by omega), fun t u ht hu => hcol.2 t u (by omega) (by omega)⟩
    obtain ⟨i1, i2⟩ := ih hprev
    have hnew : MatSetValuesStencil jac row n col v row (col n) = 0 := by
      apply i1
      intro t ht hc
      have := hcol.2 t n (by omega) (by omega) hc
      omega
    rw [setValues_succ, Function.update_same]
    constructor
    · intro c hc
      rw [Function.update_noteq (fun e => hc n (by omega) e.symm)]
      exact i1 c (fun t ht => hc t (by omega))
    · have hmem : col n ∈ G := hcol.1 n (by omega)
      rw [Finset.sum_update_of_mem hmem, Finset.sum_range_succ, ← i2,
        ← Finset.add_sum_erase G _ hmem, hnew, zero_add, add_comm, Finset.sdiff_singleton_eq_erase]

omit [Field K] in
theorem bind_ok {α β : Type} (x : Except PetscErrorCode α)
    (f : α → Except PetscErrorCode β) (v : β) :
    (x >>= f) = Except.ok v ↔ ∃ a, x = Except.ok a ∧ f a = Except.ok v := by
  cases x with
  | error e =>
    constructor
    · intro h
      cases h
    · rintro ⟨a, h, _⟩
      cases h
  | ok a =>
    constructor
    · intro h
      exact ⟨a, rfl, h⟩
    · rintro ⟨b, h, hb⟩
      cases h
      exact hb

theorem setsRows_congr (Good : (MatStencil → K) → Prop) (P Q : MatStencil → Prop)
    (f : Mat K × Locals K → Except PetscErrorCode (Mat K × Locals K))
    (hPQ : ∀ q, Q q ↔ P q) (h : SetsRows Good P f) : SetsRows Good Q f := by
  intro s s2 hs q
  obtain ⟨h1, h2⟩ := h s s2 hs q
  exact ⟨fun hq => h1 ((hPQ q).1 hq), fun hq => h2 (fun hp => hq ((hPQ q).2 hp))⟩

/-- A loop whose passes set pairwise disjoint sets of rows sets their union. -/
theorem loop_sets (Good : (MatStencil → K) → Prop) (P : Int → MatStencil → Prop)
    (body : Int → Mat K × Locals K → Except PetscErrorCode (Mat K × Locals K))
    (hdisj : ∀ t u q, P t q → P u q → t = u) (n : Nat) :
    ∀ lo : Int, (∀ t, lo ≤ t → t < lo + n → SetsRows Good (P t) (body t)) →
      SetsRows Good (fun q => ∃ t, lo ≤ t ∧ t < lo + n ∧ P t q) (loop body lo n) := by
  induction n with
  | zero =>
    intro lo _ s s2 hs q
    cases hs
    constructor
    · rintro ⟨t, h1, h2, _⟩
      exfalso
      omega
    · intro _
      rfl
  | succ n ih =>
    intro lo hbody s s2 hs q
    have hs2 : (body lo s >>= fun s1 => loop body (lo + 1) n s1) = Except.ok s2 := hs
    rw [bind_ok] at hs2
    obtain ⟨s1, hb, hl⟩ := hs2
    obtain ⟨b1, b2⟩ := hbody lo (le_refl lo) (by push_cast; omega) s s1 hb q
    obtain ⟨l1, l2⟩ := ih (lo + 1) (fun t ht1 ht2 => hbody t (by omega) (by push_cast; omega))
      s1 s2 hl q
    constructor
    · rintro ⟨t, ht1, ht2, hP⟩ hz
      by_cases e : t = lo
      · subst e
        have hno : ¬ ∃ u, t + 1 ≤ u ∧ u < t + 1 + (n : Int) ∧ P u q := by
          rintro ⟨u, hu1, _, hu⟩
          have := hdisj t u q hP hu
          omega
        rw [l2 hno]
        exact b1 hP hz
      · have hno : ¬ P lo q := fun hlo => e (hdisj t lo q hP hlo)
        have hin : ∃ u, lo + 1 ≤ u ∧ u < lo + 1 + (n : Int) ∧ P u q :=
          ⟨t, by omega, by push_cast at ht2; omega, hP⟩
        apply l1 hin
        intro c
        rw [b2 hno]
        exact hz c
    · intro hno
      have h1 : ¬ P lo q := fun hlo => hno ⟨lo, le_refl lo, by push_cast; omega, hlo⟩
      have h2 : ¬ ∃ u, lo + 1 ≤ u ∧ u < lo + 1 + (n : Int) ∧ P u q := by
        rintro ⟨u, hu1, hu2, hu⟩
        exact hno ⟨u, by omega, by push_cast; omega, hu⟩
      rw [l2 h2, b2 h1]

/-- The loop `for (t = lo; t < hi; t++)` sets the rows of its passes. -/
theorem forRange_sets (Good : (MatStencil → K) → Prop) (P : Int → MatStencil → Prop)
    (body : Int → Mat K × Locals K → Except PetscErrorCode (Mat K × Locals K))
    (hdisj : ∀ t u q, P t q → P u q → t = u) (lo hi : Int)
    (hbody : ∀ t, lo ≤ t → t < hi → SetsRows Good (P t) (body t)) :
    SetsRows Good (fun q => ∃ t, lo ≤ t ∧ t < hi ∧ P t q) (forRange lo hi body) := by
  have h := loop_sets Good P body hdisj (hi - lo).toNat lo
    (fun t h1 h2 => hbody t h1 (by omega))
  refine setsRows_congr Good _ _ _ ?_ h
  intro q
  constructor
  · rintro ⟨t, h1, h2, h3⟩
    exact ⟨t, h1, by omega, h3⟩
  · rintro ⟨t, h1, h2, h3⟩
    exact ⟨t, h1, by omega, h3⟩

/-- The body of the innermost loop sets the row of its point: the entries of
    the row then sum to zero over the columns of the matrix. -/
theorem pointBody_sets (env : Env) (da : DMDAInfo) (Hx Hy Hz : K) (k j i d : Int)
    (hk : 0 ≤ k ∧ k < da.mz) (hj : 0 ≤ j ∧ j < da.my) (hi : 0 ≤ i ∧ i < da.mx)
    (hd : 0 ≤ d ∧ d < da.dof) :
    SetsRows (fun r : MatStencil → K => ∑ c ∈ gridColumns da, r c = 0)
      (fun q => q = MatStencil.mk k j i d)
      (pointBody env da.mx da.my da.mz Hx Hy Hz k j i d) := by
  intro s s2 hs q
  unfold pointBody at hs
  simp only [chk_bind] at hs
  obtain ⟨_, hs⟩ := hs
  cases hs
  constructor
  · intro hq hz
    subst hq
    dsimp only
    rw [(setValues_row (gridColumns da) s.1 _ _ _ hz _
      (pointRow_columns da Hx Hy Hz k j i d s.2 hk hj hi hd)).2]
    exact pointRow_total da.mx da.my da.mz Hx Hy Hz k j i d s.2
  · intro hq
    exact setValues_other s.1 _ _ _ _ q hq

/-- The four nested loops of `ComputeMatrix` set the rows that the process
    owns. -/
theorem assembly_sets (env : Env) (da : DMDAInfo) (Hx Hy Hz : K) (hv : da.valid) :
    SetsRows (fun r : MatStencil → K => ∑ c ∈ gridColumns da, r c = 0) da.owns
      (forRange da.zs (da.zs + da.zm) (fun k s =>
        forRange da.ys (da.ys + da.ym) (fun j s =>
          forRange da.xs (da.xs + da.xm) (fun i s =>
            forRange 0 da.dof (fun d s =>
              pointBody env da.mx da.my da.mz Hx Hy Hz k j i d s) s) s) s)) := by
  obtain ⟨v1, v2, v3, v4, v5, v6⟩ := hv
  have hd : ∀ k j i, (0 ≤ k ∧ k < da.mz) → (0 ≤ j ∧ j < da.my) → (0 ≤ i ∧ i < da.mx) →
      SetsRows (fun r : MatStencil → K => ∑ c ∈ gridColumns da, r c = 0)
        (fun q => ∃ d, 0 ≤ d ∧ d < da.dof ∧ q = MatStencil.mk k j i d)
        (forRange 0 da.dof (fun d s =>
          pointBody env da.mx da.my da.mz Hx Hy Hz k j i d s)) := by
    intro k j i hk hj hi
    refine forRange_sets _ (fun d q => q = MatStencil.mk k j i d) _ ?_ 0 da.dof ?_
    · intro t u q h1 h2
      rw [h1] at h2
      simp only [MatStencil.mk.injEq, true_and] at h2
      exact h2
    · intro d h1 h2
      exact pointBody_sets env da Hx Hy Hz k j i d hk hj hi ⟨h1, h2⟩
  have hi : ∀ k j, (0 ≤ k ∧ k < da.mz) → (0 ≤ j ∧ j < da.my) →
      SetsRows (fun r : MatStencil → K => ∑ c ∈ gridColumns da, r c = 0)
        (fun q => ∃ i, da.xs ≤ i ∧ i < da.xs + da.xm ∧
          ∃ d, 0 ≤ d ∧ d < da.dof ∧ q = MatStencil.mk k j i d)
        (forRange da.xs (da.xs + da.xm) (fun i s =>
          forRange 0 da.dof (fun d s =>
            pointBody env da.mx da.my da.mz Hx Hy Hz k j i d s) s)) := by
    intro k j hk hj
    refine forRange_sets _
      (fun i q => ∃ d, 0 ≤ d ∧ d < da.dof ∧ q = MatStencil.mk k j i d) _ ?_ _ _ ?_
    · rintro t u q ⟨d, _, _, h1⟩ ⟨d2, _, _, h2⟩
      rw [h1] at h2
      simp only [MatStencil.mk.injEq, true_and] at h2
      exact h2.1
    · intro i h1 h2
      exact hd k j i hk hj ⟨by omega, by omega⟩
  have hj : ∀ k, (0 ≤ k ∧ k < da.mz) →
      SetsRows (fun r : MatStencil → K => ∑ c ∈ gridColumns da, r c = 0)
        (fun q => ∃ j, da.ys ≤ j ∧ j < da.ys + da.ym ∧
          ∃ i, da.xs ≤ i ∧ i < da.xs + da.xm ∧
          ∃ d, 0 ≤ d ∧ d < da.dof ∧ q = MatStencil.mk k j i d)
        (forRange da.ys (da.ys + da.ym) (fun j s =>
          forRange da.xs (da.xs + da.xm) (fun i s =>
            forRange 0 da.dof (fun d s =>
              pointBody env da.mx da.my da.mz Hx Hy Hz k j i d s) s) s)) := by
    intro k hk
    refine forRange_sets _
      (fun j q => ∃ i, da.xs ≤ i ∧ i < da.xs + da.xm ∧
        ∃ d, 0 ≤ d ∧ d < da.dof ∧ q = MatStencil.mk k j i d) _ ?_ _ _ ?_
    · rintro t u q ⟨i, _, _, d, _, _, h1⟩ ⟨i2, _, _, d2, _, _, h2⟩
      rw [h1] at h2
      simp only [MatStencil.mk.injEq, true_and] at h2
      exact h2.1
    · intro j h1 h2
      exact hi k j hk ⟨by omega, by omega⟩
  have hk := forRange_sets (fun r : MatStencil → K => ∑ c ∈ gridColumns da, r c = 0)
    (fun k q => ∃ j, da.ys ≤ j ∧ j < da.ys + da.ym ∧
      ∃ i, da.xs ≤ i ∧ i < da.xs + da.xm ∧
      ∃ d, 0 ≤ d ∧ d < da.dof ∧ q = MatStencil.mk k j i d)
    (fun k s =>
      forRange da.ys (da.ys + da.ym) (fun j s =>
        forRange da.xs (da.xs + da.xm) (fun i s =>
          forRange 0 da.dof (fun d s =>
            pointBody env da.mx da.my da.mz Hx Hy Hz k j i d s) s) s) s)
    (by
      rintro t u q ⟨j, _, _, i, _, _, d, _, _, h1⟩ ⟨j2, _, _, i2, _, _, d2, _, _, h2⟩
      rw [h1] at h2
      simp only [MatStencil.mk.injEq] at h2
      exact h2.1)
    da.zs (da.zs + da.zm) (fun k h1 h2 => hj k ⟨by omega, by omega⟩)
  refine setsRows_congr _ _ _ _ ?_ hk
  intro q
  unfold DMDAInfo.owns
  constructor
  · rintro ⟨o1, o2, o3, o4, o5, o6, o7, o8⟩
    exact ⟨q.k, o1, o2, q.j, o3, o4, q.i, o5, o6, q.c, o7, o8, rfl⟩
  · rintro ⟨k, o1, o2, j, o3, o4, i, o5, o6, d, o7, o8, e⟩
    subst e
    exact ⟨o1, o2, o3, o4, o5, o6, o7, o8⟩

omit [Field K] in
theorem calls_ok (ret : Nat → PetscErrorCode) (h : ∀ n, ret n = 0) (count : Nat) :
    ∀ first, calls ret first count = Except.ok () := by
  induction count with
  | zero =>
    intro first
    rfl
  | succ n ih =>
    intro first
    have e : calls ret first (n + 1) = (CHKERRQ (ret first) >>= fun _ => calls ret (first + 1) n) :=
      rfl
    rw [e, chk_bind]
    exact ⟨h first, ih (first + 1)⟩

omit [Field K] in
theorem loop_ok {σ : Type} (body : Int → σ → Except PetscErrorCode σ)
    (h : ∀ t s, ∃ s2, body t s = Except.ok s2) (n : Nat) :
    ∀ lo s, ∃ s2, loop body lo n s = Except.ok s2 := by
  induction n with
  | zero =>
    intro lo s
    exact ⟨s, rfl⟩
  | succ n ih =>
    intro lo s
    obtain ⟨s1, h1⟩ := h lo s
    obtain ⟨s2, h2⟩ := ih (lo + 1) s1
    refine ⟨s2, ?_⟩
    have e : loop body lo (n + 1) s = (body lo s >>= fun s1 => loop body (lo + 1) n s1) := rfl
    rw [e, bind_ok]
    exact ⟨s1, h1, h2⟩

/-- What a call of `ComputeMatrix` that returns 0 leaves: the matrix after the
    four loops, and a null space made of the constants alone. -/
theorem ComputeMatrix_ok (env : Env) (da : DMDAInfo) (L : Locals K) (jac : Mat K)
    (out : Mat K × MatNullSpace) (h : ComputeMatrix env da L jac = Except.ok out) :
    ∃ s, forRange da.zs (da.zs + da.zm) (fun k s =>
        forRange da.ys (da.ys + da.ym) (fun j s =>
          forRange da.xs (da.xs + da.xm) (fun i s =>
            forRange 0 da.dof (fun d s =>
              pointBody env da.mx da.my da.mz
                (1 / (da.my : K) * (1 / (da.mz : K)) / (1 / (da.mx : K)))
                (1 / (da.mx : K) * (1 / (da.mz : K)) / (1 / (da.my : K)))
                (1 / (da.mx : K) * (1 / (da.my : K)) / (1 / (da.mz : K)))
                k j i d s) s) s) s) (jac, L) = Except.ok s ∧
      out = (s.1, { has_cnst := true, n := 0 }) := by
  unfold ComputeMatrix at h
  simp only [bind_ok] at h
  obtain ⟨_, _, _, _, _, _, s, hs, _, _, _, _, _, _, _, _, _, _, _, _, _, _, _, _, _, _, _, _, h⟩ := h
  cases h
  exact ⟨s, hs, rfl⟩

/-- With every library call returning 0, `ComputeMatrix` returns 0. -/
theorem ComputeMatrix_returns (env : Env) (da : DMDAInfo) (L : Locals K) (jac : Mat K)
    (h1 : ∀ n, env.ret n = 0) (h2 : ∀ row, env.setRet row = 0) :
    ∃ out, ComputeMatrix env da L jac = Except.ok out := by
  have hp : ∀ (Hx Hy Hz : K) (k j i d : Int) (s : Mat K × Locals K),
      ∃ s2, pointBody env da.mx da.my da.mz Hx Hy Hz k j i d s = Except.ok s2 := by
    intro Hx Hy Hz k j i d s
    unfold pointBody
    simp only [chk_bind]
    exact ⟨_, h2 _, rfl⟩
  have hc : ∀ b : Bool, ∀ first count,
      (if b then calls env.ret first count else pure ()) = Except.ok () := by
    intro b first count
    cases b
    · rfl
    · exact calls_ok env.ret h1 count first
  have hz : ∀ n, CHKERRQ (env.ret n) = Except.ok () := by
    intro n
    rw [h1 n]
    rfl
  obtain ⟨s, hs⟩ := loop_ok (fun k s =>
      forRange da.ys (da.ys + da.ym) (fun j s =>
        forRange da.xs (da.xs + da.xm) (fun i s =>
          forRange 0 da.dof (fun d s =>
            pointBody env da.mx da.my da.mz
              (1 / (da.my : K) * (1 / (da.mz : K)) / (1 / (da.mx : K)))
              (1 / (da.mx : K) * (1 / (da.mz : K)) / (1 / (da.my : K)))
              (1 / (da.mx : K) * (1 / (da.my : K)) / (1 / (da.mz : K)))
              k j i d s) s) s) s)
    (fun k s => loop_ok _ (fun j s => loop_ok _ (fun i s => loop_ok _
      (fun d s => hp _ _ _ k j i d s) _ _ s) _ _ s) _ _ s)
    (da.zs + da.zm - da.zs).toNat da.zs (jac, L)
  refine ⟨(s.1, { has_cnst := true, n := 0 }), ?_⟩
  unfold ComputeMatrix
  simp only [bind_ok]
  exact ⟨_, hz _, _, hz _, _, hz _, s, hs, _, hz _, _, hz _, _, hz _, _, hc _ _ _, _, hz _,
    _, hz _, _, hc _ _ _, _, hz _, _, hz _, _, hz _, rfl⟩

/-- Claim C23. For every grid size and every number of components, the values
    that `ComputeMatrix` passes to `MatSetValuesStencil` for a point, on the
    boundary or in the interior, sum to zero. So when `ComputeMatrix` returns 0
    on a matrix whose owned rows were zero, every owned row of the assembled
    matrix maps every constant vector to zero, and the null space attached to
    the matrix is made of the constants alone; and `ComputeMatrix` returns 0
    when its library calls do. -/
theorem rows_sum_to_zero (env : Env) (da : DMDAInfo) (L : Locals K) (jac : Mat K)
    (hv : da.valid) (hz : ∀ row, da.owns row → ∀ c, jac row c = 0) :
    (∀ (mx my mz : Int) (HyHzdHx HxHzdHy HxHydHz : K) (k j i d : Int) (L2 : Locals K),
      ∑ t ∈ Finset.range (pointRow mx my mz HyHzdHx HxHzdHy HxHydHz k j i d L2).2,
        (pointRow mx my mz HyHzdHx HxHzdHy HxHydHz k j i d L2).1.v t = 0) ∧
    (∀ out, ComputeMatrix env da L jac = Except.ok out →
      (∀ row, da.owns row → ∀ cst : K, MatMult da out.1 (fun _ => cst) row = 0) ∧
      out.2 = { has_cnst := true, n := 0 }) ∧
    ((∀ n, env.ret n = 0) → (∀ row, env.setRet row = 0) →
      ∃ out, ComputeMatrix env da L jac = Except.ok out) := by
  refine ⟨pointRow_total, ?_, ComputeMatrix_returns env da L jac⟩
  intro out h
  obtain ⟨s, hs, ho⟩ := ComputeMatrix_ok env da L jac out h
  subst ho
  refine ⟨?_, rfl⟩
  intro row hrow cst
  have hsum := (assembly_sets env da _ _ _ hv (jac, L) s hs row).1 hrow (hz row hrow)
  unfold MatMult
  rw [← Finset.sum_mul]
  dsimp only at hsum ⊢
  rw [hsum, zero_mul]

end Routines

/-- Claim C23 on a grid of 2 x 1 x 1 points: `ComputeMatrix` returns 0, the two
    rows of the matrix are `(2, -2)` and `(-2, 2)`, and both map every constant
    vector to zero. -/
theorem rows_sum_to_zero_witness :
    ∃ out : Mat ℚ × MatNullSpace,
      ComputeMatrix sampleEnv sampleGrid sampleLocals (fun _ _ => 0) = Except.ok out ∧
      (∀ row, sampleGrid.owns row → ∀ cst : ℚ, MatMult sampleGrid out.1 (fun _ => cst) row = 0) ∧
      out.2 = { has_cnst := true, n := 0 } ∧
      out.1 (MatStencil.mk 0 0 0 0) (MatStencil.mk 0 0 0 0) = 2 ∧
      out.1 (MatStencil.mk 0 0 0 0) (MatStencil.mk 0 0 1 0) = -2 ∧
      out.1 (MatStencil.mk 0 0 1 0) (MatStencil.mk 0 0 0 0) = -2 ∧
      out.1 (MatStencil.mk 0 0 1 0) (MatStencil.mk 0 0 1 0) = 2 := by
  have h := rows_sum_to_zero sampleEnv sampleGrid sampleLocals (fun _ _ => 0)
    (by unfold DMDAInfo.valid; decide) (fun _ _ _ => rfl)
  obtain ⟨_, h2, _⟩ := h
  refine ⟨_, rfl, (h2 _ rfl).1, rfl, by decide!, by decide!, by decide!, by decide!⟩

end Laplacian3D
